import Mathlib

set_option autoImplicit false

namespace Lmr

/-! # Data model of `LmrModel.cpp` -/

/-- A `GLfloat` (`float`), held as the 32 bits of an IEEE-754 single: bit 31 is the sign,
the 31 bits below are exponent and fraction. -/
structure GLfloat where
  bits : Nat
deriving DecidableEq, Repr

namespace GLfloat

/-- The value `0.0f`. -/
def zero : GLfloat := ⟨0⟩

/-- The value `1.0f`. -/
def one : GLfloat := ⟨0x3F800000⟩

/-- Unary minus of a float: the sign bit is flipped, nothing else changes. -/
def neg (a : GLfloat) : GLfloat := ⟨a.bits ^^^ 0x80000000⟩

instance : Neg GLfloat := ⟨neg⟩

/-- Exponent and fraction bits. -/
def mag (a : GLfloat) : Nat := a.bits % 2147483648

/-- Sign bit. -/
def sign (a : GLfloat) : Bool := decide (a.bits / 2147483648 % 2 = 1)

/-- A NaN has all exponent bits set and a non-zero fraction. -/
def isNaN (a : GLfloat) : Bool := decide (0x7F800000 < a.mag)

/-- Position of a non-NaN float on the number line: IEEE-754 singles are ordered like
sign-magnitude integers, both zeros sitting at 0. -/
def key (a : GLfloat) : Int := if a.sign then -(a.mag : Int) else (a.mag : Int)

/-- The C++ comparison `a < b` on floats: false as soon as one side is a NaN. -/
def lt (a b : GLfloat) : Bool := !a.isNaN && !b.isNaN && decide (a.key < b.key)

/-- The C++ comparison `a <= b` on floats. -/
def le (a b : GLfloat) : Bool := !a.isNaN && !b.isNaN && decide (a.key ≤ b.key)

/-- The C++ comparison `a > b` on floats. -/
def gt (a b : GLfloat) : Bool := lt b a

end GLfloat

/-- The type `Uint16`. -/
abbrev Uint16 := Fin 65536

/-- Conversion of an `int` argument to `Uint16` (the parameter type of `PushIdx`): the
value modulo 2^16. -/
def toUint16 (i : Int) : Uint16 :=
  ⟨(i % 65536).toNat, by
    have h := Int.emod_lt_of_pos i (show (0 : Int) < 65536 by decide)
    have h0 := Int.emod_nonneg i (show (65536 : Int) ≠ 0 by decide)
    omega⟩

/-- A `vector3f`. -/
structure vector3f where
  x : GLfloat
  y : GLfloat
  z : GLfloat
deriving DecidableEq, Repr

/-- The C++ `vector3f::operator-()`: component-wise minus. -/
instance : Neg vector3f := ⟨fun a => ⟨-a.x, -a.y, -a.z⟩⟩

/-- The constructor `vector3f(0.0f)`. -/
def vector3f.zero : vector3f := ⟨GLfloat.zero, GLfloat.zero, GLfloat.zero⟩

/-- The struct `Vertex`. -/
structure Vertex where
  v : vector3f
  n : vector3f
  tex_u : GLfloat
  tex_v : GLfloat
deriving DecidableEq, Repr

/-- The default constructor `Vertex()`: everything zero. -/
def Vertex.default : Vertex := ⟨vector3f.zero, vector3f.zero, GLfloat.zero, GLfloat.zero⟩

/-- A `matrix4x4f`: its 16 cells. -/
structure matrix4x4f where
  cell : List GLfloat
deriving DecidableEq, Repr

/-- The matrix `matrix4x4f::Identity()`. -/
def matrix4x4f.Identity : matrix4x4f :=
  ⟨[GLfloat.one, GLfloat.zero, GLfloat.zero, GLfloat.zero,
    GLfloat.zero, GLfloat.one, GLfloat.zero, GLfloat.zero,
    GLfloat.zero, GLfloat.zero, GLfloat.one, GLfloat.zero,
    GLfloat.zero, GLfloat.zero, GLfloat.zero, GLfloat.one]⟩

/-- One byte of memory or of a file. -/
abbrev Byte := Fin 256

/-- The characters of a `std::string` (without the terminating NUL of `c_str()`). -/
abbrev CStr := List Byte

/-- The string a `const char *` denotes: the bytes at the pointer up to the first NUL. -/
def cstr (p : List Byte) : CStr := p.takeWhile (fun c => c ≠ 0)

/-- A `std::string *`: the pointer value and the string it points at in this process
(`none` when the address holds no live string of this process). Null is `Option.none`
at the use sites. Pointer comparison compares `addr` only. -/
structure StrPtr where
  addr : Nat
  target : Option CStr
deriving DecidableEq, Repr

/-- An `LmrModel *`: the pointer value and, when it points at a live model, that model's
`m_name` (what `GetName()` returns). -/
structure ModelPtr where
  addr : Nat
  name : Option CStr
deriving DecidableEq, Repr

/-- The comparison `p == q` of two `std::string *`. -/
def samePtr (p q : Option StrPtr) : Bool :=
  match p, q with
  | none, none => true
  | some a, some b => decide (a.addr = b.addr)
  | _, _ => false

/-- The path a (possibly null) `std::string *` leads to. -/
def pathOf (p : Option StrPtr) : Option CStr := p.bind (fun a => a.target)

/-- The struct `ShipThruster::Thruster`, as far as `PushThruster` fills it. -/
structure Thruster where
  m_pos : vector3f
  m_dir : vector3f
  m_power : GLfloat
  m_linear_only : Bool
deriving DecidableEq, Repr

/-- The union member `Op::elems`. -/
structure Elems where
  textureFile : Option StrPtr
  glowmapFile : Option StrPtr
  texture : Nat
  glowmap : Nat
  start : Int
  count : Int
  elemMin : Int
  elemMax : Int
deriving DecidableEq, Repr

/-- The union member `Op::billboards`. -/
structure Billboards where
  textureFile : Option StrPtr
  texture : Nat
  start : Int
  count : Int
  size : GLfloat
  col : List GLfloat
deriving DecidableEq, Repr

/-- The union member `Op::zbias`. -/
structure ZBias where
  amount : GLfloat
  pos : vector3f
  norm : vector3f
deriving DecidableEq, Repr

/-- The union member `Op::callmodel`. -/
structure CallModel where
  model : Option ModelPtr
  transform : matrix4x4f
  scale : GLfloat
deriving DecidableEq, Repr

/-- The struct `Op`: the `type` tag together with the union member that the code reads for
that tag. Union bytes that belong to no field of the active member (for instance the
`elemMin`/`elemMax` that `PushIdx` writes while the tag is `OP_NONE`) are never read by
any function and are not kept. -/
inductive Op where
  | OP_NONE
  | OP_DRAW_ELEMENTS (elems : Elems)
  | OP_DRAW_BILLBOARDS (billboards : Billboards)
  | OP_SET_MATERIAL (material_idx : Int)
  | OP_ZBIAS (zbias : ZBias)
  | OP_CALL_MODEL (callmodel : CallModel)
  | OP_LIGHTING_TYPE (isLocal : Bool)
  | OP_USE_LIGHT (num : Int)
deriving DecidableEq, Repr

/-- The numeric value of the `type` tag, in the order of `enum OpType`. -/
def Op.type : Op → Nat
  | .OP_NONE => 0
  | .OP_DRAW_ELEMENTS _ => 1
  | .OP_DRAW_BILLBOARDS _ => 2
  | .OP_SET_MATERIAL _ => 3
  | .OP_ZBIAS _ => 4
  | .OP_CALL_MODEL _ => 5
  | .OP_LIGHTING_TYPE _ => 6
  | .OP_USE_LIGHT _ => 7

/-- The struct `LmrMaterial`. -/
structure LmrMaterial where
  diffuse : List GLfloat
  specular : List GLfloat
  emissive : List GLfloat
  shininess : GLfloat
deriving DecidableEq, Repr

/-- The struct `LmrLight`. -/
structure LmrLight where
  position : List GLfloat
  color : List GLfloat
  quadraticAttenuation : GLfloat
deriving DecidableEq, Repr

/-- A value-initialised `LmrLight`, as `std::vector::resize` creates it. -/
def LmrLight.default : LmrLight :=
  ⟨List.replicate 4 GLfloat.zero, List.replicate 4 GLfloat.zero, GLfloat.zero⟩

/-- A value-initialised `LmrMaterial`. -/
def LmrMaterial.default : LmrMaterial :=
  ⟨List.replicate 4 GLfloat.zero, List.replicate 4 GLfloat.zero,
   List.replicate 4 GLfloat.zero, GLfloat.zero⟩

/-- The class `LmrGeomBuffer`: its data members (the GPU buffer handle `m_bo` and
`m_boIndexBase` belong to the renderer and are left out). -/
structure LmrGeomBuffer where
  curOp : Op
  curTriFlag : Uint16
  curTexture : Option StrPtr
  curGlowmap : Option StrPtr
  curTexMatrix : matrix4x4f
  m_vertices : List Vertex
  m_indices : List Uint16
  m_triflags : List Uint16
  m_ops : List Op
  m_thrusters : List Thruster
  m_isStatic : Bool
  m_putGeomInsideout : Bool
  m_isFromObjFile : Bool
deriving DecidableEq, Repr

/-- The members of `LmrModel` that its geometry buffers read and write through `m_model`. -/
structure ModelTables where
  m_materialLookup : List (CStr × Int)
  m_materials : List LmrMaterial
  m_lights : List LmrLight
deriving DecidableEq, Repr

namespace LmrGeomBuffer

/-- The constructor `LmrGeomBuffer(model, isStatic)`. -/
def new (isStatic : Bool) : LmrGeomBuffer :=
  { curOp := .OP_NONE, curTriFlag := 0, curTexture := none, curGlowmap := none,
    curTexMatrix := matrix4x4f.Identity, m_vertices := [], m_indices := [],
    m_triflags := [], m_ops := [], m_thrusters := [], m_isStatic := isStatic,
    m_putGeomInsideout := false, m_isFromObjFile := false }

def GetIndicesPos (b : LmrGeomBuffer) : Int := b.m_indices.length

def GetVerticesPos (b : LmrGeomBuffer) : Int := b.m_vertices.length

def SetGeomFlag (b : LmrGeomBuffer) (flag : Uint16) : LmrGeomBuffer :=
  { b with curTriFlag := flag }

def GetGeomFlag (b : LmrGeomBuffer) : Uint16 := b.curTriFlag

def FreeGeometry (b : LmrGeomBuffer) : LmrGeomBuffer :=
  { b with m_vertices := [], m_indices := [], m_triflags := [], m_ops := [],
           m_thrusters := [], m_putGeomInsideout := false }

def PreBuild (b : LmrGeomBuffer) : LmrGeomBuffer :=
  { FreeGeometry b with curTriFlag := 0 }

/-- The private `PushCurOp`: append the pending op, then `memset` it to zero. -/
def PushCurOp (b : LmrGeomBuffer) : LmrGeomBuffer :=
  { b with m_ops := b.m_ops ++ [b.curOp], curOp := .OP_NONE }

/-- The statement `if (curOp.type) PushCurOp();`. -/
def flushCurOp (b : LmrGeomBuffer) : LmrGeomBuffer :=
  if b.curOp.type ≠ 0 then PushCurOp b else b

/-- The method `PostBuild`: flushes the pending op; the upload of a static buffer to the
GPU pool is the renderer's business. -/
def PostBuild (b : LmrGeomBuffer) : LmrGeomBuffer := PushCurOp b

def PushThruster (b : LmrGeomBuffer) (pos dir : vector3f) (power : GLfloat)
    (linear_only : Bool) : LmrGeomBuffer :=
  { b with m_thrusters := b.m_thrusters ++ [⟨pos, dir, power, linear_only⟩] }

/-- The four-argument `PushVertex`: returns the buffer and the new vertex's index. -/
def PushVertex (b : LmrGeomBuffer) (pos normal : vector3f) (tex_u tex_v : GLfloat) :
    LmrGeomBuffer × Int :=
  let vtx : Vertex :=
    if b.m_putGeomInsideout then ⟨pos, -normal, tex_u, tex_v⟩ else ⟨pos, normal, tex_u, tex_v⟩
  let b1 := { b with m_vertices := b.m_vertices ++ [vtx] }
  (b1, (b1.m_vertices.length : Int) - 1)

/-- The four-argument `SetVertex`. `m_vertices[idx]` with `idx` outside the vector is
undefined in C++; no store is made then. -/
def SetVertex (b : LmrGeomBuffer) (idx : Int) (pos normal : vector3f) (tex_u tex_v : GLfloat) :
    LmrGeomBuffer :=
  let vtx : Vertex :=
    if b.m_putGeomInsideout then ⟨pos, -normal, tex_u, tex_v⟩ else ⟨pos, normal, tex_u, tex_v⟩
  if 0 ≤ idx then { b with m_vertices := b.m_vertices.set idx.toNat vtx } else b

/-- The two-argument `PushVertex`: texture coordinates come from `curTexMatrix * pos`; the
product `matrix4x4f * vector3f` is the parameter `mulMV`. -/
def PushVertex2 (mulMV : matrix4x4f → vector3f → vector3f) (b : LmrGeomBuffer)
    (pos normal : vector3f) : LmrGeomBuffer × Int :=
  let tex := mulMV b.curTexMatrix pos
  PushVertex b pos normal tex.x tex.y

/-- The two-argument `SetVertex`. -/
def SetVertex2 (mulMV : matrix4x4f → vector3f → vector3f) (b : LmrGeomBuffer) (idx : Int)
    (pos normal : vector3f) : LmrGeomBuffer :=
  let tex := mulMV b.curTexMatrix pos
  SetVertex b idx pos normal tex.x tex.y

/-- The method `SetTexture(tex)`: `heap` is the address the next `new std::string` returns;
the result carries the next free address. Dereferencing a pointer without a live target is
undefined; the comparison counts as unequal then. -/
def SetTexture (heap : Nat) (b : LmrGeomBuffer) (tex : Option (List Byte)) :
    Nat × LmrGeomBuffer :=
  match tex with
  | some t =>
    match b.curTexture with
    | some p =>
      if p.target ≠ some (cstr t) then
        (heap + 1, { b with curTexture := some ⟨heap, some (cstr t)⟩ })
      else (heap, b)
    | none => (heap + 1, { b with curTexture := some ⟨heap, some (cstr t)⟩ })
  | none => (heap, { b with curTexture := none, curGlowmap := none })

/-- The method `SetGlowMap(tex)`. -/
def SetGlowMap (heap : Nat) (b : LmrGeomBuffer) (tex : Option (List Byte)) :
    Nat × LmrGeomBuffer :=
  match tex with
  | some t =>
    match b.curGlowmap with
    | some p =>
      if p.target ≠ some (cstr t) then
        (heap + 1, { b with curGlowmap := some ⟨heap, some (cstr t)⟩ })
      else (heap, b)
    | none => (heap + 1, { b with curGlowmap := some ⟨heap, some (cstr t)⟩ })
  | none => (heap, { b with curGlowmap := none })

def SetTexMatrix (b : LmrGeomBuffer) (texMatrix : matrix4x4f) : LmrGeomBuffer :=
  { b with curTexMatrix := texMatrix }

/-- The condition under which `OpDrawElements` opens a new batch. -/
def needsNewBatch (b : LmrGeomBuffer) : Bool :=
  match b.curOp with
  | .OP_DRAW_ELEMENTS e =>
    !(samePtr e.textureFile b.curTexture) || !(samePtr e.glowmapFile b.curGlowmap)
  | _ => true

/-- The batch `OpDrawElements` opens: the current texture state, starting at the end of
the index array, still empty. -/
def openedBatch (b : LmrGeomBuffer) : Elems :=
  ⟨b.curTexture, b.curGlowmap, 0, 0, b.m_indices.length, 0, 1073741824, 0⟩

/-- The private `OpDrawElements(numIndices)`. -/
def OpDrawElements (b : LmrGeomBuffer) (numIndices : Int) : LmrGeomBuffer :=
  let b1 :=
    if needsNewBatch b then
      let b0 := flushCurOp b
      { b0 with curOp := Op.OP_DRAW_ELEMENTS (openedBatch b0) }
    else b
  match b1.curOp with
  | .OP_DRAW_ELEMENTS e =>
    { b1 with curOp := Op.OP_DRAW_ELEMENTS { e with count := e.count + numIndices } }
  | _ => b1

/-- The private `PushIdx(Uint16 v)`, called with an `int`. -/
def PushIdx (b : LmrGeomBuffer) (i : Int) : LmrGeomBuffer :=
  let v := toUint16 i
  let op : Op :=
    match b.curOp with
    | .OP_DRAW_ELEMENTS e =>
      Op.OP_DRAW_ELEMENTS
        { e with elemMin := min (v.val : Int) e.elemMin, elemMax := max (v.val : Int) e.elemMax }
    | o => o
  { b with curOp := op, m_indices := b.m_indices ++ [v] }

def PushTri (b : LmrGeomBuffer) (i1 i2 i3 : Int) : LmrGeomBuffer :=
  let b1 := OpDrawElements b 3
  let b2 :=
    if b1.m_putGeomInsideout then PushIdx (PushIdx (PushIdx b1 i1) i3) i2
    else PushIdx (PushIdx (PushIdx b1 i1) i2) i3
  { b2 with m_triflags := b2.m_triflags ++ [b2.curTriFlag] }

def SetInsideOut (b : LmrGeomBuffer) (a : Bool) : LmrGeomBuffer :=
  { b with m_putGeomInsideout := a }

def PushZBias (b : LmrGeomBuffer) (amount : GLfloat) (pos norm : vector3f) : LmrGeomBuffer :=
  { flushCurOp b with curOp := Op.OP_ZBIAS (ZBias.mk amount pos norm) }

def PushSetLocalLighting (b : LmrGeomBuffer) (enable : Bool) : LmrGeomBuffer :=
  { flushCurOp b with curOp := Op.OP_LIGHTING_TYPE enable }

def PushUseLight (b : LmrGeomBuffer) (num : Int) : LmrGeomBuffer :=
  { flushCurOp b with curOp := Op.OP_USE_LIGHT num }

def PushCallModel (b : LmrGeomBuffer) (m : Option ModelPtr) (transform : matrix4x4f)
    (scale : GLfloat) : LmrGeomBuffer :=
  { flushCurOp b with curOp := Op.OP_CALL_MODEL (CallModel.mk m transform scale) }

def PushInvisibleTri (b : LmrGeomBuffer) (i1 i2 i3 : Int) : LmrGeomBuffer :=
  let b1 := { flushCurOp b with curOp := Op.OP_NONE }
  let b2 := PushIdx (PushIdx (PushIdx b1 i1) i2) i3
  { b2 with m_triflags := b2.m_triflags ++ [b2.curTriFlag] }

/-- The loop `for (i...) PushVertex(points[i], vector3f(0,0,0))` of `PushBillboards`. -/
def pushPoints (mulMV : matrix4x4f → vector3f → vector3f) (b : LmrGeomBuffer) :
    List vector3f → LmrGeomBuffer
  | [] => b
  | p :: ps => pushPoints mulMV (PushVertex2 mulMV b p vector3f.zero).1 ps

/-- The bytes of the literal `textures/`. -/
def texturesDir : List Byte := [116, 101, 120, 116, 117, 114, 101, 115, 47]

/-- The method `PushBillboards`; `snprintf` into `char buf[256]` keeps at most 255
characters. `points` holds the `numPoints` points. -/
def PushBillboards (mulMV : matrix4x4f → vector3f → vector3f) (heap : Nat) (b : LmrGeomBuffer)
    (texname : List Byte) (size : GLfloat) (color : vector3f) (points : List vector3f) :
    Nat × LmrGeomBuffer :=
  let buf : CStr := (texturesDir ++ cstr texname).take 255
  let b0 := flushCurOp b
  let bb : Billboards :=
    ⟨some ⟨heap, some buf⟩, 0, b0.m_vertices.length, points.length, size,
     [color.x, color.y, color.z, GLfloat.one]⟩
  let b1 := { b0 with curOp := Op.OP_DRAW_BILLBOARDS bb }
  (heap + 1, pushPoints mulMV b1 points)

/-- Modelled from the spec: the function `Clamp(v, lo, hi)`, which is declared outside this
file; it clamps `v` into `[lo, hi]`: `hi` when `v > hi`, `lo` when `v < lo`, else `v`. -/
def Clamp (v lo hi : GLfloat) : GLfloat :=
  if GLfloat.gt v hi then hi else if GLfloat.lt v lo then lo else v

/-- The method `PushUseMaterial`: `none` stands for `throw LmrUnknownMaterial()`. -/
def PushUseMaterial (m : ModelTables) (b : LmrGeomBuffer) (mat_name : List Byte) :
    Option LmrGeomBuffer :=
  match m.m_materialLookup.lookup (cstr mat_name) with
  | some idx => some { flushCurOp b with curOp := Op.OP_SET_MATERIAL idx }
  | none => none

/-- The method `AllocVertices(num)`: `none` when `start + num` is negative, where
`std::vector::resize` throws. -/
def AllocVertices (b : LmrGeomBuffer) (num : Int) : Option (LmrGeomBuffer × Int) :=
  let start : Int := b.m_vertices.length
  if 0 ≤ start + num then
    let n := (start + num).toNat
    some ({ b with m_vertices := b.m_vertices.take n ++
              List.replicate (n - b.m_vertices.length) Vertex.default }, start)
  else none

def SetIsFromObjFile (b : LmrGeomBuffer) (isFromObjFile : Bool) : LmrGeomBuffer :=
  { b with m_isFromObjFile := isFromObjFile }

end LmrGeomBuffer

/-- The effect of `std::vector<LmrLight>::resize(n)`. -/
def resizeLights (l : List LmrLight) (n : Nat) : List LmrLight :=
  l.take n ++ List.replicate (n - l.length) LmrLight.default

/-- The method `LmrGeomBuffer::SetLight`, which writes the owning model's light table.
The script binding passes `num` in `0..3`; a negative `num` makes `resize` throw and
leaves the table as it is. -/
def SetLight (m : ModelTables) (num : Int) (quadratic_attenuation : GLfloat)
    (pos col : vector3f) : ModelTables :=
  if 0 ≤ num then
    let ls := if (m.m_lights.length : Int) ≤ num then resizeLights m.m_lights (num.toNat + 1)
              else m.m_lights
    let l : LmrLight :=
      ⟨[pos.x, pos.y, pos.z, GLfloat.one], [col.x, col.y, col.z, GLfloat.one],
       quadratic_attenuation⟩
    { m with m_lights := ls.set num.toNat l }
  else m

/-! ## Build passes -/

/-- What a build pass works on: the allocator (`heap` is the address the next
`new std::string` returns), the owning model's tables and the buffer `s_curBuf`. -/
structure BuildState where
  heap : Nat
  model : ModelTables
  buf : LmrGeomBuffer
deriving DecidableEq, Repr

/-- One call of a public mutator of `LmrGeomBuffer` between `PreBuild` and the end of the
pass. -/
inductive BuildCall where
  | PushVertex (pos normal : vector3f) (tex_u tex_v : GLfloat)
  | PushVertex2 (pos normal : vector3f)
  | SetVertex (idx : Int) (pos normal : vector3f) (tex_u tex_v : GLfloat)
  | SetVertex2 (idx : Int) (pos normal : vector3f)
  | AllocVertices (num : Int)
  | PushTri (i1 i2 i3 : Int)
  | PushInvisibleTri (i1 i2 i3 : Int)
  | PushCallModel (m : Option ModelPtr) (transform : matrix4x4f) (scale : GLfloat)
  | PushUseMaterial (mat_name : List Byte)
  | PushZBias (amount : GLfloat) (pos norm : vector3f)
  | PushSetLocalLighting (enable : Bool)
  | PushUseLight (num : Int)
  | PushBillboards (texname : List Byte) (size : GLfloat) (color : vector3f)
      (points : List vector3f)
  | PushThruster (pos dir : vector3f) (power : GLfloat) (linear_only : Bool)
  | SetTexture (tex : Option (List Byte))
  | SetGlowMap (tex : Option (List Byte))
  | SetTexMatrix (texMatrix : matrix4x4f)
  | SetGeomFlag (flag : Uint16)
  | SetInsideOut (a : Bool)
  | SetLight (num : Int) (quadratic_attenuation : GLfloat) (pos col : vector3f)
  | SetIsFromObjFile (isFromObjFile : Bool)
  | PostBuild
deriving DecidableEq, Repr

/-- The effect of one call. A call that throws (`PushUseMaterial` on an unknown name,
`AllocVertices` whose `resize` fails) has changed nothing when the exception leaves it. -/
def BuildCall.apply (mulMV : matrix4x4f → vector3f → vector3f) (s : BuildState) :
    BuildCall → BuildState
  | .PushVertex pos normal u v => { s with buf := (s.buf.PushVertex pos normal u v).1 }
  | .PushVertex2 pos normal => { s with buf := (s.buf.PushVertex2 mulMV pos normal).1 }
  | .SetVertex idx pos normal u v => { s with buf := s.buf.SetVertex idx pos normal u v }
  | .SetVertex2 idx pos normal => { s with buf := s.buf.SetVertex2 mulMV idx pos normal }
  | .AllocVertices num =>
    match s.buf.AllocVertices num with
    | some r => { s with buf := r.1 }
    | none => s
  | .PushTri i1 i2 i3 => { s with buf := s.buf.PushTri i1 i2 i3 }
  | .PushInvisibleTri i1 i2 i3 => { s with buf := s.buf.PushInvisibleTri i1 i2 i3 }
  | .PushCallModel m t sc => { s with buf := s.buf.PushCallModel m t sc }
  | .PushUseMaterial name =>
    match s.buf.PushUseMaterial s.model name with
    | some b => { s with buf := b }
    | none => s
  | .PushZBias a pos norm => { s with buf := s.buf.PushZBias a pos norm }
  | .PushSetLocalLighting e => { s with buf := s.buf.PushSetLocalLighting e }
  | .PushUseLight num => { s with buf := s.buf.PushUseLight num }
  | .PushBillboards texname size color points =>
    let r := s.buf.PushBillboards mulMV s.heap texname size color points
    { s with heap := r.1, buf := r.2 }
  | .PushThruster pos dir power lin => { s with buf := s.buf.PushThruster pos dir power lin }
  | .SetTexture tex =>
    let r := s.buf.SetTexture s.heap tex
    { s with heap := r.1, buf := r.2 }
  | .SetGlowMap tex =>
    let r := s.buf.SetGlowMap s.heap tex
    { s with heap := r.1, buf := r.2 }
  | .SetTexMatrix m => { s with buf := s.buf.SetTexMatrix m }
  | .SetGeomFlag flag => { s with buf := s.buf.SetGeomFlag flag }
  | .SetInsideOut a => { s with buf := s.buf.SetInsideOut a }
  | .SetLight num qa pos col => { s with model := Lmr.SetLight s.model num qa pos col }
  | .SetIsFromObjFile a => { s with buf := s.buf.SetIsFromObjFile a }
  | .PostBuild => { s with buf := s.buf.PostBuild }

/-- A sequence of calls, applied in order. -/
def runCalls (mulMV : matrix4x4f → vector3f → vector3f) (s : BuildState) :
    List BuildCall → BuildState
  | [] => s
  | c :: cs => runCalls mulMV (c.apply mulMV s) cs

/-- A triangle as a build pass pushed it: where its first index went in `m_indices`,
whether `PushTri` (visible) or `PushInvisibleTri` pushed it, and the texture and glow-map
paths that were current at that moment. -/
structure TriRecord where
  pos : Int
  visible : Bool
  texture : Option CStr
  glowmap : Option CStr
deriving DecidableEq, Repr

/-- The triangle a call pushes in state `s`, if it pushes one. -/
def triRecord (s : BuildState) : BuildCall → Option TriRecord
  | .PushTri _ _ _ =>
    some ⟨s.buf.m_indices.length, true, pathOf s.buf.curTexture, pathOf s.buf.curGlowmap⟩
  | .PushInvisibleTri _ _ _ =>
    some ⟨s.buf.m_indices.length, false, pathOf s.buf.curTexture, pathOf s.buf.curGlowmap⟩
  | _ => none

/-- All triangles pushed by a sequence of calls started in `s`, in push order. -/
def triLog (mulMV : matrix4x4f → vector3f → vector3f) (s : BuildState) :
    List BuildCall → List TriRecord
  | [] => []
  | c :: cs => (triRecord s c).toList ++ triLog mulMV (c.apply mulMV s) cs

/-- The draw-element batch an op is, if it is one. -/
def Op.batch : Op → Option Elems
  | .OP_DRAW_ELEMENTS e => some e
  | _ => none

/-- The draw-element batches of an op-stream, in order. -/
def batches (ops : List Op) : List Elems := ops.filterMap Op.batch

/-- All draw-element batches a buffer holds: those of the op-stream, then the pending op
if it is one. -/
def allBatches (b : LmrGeomBuffer) : List Elems := batches (b.m_ops ++ [b.curOp])

/-- Batch `e1` ends where batch `e2` starts, or earlier. -/
def Elems.Before (e1 e2 : Elems) : Prop := e1.start + e1.count ≤ e2.start

/-- The pointer, when not null, was handed out by the allocator before `heap`. -/
def ptrBelow (heap : Nat) (p : Option StrPtr) : Prop := ∀ a, p = some a → a.addr < heap

/-- What holds of a triangle record with respect to a list of batches, `n` indices having
been pushed: a visible triangle lies in a batch that carries its paths, an invisible one
meets no batch. -/
def TriRecord.PlacedIn (r : TriRecord) (bs : List Elems) (n : Int) : Prop :=
  0 ≤ r.pos ∧ r.pos + 3 ≤ n ∧
  (r.visible = true → ∃ e ∈ bs, e.start ≤ r.pos ∧ r.pos + 3 ≤ e.start + e.count ∧
      pathOf e.textureFile = r.texture ∧ pathOf e.glowmapFile = r.glowmap) ∧
  (r.visible = false → ∀ e ∈ bs, e.start + e.count ≤ r.pos ∨ r.pos + 3 ≤ e.start)

/-- The invariant of a build pass that started with no pending op. -/
structure BatchInv (s : BuildState) (log : List TriRecord) : Prop where
  ordered : (allBatches s.buf).Pairwise Elems.Before
  sized : ∀ e ∈ allBatches s.buf,
    3 ∣ e.count ∧ 0 < e.count ∧ e.start + e.count ≤ (s.buf.m_indices.length : Int)
  pending : ∀ e, s.buf.curOp = Op.OP_DRAW_ELEMENTS e →
    e.start + e.count = (s.buf.m_indices.length : Int) ∧
    (e.textureFile = s.buf.curTexture ∨ samePtr e.textureFile s.buf.curTexture = false) ∧
    (e.glowmapFile = s.buf.curGlowmap ∨ samePtr e.glowmapFile s.buf.curGlowmap = false) ∧
    ptrBelow s.heap e.textureFile ∧ ptrBelow s.heap e.glowmapFile
  current : ptrBelow s.heap s.buf.curTexture ∧ ptrBelow s.heap s.buf.curGlowmap
  logged : ∀ r ∈ log, r.PlacedIn (allBatches s.buf) s.buf.m_indices.length

/-! ## Cache files -/

/-- How a call ends when it does not return: `abort` is `abort()` (from `fread_or_die` or
a failed `assert`), `exception` a C++ exception thrown by `std::vector::resize` or `new[]`
on a negative count, `undefined` undefined behaviour of the C++ (a read past the end of an
array, a null or dangling pointer dereferenced). -/
inductive Fault where
  | abort
  | exception
  | undefined
deriving DecidableEq, Repr

/-- The result of a call that may not return. -/
inductive Outcome (α : Type) where
  | ok (a : α)
  | fault (e : Fault)
deriving DecidableEq, Repr

instance : Monad Outcome where
  pure a := Outcome.ok a
  bind x f := match x with
    | Outcome.ok a => f a
    | Outcome.fault e => Outcome.fault e

/-- Code that reads from a `FILE *`: from the bytes not yet read it either ends in a fault
or returns a value and the bytes left. -/
def Reader (α : Type) : Type := List Byte → Outcome (α × List Byte)

instance : Monad Reader where
  pure a := fun f => Outcome.ok (a, f)
  bind p q := fun f => match p f with
    | Outcome.ok r => q r.1 r.2
    | Outcome.fault e => Outcome.fault e

/-- A reader that ends in the fault `e`. -/
def Reader.fail {α : Type} (e : Fault) : Reader α := fun _ => Outcome.fault e

/-- The macro `assert(c)` inside reading code. -/
def Reader.assert (c : Bool) : Reader Unit :=
  fun f => if c then Outcome.ok ((), f) else Outcome.fault Fault.abort

/-- The function `fread_or_die(ptr, size, nmemb, stream)`: `fread` delivers the complete
elements that are there, at most `nmemb`; fewer than `nmemb` is fatal. Returns the bytes
of the `nmemb` elements. -/
def fread_or_die (size nmemb : Nat) : Reader (List Byte) := fun f =>
  let read_count := if size = 0 then 0 else min nmemb (f.length / size)
  if read_count < nmemb then Outcome.fault Fault.abort
  else Outcome.ok (f.take (size * nmemb), f.drop (size * nmemb))

/-- The `w` low bytes of `n`, least significant first. -/
def leBytes : Nat → Nat → List Byte
  | 0, _ => []
  | w + 1, n => ⟨n % 256, Nat.mod_lt _ (by decide)⟩ :: leBytes w (n / 256)

/-- The number a little-endian byte string spells. -/
def leValue : List Byte → Nat
  | [] => 0
  | b :: bs => b.val + 256 * leValue bs

/-- Conversion to `int`: the value modulo 2^32, read as two's complement. -/
def toInt32 (n : Int) : Int :=
  if (n % 4294967296).toNat < 2147483648 then ((n % 4294967296).toNat : Int)
  else ((n % 4294967296).toNat : Int) - 4294967296

/-- The object representation of a trivially copyable type: `sizeof`, the bytes `fwrite`
emits for an object and the object `fread` leaves for given bytes. -/
structure ObjRepr (α : Type) where
  size : Nat
  write : α → List Byte
  read : List Byte → α

/-- The representation reproduces the object `a`. -/
def ObjRepr.Reproduces {α : Type} (R : ObjRepr α) (a : α) : Prop :=
  (R.write a).length = R.size ∧ R.read (R.write a) = a

/-- An `int`: 4 bytes, little-endian, two's complement. -/
def intRepr : ObjRepr Int :=
  ⟨4, fun n => leBytes 4 (n % 4294967296).toNat, fun bs => toInt32 (leValue (bs.take 4))⟩

/-- A `Uint32`: 4 bytes, little-endian. -/
def uint32Repr : ObjRepr Nat :=
  ⟨4, fun n => leBytes 4 n, fun bs => leValue (bs.take 4)⟩

/-- A `Uint16`: 2 bytes, little-endian. -/
def uint16Repr : ObjRepr Uint16 :=
  ⟨2, fun x => leBytes 2 x.val,
   fun bs => ⟨leValue (bs.take 2) % 65536, Nat.mod_lt _ (by decide)⟩⟩

/-- A `bool`: one byte, 1 for true. -/
def boolRepr : ObjRepr Bool :=
  ⟨1, fun b => [if b then 1 else 0], fun bs => decide (bs.headD 0 ≠ 0)⟩

/-- The objects in an array of `n` elements read as one block. -/
def decodeArray {α : Type} (R : ObjRepr α) : Nat → List Byte → List α
  | 0, _ => []
  | n + 1, bs => R.read (bs.take R.size) :: decodeArray R n (bs.drop R.size)

/-- The bytes of an array written as one block. -/
def encodeArray {α : Type} (R : ObjRepr α) : List α → List Byte
  | [] => []
  | a :: as => R.write a ++ encodeArray R as

/-- The call `fread_or_die(&x, sizeof(x), 1, f)`. -/
def readObj {α : Type} (R : ObjRepr α) : Reader α := do
  let bs ← fread_or_die R.size 1
  pure (R.read bs)

/-- The call `fread_or_die(&v[0], sizeof(T), n, f)`. -/
def readArray {α : Type} (R : ObjRepr α) (n : Nat) : Reader (List α) := do
  let bs ← fread_or_die R.size n
  pure (decodeArray R n bs)

/-- The function `_fwrite_string`: `int len = str.size()+1`, then `len` and `len` bytes
of `c_str()`. A `len` that overflowed to a negative number makes `fwrite` read far past
the string. -/
def _fwrite_string (str : CStr) : Outcome (List Byte) :=
  let len := toInt32 ((str.length : Int) + 1)
  if len < 0 then Outcome.fault Fault.undefined
  else Outcome.ok (intRepr.write len ++ (str ++ [0]).take len.toNat)

/-- The function `_fread_string`: `new char[len]` throws on a negative `len`; the
constructor `std::string(buf)` stops at the first NUL and reads past `buf` when there is
none in it. -/
def _fread_string : Reader CStr := do
  let len ← readObj intRepr
  if len < 0 then Reader.fail Fault.exception
  else do
    let buf ← fread_or_die 1 len.toNat
    if buf.all (fun c => c ≠ 0) then Reader.fail Fault.undefined
    else pure (cstr buf)

/-- The representations that depend on the compiler: pointer width and the layouts of the
structs written to the cache as raw memory. -/
structure Abi where
  ptr64 : Bool
  vertex : ObjRepr Vertex
  thruster : ObjRepr Thruster
  op : ObjRepr Op
  material : ObjRepr LmrMaterial
  light : ObjRepr LmrLight

/-- A pointer as a loading process finds it in raw bytes that another process wrote: the
address, with no live object of this process behind it. -/
def StrPtr.stale (p : StrPtr) : StrPtr := ⟨p.addr, none⟩

/-- An op as a loading process finds it in the raw bytes: every pointer keeps its address
and has no live target. -/
def Op.stale : Op → Op
  | .OP_DRAW_ELEMENTS e =>
    .OP_DRAW_ELEMENTS { e with textureFile := e.textureFile.map StrPtr.stale,
                               glowmapFile := e.glowmapFile.map StrPtr.stale }
  | .OP_DRAW_BILLBOARDS bb =>
    .OP_DRAW_BILLBOARDS { bb with textureFile := bb.textureFile.map StrPtr.stale }
  | .OP_CALL_MODEL c =>
    .OP_CALL_MODEL { c with model := c.model.map (fun m => ⟨m.addr, none⟩) }
  | o => o

/-- The registry `s_models`, a `std::map<std::string, LmrModel*>`. -/
abbrev Registry := List (CStr × Option ModelPtr)

/-- The expression `s_models[name]`: `operator[]` inserts a null entry for a missing key. -/
def Registry.index (reg : Registry) (name : CStr) : Option ModelPtr × Registry :=
  match reg.lookup name with
  | some p => (p, reg)
  | none => (none, reg ++ [(name, none)])

/-- The model a name is registered for, null when there is none. -/
def Registry.find (reg : Registry) (name : CStr) : Option ModelPtr :=
  (reg.lookup name).getD none

/-- The process state that loading reads and writes besides the buffer: the registry and
the allocator. -/
structure LoadState where
  s_models : Registry
  heap : Nat
deriving DecidableEq, Repr

/-- The store `m_ops[i].elems.texture = 0` made while the op is a billboard batch. In the
union, `elems.texture` is the third pointer-sized slot; `billboards` keeps `textureFile`
and `texture` in the first two slots and `start`, `count` (4 bytes each), `size`, `col`
after them. The store therefore zeroes `start`, and `count` as well when pointers have 8
bytes. -/
def clearElemsTexture (ptr64 : Bool) (bb : Billboards) : Billboards :=
  { bb with start := 0, count := if ptr64 then 0 else bb.count }

/-- The dereference `*p` of a `std::string *` that is not null. -/
def derefStr (p : StrPtr) : Outcome CStr :=
  match p.target with
  | some str => Outcome.ok str
  | none => Outcome.fault Fault.undefined

/-- One round of the loop in `SaveToCache`: the op as raw memory, then the strings. -/
def saveOp (abi : Abi) (op : Op) : Outcome (List Byte) :=
  match op with
  | .OP_CALL_MODEL c =>
    match c.model with
    | some m =>
      match m.name with
      | some name => do
        let str ← _fwrite_string name
        pure (abi.op.write op ++ str)
      | none => Outcome.fault Fault.undefined
    | none => Outcome.fault Fault.undefined
  | .OP_DRAW_ELEMENTS e =>
    match e.textureFile with
    | some t => do
      let tstr ← derefStr t
      let tbytes ← _fwrite_string tstr
      match e.glowmapFile with
      | some g => do
        let gstr ← derefStr g
        let gbytes ← _fwrite_string gstr
        pure (abi.op.write op ++ tbytes ++ gbytes)
      | none => pure (abi.op.write op ++ tbytes)
    | none => pure (abi.op.write op)
  | .OP_DRAW_BILLBOARDS bb =>
    match bb.textureFile with
    | some t => do
      let tstr ← derefStr t
      let tbytes ← _fwrite_string tstr
      pure (abi.op.write op ++ tbytes)
    | none => pure (abi.op.write op)
  | _ => pure (abi.op.write op)

/-- The loop over the ops in `SaveToCache`. -/
def saveOps (abi : Abi) : List Op → Outcome (List Byte)
  | [] => pure []
  | op :: ops => do
    let a ← saveOp abi op
    let r ← saveOps abi ops
    pure (a ++ r)

/-- The statement `if (n) fwrite(&v[0], sizeof(T), n, f);`: a negative `n` makes `fwrite`
read far past the array. -/
def writeArray {α : Type} (R : ObjRepr α) (n : Int) (v : List α) : Outcome (List Byte) :=
  if n = 0 then pure []
  else if n < 0 then Outcome.fault Fault.undefined
  else pure (encodeArray R (v.take n.toNat))

/-- The method `LmrGeomBuffer::SaveToCache`: the bytes it appends to the file. -/
def SaveToCache (abi : Abi) (b : LmrGeomBuffer) : Outcome (List Byte) :=
  let numVertices := toInt32 b.m_vertices.length
  let numIndices := toInt32 b.m_indices.length
  let numTriflags := toInt32 b.m_triflags.length
  let numThrusters := toInt32 b.m_thrusters.length
  let numOps := toInt32 b.m_ops.length
  if ¬ (numOps < 1000) then Outcome.fault Fault.abort
  else do
    let vs ← writeArray abi.vertex numVertices b.m_vertices
    let is ← writeArray uint16Repr numIndices b.m_indices
    let ts ← writeArray uint16Repr numTriflags b.m_triflags
    let hs ← writeArray abi.thruster numThrusters b.m_thrusters
    let os ← saveOps abi (b.m_ops.take numOps.toNat)
    pure (boolRepr.write b.m_isFromObjFile ++ intRepr.write numVertices ++
      intRepr.write numIndices ++ intRepr.write numTriflags ++ intRepr.write numThrusters ++
      intRepr.write numOps ++ vs ++ is ++ ts ++ hs ++ os)

/-- One round of the loop in `LoadFromCache`. -/
def loadOp (abi : Abi) (st : LoadState) : Reader (Op × LoadState) := do
  let raw ← readObj abi.op
  match raw with
  | .OP_CALL_MODEL c => do
    let name ← _fread_string
    pure (Op.OP_CALL_MODEL { c with model := (st.s_models.index name).1 },
          { st with s_models := (st.s_models.index name).2 })
  | .OP_DRAW_ELEMENTS e =>
    if e.textureFile.isSome then do
      let t ← _fread_string
      if e.glowmapFile.isSome then do
        let g ← _fread_string
        pure (Op.OP_DRAW_ELEMENTS
                { e with textureFile := some ⟨st.heap, some t⟩, texture := 0,
                         glowmapFile := some ⟨st.heap + 1, some g⟩, glowmap := 0 },
              { st with heap := st.heap + 2 })
      else
        pure (Op.OP_DRAW_ELEMENTS { e with textureFile := some ⟨st.heap, some t⟩, texture := 0 },
              { st with heap := st.heap + 1 })
    else pure (raw, st)
  | .OP_DRAW_BILLBOARDS bb =>
    if bb.textureFile.isSome then do
      let t ← _fread_string
      pure (Op.OP_DRAW_BILLBOARDS
              (clearElemsTexture abi.ptr64 { bb with textureFile := some ⟨st.heap, some t⟩ }),
            { st with heap := st.heap + 1 })
    else pure (raw, st)
  | _ => pure (raw, st)

/-- The loop over the ops in `LoadFromCache`. -/
def loadOps (abi : Abi) : Nat → LoadState → Reader (List Op × LoadState)
  | 0, st => pure ([], st)
  | n + 1, st => do
    let r ← loadOp abi st
    let rs ← loadOps abi n r.2
    pure (r.1 :: rs.1, rs.2)

/-- The statement `if (n) { v.resize(n); fread_or_die(&v[0], sizeof(T), n, f); }`: `resize`
throws on a negative `n`; with `n == 0` the vector keeps what it held. -/
def loadArray {α : Type} (R : ObjRepr α) (n : Int) (old : List α) : Reader (List α) :=
  if n = 0 then pure old
  else if n < 0 then Reader.fail Fault.exception
  else readArray R n.toNat

/-- The method `LmrGeomBuffer::LoadFromCache`. -/
def LoadFromCache (abi : Abi) (st : LoadState) (b : LmrGeomBuffer) :
    Reader (LmrGeomBuffer × LoadState) := do
  let isFromObjFile ← readObj boolRepr
  let numVertices ← readObj intRepr
  let numIndices ← readObj intRepr
  let numTriflags ← readObj intRepr
  let numThrusters ← readObj intRepr
  let numOps ← readObj intRepr
  Reader.assert (decide (numVertices ≤ 65536))
  Reader.assert (decide (numIndices < 1000000))
  Reader.assert (decide (numTriflags < 1000000))
  Reader.assert (decide (numThrusters < 1000))
  Reader.assert (decide (numOps < 1000))
  let vs ← loadArray abi.vertex numVertices b.m_vertices
  let is ← loadArray uint16Repr numIndices b.m_indices
  let ts ← loadArray uint16Repr numTriflags b.m_triflags
  let hs ← loadArray abi.thruster numThrusters b.m_thrusters
  if numOps < 0 then Reader.fail Fault.exception
  else do
    let r ← loadOps abi numOps.toNat st
    pure ({ b with m_isFromObjFile := isFromObjFile, m_vertices := vs, m_indices := is,
                   m_triflags := ts, m_thrusters := hs, m_ops := r.1 }, r.2)

/-- What `LoadFromCache` makes, in a process in state `st`, of an op that `SaveToCache`
wrote: model and strings are looked up and allocated anew; a glow-map pointer of a batch
without texture, and the texture caches, stay what the raw bytes say. -/
def reloadOp (abi : Abi) (st : LoadState) : Op → Op × LoadState
  | .OP_CALL_MODEL c =>
    let name := cstr ((c.model.bind ModelPtr.name).getD [])
    (Op.OP_CALL_MODEL { c with model := (st.s_models.index name).1 },
     { st with s_models := (st.s_models.index name).2 })
  | .OP_DRAW_ELEMENTS e =>
    match e.textureFile with
    | some t =>
      match e.glowmapFile with
      | some g =>
        (Op.OP_DRAW_ELEMENTS
          { e with textureFile := some ⟨st.heap, some (cstr (t.target.getD []))⟩, texture := 0,
                   glowmapFile := some ⟨st.heap + 1, some (cstr (g.target.getD []))⟩,
                   glowmap := 0 },
         { st with heap := st.heap + 2 })
      | none =>
        (Op.OP_DRAW_ELEMENTS
          { e with textureFile := some ⟨st.heap, some (cstr (t.target.getD []))⟩,
                   texture := 0, glowmapFile := none },
         { st with heap := st.heap + 1 })
    | none => (Op.stale (Op.OP_DRAW_ELEMENTS e), st)
  | .OP_DRAW_BILLBOARDS bb =>
    match bb.textureFile with
    | some t =>
      (Op.OP_DRAW_BILLBOARDS (clearElemsTexture abi.ptr64
          { bb with textureFile := some ⟨st.heap, some (cstr (t.target.getD []))⟩ }),
       { st with heap := st.heap + 1 })
    | none => (Op.OP_DRAW_BILLBOARDS { bb with textureFile := none }, st)
  | o => (o, st)

/-- The ops of a saved op-stream as `LoadFromCache` rebuilds them, one after the other. -/
def reloadOps (abi : Abi) : LoadState → List Op → List Op × LoadState
  | st, [] => ([], st)
  | st, o :: os =>
    ((reloadOp abi st o).1 :: (reloadOps abi (reloadOp abi st o).2 os).1,
     (reloadOps abi (reloadOp abi st o).2 os).2)

/-- The pointer, when not null, points at a live string of fewer than `INT_MAX` bytes
(so that `int len = str.size()+1` does not overflow). -/
def strSavable (p : Option StrPtr) : Prop :=
  ∀ a, p = some a → ∃ str, a.target = some str ∧ (str.length : Int) + 1 < 2147483648

/-- The pointers of the op that `SaveToCache` dereferences point at live objects: the
model of a call, the texture of a batch and, for a batch with texture, its glow map. The
strings are shorter than `INT_MAX`. -/
def Op.Savable : Op → Prop
  | .OP_CALL_MODEL c =>
    ∃ m name, c.model = some m ∧ m.name = some name ∧ (name.length : Int) + 1 < 2147483648
  | .OP_DRAW_ELEMENTS e =>
    strSavable e.textureFile ∧ (e.textureFile ≠ none → strSavable e.glowmapFile)
  | .OP_DRAW_BILLBOARDS bb => strSavable bb.textureFile
  | _ => True

/-- The compiler's representations reproduce the buffer's vertices and thrusters, and its
ops as far as raw memory goes. -/
def Abi.Reproduces (abi : Abi) (b : LmrGeomBuffer) : Prop :=
  0 < abi.vertex.size ∧ 0 < abi.thruster.size ∧ 0 < abi.op.size ∧
  (∀ v ∈ b.m_vertices, abi.vertex.Reproduces v) ∧
  (∀ t ∈ b.m_thrusters, abi.thruster.Reproduces t) ∧
  (∀ o ∈ b.m_ops, (abi.op.write o).length = abi.op.size ∧
    abi.op.read (abi.op.write o) = o.stale)

/-- The counts of the buffer are within the bounds that `LoadFromCache` asserts. -/
def LmrGeomBuffer.WithinBounds (b : LmrGeomBuffer) : Prop :=
  b.m_vertices.length ≤ 65536 ∧ b.m_indices.length < 1000000 ∧
  b.m_triflags.length < 1000000 ∧ b.m_thrusters.length < 1000 ∧ b.m_ops.length < 1000

/-- The live string behind the pointer, if any, is a C string: it holds no NUL. -/
def strClean (p : Option StrPtr) : Prop :=
  ∀ a str, p = some a → a.target = some str → ∀ c ∈ str, c ≠ 0

/-- The strings the op refers to (paths, the name of the called model) hold no NUL, as
strings made from a `const char *` do. -/
def Op.Clean : Op → Prop
  | .OP_CALL_MODEL c => ∀ m name, c.model = some m → m.name = some name → ∀ ch ∈ name, ch ≠ 0
  | .OP_DRAW_ELEMENTS e => strClean e.textureFile ∧ strClean e.glowmapFile
  | .OP_DRAW_BILLBOARDS bb => strClean bb.textureFile
  | _ => True

/-- What a saved op and the op loaded for it have in common: the kind, the numeric
payload, the paths (for a batch without texture the glow map is left out, for a billboard
batch `start` and `count`), and for a call the model registered under the saved name. -/
def Op.KeptAs (reg : Registry) : Op → Op → Prop
  | .OP_NONE, .OP_NONE => True
  | .OP_DRAW_ELEMENTS e, .OP_DRAW_ELEMENTS e' =>
    e'.start = e.start ∧ e'.count = e.count ∧ e'.elemMin = e.elemMin ∧
    e'.elemMax = e.elemMax ∧ pathOf e'.textureFile = pathOf e.textureFile ∧
    ((e.textureFile ≠ none ∨ e.glowmapFile = none) →
      pathOf e'.glowmapFile = pathOf e.glowmapFile)
  | .OP_DRAW_BILLBOARDS bb, .OP_DRAW_BILLBOARDS bb' =>
    bb'.size = bb.size ∧ bb'.col = bb.col ∧ pathOf bb'.textureFile = pathOf bb.textureFile
  | .OP_SET_MATERIAL i, .OP_SET_MATERIAL i' => i' = i
  | .OP_ZBIAS z, .OP_ZBIAS z' => z' = z
  | .OP_CALL_MODEL c, .OP_CALL_MODEL c' =>
    c'.transform = c.transform ∧ c'.scale = c.scale ∧
    ∀ name, c.model.bind ModelPtr.name = some name → c'.model = reg.find name
  | .OP_LIGHTING_TYPE l, .OP_LIGHTING_TYPE l' => l' = l
  | .OP_USE_LIGHT n, .OP_USE_LIGHT n' => n' = n
  | _, _ => False

/-! The conditions above can be computed on concrete buffers. -/

instance strSavable.dec (p : Option StrPtr) : Decidable (strSavable p) :=
  match p with
  | none => isTrue (fun _ h => by cases h)
  | some a =>
    match h : a.target with
    | none => isFalse (fun hs => by
        obtain ⟨s, hs', -⟩ := hs a rfl
        rw [h] at hs'; cases hs')
    | some str =>
      if hl : (str.length : Int) + 1 < 2147483648 then
        isTrue (fun a' ha => by cases ha; exact ⟨str, h, hl⟩)
      else isFalse (fun hs => by
        obtain ⟨s, hs', hl'⟩ := hs a rfl
        rw [h] at hs'; cases hs'; exact hl hl')

instance Op.Savable.dec (o : Op) : Decidable o.Savable :=
  match o with
  | .OP_CALL_MODEL c =>
    match hm : c.model with
    | none => isFalse (fun hs => by
        obtain ⟨m, n, h1, -⟩ := hs
        rw [hm] at h1; cases h1)
    | some m =>
      match hn : m.name with
      | none => isFalse (fun hs => by
          obtain ⟨m', n, h1, h2, -⟩ := hs
          rw [hm] at h1; cases h1; rw [hn] at h2; cases h2)
      | some name =>
        if hl : (name.length : Int) + 1 < 2147483648 then isTrue ⟨m, name, hm, hn, hl⟩
        else isFalse (fun hs => by
          obtain ⟨m', n, h1, h2, h3⟩ := hs
          rw [hm] at h1; cases h1; rw [hn] at h2; cases h2; exact hl h3)
  | .OP_DRAW_ELEMENTS e =>
    inferInstanceAs (Decidable (strSavable e.textureFile ∧
      (e.textureFile ≠ none → strSavable e.glowmapFile)))
  | .OP_DRAW_BILLBOARDS bb => inferInstanceAs (Decidable (strSavable bb.textureFile))
  | .OP_NONE => isTrue trivial
  | .OP_SET_MATERIAL _ => isTrue trivial
  | .OP_ZBIAS _ => isTrue trivial
  | .OP_LIGHTING_TYPE _ => isTrue trivial
  | .OP_USE_LIGHT _ => isTrue trivial

instance strClean.dec (p : Option StrPtr) : Decidable (strClean p) :=
  match p with
  | none => isTrue (fun _ _ h => by cases h)
  | some a =>
    match h : a.target with
    | none => isTrue (fun a' s ha hs => by cases ha; rw [h] at hs; cases hs)
    | some str =>
      if hc : ∀ c ∈ str, c ≠ 0 then
        isTrue (fun a' s ha hs => by cases ha; rw [h] at hs; cases hs; exact hc)
      else isFalse (fun hs => hc (hs a str rfl h))

instance Op.Clean.dec (o : Op) : Decidable o.Clean :=
  match o with
  | .OP_CALL_MODEL c =>
    match hm : c.model with
    | none => isTrue (fun m n h1 _ => by rw [hm] at h1; cases h1)
    | some m =>
      match hn : m.name with
      | none => isTrue (fun m' n h1 h2 => by
          rw [hm] at h1; cases h1; rw [hn] at h2; cases h2)
      | some name =>
        if hc : ∀ ch ∈ name, ch ≠ 0 then
          isTrue (fun m' n h1 h2 => by
            rw [hm] at h1; cases h1; rw [hn] at h2; cases h2; exact hc)
        else isFalse (fun hs => hc (hs m name hm hn))
  | .OP_DRAW_ELEMENTS e =>
    inferInstanceAs (Decidable (strClean e.textureFile ∧ strClean e.glowmapFile))
  | .OP_DRAW_BILLBOARDS bb => inferInstanceAs (Decidable (strClean bb.textureFile))
  | .OP_NONE => isTrue trivial
  | .OP_SET_MATERIAL _ => isTrue trivial
  | .OP_ZBIAS _ => isTrue trivial
  | .OP_LIGHTING_TYPE _ => isTrue trivial
  | .OP_USE_LIGHT _ => isTrue trivial

instance ObjRepr.Reproduces.dec {α : Type} [DecidableEq α] (R : ObjRepr α) (a : α) :
    Decidable (R.Reproduces a) :=
  inferInstanceAs (Decidable ((R.write a).length = R.size ∧ R.read (R.write a) = a))

instance Abi.Reproduces.dec (abi : Abi) (b : LmrGeomBuffer) : Decidable (abi.Reproduces b) :=
  inferInstanceAs (Decidable (0 < abi.vertex.size ∧ 0 < abi.thruster.size ∧ 0 < abi.op.size ∧
    (∀ v ∈ b.m_vertices, abi.vertex.Reproduces v) ∧
    (∀ t ∈ b.m_thrusters, abi.thruster.Reproduces t) ∧
    (∀ o ∈ b.m_ops, (abi.op.write o).length = abi.op.size ∧
      abi.op.read (abi.op.write o) = o.stale)))

instance LmrGeomBuffer.WithinBounds.dec (b : LmrGeomBuffer) : Decidable b.WithinBounds :=
  inferInstanceAs (Decidable (b.m_vertices.length ≤ 65536 ∧ b.m_indices.length < 1000000 ∧
    b.m_triflags.length < 1000000 ∧ b.m_thrusters.length < 1000 ∧ b.m_ops.length < 1000))

/-- The reader stops at a record boundary of its own: when it returns on a stream, it has
consumed a block `d` at the front, it returns the same value whatever follows `d`, and on
every proper truncation of `d` it aborts. -/
def Reader.Framed {α : Type} (p : Reader α) : Prop :=
  ∀ f a r, p f = Outcome.ok (a, r) →
    ∃ d, f = d ++ r ∧ (∀ r', p (d ++ r') = Outcome.ok (a, r')) ∧
      ∀ k, k < d.length → p (d.take k) = Outcome.fault Fault.abort

/-! ## The cache summary and the constructor -/

/-- The constant `s_cacheVersion`. -/
def s_cacheVersion : Nat := 3

/-- The reads `_detect_model_changes` makes from an open `cache.sum`; returns the new
value of `s_recompileAllModels`. -/
def readCacheSum (s_allModelFilesCRC : Nat) (s_recompileAllModels : Bool) : Reader Bool := do
  let version ← readObj uint32Repr
  if version = s_cacheVersion then do
    let checksum ← readObj uint32Repr
    if checksum = s_allModelFilesCRC then pure false else pure s_recompileAllModels
  else pure s_recompileAllModels

/-- The function `_detect_model_changes`, given the checksum of the model files and the
content of `cache.sum` (`none` when it cannot be opened for reading); returns
`s_recompileAllModels`, which starts as `true`. -/
def _detect_model_changes (s_allModelFilesCRC : Nat) (cache_sum_file : Option (List Byte)) :
    Outcome Bool :=
  match cache_sum_file with
  | some f =>
    match readCacheSum s_allModelFilesCRC true f with
    | Outcome.ok r => Outcome.ok r.1
    | Outcome.fault e => Outcome.fault e
  | none => Outcome.ok true

/-- The function `_write_model_crc_file`: the content of `cache.sum` after it, where
`writable` says whether the file opens for writing. -/
def _write_model_crc_file (s_recompileAllModels : Bool) (s_allModelFilesCRC : Nat)
    (writable : Bool) (cache_sum_file : Option (List Byte)) : Option (List Byte) :=
  if s_recompileAllModels then
    if writable then some (uint32Repr.write s_cacheVersion ++ uint32Repr.write s_allModelFilesCRC)
    else cache_sum_file
  else cache_sum_file

/-- The loop `for (i < m_numLods) { PreBuild(); LoadFromCache(f); PostBuild(); }` over the
static buffers. -/
def loadLods (abi : Abi) : LoadState → List LmrGeomBuffer →
    Reader (List LmrGeomBuffer × LoadState)
  | st, [] => pure ([], st)
  | st, b :: bs => do
    let r ← LoadFromCache abi st b.PreBuild
    let rs ← loadLods abi r.2 bs
    pure (r.1.PostBuild :: rs.1, rs.2)

/-- The test `size_t(n) != size` on an `int n`: a negative `n` converts to a number no
vector has as its size. -/
def sizeDiffers (n : Int) (size : Nat) : Bool := decide (n < 0) || decide (n.toNat ≠ size)

/-- The block under `if (!s_recompileAllModels)` of the constructor, once the cache file is
open. The first component is `false` where the code says `goto rebuild_model`. -/
def loadCachedModel (abi : Abi) (st : LoadState) (m : ModelTables)
    (lods : List LmrGeomBuffer) :
    Reader (Bool × ModelTables × List LmrGeomBuffer × LoadState) := do
  let r ← loadLods abi st lods
  let numMaterials ← readObj intRepr
  if sizeDiffers numMaterials m.m_materials.length then pure (false, m, r.1, r.2)
  else do
    let mats ← if numMaterials = 0 then pure m.m_materials
               else readArray abi.material numMaterials.toNat
    let numLights ← readObj intRepr
    if sizeDiffers numLights m.m_lights.length then
      pure (false, { m with m_materials := mats }, r.1, r.2)
    else do
      let lights ← if numLights = 0 then pure m.m_lights
                   else readArray abi.light numLights.toNat
      pure (true, { m with m_materials := mats, m_lights := lights }, r.1, r.2)

/-- The loop of `rebuild_model`: for LOD `i`, `PreBuild`, the calls the static script makes
when called with `i+1`, `PostBuild`, `SaveToCache`. Returns the bytes written and the
buffers; the state passes from one LOD to the next. -/
def buildLods (abi : Abi) (mulMV : matrix4x4f → vector3f → vector3f)
    (static : Nat → List BuildCall) :
    Nat → BuildState → List LmrGeomBuffer → Outcome (List Byte × List LmrGeomBuffer × BuildState)
  | _, s, [] => pure ([], [], s)
  | i, s, b :: bs => do
    let s1 := runCalls mulMV { s with buf := b.PreBuild } (static (i + 1))
    let bytes ← SaveToCache abi s1.buf.PostBuild
    let r ← buildLods abi mulMV static (i + 1) s1 bs
    pure (bytes ++ r.1, s1.buf.PostBuild :: r.2.1, r.2.2)

/-- What the constructor leaves: whether it ran the static script, the cache file, the
static buffers, the tables, the registry and allocator. -/
structure Constructed where
  ranStatic : Bool
  cache_file : List Byte
  m_staticGeometry : List LmrGeomBuffer
  tables : ModelTables
  st : LoadState
deriving DecidableEq, Repr

/-- The block `rebuild_model:` of the constructor (the cache file opens for writing). -/
def rebuildModel (abi : Abi) (mulMV : matrix4x4f → vector3f → vector3f)
    (static : Nat → List BuildCall) (st : LoadState) (m : ModelTables)
    (lods : List LmrGeomBuffer) : Outcome Constructed := do
  let r ← buildLods abi mulMV static 0 ⟨st.heap, m, LmrGeomBuffer.new true⟩ lods
  let numMaterials := toInt32 r.2.2.model.m_materials.length
  let mats ← writeArray abi.material numMaterials r.2.2.model.m_materials
  let numLights := toInt32 r.2.2.model.m_lights.length
  let lights ← writeArray abi.light numLights r.2.2.model.m_lights
  pure ⟨true, r.1 ++ intRepr.write numMaterials ++ mats ++ intRepr.write numLights ++ lights,
        r.2.1, r.2.2.model, { st with heap := r.2.2.heap }⟩

/-- The end of the constructor `LmrModel::LmrModel`, from the allocation of the buffers:
`m` holds the tables as the `_info` table left them (`m_lights` is empty in a model just
constructed), `cache_file` the content of the model's cache file, if it opens. -/
def constructGeometry (abi : Abi) (mulMV : matrix4x4f → vector3f → vector3f)
    (s_recompileAllModels : Bool) (cache_file : Option (List Byte))
    (static : Nat → List BuildCall) (st : LoadState) (m : ModelTables) (m_numLods : Nat) :
    Outcome Constructed :=
  let lods := List.replicate m_numLods (LmrGeomBuffer.new true)
  if s_recompileAllModels then rebuildModel abi mulMV static st m lods
  else
    match cache_file with
    | none => rebuildModel abi mulMV static st m lods
    | some f =>
      match loadCachedModel abi st m lods f with
      | Outcome.fault e => Outcome.fault e
      | Outcome.ok ((true, m', lods', st'), _) => Outcome.ok ⟨false, f, lods', m', st'⟩
      | Outcome.ok ((false, m', lods', st'), _) => rebuildModel abi mulMV static st' m' lods'

/-! ## A sample ABI

The LP64 layout (8-byte pointers, 4-byte `int` and `float`, little-endian), used to run
the cache code on concrete buffers. -/

/-- A `float`: its 4 bytes. -/
def floatRepr : ObjRepr GLfloat :=
  ⟨4, fun g => leBytes 4 g.bits, fun bs => ⟨leValue (bs.take 4)⟩⟩

/-- Three consecutive floats. -/
def vec3Write (v : vector3f) : List Byte :=
  floatRepr.write v.x ++ floatRepr.write v.y ++ floatRepr.write v.z

def vec3Read (bs : List Byte) : vector3f :=
  ⟨floatRepr.read bs, floatRepr.read (bs.drop 4), floatRepr.read (bs.drop 8)⟩

/-- A pointer: 8 bytes, null is 0. -/
def ptrWrite (addr : Option Nat) : List Byte := leBytes 8 (addr.getD 0)

def strPtrRead (bs : List Byte) : Option StrPtr :=
  if leValue (bs.take 8) = 0 then none else some ⟨leValue (bs.take 8), none⟩

def modelPtrRead (bs : List Byte) : Option ModelPtr :=
  if leValue (bs.take 8) = 0 then none else some ⟨leValue (bs.take 8), none⟩

/-- Zero bytes up to length `n`. -/
def padTo (n : Nat) (bs : List Byte) : List Byte := bs ++ List.replicate (n - bs.length) 0

/-- The 80 bytes of the union of an `Op`. -/
def sampleUnionWrite : Op → List Byte
  | .OP_NONE => []
  | .OP_DRAW_ELEMENTS e =>
    ptrWrite (e.textureFile.map StrPtr.addr) ++ ptrWrite (e.glowmapFile.map StrPtr.addr) ++
    leBytes 8 e.texture ++ leBytes 8 e.glowmap ++ intRepr.write e.start ++
    intRepr.write e.count ++ intRepr.write e.elemMin ++ intRepr.write e.elemMax
  | .OP_DRAW_BILLBOARDS bb =>
    ptrWrite (bb.textureFile.map StrPtr.addr) ++ leBytes 8 bb.texture ++
    intRepr.write bb.start ++ intRepr.write bb.count ++ floatRepr.write bb.size ++
    encodeArray floatRepr bb.col
  | .OP_SET_MATERIAL idx => intRepr.write idx
  | .OP_ZBIAS z => floatRepr.write z.amount ++ vec3Write z.pos ++ vec3Write z.norm
  | .OP_CALL_MODEL c =>
    ptrWrite (c.model.map ModelPtr.addr) ++ encodeArray floatRepr c.transform.cell ++
    floatRepr.write c.scale
  | .OP_LIGHTING_TYPE l => boolRepr.write l
  | .OP_USE_LIGHT num => intRepr.write num

/-- An `Op` as raw memory: the tag, 4 bytes of padding, the union. -/
def sampleOpWrite (op : Op) : List Byte :=
  leBytes 4 op.type ++ leBytes 4 0 ++ padTo 80 (sampleUnionWrite op)

def sampleOpRead (bs : List Byte) : Op :=
  let u := bs.drop 8
  match leValue (bs.take 4) with
  | 1 => Op.OP_DRAW_ELEMENTS
      ⟨strPtrRead u, strPtrRead (u.drop 8), leValue ((u.drop 16).take 8),
       leValue ((u.drop 24).take 8), intRepr.read (u.drop 32), intRepr.read (u.drop 36),
       intRepr.read (u.drop 40), intRepr.read (u.drop 44)⟩
  | 2 => Op.OP_DRAW_BILLBOARDS
      ⟨strPtrRead u, leValue ((u.drop 8).take 8), intRepr.read (u.drop 16),
       intRepr.read (u.drop 20), floatRepr.read (u.drop 24),
       decodeArray floatRepr 4 (u.drop 28)⟩
  | 3 => Op.OP_SET_MATERIAL (intRepr.read u)
  | 4 => Op.OP_ZBIAS ⟨floatRepr.read u, vec3Read (u.drop 4), vec3Read (u.drop 16)⟩
  | 5 => Op.OP_CALL_MODEL
      ⟨modelPtrRead u, ⟨decodeArray floatRepr 16 (u.drop 8)⟩, floatRepr.read (u.drop 72)⟩
  | 6 => Op.OP_LIGHTING_TYPE (boolRepr.read u)
  | 7 => Op.OP_USE_LIGHT (intRepr.read u)
  | _ => Op.OP_NONE

def sampleAbi : Abi where
  ptr64 := true
  vertex :=
    ⟨32, fun v => vec3Write v.v ++ vec3Write v.n ++ floatRepr.write v.tex_u ++
                  floatRepr.write v.tex_v,
     fun bs => ⟨vec3Read bs, vec3Read (bs.drop 12), floatRepr.read (bs.drop 24),
                floatRepr.read (bs.drop 28)⟩⟩
  thruster :=
    ⟨32, fun t => vec3Write t.m_pos ++ vec3Write t.m_dir ++ floatRepr.write t.m_power ++
                  boolRepr.write t.m_linear_only ++ [0, 0, 0],
     fun bs => ⟨vec3Read bs, vec3Read (bs.drop 12), floatRepr.read (bs.drop 24),
                boolRepr.read (bs.drop 28)⟩⟩
  op := ⟨88, sampleOpWrite, sampleOpRead⟩
  material :=
    ⟨52, fun m => encodeArray floatRepr m.diffuse ++ encodeArray floatRepr m.specular ++
                  encodeArray floatRepr m.emissive ++ floatRepr.write m.shininess,
     fun bs => ⟨decodeArray floatRepr 4 bs, decodeArray floatRepr 4 (bs.drop 16),
                decodeArray floatRepr 4 (bs.drop 32), floatRepr.read (bs.drop 48)⟩⟩
  light :=
    ⟨36, fun l => encodeArray floatRepr l.position ++ encodeArray floatRepr l.color ++
                  floatRepr.write l.quadraticAttenuation,
     fun bs => ⟨decodeArray floatRepr 4 bs, decodeArray floatRepr 4 (bs.drop 16),
                floatRepr.read (bs.drop 32)⟩⟩

/-! ## A sample build pass -/

/-- A stand-in for the product `matrix4x4f * vector3f`, used to run sample passes. -/
def sampleMulMV : matrix4x4f → vector3f → vector3f := fun _ v => v

/-- A freshly constructed static buffer of a model without materials or lights. -/
def sampleState : BuildState := ⟨4096, ⟨[], [], []⟩, LmrGeomBuffer.new true⟩

/-- A pass that textures, pushes a triangle, a collision-only triangle, a billboard and,
after a texture change, two more triangles. -/
def sampleCalls : List BuildCall :=
  [BuildCall.PushVertex vector3f.zero vector3f.zero GLfloat.zero GLfloat.zero,
   BuildCall.SetTexture (some [97, 0]),
   BuildCall.PushTri 0 1 2,
   BuildCall.PushInvisibleTri 0 1 2,
   BuildCall.PushBillboards [98, 0] GLfloat.one vector3f.zero [vector3f.zero],
   BuildCall.SetTexture (some [99, 0]),
   BuildCall.SetGlowMap (some [103, 0]),
   BuildCall.PushTri 2 3 4,
   BuildCall.PushTri 4 5 6,
   BuildCall.PushThruster vector3f.zero vector3f.zero GLfloat.one false]

/-- The buffer the sample pass leaves after `PostBuild`. -/
def sampleBuffer : LmrGeomBuffer :=
  (runCalls sampleMulMV { sampleState with buf := sampleState.buf.PreBuild }
    sampleCalls).buf.PostBuild

/-- A pass that sets a glow map while no texture is set and pushes one triangle. -/
def glowOnlyCalls : List BuildCall :=
  [BuildCall.SetGlowMap (some [103, 0]), BuildCall.PushTri 0 1 2]

/-- The buffer that pass leaves after `PostBuild`. -/
def glowOnlyBuffer : LmrGeomBuffer :=
  (runCalls sampleMulMV { sampleState with buf := sampleState.buf.PreBuild }
    glowOnlyCalls).buf.PostBuild

/-- A pass that pushes a vertex and then a billboard batch of two points with the texture
`textures/b`. -/
def billboardCalls : List BuildCall :=
  [BuildCall.PushVertex vector3f.zero vector3f.zero GLfloat.zero GLfloat.zero,
   BuildCall.PushBillboards [98, 0] GLfloat.one vector3f.zero [vector3f.zero, vector3f.zero]]

/-- The buffer that pass leaves after `PostBuild`. -/
def billboardBuffer : LmrGeomBuffer :=
  (runCalls sampleMulMV { sampleState with buf := sampleState.buf.PreBuild }
    billboardCalls).buf.PostBuild

/-- The bytes of a cache record, empty when saving faults. -/
def savedBytes (abi : Abi) (b : LmrGeomBuffer) : List Byte :=
  match SaveToCache abi b with
  | Outcome.ok bytes => bytes
  | Outcome.fault _ => []

/-- The op-stream that loading the record of `b` into a fresh static buffer yields, in a
process whose registry is empty and whose allocator stands at 8192. -/
def reloadedOps (abi : Abi) (b : LmrGeomBuffer) : Outcome (List Op) :=
  match LoadFromCache abi ⟨[], 8192⟩ (LmrGeomBuffer.new true) (savedBytes abi b) with
  | Outcome.ok r => Outcome.ok r.1.1.m_ops
  | Outcome.fault e => Outcome.fault e

/-- A static script that sets local light 0 and pushes one triangle. -/
def litCalls : Nat → List BuildCall := fun _ =>
  [BuildCall.SetLight 0 GLfloat.one vector3f.zero vector3f.zero,
   BuildCall.PushVertex vector3f.zero vector3f.zero GLfloat.zero GLfloat.zero,
   BuildCall.PushTri 0 0 0]

/-- The same model without the light. -/
def unlitCalls : Nat → List BuildCall := fun _ =>
  [BuildCall.PushVertex vector3f.zero vector3f.zero GLfloat.zero GLfloat.zero,
   BuildCall.PushTri 0 0 0]

/-- The tables of a model that declares no material, as the constructor finds them. -/
def freshTables : ModelTables := ⟨[], [], []⟩

/-- The cache file a first construction (everything recompiled) leaves for the script. -/
def firstCache (static : Nat → List BuildCall) : Option (List Byte) :=
  match constructGeometry sampleAbi sampleMulMV true none static ⟨[], 4096⟩ freshTables 1 with
  | Outcome.ok c => some c.cache_file
  | Outcome.fault _ => none

/-- Whether a second construction, with the summary matching and the cache file of the
first, runs the static script. -/
def secondRanStatic (static : Nat → List BuildCall) : Outcome Bool :=
  match constructGeometry sampleAbi sampleMulMV false (firstCache static) static ⟨[], 4096⟩
      freshTables 1 with
  | Outcome.ok c => Outcome.ok c.ranStatic
  | Outcome.fault e => Outcome.fault e


/-! ## The material table -/

/-- The assignment `m[k] = v` on a `std::map` with string keys, kept as an association
list in which a key occurs once. -/
def mapAssign {β : Type} (m : List (CStr × β)) (k : CStr) (v : β) : List (CStr × β) :=
  (k, v) :: m.filter (fun e => e.1 ≠ k)

/-- The loop over `materials` in the constructor `LmrModel::LmrModel`, run on the leading
entries of the list that are strings: `m_materialLookup[mat_name] = m_materials.size();
m_materials.push_back(LmrMaterial());`. -/
def declareMaterials (m : ModelTables) : List (List Byte) → ModelTables
  | [] => m
  | mat_name :: rest =>
    declareMaterials
      { m with m_materialLookup := mapAssign m.m_materialLookup (cstr mat_name)
                                     (m.m_materials.length : Int),
               m_materials := m.m_materials ++ [LmrMaterial.default] } rest

/-- The number of indices that `PushTri` calls appended during a pass: three for each
visible triangle of the log. -/
def visibleIndexCount (mulMV : matrix4x4f → vector3f → vector3f) (s : BuildState)
    (calls : List BuildCall) : Nat :=
  3 * ((triLog mulMV s calls).filter (fun r => r.visible)).length

/-- A call that pushes no op: it leaves the op-stream and the pending op as they are.
The other calls (`PushTri`, `PushInvisibleTri`, `PushCallModel`, `PushUseMaterial`,
`PushZBias`, `PushSetLocalLighting`, `PushUseLight`, `PushBillboards`, `PostBuild`) flush
or replace the pending op. -/
def pushesNoOp : BuildCall → Bool
  | .PushVertex _ _ _ _ => true
  | .PushVertex2 _ _ => true
  | .SetVertex _ _ _ _ _ => true
  | .SetVertex2 _ _ _ => true
  | .AllocVertices _ => true
  | .PushThruster _ _ _ _ => true
  | .SetTexture _ => true
  | .SetGlowMap _ => true
  | .SetTexMatrix _ => true
  | .SetGeomFlag _ => true
  | .SetInsideOut _ => true
  | .SetLight _ _ _ _ => true
  | .SetIsFromObjFile _ => true
  | _ => false

/-- A state in which texture `a` is current. -/
def texturedState : BuildState :=
  runCalls sampleMulMV sampleState [BuildCall.SetTexture (some [97, 0])]

/-- Calls that push no op and leave the current string objects as they are: a vertex, a
geometry flag, the texture path that is current already, a cleared glow map (none was
set), a texture matrix, a thruster and the inside-out mode. -/
def quietCalls : List BuildCall :=
  [BuildCall.PushVertex2 vector3f.zero vector3f.zero,
   BuildCall.SetGeomFlag 1,
   BuildCall.SetTexture (some [97, 0]),
   BuildCall.SetGlowMap none,
   BuildCall.SetTexMatrix matrix4x4f.Identity,
   BuildCall.PushThruster vector3f.zero vector3f.zero GLfloat.one false,
   BuildCall.SetInsideOut true]

/-- A pass that pushes a triangle under texture `a`, switches to `b` and back to `a`, and
pushes a second triangle. -/
def thereAndBackCalls : List BuildCall :=
  [BuildCall.SetTexture (some [97, 0]), BuildCall.PushTri 0 1 2,
   BuildCall.SetTexture (some [98, 0]), BuildCall.SetTexture (some [97, 0]),
   BuildCall.PushTri 3 4 5]

/-- A pass that pushes a triangle and sets a texture afterwards. -/
def textureLastCalls : List BuildCall :=
  [BuildCall.PushTri 0 1 2, BuildCall.SetTexture (some [97, 0])]

/-- The state after `PreBuild`, the calls and `PostBuild`. -/
def runPass (s : BuildState) (calls : List BuildCall) : BuildState :=
  let s1 := runCalls sampleMulMV { s with buf := s.buf.PreBuild } calls
  { s1 with buf := s1.buf.PostBuild }


/-! ## Collision meshes -/

/-- The members of `LmrCollMesh` that `GetCollMeshGeometry` and `GetTrisWithGeomflag` use.
The arrays `pVertex`, `pIndex`, `pFlag` are the blocks behind the pointers; `m_aabb` lists
the points passed to `Aabb::Update`. -/
structure LmrCollMesh where
  nv : Int
  ni : Int
  nf : Int
  pVertex : List GLfloat
  pIndex : List Int
  m_numTris : Int
  pFlag : List Nat
  m_aabb : List vector3f
deriving DecidableEq, Repr

/-- The member initialisers of the constructor `LmrCollMesh::LmrCollMesh`. -/
def LmrCollMesh.empty : LmrCollMesh := ⟨0, 0, 0, [], [], 0, [], []⟩

/-- The call `realloc(p, n * sizeof(T))` with `n` elements asked for: the elements that
fit are kept, the new ones hold whatever was there, here `d`. -/
def realloc {α : Type} (a : List α) (n : Int) (d : α) : List α :=
  a.take n.toNat ++ List.replicate (n.toNat - a.length) d

/-- The store `a[i] = x` into a block of `a.length` elements; outside it the behaviour is
undefined. -/
def store {α : Type} (a : List α) (i : Int) (x : α) : Outcome (List α) :=
  if 0 ≤ i ∧ i.toNat < a.length then Outcome.ok (a.set i.toNat x)
  else Outcome.fault Fault.undefined

/-- The stores `a[base] = x0; a[base+1] = x1; ...` in this order. -/
def storeAll {α : Type} : List α → Int → List α → Outcome (List α)
  | a, _, [] => Outcome.ok a
  | a, base, x :: xs =>
    match store a base x with
    | Outcome.ok a1 => storeAll a1 (base + 1) xs
    | Outcome.fault e => Outcome.fault e

/-- The three floats the vertex loop stores for one vertex. -/
def coords (v : vector3f) : List GLfloat := [v.x, v.y, v.z]

/-- The first part of `LmrGeomBuffer::GetCollMeshGeometry`, up to the loop over the ops:
the counts, the assertion, and the vertex, index and flag loops. The vertex loop stores at
`3*vtxBase + 3*i`, `+1`, `+2` for `i = 0, 1, ...`, which are consecutive places from
`3*vtxBase` on. Counts are `int`. -/
def collectOwnGeometry (mulMV : matrix4x4f → vector3f → vector3f) (b : LmrGeomBuffer)
    (c : LmrCollMesh) (transform : matrix4x4f) : Outcome LmrCollMesh :=
  let vtxBase := c.nv
  let idxBase := c.ni
  let flagBase := c.nf
  let nv := toInt32 (c.nv + b.m_vertices.length)
  let ni := toInt32 (c.ni + b.m_indices.length)
  let nf := toInt32 (c.nf + (b.m_indices.length / 3 : Nat))
  if b.m_triflags.length ≠ b.m_indices.length / 3 then Outcome.fault Fault.abort
  else
    let numTris := toInt32 (c.m_numTris + b.m_triflags.length)
    let vs := b.m_vertices.map (fun vtx => mulMV transform vtx.v)
    let verts : Outcome (List GLfloat) :=
      if b.m_vertices.length ≠ 0 then
        storeAll (realloc c.pVertex (3 * nv) GLfloat.zero) (3 * vtxBase) (vs.flatMap coords)
      else Outcome.ok c.pVertex
    match verts with
    | Outcome.fault e => Outcome.fault e
    | Outcome.ok pVertex =>
      let aabb := if b.m_vertices.length ≠ 0 then c.m_aabb ++ vs else c.m_aabb
      if b.m_indices.length ≠ 0 then
        match storeAll (realloc c.pIndex ni 0) idxBase
            (b.m_indices.map (fun x => toInt32 (vtxBase + (x.val : Int)))) with
        | Outcome.fault e => Outcome.fault e
        | Outcome.ok pIndex =>
          match storeAll (realloc c.pFlag nf 0) flagBase (b.m_triflags.map (fun x => x.val)) with
          | Outcome.fault e => Outcome.fault e
          | Outcome.ok pFlag =>
            Outcome.ok ⟨nv, ni, nf, pVertex, pIndex, numTris, pFlag, aabb⟩
      else Outcome.ok ⟨nv, ni, nf, pVertex, c.pIndex, numTris, c.pFlag, aabb⟩

/-- The loop over the ops at the end of `LmrGeomBuffer::GetCollMeshGeometry`; `callee` is
the call `model->GetCollMeshGeometry(c, _trans, params)`, `none` when it does not come
back within the recursion depth allowed. -/
def collectCalls (mulMM : matrix4x4f → matrix4x4f → matrix4x4f)
    (callee : Option ModelPtr → LmrCollMesh → matrix4x4f → Option (Outcome LmrCollMesh))
    (transform : matrix4x4f) : List Op → LmrCollMesh → Option (Outcome LmrCollMesh)
  | [], c => some (Outcome.ok c)
  | Op.OP_CALL_MODEL cm :: ops, c =>
    match callee cm.model c (mulMM transform cm.transform) with
    | some (Outcome.ok c1) => collectCalls mulMM callee transform ops c1
    | r => r
  | _ :: ops, c => collectCalls mulMM callee transform ops c

/-- The method `LmrGeomBuffer::GetCollMeshGeometry`. -/
def LmrGeomBuffer.GetCollMeshGeometry (mulMV : matrix4x4f → vector3f → vector3f)
    (mulMM : matrix4x4f → matrix4x4f → matrix4x4f)
    (callee : Option ModelPtr → LmrCollMesh → matrix4x4f → Option (Outcome LmrCollMesh))
    (b : LmrGeomBuffer) (c : LmrCollMesh) (transform : matrix4x4f) :
    Option (Outcome LmrCollMesh) :=
  match collectOwnGeometry mulMV b c transform with
  | Outcome.fault e => some (Outcome.fault e)
  | Outcome.ok c1 => collectCalls mulMM callee transform b.m_ops c1

/-- The members of `LmrModel` that collision-mesh extraction reads, and `dynamicCalls`, the
calls the model's dynamic script makes when `Build` runs it for LOD 0. -/
structure LmrModel where
  m_scale : GLfloat
  m_hasDynamicFunc : Bool
  m_staticGeometry : List LmrGeomBuffer
  m_dynamicGeometry : List LmrGeomBuffer
  tables : ModelTables
  dynamicCalls : List BuildCall
deriving DecidableEq, Repr

/-- The matrix operations of `matrix4x4f` the extraction uses. -/
structure MatrixOps where
  mulMV : matrix4x4f → vector3f → vector3f
  mulMM : matrix4x4f → matrix4x4f → matrix4x4f
  ScaleMatrix : GLfloat → matrix4x4f

/-- The dynamic buffer of LOD 0 as `Build(0, params)` leaves it: `PreBuild`, the dynamic
script, `PostBuild`. `heap` is where the allocator stands. -/
def LmrModel.builtDynamic (M : MatrixOps) (heap : Nat) (m : LmrModel) : Option LmrGeomBuffer :=
  match m.m_dynamicGeometry.head? with
  | some b => some (runCalls M.mulMV ⟨heap, m.tables, b.PreBuild⟩ m.dynamicCalls).buf.PostBuild
  | none => none

/-- The method `LmrModel::GetCollMeshGeometry`, with the models that pointers lead to given
by address in `world`. `depth` bounds the nesting of submodel calls: `none` is returned
when it is exceeded. A null or dangling model pointer is undefined behaviour. -/
def LmrModel.GetCollMeshGeometry (M : MatrixOps) (heap : Nat) (world : List (Nat × LmrModel)) :
    Nat → LmrModel → LmrCollMesh → matrix4x4f → Option (Outcome LmrCollMesh)
  | 0, _, _, _ => none
  | depth + 1, m, mesh, transform =>
    let mt := M.mulMM transform (M.ScaleMatrix m.m_scale)
    let callee : Option ModelPtr → LmrCollMesh → matrix4x4f → Option (Outcome LmrCollMesh) :=
      fun p c t =>
        match p with
        | none => some (Outcome.fault Fault.undefined)
        | some ptr =>
          match world.lookup ptr.addr with
          | none => some (Outcome.fault Fault.undefined)
          | some sub => LmrModel.GetCollMeshGeometry M heap world depth sub c t
    match m.m_staticGeometry.head? with
    | none => some (Outcome.fault Fault.undefined)
    | some sb =>
      match sb.GetCollMeshGeometry M.mulMV M.mulMM callee mesh mt with
      | some (Outcome.ok c1) =>
        if m.m_hasDynamicFunc then
          match m.builtDynamic M heap with
          | none => some (Outcome.fault Fault.undefined)
          | some db => db.GetCollMeshGeometry M.mulMV M.mulMM callee c1 mt
        else some (Outcome.ok c1)
      | r => r

/-- The geometry part of the constructor `LmrCollMesh::LmrCollMesh(m, params)`. -/
def LmrCollMesh.new (M : MatrixOps) (Identity : matrix4x4f) (heap : Nat)
    (world : List (Nat × LmrModel)) (depth : Nat) (m : LmrModel) :
    Option (Outcome LmrCollMesh) :=
  m.GetCollMeshGeometry M heap world depth LmrCollMesh.empty Identity

/-- The load `a[i]` from a block of `a.length` elements. -/
def load {α : Type} (a : List α) (i : Int) : Outcome α :=
  if 0 ≤ i then
    match a.get? i.toNat with
    | some x => Outcome.ok x
    | none => Outcome.fault Fault.undefined
  else Outcome.fault Fault.undefined

/-- The expression `vector3d(&pVertex[3*k])`: the three floats from place `3*k` on. -/
def vertexAt (pVertex : List GLfloat) (k : Int) : Outcome vector3f :=
  match load pVertex (3 * k), load pVertex (3 * k + 1), load pVertex (3 * k + 2) with
  | Outcome.ok x, Outcome.ok y, Outcome.ok z => Outcome.ok ⟨x, y, z⟩
  | _, _, _ => Outcome.fault Fault.undefined

/-- The three stores `*(outVtx++) = vector3d(&pVertex[3*pIndex[3*i+k]])` for triangle `i`. -/
def triangleAt (c : LmrCollMesh) (i : Int) : Outcome (List vector3f) :=
  match load c.pIndex (3 * i), load c.pIndex (3 * i + 1), load c.pIndex (3 * i + 2) with
  | Outcome.ok i0, Outcome.ok i1, Outcome.ok i2 =>
    match vertexAt c.pVertex i0, vertexAt c.pVertex i1, vertexAt c.pVertex i2 with
    | Outcome.ok v0, Outcome.ok v1, Outcome.ok v2 => Outcome.ok [v0, v1, v2]
    | _, _, _ => Outcome.fault Fault.undefined
  | _, _, _ => Outcome.fault Fault.undefined

/-- The loop of `GetTrisWithGeomflag` from counter `i` on, with at most `left` rounds to
go (`m_numTris - i` of them suffice); `out` is what was written through `outVtx`. -/
def trisLoop (c : LmrCollMesh) (flags : Nat) (num : Int) :
    Nat → Int → Int → List vector3f → Outcome (Int × List vector3f)
  | 0, _, found, out => Outcome.ok (found, out)
  | left + 1, i, found, out =>
    if i < c.m_numTris ∧ found < num then
      match load c.pFlag i with
      | Outcome.fault e => Outcome.fault e
      | Outcome.ok fl =>
        if fl = flags then
          match triangleAt c i with
          | Outcome.fault e => Outcome.fault e
          | Outcome.ok vs => trisLoop c flags num left (i + 1) (found + 1) (out ++ vs)
        else trisLoop c flags num left (i + 1) found out
    else Outcome.ok (found, out)

/-- The method `LmrCollMesh::GetTrisWithGeomflag(flags, num, outVtx)`: the value returned
and the vectors written to `outVtx`, in order. -/
def GetTrisWithGeomflag (c : LmrCollMesh) (flags : Nat) (num : Int) :
    Outcome (Int × List vector3f) :=
  trisLoop c flags num c.m_numTris.toNat 0 0 []

/-- The triangles of the mesh whose flag is `f`, by number, in triangle order (the
specification's side of `GetTrisWithGeomflag`). -/
def trisWithFlag (c : LmrCollMesh) (f : Nat) : List Nat :=
  (List.range c.m_numTris.toNat).filter (fun i => c.pFlag.getD i 0 = f)

/-- The three vertex positions of triangle `i` (the specification's side). -/
def trianglePositions (c : LmrCollMesh) (i : Nat) : List vector3f :=
  [0, 1, 2].map (fun k =>
    let idx := (c.pIndex.getD (3 * i + k) 0).toNat
    ⟨c.pVertex.getD (3 * idx) GLfloat.zero, c.pVertex.getD (3 * idx + 1) GLfloat.zero,
     c.pVertex.getD (3 * idx + 2) GLfloat.zero⟩)

/-- The mesh is consistent: the flag and index blocks cover `m_numTris` triangles and
every index of those leads to a vertex inside the vertex block. -/
def LmrCollMesh.Consistent (c : LmrCollMesh) : Prop :=
  0 ≤ c.m_numTris ∧ c.m_numTris.toNat ≤ c.pFlag.length ∧
  3 * c.m_numTris.toNat ≤ c.pIndex.length ∧
  ∀ j, j < 3 * c.m_numTris.toNat →
    0 ≤ c.pIndex.getD j 0 ∧ 3 * (c.pIndex.getD j 0).toNat + 2 < c.pVertex.length

/-- Matrix operations that leave everything as it is, used to run the extraction on
samples. -/
def sampleOps : MatrixOps := ⟨sampleMulMV, fun m _ => m, fun _ => matrix4x4f.Identity⟩

/-- A model whose static LOD-0 buffer is the sample buffer. -/
def wheelModel : LmrModel :=
  ⟨GLfloat.one, false, [sampleBuffer], [LmrGeomBuffer.new false], ⟨[], [], []⟩, []⟩

/-- The pointer to it. -/
def wheelPtr : ModelPtr := ⟨512, some [119]⟩

/-- The static LOD-0 buffer of a model that pushes a triangle and calls the wheel. -/
def carBuffer : LmrGeomBuffer :=
  (runCalls sampleMulMV { sampleState with buf := sampleState.buf.PreBuild }
    [BuildCall.PushVertex vector3f.zero vector3f.zero GLfloat.zero GLfloat.zero,
     BuildCall.PushTri 0 0 0,
     BuildCall.PushCallModel (some wheelPtr) matrix4x4f.Identity GLfloat.one]).buf.PostBuild

def carModel : LmrModel :=
  ⟨GLfloat.one, false, [carBuffer], [LmrGeomBuffer.new false], ⟨[], [], []⟩, []⟩

/-- A mesh of three vertices and two triangles, flagged 5 and 7. -/
def sampleMesh : LmrCollMesh :=
  ⟨3, 6, 2,
   [GLfloat.zero, GLfloat.zero, GLfloat.zero, GLfloat.one, GLfloat.zero, GLfloat.zero,
    GLfloat.zero, GLfloat.one, GLfloat.zero],
   [0, 1, 2, 0, 2, 1], 2, [5, 7], []⟩

/-- The accumulator holds `nv` vertices, `ni` indices and `nf` flags. -/
def LmrCollMesh.Holds (c : LmrCollMesh) : Prop :=
  0 ≤ c.nv ∧ 0 ≤ c.ni ∧ 0 ≤ c.nf ∧ c.pVertex.length = 3 * c.nv.toNat ∧
  c.pIndex.length = c.ni.toNat ∧ c.pFlag.length = c.nf.toNat

/-- The counts stay inside `int` when the buffer is added to the accumulator. -/
def LmrCollMesh.Fits (c : LmrCollMesh) (b : LmrGeomBuffer) : Prop :=
  c.nv + b.m_vertices.length < 2147483648 ∧ c.nv + 65535 < 2147483648 ∧
  c.ni + b.m_indices.length < 2147483648 ∧
  c.nf + b.m_indices.length < 2147483648 ∧
  -2147483648 ≤ c.m_numTris ∧ c.m_numTris + b.m_indices.length < 2147483648

/-- The accumulator with the geometry of buffer `b` appended under `transform` (the
specification's side of the first part of `GetCollMeshGeometry`). -/
def LmrCollMesh.withBuffer (mulMV : matrix4x4f → vector3f → vector3f) (c : LmrCollMesh)
    (b : LmrGeomBuffer) (transform : matrix4x4f) : LmrCollMesh :=
  ⟨c.nv + b.m_vertices.length, c.ni + b.m_indices.length, c.nf + b.m_triflags.length,
   c.pVertex ++ (b.m_vertices.map (fun vtx => mulMV transform vtx.v)).flatMap coords,
   c.pIndex ++ b.m_indices.map (fun x => c.nv + (x.val : Int)),
   c.m_numTris + b.m_triflags.length,
   c.pFlag ++ b.m_triflags.map (fun x => x.val),
   c.m_aabb ++ b.m_vertices.map (fun vtx => mulMV transform vtx.v)⟩

/-! ## Script bindings -/

/-- How a Lua C function ends: it returns, or `luaL_error` raises; either way with the
state as it is at that moment. -/
inductive LuaResult (σ : Type) where
  | returned (s : σ)
  | raised (s : σ)
deriving DecidableEq, Repr

/-- The state `call_model` works on: the registry and the buffer `s_curBuf` points at. -/
structure ScriptState where
  s_models : Registry
  s_curBuf : LmrGeomBuffer
deriving DecidableEq, Repr

/-- The operations of `vector3f` and `matrix4x4f` that `call_model` uses. -/
structure VectorOps where
  Cross : vector3f → vector3f → vector3f
  Normalized : vector3f → vector3f
  scaled : GLfloat → vector3f → vector3f
  MakeInvRotMatrix : vector3f → vector3f → vector3f → matrix4x4f

/-- The binding `ModelFuncs::call_model`, called with a string, three vectors and a
number. -/
def call_model (V : VectorOps) (st : ScriptState) (obj_name : List Byte)
    (pos _xaxis _yaxis : vector3f) (scale : GLfloat) : LuaResult ScriptState :=
  if obj_name.headD 0 = 0 then LuaResult.returned st
  else
    let r := st.s_models.index (cstr obj_name)
    match r.1 with
    | none => LuaResult.raised { st with s_models := r.2 }
    | some m =>
      let zaxis := V.Normalized (V.Cross _xaxis _yaxis)
      let xaxis := V.Normalized (V.Cross _yaxis zaxis)
      let yaxis := V.Cross zaxis xaxis
      let trans := V.MakeInvRotMatrix (V.scaled scale xaxis) (V.scaled scale yaxis)
        (V.scaled scale zaxis)
      let trans : matrix4x4f := ⟨((trans.cell.set 12 pos.x).set 13 pos.y).set 14 pos.z⟩
      LuaResult.returned
        { s_models := r.2, s_curBuf := st.s_curBuf.PushCallModel (some m) trans scale }

/-- The transform `call_model` passes to `PushCallModel`. -/
def callTransform (V : VectorOps) (pos _xaxis _yaxis : vector3f) (scale : GLfloat) :
    matrix4x4f :=
  let zaxis := V.Normalized (V.Cross _xaxis _yaxis)
  let xaxis := V.Normalized (V.Cross _yaxis zaxis)
  let yaxis := V.Cross zaxis xaxis
  let trans := V.MakeInvRotMatrix (V.scaled scale xaxis) (V.scaled scale yaxis)
    (V.scaled scale zaxis)
  ⟨((trans.cell.set 12 pos.x).set 13 pos.y).set 14 pos.z⟩

/-- The entries of its table argument that `define_model` reads; `V` stands for Lua
values. -/
structure ModelDef (V : Type) where
  info : V
  static : V
  dynamic : V

/-- An argument of `define_model` as its checks see it: a string (or number, which
`luaL_checkstring` converts), a table, or something else. -/
inductive LuaArg (V : Type) where
  | string (s : List Byte)
  | table (t : ModelDef V)
  | other

/-- The Lua globals and the registry. -/
structure LuaWorld (V : Type) where
  globals : List (CStr × V)
  s_models : Registry

/-- The name `snprintf(buf, sizeof(buf), "%s<suffix>", model_name)` leaves in `char
buf[256]`. -/
def globalName (model_name suffix : List Byte) : CStr := (cstr model_name ++ suffix).take 255

/-- The three `lua_setglobal` calls of `define_model`: the table's `info`, `static` and
`dynamic` entries become the globals `<name>_info`, `<name>_static`, `<name>_dynamic`. -/
def setModelGlobals {V : Type} (w : LuaWorld V) (model_name : List Byte) (t : ModelDef V) :
    LuaWorld V :=
  let g1 := mapAssign w.globals (globalName model_name [95, 105, 110, 102, 111]) t.info
  let g2 := mapAssign g1 (globalName model_name [95, 115, 116, 97, 116, 105, 99]) t.static
  let g3 := mapAssign g2 (globalName model_name [95, 100, 121, 110, 97, 109, 105, 99])
    t.dynamic
  { w with globals := g3 }

/-- The function `define_model`. `construct` stands for `new LmrModel(model_name)`: it
returns the state the constructor leaves and the new model, or `none` when the constructor
raised a Lua error. -/
def define_model {V : Type} (construct : LuaWorld V → List Byte → LuaWorld V × Option ModelPtr)
    (w : LuaWorld V) (args : List (LuaArg V)) : LuaResult (LuaWorld V) :=
  match args with
  | [a1, a2] =>
    match a1 with
    | LuaArg.string model_name =>
      match a2 with
      | LuaArg.table t =>
        if (w.s_models.lookup (cstr model_name)).isSome then LuaResult.returned w
        else
          match construct (setModelGlobals w model_name t) model_name with
          | (w2, some p) =>
            LuaResult.returned { w2 with s_models := mapAssign w2.s_models (cstr model_name) (some p) }
          | (w2, none) => LuaResult.raised w2
      | _ => LuaResult.raised w
    | _ => LuaResult.raised w
  | _ => LuaResult.raised w

/-- A constructor that builds the model at address 768 and changes nothing else. -/
def sampleConstruct : LuaWorld Nat → List Byte → LuaWorld Nat × Option ModelPtr :=
  fun w model_name => (w, some ⟨768, some (cstr model_name)⟩)

/-! ## Tessellators -/

/-- The arithmetic the tessellators use, on a scalar type `K` (`float` in the program) and
a vector type `V` (`vector3f`): the operators of the language on floats, the functions of
`<math.h>`, and the operators and methods of `vector3f`, whose code is outside this file.
`lit` gives the value of a float literal, `ofInt` is the conversion `float(int)`. -/
structure Arith (K V : Type) where
  add : K → K → K
  sub : K → K → K
  mul : K → K → K
  div : K → K → K
  neg : K → K
  sin : K → K
  cos : K → K
  cosf : K → K
  ofInt : Int → K
  lit : Rat → K
  pi : K
  gt : K → K → Bool
  is_equal_absolute : K → K → K → Bool
  vec : K → K → K → V
  x : V → K
  y : V → K
  z : V → K
  vadd : V → V → V
  vsub : V → V → V
  smul : K → V → V
  vneg : V → V
  Cross : V → V → V
  Normalized : V → V

/-- The statement `v.x = -v.x`. -/
def Arith.mirror {K V : Type} (A : Arith K V) (v : V) : V := A.vec (A.neg (A.x v)) (A.y v) (A.z v)

/-- What a tessellator does to the buffer after `AllocVertices`: a call
`s_curBuf->SetVertex(idx, pos, normal)` or a call `s_curBuf->PushTri(i1, i2, i3)`. -/
inductive Emit (V : Type) where
  | vertex (idx : Int) (pos normal : V)
  | tri (i1 i2 i3 : Int)
deriving DecidableEq, Repr

/-- The build call an emission is. -/
def Emit.toCall : Emit vector3f → BuildCall
  | .vertex idx pos normal => BuildCall.SetVertex2 idx pos normal
  | .tri i1 i2 i3 => BuildCall.PushTri i1 i2 i3

/-- The triangles among the emissions, in order. -/
def trisOf {V : Type} : List (Emit V) → List (Int × Int × Int)
  | [] => []
  | .tri i1 i2 i3 :: es => (i1, i2, i3) :: trisOf es
  | .vertex _ _ _ :: es => trisOf es

/-- The vertex writes among the emissions, in order. -/
def writesOf {V : Type} : List (Emit V) → List (Int × V × V)
  | [] => []
  | .vertex idx pos normal :: es => (idx, pos, normal) :: writesOf es
  | .tri _ _ _ :: es => writesOf es

/-- The values `i` takes in `for (int i = lo; i < hi; i++)`. -/
def forRange (lo hi : Int) : List Int :=
  (List.range (hi - lo).toNat).map (fun (k : Nat) => lo + (k : Int))

/-- The values `(i, ang)` take in `for (int i = ...; i < ...; i++, ang += inc)`, with `n`
rounds to go. -/
def angleSteps {K V : Type} (A : Arith K V) (inc : K) : Nat → Int → K → List (Int × K)
  | 0, _, _ => []
  | n + 1, i, ang => (i, ang) :: angleSteps A inc n (i + 1) (A.add ang inc)

/-- A tessellator run on the buffer: `AllocVertices(num)`, then the emissions, which depend
on the start index returned. `none` when `AllocVertices` throws. -/
def tessellate (mulMV : matrix4x4f → vector3f → vector3f) (s : BuildState) (num : Int)
    (emits : Int → List (Emit vector3f)) : Option BuildState :=
  match s.buf.AllocVertices num with
  | some r => some (runCalls mulMV { s with buf := r.1 } ((emits r.2).map Emit.toCall))
  | none => none

/-- The point `radius * (sin(ang)*axis1 + cos(ang)*axis2)`. -/
def ringPoint {K V : Type} (A : Arith K V) (radius ang : K) (axis1 axis2 : V) : V :=
  A.smul radius (A.vadd (A.smul (A.sin ang) axis1) (A.smul (A.cos ang) axis2))

/-- The two loops of `_circle` after `AllocVertices` returned `vtxStart`. -/
def circleEmits {K V : Type} (A : Arith K V) (vtxStart steps : Int) (center normal updir : V)
    (radius : K) : List (Emit V) :=
  let axis1 := A.Normalized updir
  let axis2 := A.Normalized (A.Cross updir normal)
  let inc := A.div (A.mul (A.lit 2) A.pi) (A.ofInt steps)
  let ang := A.mul (A.lit (1 / 2)) inc
  let radius := A.div radius (A.cosf ang)
  (angleSteps A inc steps.toNat 0 ang).map
      (fun ia => Emit.vertex (vtxStart + ia.1)
        (A.vadd center (ringPoint A radius ia.2 axis1 axis2)) normal) ++
    (forRange 2 steps).map (fun i => Emit.tri vtxStart (vtxStart + i - 1) (vtxStart + i))

/-- The function `_circle`. -/
def _circle (A : Arith GLfloat vector3f) (mulMV : matrix4x4f → vector3f → vector3f)
    (s : BuildState) (steps : Int) (center normal updir : vector3f) (radius : GLfloat) :
    Option BuildState :=
  tessellate mulMV s steps (fun vtxStart => circleEmits A vtxStart steps center normal updir radius)

/-- The indices `PushTri(i1, i2, i3)` stores, in the order it stores them. -/
def storedTri (insideout : Bool) (t : Int × Int × Int) : List Uint16 :=
  if insideout then [toUint16 t.1, toUint16 t.2.2, toUint16 t.2.1]
  else [toUint16 t.1, toUint16 t.2.1, toUint16 t.2.2]

/-- Operations that return their first argument (the literal 0 for the constants), used to
run tessellators on sample inputs; the geometry they give is of no interest, the vertex
and index structure is. -/
def sampleArith : Arith GLfloat vector3f where
  add := fun a _ => a
  sub := fun a _ => a
  mul := fun a _ => a
  div := fun a _ => a
  neg := fun a => -a
  sin := fun a => a
  cos := fun a => a
  cosf := fun a => a
  ofInt := fun _ => GLfloat.zero
  lit := fun _ => GLfloat.zero
  pi := GLfloat.zero
  gt := GLfloat.gt
  is_equal_absolute := fun a b _ => decide (a = b)
  vec := fun x y z => ⟨x, y, z⟩
  x := fun v => v.x
  y := fun v => v.y
  z := fun v => v.z
  vadd := fun a _ => a
  vsub := fun a _ => a
  smul := fun _ v => v
  vneg := fun v => -v
  Cross := fun a _ => a
  Normalized := fun a => a

/-! ## Materials, flags, flat primitives -/

/-- The float literal `100.0f`. -/
def GLfloat.hundred : GLfloat := ⟨0x42C80000⟩

/-- The method `LmrGeomBuffer::SetMaterial(mat_name, mat)`, `mat` holding the 11 floats:
`none` stands for the failure path (`luaL_error`, then `exit(0)`). `m_materials[idx]`
outside the vector is undefined in C++; no store is made then. -/
def SetMaterial (m : ModelTables) (mat_name : List Byte) (mat : List GLfloat) :
    Option ModelTables :=
  match m.m_materialLookup.lookup (cstr mat_name) with
  | some idx =>
    let at_ : Nat → GLfloat := fun k => mat.getD k GLfloat.zero
    let mt : LmrMaterial :=
      ⟨[at_ 0, at_ 1, at_ 2, at_ 3], [at_ 4, at_ 5, at_ 6, GLfloat.one],
       [at_ 8, at_ 9, at_ 10, GLfloat.one], LmrGeomBuffer.Clamp (at_ 7) GLfloat.one GLfloat.hundred⟩
    if 0 ≤ idx then some { m with m_materials := m.m_materials.set idx.toNat mt } else some m
  | none => none

/-- The value of the last `SetGeomFlag` call in a sequence of calls, if there is one (the
specification's side of `GetGeomFlag`). -/
def lastGeomFlag : List BuildCall → Option Uint16
  | [] => none
  | c :: cs =>
    match lastGeomFlag cs with
    | some f => some f
    | none =>
      match c with
      | BuildCall.SetGeomFlag f => some f
      | _ => none

/-- The normal `(v1-v2).Cross(v1-v3).Normalized()` of `tri` and `quad`. -/
def faceNormal {K V : Type} (A : Arith K V) (v1 v2 v3 : V) : V :=
  A.Normalized (A.Cross (A.vsub v1 v2) (A.vsub v1 v3))

/-- The statement `v.x = -v.x` on a `vector3f`. -/
def mirrorX (v : vector3f) : vector3f := ⟨-v.x, v.y, v.z⟩

/-- The binding `ModelFuncs::tri`, called with three vectors. -/
def tri (A : Arith GLfloat vector3f) (mulMV : matrix4x4f → vector3f → vector3f)
    (b : LmrGeomBuffer) (v1 v2 v3 : vector3f) : LmrGeomBuffer :=
  let n := faceNormal A v1 v2 v3
  let r1 := b.PushVertex2 mulMV v1 n
  let r2 := r1.1.PushVertex2 mulMV v2 n
  let r3 := r2.1.PushVertex2 mulMV v3 n
  r3.1.PushTri r1.2 r2.2 r3.2

/-- The vertex the two-argument `PushVertex` stores with the inside-out mode off. -/
def plainVertex (mulMV : matrix4x4f → vector3f → vector3f) (b : LmrGeomBuffer)
    (pos normal : vector3f) : Vertex :=
  ⟨pos, normal, (mulMV b.curTexMatrix pos).x, (mulMV b.curTexMatrix pos).y⟩

/-! ## Solids of revolution, extrusions and Bezier triangles -/

/-- The expression `2.0f*M_PI / float(steps)`. -/
def angleInc {K V : Type} (A : Arith K V) (steps : Int) : K :=
  A.div (A.mul (A.lit 2) A.pi) (A.ofInt steps)

/-- The side-wall triangles between the ring of `steps` vertices at `base` and the ring at
`base + steps`: the loop over `i < steps-1` and the two closing triangles. -/
def wallTris {V : Type} (base steps : Int) : List (Emit V) :=
  (forRange 0 (steps - 1)).flatMap (fun i =>
    [Emit.tri (base + i) (base + i + 1) (base + i + steps),
     Emit.tri (base + i + 1) (base + i + steps + 1) (base + i + steps)]) ++
  [Emit.tri (base + steps - 1) base (base + 2 * steps - 1),
   Emit.tri base (base + steps) (base + 2 * steps - 1)]

/-- The cap loop of `_cylinder` and `_tapered_cylinder`. -/
def capTris {V : Type} (vtxStart steps : Int) : List (Emit V) :=
  (forRange 2 steps).flatMap (fun i =>
    [Emit.tri (vtxStart + 2 * steps) (vtxStart + 2 * steps + i) (vtxStart + 2 * steps + i - 1),
     Emit.tri (vtxStart + 3 * steps) (vtxStart + 3 * steps + i - 1) (vtxStart + 3 * steps + i)])

/-- The loops of `_ring` after `AllocVertices(2*steps)`. -/
def ringEmits {K V : Type} (A : Arith K V) (vtxStart steps : Int) (start end_ updir : V)
    (radius : K) : List (Emit V) :=
  let dir := A.Normalized (A.vsub end_ start)
  let axis1 := A.Normalized updir
  let axis2 := A.Normalized (A.Cross updir dir)
  let inc := angleInc A steps
  let ang := A.mul (A.lit (1 / 2)) inc
  let radius := A.div radius (A.cosf ang)
  (angleSteps A inc steps.toNat 0 ang).flatMap (fun ia =>
    let p := ringPoint A radius ia.2 axis1 axis2
    let n := A.Normalized p
    [Emit.vertex (vtxStart + ia.1) (A.vadd start p) n,
     Emit.vertex (vtxStart + ia.1 + steps) (A.vadd end_ p) n]) ++
  wallTris vtxStart steps

/-- The loops of `_cylinder` after `AllocVertices(4*steps)`. -/
def cylinderEmits {K V : Type} (A : Arith K V) (vtxStart steps : Int) (start end_ updir : V)
    (radius : K) : List (Emit V) :=
  let dir := A.Normalized (A.vsub end_ start)
  let axis1 := A.Normalized updir
  let axis2 := A.Normalized (A.Cross updir dir)
  let inc := angleInc A steps
  let ang := A.mul (A.lit (1 / 2)) inc
  let radius := A.div radius (A.cosf ang)
  (angleSteps A inc steps.toNat 0 ang).flatMap (fun ia =>
    let p := ringPoint A radius ia.2 axis1 axis2
    let n := A.Normalized p
    [Emit.vertex (vtxStart + ia.1) (A.vadd start p) n,
     Emit.vertex (vtxStart + ia.1 + steps) (A.vadd end_ p) n,
     Emit.vertex (vtxStart + ia.1 + 2 * steps) (A.vadd start p) (A.vneg dir),
     Emit.vertex (vtxStart + ia.1 + 3 * steps) (A.vadd end_ p) dir]) ++
  wallTris vtxStart steps ++ capTris vtxStart steps

/-- The loops of `_tapered_cylinder` after `AllocVertices(4*steps)`. -/
def taperedCylinderEmits {K V : Type} (A : Arith K V) (vtxStart steps : Int)
    (start end_ updir : V) (radius1 radius2 : K) : List (Emit V) :=
  let dir := A.Normalized (A.vsub end_ start)
  let axis1 := A.Normalized updir
  let axis2 := A.Normalized (A.Cross updir dir)
  let inc := angleInc A steps
  let ang := A.mul (A.lit (1 / 2)) inc
  let radius1 := A.div radius1 (A.cosf ang)
  let radius2 := A.div radius2 (A.cosf ang)
  (angleSteps A inc steps.toNat 0 ang).flatMap (fun ia =>
    let p1 := ringPoint A radius1 ia.2 axis1 axis2
    let p2 := ringPoint A radius2 ia.2 axis1 axis2
    let tmp := A.vsub (A.vadd end_ p2) (A.vadd start p1)
    let n := A.Normalized (A.Cross (A.Cross tmp p1) tmp)
    [Emit.vertex (vtxStart + ia.1) (A.vadd start p1) n,
     Emit.vertex (vtxStart + ia.1 + steps) (A.vadd end_ p2) n,
     Emit.vertex (vtxStart + ia.1 + 2 * steps) (A.vadd start p1) (A.vneg dir),
     Emit.vertex (vtxStart + ia.1 + 3 * steps) (A.vadd end_ p2) dir]) ++
  wallTris vtxStart steps ++ capTris vtxStart steps

/-- The loops of `_tube` after `AllocVertices(8*steps)`. -/
def tubeEmits {K V : Type} (A : Arith K V) (vtxStart steps : Int) (start end_ updir : V)
    (inner_radius outer_radius : K) : List (Emit V) :=
  let dir := A.Normalized (A.vsub end_ start)
  let axis1 := A.Normalized updir
  let axis2 := A.Normalized (A.Cross updir dir)
  let inc := angleInc A steps
  let ang := A.mul (A.lit (1 / 2)) inc
  let radmod := A.div (A.lit 1) (A.cosf ang)
  let inner_radius := A.mul inner_radius radmod
  let outer_radius := A.mul outer_radius radmod
  (angleSteps A inc steps.toNat 0 ang).flatMap (fun ia =>
    let p := A.vadd (A.smul (A.sin ia.2) axis1) (A.smul (A.cos ia.2) axis2)
    let p_inner := A.smul inner_radius p
    let p_outer := A.smul outer_radius p
    [Emit.vertex (vtxStart + ia.1) (A.vadd start p_outer) p,
     Emit.vertex (vtxStart + ia.1 + steps) (A.vadd end_ p_outer) p,
     Emit.vertex (vtxStart + ia.1 + 2 * steps) (A.vadd start p_inner) (A.vneg p),
     Emit.vertex (vtxStart + ia.1 + 3 * steps) (A.vadd end_ p_inner) (A.vneg p),
     Emit.vertex (vtxStart + ia.1 + 4 * steps) (A.vadd start p_outer) (A.vneg dir),
     Emit.vertex (vtxStart + ia.1 + 5 * steps) (A.vadd end_ p_outer) dir,
     Emit.vertex (vtxStart + ia.1 + 6 * steps) (A.vadd start p_inner) (A.vneg dir),
     Emit.vertex (vtxStart + ia.1 + 7 * steps) (A.vadd end_ p_inner) dir]) ++
  (forRange 0 (steps - 1)).flatMap (fun i =>
    [Emit.tri (vtxStart + i) (vtxStart + i + 1) (vtxStart + i + steps),
     Emit.tri (vtxStart + i + 1) (vtxStart + i + steps + 1) (vtxStart + i + steps),
     Emit.tri (vtxStart + i + 2 * steps) (vtxStart + i + steps + 2 * steps)
       (vtxStart + i + 1 + 2 * steps),
     Emit.tri (vtxStart + i + 1 + 2 * steps) (vtxStart + i + steps + 2 * steps)
       (vtxStart + i + steps + 1 + 2 * steps)]) ++
  [Emit.tri (vtxStart + steps - 1) vtxStart (vtxStart + 2 * steps - 1),
   Emit.tri vtxStart (vtxStart + steps) (vtxStart + 2 * steps - 1),
   Emit.tri (vtxStart + 3 * steps - 1) (vtxStart + 4 * steps - 1) (vtxStart + 2 * steps),
   Emit.tri (vtxStart + 2 * steps) (vtxStart + 4 * steps - 1) (vtxStart + 3 * steps)] ++
  (forRange 0 (steps - 1)).flatMap (fun i =>
    [Emit.tri (vtxStart + 4 * steps + i) (vtxStart + 6 * steps + i) (vtxStart + 4 * steps + i + 1),
     Emit.tri (vtxStart + 4 * steps + i + 1) (vtxStart + 6 * steps + i)
       (vtxStart + 6 * steps + i + 1),
     Emit.tri (vtxStart + 5 * steps + i) (vtxStart + 5 * steps + i + 1) (vtxStart + 7 * steps + i),
     Emit.tri (vtxStart + 5 * steps + i + 1) (vtxStart + 7 * steps + i + 1)
       (vtxStart + 7 * steps + i)]) ++
  [Emit.tri (vtxStart + 5 * steps - 1) (vtxStart + 7 * steps - 1) (vtxStart + 4 * steps),
   Emit.tri (vtxStart + 4 * steps) (vtxStart + 7 * steps - 1) (vtxStart + 6 * steps),
   Emit.tri (vtxStart + 6 * steps - 1) (vtxStart + 5 * steps) (vtxStart + 8 * steps - 1),
   Emit.tri (vtxStart + 5 * steps) (vtxStart + 7 * steps) (vtxStart + 8 * steps - 1)]

/-- The indices of a triangle passed to `PushTri` all lie in `lo .. hi-1`. -/
def triWithin (lo hi : Int) (t : Int × Int × Int) : Prop :=
  (lo ≤ t.1 ∧ t.1 < hi) ∧ (lo ≤ t.2.1 ∧ t.2.1 < hi) ∧ (lo ≤ t.2.2 ∧ t.2.2 < hi)

instance triWithin.dec (lo hi : Int) (t : Int × Int × Int) : Decidable (triWithin lo hi t) := by
  unfold triWithin; exact inferInstance

/-- One round of the outer loop of `lathe`, for the pair that starts at `jizz[i]`. -/
def latheSegment {K V : Type} (A : Arith K V) (vtxStart steps : Int) (start end_ updir : V)
    (jizz : List K) (i : Int) : List (Emit V) :=
  let dir := A.Normalized (A.vsub end_ start)
  let axis1 := A.Normalized updir
  let axis2 := A.Normalized (A.Cross updir dir)
  let inc := angleInc A steps
  let radmod := A.div (A.lit 1) (A.cosf (A.mul (A.lit (1 / 2)) inc))
  let at_ : Int → K := fun k => jizz.getD k.toNat (A.lit 0)
  let rad1 := A.mul (at_ (i + 1)) radmod
  let rad2 := A.mul (at_ (i + 3)) radmod
  let _start := A.vadd start (A.smul (at_ i) (A.vsub end_ start))
  let _end := A.vadd start (A.smul (at_ (i + 2)) (A.vsub end_ start))
  let shitty_normal := A.is_equal_absolute (at_ i) (at_ (i + 2)) (A.lit (1 / 10000))
  let basevtx := vtxStart + steps * i
  (angleSteps A inc steps.toNat 0 (A.mul (A.lit (1 / 2)) inc)).flatMap (fun ja =>
    let p1 := ringPoint A rad1 ja.2 axis1 axis2
    let p2 := ringPoint A rad2 ja.2 axis1 axis2
    let tmp := A.vsub (A.vadd _end p2) (A.vadd _start p1)
    let n := if shitty_normal then (if A.gt rad1 rad2 then dir else A.vneg dir)
             else A.Normalized (A.Cross (A.Cross tmp p1) tmp)
    [Emit.vertex (basevtx + ja.1) (A.vadd _start p1) n,
     Emit.vertex (basevtx + steps + ja.1) (A.vadd _end p2) n]) ++
  wallTris basevtx steps

/-- The call `s_curBuf->GetVertex(k)` during a tessellation: the position last written to
slot `k` by the emissions so far, the zero vector of `Vertex()` when there is none. -/
def getVertex {K V : Type} (A : Arith K V) (es : List (Emit V)) (k : Int) : V :=
  match (writesOf es).reverse.find? (fun w => decide (w.1 = k)) with
  | some w => w.2.1
  | none => A.vec (A.lit 0) (A.lit 0) (A.lit 0)

/-- One round of the side loop of `extrusion`; `es` holds the emissions made so far. -/
def extrusionSide {K V : Type} (A : Arith K V) (vtxStart steps : Int) (es : List (Emit V))
    (i : Int) : List (Emit V) :=
  let v1 := getVertex A es (vtxStart + i)
  let v2 := getVertex A es (vtxStart + (i + 1) % steps)
  let v3 := getVertex A es (vtxStart + i + steps)
  let v4 := getVertex A es (vtxStart + (i + 1) % steps + steps)
  let norm := A.Normalized (A.Cross (A.vsub v2 v1) (A.vsub v3 v1))
  let idx := vtxStart + 2 * steps + i * 4
  [Emit.vertex idx v1 norm, Emit.vertex (idx + 1) v2 norm,
   Emit.vertex (idx + 2) v3 norm, Emit.vertex (idx + 3) v4 norm,
   Emit.tri idx (idx + 1) (idx + 3), Emit.tri idx (idx + 3) (idx + 2)]

/-- The side loop of `extrusion` over the values of `i` still to come; `es` holds the
emissions made so far. -/
def extrusionSides {K V : Type} (A : Arith K V) (vtxStart steps : Int) :
    List Int → List (Emit V) → List (Emit V)
  | [], es => es
  | i :: is, es => extrusionSides A vtxStart steps is (es ++ extrusionSide A vtxStart steps es i)

/-- The offset `p1` of outline point `i` in `extrusion`. -/
def extrusionOffset {K V : Type} (A : Arith K V) (start end_ updir : V) (radius : K)
    (evtx : List V) (i : Int) : V :=
  let yax := updir
  let zax := A.Normalized (A.vsub end_ start)
  let xax := A.Cross yax zax
  let e := evtx.getD i.toNat (A.vec (A.lit 0) (A.lit 0) (A.lit 0))
  let tv := A.smul (A.x e) xax
  let norm := A.smul (A.y e) yax
  let norm := A.vadd norm tv
  A.smul radius norm

/-- The first loop of `extrusion`. -/
def extrusionEnds {K V : Type} (A : Arith K V) (vtxStart : Int) (start end_ updir : V)
    (radius : K) (evtx : List V) : List (Emit V) :=
  let steps : Int := evtx.length
  let zax := A.Normalized (A.vsub end_ start)
  (forRange 0 steps).flatMap (fun i =>
    let p1 := extrusionOffset A start end_ updir radius evtx i
    [Emit.vertex (vtxStart + i) (A.vadd start p1) (A.vneg zax),
     Emit.vertex (vtxStart + i + steps) (A.vadd end_ p1) zax])

/-- The cap loop of `extrusion`. -/
def extrusionCaps {V : Type} (vtxStart steps : Int) : List (Emit V) :=
  (forRange 0 (steps - 1)).flatMap (fun i =>
    [Emit.tri vtxStart (vtxStart + i + 1) (vtxStart + i),
     Emit.tri (vtxStart + steps) (vtxStart + steps + i) (vtxStart + steps + i + 1)])

/-- The quad of outline edge `i` written out: the four corners are the start and end
positions of outline points `i` and `(i+1) mod steps`, the normal is the same for all
four. -/
def sideQuad {K V : Type} (A : Arith K V) (vtxStart : Int) (start end_ updir : V)
    (radius : K) (evtx : List V) (i : Int) : List (Emit V) :=
  let steps : Int := evtx.length
  let v1 := A.vadd start (extrusionOffset A start end_ updir radius evtx i)
  let v2 := A.vadd start (extrusionOffset A start end_ updir radius evtx ((i + 1) % steps))
  let v3 := A.vadd end_ (extrusionOffset A start end_ updir radius evtx i)
  let v4 := A.vadd end_ (extrusionOffset A start end_ updir radius evtx ((i + 1) % steps))
  let norm := A.Normalized (A.Cross (A.vsub v2 v1) (A.vsub v3 v1))
  let idx := vtxStart + 2 * steps + i * 4
  [Emit.vertex idx v1 norm, Emit.vertex (idx + 1) v2 norm,
   Emit.vertex (idx + 2) v3 norm, Emit.vertex (idx + 3) v4 norm,
   Emit.tri idx (idx + 1) (idx + 3), Emit.tri idx (idx + 3) (idx + 2)]

/-- The loops of `extrusion` after `AllocVertices(6*steps)`; `evtx` holds the `steps`
outline points. -/
def extrusionEmits {K V : Type} (A : Arith K V) (vtxStart : Int) (start end_ updir : V)
    (radius : K) (evtx : List V) : List (Emit V) :=
  let steps : Int := evtx.length
  extrusionSides A vtxStart steps (forRange 0 steps)
    (extrusionEnds A vtxStart start end_ updir radius evtx ++ extrusionCaps vtxStart steps)

/-- The binding `ModelFuncs::extrusion`, called with three vectors, a number and the
outline points (`EXTRUSION_MAX_VTX` is 32). -/
def extrusion (A : Arith GLfloat vector3f) (mulMV : matrix4x4f → vector3f → vector3f)
    (s : BuildState) (start end_ updir : vector3f) (radius : GLfloat) (points : List vector3f) :
    LuaResult BuildState :=
  let steps : Int := points.length
  if steps > 32 then LuaResult.raised s
  else
    match tessellate mulMV s (6 * steps)
        (fun vtxStart => extrusionEmits A vtxStart start end_ updir radius points) with
    | some s' => LuaResult.returned s'
    | none => LuaResult.raised s

/-- The loop `for (i...) out += p[i] * coef[i]` started from `out(0.0f)`. -/
def weightedSum {K V : Type} (A : Arith K V) (p : List V) (coef : List K) : V :=
  (List.zip p coef).foldl (fun out pc => A.vadd out (A.smul pc.2 pc.1))
    (A.vec (A.lit 0) (A.lit 0) (A.lit 0))

/-- The function `eval_quadric_bezier_triangle`. -/
def eval_quadric_bezier_triangle {K V : Type} (A : Arith K V) (p : List V) (s t u : K) : V :=
  weightedSum A (p.take 6)
    [A.mul s s, A.mul (A.mul (A.lit 2) s) t, A.mul t t, A.mul (A.mul (A.lit 2) s) u,
     A.mul (A.mul (A.lit 2) t) u, A.mul u u]

/-- The function `eval_cubic_bezier_triangle`. -/
def eval_cubic_bezier_triangle {K V : Type} (A : Arith K V) (p : List V) (s t u : K) : V :=
  weightedSum A (p.take 10)
    [A.mul (A.mul s s) s, A.mul (A.mul (A.mul (A.lit 3) s) s) t,
     A.mul (A.mul (A.mul (A.lit 3) s) t) t, A.mul (A.mul t t) t,
     A.mul (A.mul (A.mul (A.lit 3) s) s) u, A.mul (A.mul (A.mul (A.lit 6) s) t) u,
     A.mul (A.mul (A.mul (A.lit 3) t) t) u, A.mul (A.mul (A.mul (A.lit 3) s) u) u,
     A.mul (A.mul (A.mul (A.lit 3) t) u) u, A.mul (A.mul u u) u]

/-- The macro `ICOSX`, `0.525731112119133f`. -/
def ICOSX : GLfloat := ⟨0x3F069650⟩

/-- The macro `ICOSZ`, `0.850650808352039f`. -/
def ICOSZ : GLfloat := ⟨0x3F59C440⟩

/-- The table `icosahedron_vertices`. -/
def icosahedron_vertices : List vector3f :=
  [⟨-ICOSX, GLfloat.zero, ICOSZ⟩, ⟨ICOSX, GLfloat.zero, ICOSZ⟩,
   ⟨-ICOSX, GLfloat.zero, -ICOSZ⟩, ⟨ICOSX, GLfloat.zero, -ICOSZ⟩,
   ⟨GLfloat.zero, ICOSZ, ICOSX⟩, ⟨GLfloat.zero, ICOSZ, -ICOSX⟩,
   ⟨GLfloat.zero, -ICOSZ, ICOSX⟩, ⟨GLfloat.zero, -ICOSZ, -ICOSX⟩,
   ⟨ICOSZ, ICOSX, GLfloat.zero⟩, ⟨-ICOSZ, ICOSX, GLfloat.zero⟩,
   ⟨ICOSZ, -ICOSX, GLfloat.zero⟩, ⟨-ICOSZ, -ICOSX, GLfloat.zero⟩]

/-- The table `icosahedron_faces`. -/
def icosahedron_faces : List (Nat × Nat × Nat) :=
  [(0, 4, 1), (0, 9, 4), (9, 5, 4), (4, 5, 8), (4, 8, 1),
   (8, 10, 1), (8, 3, 10), (5, 3, 8), (5, 2, 3), (2, 7, 3),
   (7, 10, 3), (7, 6, 10), (7, 11, 6), (11, 0, 6), (0, 1, 6),
   (6, 1, 10), (9, 0, 11), (9, 11, 2), (9, 2, 5), (7, 2, 11)]

/-- The function `_sphere_subdivide` on the buffer `s_curBuf` points at. `depth` is the
`int` of the source, which the recursion counts down without a lower bound; `fuel` bounds
the number of nested calls, and `none` stands for a run that needs more. The products
`trans * v` and `trans.ApplyRotationOnly(v)` are the parameters `mulMV` and `rotate`. -/
def _sphere_subdivide (A : Arith GLfloat vector3f) (mulMV : matrix4x4f → vector3f → vector3f)
    (rotate : matrix4x4f → vector3f → vector3f) (trans : matrix4x4f) :
    Nat → LmrGeomBuffer → vector3f → vector3f → vector3f → Int → Int → Int → Int →
      Option LmrGeomBuffer
  | 0, _, _, _, _, _, _, _, _ => none
  | fuel + 1, b, v1, v2, v3, i1, i2, i3, depth =>
    if depth = 0 then some (b.PushTri i1 i3 i2)
    else
      let v12 := A.Normalized (A.vadd v1 v2)
      let v23 := A.Normalized (A.vadd v2 v3)
      let v31 := A.Normalized (A.vadd v3 v1)
      let r12 := b.PushVertex2 mulMV (mulMV trans v12) (rotate trans v12)
      let r23 := r12.1.PushVertex2 mulMV (mulMV trans v23) (rotate trans v23)
      let r31 := r23.1.PushVertex2 mulMV (mulMV trans v31) (rotate trans v31)
      match _sphere_subdivide A mulMV rotate trans fuel r31.1 v1 v12 v31 i1 r12.2 r31.2
          (depth - 1) with
      | none => none
      | some b1 =>
        match _sphere_subdivide A mulMV rotate trans fuel b1 v2 v23 v12 i2 r23.2 r12.2
            (depth - 1) with
        | none => none
        | some b2 =>
          match _sphere_subdivide A mulMV rotate trans fuel b2 v3 v31 v23 i3 r31.2 r23.2
              (depth - 1) with
          | none => none
          | some b3 =>
            _sphere_subdivide A mulMV rotate trans fuel b3 v12 v23 v31 r12.2 r23.2 r31.2
              (depth - 1)

/-- The function `_get_orientation`: the identity when the argument is absent or nil. -/
def _get_orientation (transform : Option matrix4x4f) : matrix4x4f :=
  match transform with
  | none => matrix4x4f.Identity
  | some m => m

/-- The first loop of `sphere`: the vertices are pushed and their indices collected in
`vi`. -/
def pushIcosahedron (mulMV : matrix4x4f → vector3f → vector3f)
    (rotate : matrix4x4f → vector3f → vector3f) (trans : matrix4x4f) :
    LmrGeomBuffer → List vector3f → LmrGeomBuffer × List Int
  | b, [] => (b, [])
  | b, v :: vs =>
    let r := b.PushVertex2 mulMV (mulMV trans v) (rotate trans v)
    let rest := pushIcosahedron mulMV rotate trans r.1 vs
    (rest.1, r.2 :: rest.2)

/-- The second loop of `sphere` over the faces still to come. -/
def sphereFaces (A : Arith GLfloat vector3f) (mulMV : matrix4x4f → vector3f → vector3f)
    (rotate : matrix4x4f → vector3f → vector3f) (trans : matrix4x4f) (fuel : Nat)
    (vi : List Int) (subdivs : Int) : LmrGeomBuffer → List (Nat × Nat × Nat) →
      Option LmrGeomBuffer
  | b, [] => some b
  | b, f :: fs =>
    match _sphere_subdivide A mulMV rotate trans fuel b
        (icosahedron_vertices.getD f.1 vector3f.zero)
        (icosahedron_vertices.getD f.2.1 vector3f.zero)
        (icosahedron_vertices.getD f.2.2 vector3f.zero)
        (vi.getD f.1 0) (vi.getD f.2.1 0) (vi.getD f.2.2 0) subdivs with
    | none => none
    | some b1 => sphereFaces A mulMV rotate trans fuel vi subdivs b1 fs

/-- The binding `ModelFuncs::sphere`, called with an integer and an optional matrix.
`none` stands for a run that needs more than `fuel` nested calls of
`_sphere_subdivide`. -/
def sphere (A : Arith GLfloat vector3f) (mulMV : matrix4x4f → vector3f → vector3f)
    (rotate : matrix4x4f → vector3f → vector3f) (fuel : Nat) (b : LmrGeomBuffer)
    (subdivs : Int) (transform : Option matrix4x4f) : Option (LuaResult LmrGeomBuffer) :=
  if subdivs < 0 ∨ subdivs > 4 then some (LuaResult.raised b)
  else
    let trans := _get_orientation transform
    let r := pushIcosahedron mulMV rotate trans b icosahedron_vertices
    match sphereFaces A mulMV rotate trans fuel r.2 subdivs r.1 icosahedron_faces with
    | none => none
    | some b1 => some (LuaResult.returned b1)

/-! ## Exact arithmetic -/

/-- A vector of three coordinates, as `vector3<T>` is. -/
structure Vec3 (K : Type) where
  x : K
  y : K
  z : K

/-- The vector `(0, 0, 0)`. -/
def Vec3.zero {K : Type} [Zero K] : Vec3 K := ⟨0, 0, 0⟩

/-- The sum of the squares of the coordinates. -/
def Vec3.normSq {K : Type} [Add K] [Mul K] (v : Vec3 K) : K := v.x * v.x + v.y * v.y + v.z * v.z

/-- The difference of two vectors. -/
def Vec3.minus {K : Type} [Sub K] (a b : Vec3 K) : Vec3 K := ⟨a.x - b.x, a.y - b.y, a.z - b.z⟩

/-- The cross product of two vectors. -/
def Vec3.cross {K : Type} [Sub K] [Mul K] (a b : Vec3 K) : Vec3 K :=
  ⟨a.y * b.z - a.z * b.y, a.z * b.x - a.x * b.z, a.x * b.y - a.y * b.x⟩

/-- Modelled from the spec: the operations of `float` and of `vector3f` (which is declared
outside this file) read in exact real arithmetic. The scalar operations are those of the
reals, `M_PI` is pi, `float(i)` and the literals are the numbers they denote, the vector
operations work coordinate by coordinate, `Cross` is the cross product and `Normalized`
multiplies each coordinate by `1 / sqrt(x*x + y*y + z*z)`. The two comparisons are left
open: no position depends on them. -/
structure Arith.Exact (A : Arith ℝ (Vec3 ℝ)) : Prop where
  add_eq : ∀ a b, A.add a b = a + b
  sub_eq : ∀ a b, A.sub a b = a - b
  mul_eq : ∀ a b, A.mul a b = a * b
  div_eq : ∀ a b, A.div a b = a / b
  neg_eq : ∀ a, A.neg a = -a
  sin_eq : ∀ a, A.sin a = Real.sin a
  cos_eq : ∀ a, A.cos a = Real.cos a
  cosf_eq : ∀ a, A.cosf a = Real.cos a
  ofInt_eq : ∀ i : Int, A.ofInt i = (i : ℝ)
  lit_eq : ∀ q : Rat, A.lit q = (q : ℝ)
  pi_eq : A.pi = Real.pi
  vec_eq : ∀ a b c, A.vec a b c = ⟨a, b, c⟩
  x_eq : ∀ v, A.x v = v.x
  y_eq : ∀ v, A.y v = v.y
  z_eq : ∀ v, A.z v = v.z
  vadd_eq : ∀ a b, A.vadd a b = ⟨a.x + b.x, a.y + b.y, a.z + b.z⟩
  vsub_eq : ∀ a b, A.vsub a b = a.minus b
  smul_eq : ∀ k v, A.smul k v = ⟨k * v.x, k * v.y, k * v.z⟩
  vneg_eq : ∀ v, A.vneg v = ⟨-v.x, -v.y, -v.z⟩
  Cross_eq : ∀ a b, A.Cross a b = a.cross b
  Normalized_eq : ∀ v, A.Normalized v =
    ⟨v.x * (1 / Real.sqrt v.normSq), v.y * (1 / Real.sqrt v.normSq),
     v.z * (1 / Real.sqrt v.normSq)⟩

/-- The point `p` lies at distance `d` from the point `c`. -/
def atDistance (p c : Vec3 ℝ) (d : ℝ) : Prop := Real.sqrt (p.minus c).normSq = d

/-- Every vertex written to the `steps` slots from `lo` on lies at distance `d` from
`c`. -/
def ringAt (ws : List (Int × Vec3 ℝ × Vec3 ℝ)) (lo steps : Int) (c : Vec3 ℝ) (d : ℝ) : Prop :=
  ∀ w ∈ ws, lo ≤ w.1 → w.1 < lo + steps → atDistance w.2.1 c d

/-- The binding `xref_circle`: `_circle`, then `_circle` again with the x coordinate of
`center`, `normal` and `updir` negated. -/
def xref_circle (A : Arith GLfloat vector3f) (mulMV : matrix4x4f → vector3f → vector3f)
    (s : BuildState) (steps : Int) (center normal updir : vector3f) (radius : GLfloat) :
    Option BuildState :=
  match _circle A mulMV s steps center normal updir radius with
  | some s1 => _circle A mulMV s1 steps (mirrorX center) (mirrorX normal) (mirrorX updir) radius
  | none => none

/-- The emissions of the two `_circle` calls of `xref_circle`, the first of which gets the
block at `vtxStart`. -/
def xrefCircleEmits {K V : Type} (A : Arith K V) (vtxStart steps : Int)
    (center normal updir : V) (radius : K) : List (Emit V) × List (Emit V) :=
  (circleEmits A vtxStart steps center normal updir radius,
   circleEmits A (vtxStart + steps) steps (A.mirror center) (A.mirror normal) (A.mirror updir)
     radius)

/-! ## Shaders, lights, registry look-up, construction metadata -/

/-- The struct `ShaderKey`. -/
structure ShaderKey where
  pointLighting : Bool
  texture : Bool
  glowmap : Bool
  numlights : Nat
deriving DecidableEq, Repr

/-- The function `CreateShader(key)` as far as its two `assert`s go: it aborts when one of
them fails, else the new program is entered in `s_shaders` under `key`. -/
def CreateShader (s_shaders : List ShaderKey) (key : ShaderKey) : Outcome (List ShaderKey) :=
  if ¬ (key.numlights > 0 ∧ key.numlights < 5) then Outcome.fault Fault.abort
  else if key.glowmap ∧ ¬ key.texture then Outcome.fault Fault.abort
  else Outcome.ok (s_shaders ++ [key])

/-- The function `ApplyShader()`: nothing without shaders; else the program for
`s_shaderKey` is looked up in `s_shaders` and created when it is not there. -/
def ApplyShader (shadersEnabled : Bool) (s_shaders : List ShaderKey) (s_shaderKey : ShaderKey) :
    Outcome (List ShaderKey) :=
  if ¬ shadersEnabled then Outcome.ok s_shaders
  else if s_shaderKey ∈ s_shaders then Outcome.ok s_shaders
  else CreateShader s_shaders s_shaderKey

/-- The shader part of `case OP_DRAW_ELEMENTS` in `Render`:
`s_shaderKey.texture = (op.elems.textureFile != 0); s_shaderKey.glowmap =
(op.elems.glowmapFile != 0); ApplyShader();`. -/
def drawElementsShader (shadersEnabled : Bool) (s_shaders : List ShaderKey)
    (s_shaderKey : ShaderKey) (e : Elems) : Outcome (List ShaderKey) :=
  ApplyShader shadersEnabled s_shaders
    { s_shaderKey with texture := e.textureFile.isSome, glowmap := e.glowmapFile.isSome }

/-- The binding `ModelFuncs::set_light`, called with an integer, a number and two
vectors. -/
def set_light (s : BuildState) (arg1 : Int) (quadratic_attenuation : GLfloat)
    (pos col : vector3f) : LuaResult BuildState :=
  let num := arg1 - 1
  if num < 0 ∨ num > 3 then LuaResult.raised s
  else LuaResult.returned { s with model := SetLight s.model num quadratic_attenuation pos col }

/-- The binding `ModelFuncs::use_light`, called with an integer. -/
def use_light (s : BuildState) (arg1 : Int) : LuaResult BuildState :=
  let num := arg1 - 1
  LuaResult.returned { s with buf := s.buf.PushUseLight num }

/-- The first statements of `case OP_USE_LIGHT` in `Render`:
`if (m_lights.size() <= unsigned(op.light.num)) m_lights.resize(op.light.num+1);
LmrLight &l = m_lights[op.light.num];`. `resize` with a negative count throws; an index
outside the vector is undefined. -/
def renderUseLight (m : ModelTables) (num : Int) : Outcome ModelTables :=
  let ls : Option (List LmrLight) :=
    if (m.m_lights.length : Int) ≤ num % 4294967296 then
      (if 0 ≤ num + 1 then some (resizeLights m.m_lights (num + 1).toNat) else none)
    else some m.m_lights
  match ls with
  | none => Outcome.fault Fault.exception
  | some l =>
    if 0 ≤ num ∧ num < (l.length : Int) then Outcome.ok { m with m_lights := l }
    else Outcome.fault Fault.undefined

/-- The function `LmrLookupModelByName(name)`: it throws when `find` gives the end of the
map, else returns the pointer stored. -/
def LmrLookupModelByName (reg : Registry) (name : List Byte) : Outcome (Option ModelPtr) :=
  match reg.lookup (cstr name) with
  | none => Outcome.fault Fault.exception
  | some p => Outcome.ok p

/-- The binding `ModelFuncs::get_arg_material`, called with an integer. `s_curParams` is
`none` for a null pointer, else the array `pMat` of the parameter block, whose length is
`COUNTOF(s_curParams->pMat)`. `ok none` stands for the Lua error, `ok (some t)` for the
table returned, with the value of key `k` at position `k-1`; reading `pMat[n]` outside the
array is undefined. -/
def get_arg_material (s_curParams : Option (List LmrMaterial)) (n : Int) :
    Outcome (Option (List GLfloat)) :=
  match s_curParams with
  | none => Outcome.fault Fault.abort
  | some pMat =>
    if n < 0 ∨ n > (pMat.length : Int) then Outcome.ok none
    else
      match pMat.get? n.toNat with
      | none => Outcome.fault Fault.undefined
      | some mat =>
        Outcome.ok (some
          ((List.range 4).map (fun (i : Nat) => mat.diffuse.getD i GLfloat.zero) ++
           (List.range 3).map (fun (i : Nat) => mat.specular.getD i GLfloat.zero) ++
           [mat.shininess] ++
           (List.range 3).map (fun (i : Nat) => mat.emissive.getD i GLfloat.zero)))

/-- The members `m_numLods` and `m_lodPixelSize` of `LmrModel`. -/
structure LodTable where
  m_numLods : Int
  m_lodPixelSize : List GLfloat
deriving DecidableEq, Repr

/-- The loop over `lod_pixels` in the constructor of `LmrModel`, from index `i` on.
`entries` are the values `t[i]`, `t[i+1]`, ... of the table up to its first nil, `none`
for a value that is no number; `maxLod` is `LMR_MAX_LOD`, the length of the array
`m_lodPixelSize`. A store `m_lodPixelSize[i-1]` outside the array is undefined; `raised`
is the error "Too many LODs". -/
def lodPixelsLoop (maxLod : Nat) : List (Option GLfloat) → Int → LodTable → Outcome (LuaResult LodTable)
  | [], _, t => Outcome.ok (LuaResult.returned t)
  | none :: _, _, t => Outcome.ok (LuaResult.returned t)
  | some x :: rest, i, t =>
    if 0 ≤ i - 1 ∧ i - 1 < (maxLod : Int) then
      let t1 : LodTable := ⟨t.m_numLods + 1, t.m_lodPixelSize.set (i - 1).toNat x⟩
      if i > (maxLod : Int) then Outcome.ok (LuaResult.raised t1)
      else lodPixelsLoop maxLod rest (i + 1) t1
    else Outcome.fault Fault.undefined

/-- The `lod_pixels` part of the constructor of `LmrModel`: `lod_pixels` is `none` when the
field is no table; `old` is what the array `m_lodPixelSize` holds before. -/
def parseLodPixels (maxLod : Nat) (lod_pixels : Option (List (Option GLfloat)))
    (old : List GLfloat) : Outcome (LuaResult LodTable) :=
  match lod_pixels with
  | some entries =>
    match lodPixelsLoop maxLod entries 1 ⟨0, old⟩ with
    | Outcome.ok (LuaResult.returned t) =>
      if t.m_numLods < 1 then Outcome.ok (LuaResult.raised t)
      else Outcome.ok (LuaResult.returned t)
    | r => r
  | none =>
    if 0 < maxLod then Outcome.ok (LuaResult.returned ⟨1, old.set 0 GLfloat.zero⟩)
    else Outcome.fault Fault.undefined

/-! ## Bezier curves and patches -/

/-- The array `Bu` of `eval_quadric_bezier_u` and `eval_quadric_bezier_u_v`. -/
def quadricBu {K V : Type} (A : Arith K V) (u : K) : List K :=
  [A.mul (A.sub (A.lit 1) u) (A.sub (A.lit 1) u),
   A.mul (A.mul (A.lit 2) u) (A.sub (A.lit 1) u),
   A.mul u u]

/-- The array `Bu` of `eval_cubic_bezier_u` and `eval_cubic_bezier_u_v`. -/
def cubicBu {K V : Type} (A : Arith K V) (u : K) : List K :=
  [A.mul (A.mul (A.sub (A.lit 1) u) (A.sub (A.lit 1) u)) (A.sub (A.lit 1) u),
   A.mul (A.mul (A.mul (A.lit 3) (A.sub (A.lit 1) u)) (A.sub (A.lit 1) u)) u,
   A.mul (A.mul (A.mul (A.lit 3) (A.sub (A.lit 1) u)) u) u,
   A.mul (A.mul u u) u]

/-- The array `coef` of `eval_quadric_bezier_triangle`. -/
def quadricTriangleCoef {K V : Type} (A : Arith K V) (s t u : K) : List K :=
  [A.mul s s, A.mul (A.mul (A.lit 2) s) t, A.mul t t, A.mul (A.mul (A.lit 2) s) u,
   A.mul (A.mul (A.lit 2) t) u, A.mul u u]

/-- The array `coef` of `eval_cubic_bezier_triangle`. -/
def cubicTriangleCoef {K V : Type} (A : Arith K V) (s t u : K) : List K :=
  [A.mul (A.mul s s) s, A.mul (A.mul (A.mul (A.lit 3) s) s) t,
   A.mul (A.mul (A.mul (A.lit 3) s) t) t, A.mul (A.mul t t) t,
   A.mul (A.mul (A.mul (A.lit 3) s) s) u, A.mul (A.mul (A.mul (A.lit 6) s) t) u,
   A.mul (A.mul (A.mul (A.lit 3) t) t) u, A.mul (A.mul (A.mul (A.lit 3) s) u) u,
   A.mul (A.mul (A.mul (A.lit 3) t) u) u, A.mul (A.mul u u) u]

/-- The function `eval_cubic_bezier_u`. -/
def eval_cubic_bezier_u {K V : Type} (A : Arith K V) (p : List V) (u : K) : V :=
  weightedSum A (p.take 4) (cubicBu A u)

/-- The function `eval_quadric_bezier_u`. -/
def eval_quadric_bezier_u {K V : Type} (A : Arith K V) (p : List V) (u : K) : V :=
  weightedSum A (p.take 3) (quadricBu A u)

/-- The double loop `for (i...) for (j...) out += p[i+n*j] * Bu[i] * Bv[j]` started from
`out(0.0f)`. -/
def patchSum {K V : Type} (A : Arith K V) (n : Nat) (p : List V) (Bu Bv : List K) : V :=
  (List.range n).foldl (fun out i =>
    (List.range n).foldl (fun out j =>
      A.vadd out (A.smul (Bv.getD j (A.lit 0))
        (A.smul (Bu.getD i (A.lit 0))
          (p.getD (i + n * j) (A.vec (A.lit 0) (A.lit 0) (A.lit 0)))))) out)
    (A.vec (A.lit 0) (A.lit 0) (A.lit 0))

/-- The function `eval_quadric_bezier_u_v`. -/
def eval_quadric_bezier_u_v {K V : Type} (A : Arith K V) (p : List V) (u v : K) : V :=
  patchSum A 3 p (quadricBu A u) (quadricBu A v)

/-- The function `eval_cubic_bezier_u_v`. -/
def eval_cubic_bezier_u_v {K V : Type} (A : Arith K V) (p : List V) (u v : K) : V :=
  patchSum A 4 p (cubicBu A u) (cubicBu A v)

/-- The weights `Bu[i] * Bv[j]` a patch evaluator gives its control points. -/
def patchWeights (Bu Bv : List ℝ) : List ℝ :=
  Bu.flatMap (fun a => Bv.map (fun b => a * b))

/-! ## Flat polygons -/

/-- The first loop of `_flat`, over the arguments from the third on: an argument is `none`
when it is no table, else the vectors at its keys 1, 2, ... up to the first nil, of which
the loop reads at most three. `seg` and `numPoints` are the counters of the source,
`segvtx` the entries of the array stored so far (the points of each segment; `nv` is their
number). A table entry that is no vector makes `CheckFromLuaF` raise; the tables here hold
vectors only. The array `segvtx` has `FLAT_MAX_SEG` = 32 entries: a store to `segvtx[seg]` with
`seg` at or above 32 is outside it. `ok none` stands for a Lua error. -/
def flatReadSegs {V : Type} (divs : Int) :
    List (Option (List V)) → Nat → Int → List (List V) → Outcome (Option (List (List V) × Int))
  | [], _, numPoints, segvtx => Outcome.ok (some (segvtx, numPoints))
  | none :: _, _, _, _ => Outcome.ok none
  | some t :: rest, seg, numPoints, segvtx =>
    if 32 ≤ seg then Outcome.fault Fault.undefined
    else
      let v := t.take 3
      if v.length = 0 then Outcome.ok none
      else if v.length = 1 then flatReadSegs divs rest (seg + 1) (numPoints + 1) (segvtx ++ [v])
      else flatReadSegs divs rest (seg + 1) (numPoints + divs) (segvtx ++ [v])

/-- The loop `for (i=1; i<=divs; i++, u+=inc)` of a curved segment, over the values of `u`
still to come: `eval` is the curve evaluator on the segment's control points. -/
def flatCurveEmits {K V : Type} (A : Arith K V) (eval : K → V) (numPoints : Int) (normal : V)
    (xref : Bool) : List K → Int → List (Emit V)
  | [], _ => []
  | u :: us, vtxPos =>
    (Emit.vertex vtxPos (eval u) normal ::
      (if xref then [Emit.vertex (vtxPos + numPoints) (A.mirror (eval u)) (A.mirror normal)]
       else [])) ++
    flatCurveEmits A eval numPoints normal xref us (vtxPos + 1)

/-- The values `u` takes in `for (i=1; i<=divs; i++, u+=inc)` with `inc = 1.0f /
float(divs)` and `u = inc` at the start. -/
def flatParams {K V : Type} (A : Arith K V) (divs : Int) : List K :=
  (angleSteps A (A.div (A.lit 1) (A.ofInt divs)) divs.toNat 1
    (A.div (A.lit 1) (A.ofInt divs))).map Prod.snd

/-- The second loop of `_flat`, over the segments still to come. -/
def flatSegEmits {K V : Type} (A : Arith K V) (divs numPoints : Int) (normal : V)
    (xref : Bool) : List (List V) → Int → V → List (Emit V)
  | [], _, _ => []
  | seg :: rest, vtxPos, prevSegEnd =>
    let zero := A.vec (A.lit 0) (A.lit 0) (A.lit 0)
    if seg.length = 1 then
      (if xref then
        [Emit.vertex (vtxPos + numPoints) (A.mirror (seg.getD 0 zero)) (A.mirror normal)]
       else []) ++
      [Emit.vertex vtxPos (seg.getD 0 zero) normal] ++
      flatSegEmits A divs numPoints normal xref rest (vtxPos + 1) (seg.getD 0 zero)
    else if seg.length = 2 then
      flatCurveEmits A
        (eval_quadric_bezier_u A [prevSegEnd, seg.getD 0 zero, seg.getD 1 zero])
        numPoints normal xref (flatParams A divs) vtxPos ++
      flatSegEmits A divs numPoints normal xref rest
        (vtxPos + ((flatParams A divs).length : Int)) (seg.getD 1 zero)
    else if seg.length = 3 then
      flatCurveEmits A
        (eval_cubic_bezier_u A [prevSegEnd, seg.getD 0 zero, seg.getD 1 zero, seg.getD 2 zero])
        numPoints normal xref (flatParams A divs) vtxPos ++
      flatSegEmits A divs numPoints normal xref rest
        (vtxPos + ((flatParams A divs).length : Int)) (seg.getD 2 zero)
    else flatSegEmits A divs numPoints normal xref rest vtxPos prevSegEnd

/-- The last loop of `_flat`. -/
def flatTris {V : Type} (vtxStart numPoints : Int) (xref : Bool) : List (Emit V) :=
  (forRange 1 (numPoints - 1)).flatMap (fun i =>
    Emit.tri vtxStart (vtxStart + i) (vtxStart + i + 1) ::
      (if xref then
        [Emit.tri (vtxStart + numPoints) (vtxStart + numPoints + 1 + i)
          (vtxStart + numPoints + i)]
       else []))

/-- The loops of `_flat` after `AllocVertices`. `prevSegEnd` starts as the last point of
the last segment. -/
def flatEmits {K V : Type} (A : Arith K V) (vtxStart divs : Int) (normal : V) (xref : Bool)
    (segvtx : List (List V)) (numPoints : Int) : List (Emit V) :=
  let zero := A.vec (A.lit 0) (A.lit 0) (A.lit 0)
  let last := segvtx.getD (segvtx.length - 1) []
  let prevSegEnd := last.getD (last.length - 1) zero
  flatSegEmits A divs numPoints normal xref segvtx vtxStart prevSegEnd ++
  flatTris vtxStart numPoints xref

/-- The function `_flat(L, xref)`, called with an integer, a vector and the arguments
`args` from the third on. -/
def _flat (A : Arith GLfloat vector3f) (mulMV : matrix4x4f → vector3f → vector3f)
    (s : BuildState) (divs : Int) (normal : vector3f) (args : List (Option (List vector3f)))
    (xref : Bool) : Outcome (LuaResult BuildState) :=
  match args with
  | [] => Outcome.ok (LuaResult.raised s)
  | none :: _ => Outcome.ok (LuaResult.raised s)
  | some _ :: _ =>
    match flatReadSegs divs args 0 0 [] with
    | Outcome.fault e => Outcome.fault e
    | Outcome.ok none => Outcome.ok (LuaResult.raised s)
    | Outcome.ok (some r) =>
      match tessellate mulMV s (if xref then 2 * r.2 else r.2)
          (fun vtxStart => flatEmits A vtxStart divs normal xref r.1 r.2) with
      | some s1 => Outcome.ok (LuaResult.returned s1)
      | none => Outcome.fault Fault.exception

/-- The bindings `flat` and `xref_flat`. -/
def flat (A : Arith GLfloat vector3f) (mulMV : matrix4x4f → vector3f → vector3f)
    (s : BuildState) (divs : Int) (normal : vector3f) (args : List (Option (List vector3f))) :
    Outcome (LuaResult BuildState) :=
  _flat A mulMV s divs normal args false

def xref_flat (A : Arith GLfloat vector3f) (mulMV : matrix4x4f → vector3f → vector3f)
    (s : BuildState) (divs : Int) (normal : vector3f) (args : List (Option (List vector3f))) :
    Outcome (LuaResult BuildState) :=
  _flat A mulMV s divs normal args true

/-- The number of outline points the segments give: one for a segment of one point,
`divs` for a segment of two or three. -/
def flatPoints {V : Type} (divs : Int) : List (List V) → Int
  | [] => 0
  | t :: rest => (if (t.take 3).length = 1 then 1 else divs) + flatPoints divs rest

/-! ## Sphere slices -/

/-- A run of `PushVertex` and `PushTri` calls took the buffer `b` to `b1`: `nv` more
vertices, the triangles `tris` stored in the order the inside-out mode gives, one flag per
triangle, the mode and the flag kept. -/
def grewBy (b b1 : LmrGeomBuffer) (nv : Nat) (tris : List (Int × Int × Int)) : Prop :=
  b1.m_vertices.length = b.m_vertices.length + nv ∧
  b1.m_indices = b.m_indices ++ tris.flatMap (storedTri b.m_putGeomInsideout) ∧
  b1.m_triflags = b.m_triflags ++ List.replicate tris.length b.curTriFlag ∧
  b1.m_putGeomInsideout = b.m_putGeomInsideout ∧ b1.curTriFlag = b.curTriFlag

/-- The pairs `(sinTable[i], cosTable[i])` for `i = 0 .. LONG_SEGS`, filled by the loop
`for (int i=0; i<=LONG_SEGS; i++, rot += 2.0*M_PI/float(LONG_SEGS))`. -/
def sliceTables {K V : Type} (A : Arith K V) (LONG_SEGS : Int) : List (K × K) :=
  (angleSteps A (A.div (A.mul (A.lit 2) A.pi) (A.ofInt LONG_SEGS)) (LONG_SEGS + 1).toNat 0
    (A.lit 0)).map (fun p => (A.sin p.2, A.cos p.2))

/-- The vector `(sinLat2*sinTable[i], cosLat2, -sinLat2*cosTable[i])`. -/
def sliceVertex {K V : Type} (A : Arith K V) (sinLat2 cosLat2 : K) (t : K × K) : V :=
  A.vec (A.mul sinLat2 t.1) cosLat2 (A.mul (A.neg sinLat2) t.2)

/-- The first loop of the top cap over the vectors `v0` still to come: two vertices are
pushed for each, the index of the first goes to `idx[i]`, that of the second to `idx2[i]`.
The result is the buffer, `idx` and `idx2`. -/
def sliceTopRing (mulMV : matrix4x4f → vector3f → vector3f)
    (rotate : matrix4x4f → vector3f → vector3f) (trans : matrix4x4f) (cap_norm : vector3f) :
    LmrGeomBuffer → List vector3f → LmrGeomBuffer × List Int × List Int
  | b, [] => (b, [], [])
  | b, v0 :: vs =>
    let r1 := b.PushVertex2 mulMV (mulMV trans v0) cap_norm
    let r2 := r1.1.PushVertex2 mulMV (mulMV trans v0) (rotate trans v0)
    let rest := sliceTopRing mulMV rotate trans cap_norm r2.1 vs
    (rest.1, r1.2 :: rest.2.1, r2.2 :: rest.2.2)

/-- A loop that pushes one vertex `trans * v1` with normal `normal v1` for each vector
`v1` and collects the indices: the vertex loop of a band (the indices go to `idx2`) and of
the bottom cap (they go to `idx`). -/
def sliceRing (mulMV : matrix4x4f → vector3f → vector3f) (trans : matrix4x4f)
    (normal : vector3f → vector3f) :
    LmrGeomBuffer → List vector3f → LmrGeomBuffer × List Int
  | b, [] => (b, [])
  | b, v1 :: vs =>
    let r := b.PushVertex2 mulMV (mulMV trans v1) (normal v1)
    let rest := sliceRing mulMV trans normal r.1 vs
    (rest.1, r.2 :: rest.2)

/-- A run of `PushTri` calls. -/
def pushTris (b : LmrGeomBuffer) (tris : List (Int × Int × Int)) : LmrGeomBuffer :=
  tris.foldl (fun b t => b.PushTri t.1 t.2.1 t.2.2) b

/-- The triangles of `for (int i=0; i<LONG_SEGS-1; i++) PushTri(idx[0], idx[i+2],
idx[i+1])`. -/
def sliceTopTris (idx : List Int) (LONG_SEGS : Int) : List (Int × Int × Int) :=
  (forRange 0 (LONG_SEGS - 1)).map (fun i =>
    (idx.getD 0 0, idx.getD (i + 2).toNat 0, idx.getD (i + 1).toNat 0))

/-- The triangles of the second inner loop of a band. -/
def sliceBandTris (idx idx2 : List Int) (LONG_SEGS : Int) : List (Int × Int × Int) :=
  (forRange 0 LONG_SEGS).flatMap (fun i =>
    [(idx.getD i.toNat 0, idx2.getD (i + 1).toNat 0, idx2.getD i.toNat 0),
     (idx.getD i.toNat 0, idx.getD (i + 1).toNat 0, idx2.getD (i + 1).toNat 0)])

/-- The triangles of `for (int i=0; i<LONG_SEGS-1; i++) PushTri(idx[0], idx[i+1],
idx[i+2])`. -/
def sliceBottomTris (idx : List Int) (LONG_SEGS : Int) : List (Int × Int × Int) :=
  (forRange 0 (LONG_SEGS - 1)).map (fun i =>
    (idx.getD 0 0, idx.getD (i + 1).toNat 0, idx.getD (i + 2).toNat 0))

/-- The loop `for (int j=1; j<=LAT_SEGS; j++)` over the values of `j` still to come; the
state is the buffer, `idx2`, `cosLat2` and `sinLat2`. The first inner loop copies `idx2`
to `idx` entry by entry while it refills `idx2`. -/
def sliceBands (A : Arith GLfloat vector3f) (mulMV : matrix4x4f → vector3f → vector3f)
    (rotate : matrix4x4f → vector3f → vector3f) (trans : matrix4x4f)
    (table : List (GLfloat × GLfloat)) (sliceAngle1 latDiff : GLfloat) (LONG_SEGS : Int) :
    List Int → LmrGeomBuffer → List Int → GLfloat → GLfloat →
      LmrGeomBuffer × List Int × GLfloat × GLfloat
  | [], b, idx2, cosLat2, sinLat2 => (b, idx2, cosLat2, sinLat2)
  | j :: js, b, idx2, _, _ =>
    let cosLat2 := A.cos (A.add sliceAngle1 (A.mul latDiff (A.ofInt j)))
    let sinLat2 := A.sin (A.add sliceAngle1 (A.mul latDiff (A.ofInt j)))
    let idx := idx2
    let r := sliceRing mulMV trans (rotate trans) b (table.map (sliceVertex A sinLat2 cosLat2))
    let b1 := pushTris r.1 (sliceBandTris idx r.2 LONG_SEGS)
    sliceBands A mulMV rotate trans table sliceAngle1 latDiff LONG_SEGS js b1 r.2 cosLat2 sinLat2

/-- The binding `ModelFuncs::sphere_slice`, called with two integers, two numbers and an
optional matrix, the arguments in the order of the call. The `alloca` of
`sizeof(float)*(LONG_SEGS+1)` bytes is undefined for a negative `LONG_SEGS+1`. -/
def sphere_slice (A : Arith GLfloat vector3f) (mulMV : matrix4x4f → vector3f → vector3f)
    (rotate : matrix4x4f → vector3f → vector3f) (b : LmrGeomBuffer) (arg1 arg2 : Int)
    (arg3 arg4 : GLfloat) (transform : Option matrix4x4f) : Outcome LmrGeomBuffer :=
  let LONG_SEGS := arg1
  let LAT_SEGS := arg2
  let sliceAngle1 := arg3
  let sliceAngle2 := arg4
  let trans := _get_orientation transform
  let yaxis := A.vec (trans.cell.getD 4 GLfloat.zero) (trans.cell.getD 5 GLfloat.zero)
    (trans.cell.getD 6 GLfloat.zero)
  let latDiff := A.div (A.sub sliceAngle2 sliceAngle1) (A.ofInt LAT_SEGS)
  if LONG_SEGS + 1 < 0 then Outcome.fault Fault.undefined
  else
    let table := sliceTables A LONG_SEGS
    let cosLat2 := A.cos sliceAngle1
    let sinLat2 := A.sin sliceAngle1
    let cap_norm := A.Normalized yaxis
    let top := sliceTopRing mulMV rotate trans cap_norm b
      (table.map (sliceVertex A sinLat2 cosLat2))
    let b1 := pushTris top.1 (sliceTopTris top.2.1 LONG_SEGS)
    let bands := sliceBands A mulMV rotate trans table sliceAngle1 latDiff LONG_SEGS
      (forRange 1 (LAT_SEGS + 1)) b1 top.2.2 cosLat2 sinLat2
    let bottom := sliceRing mulMV trans (fun _ => A.vneg cap_norm) bands.1
      (table.map (sliceVertex A bands.2.2.2 bands.2.2.1))
    Outcome.ok (pushTris bottom.1 (sliceBottomTris bottom.2 LONG_SEGS))

/-! ## Stored vertices -/

/-- The loop `for (int i=lod-1; i>=0; i--) if (pixrad < m_lodPixelSize[i]) lod = i;` of
`LmrModel::Render`, with `k = i + 1` iterations still to run. -/
def lodLoop (pixrad : GLfloat) (m_lodPixelSize : List GLfloat) : Nat → Nat → Nat
  | 0, lod => lod
  | i + 1, lod =>
    lodLoop pixrad m_lodPixelSize i
      (if GLfloat.lt pixrad (m_lodPixelSize.getD i GLfloat.zero) then i else lod)

/-- The LOD that `LmrModel::Render` passes to `Build` and draws. -/
def selectLod (m_numLods : Nat) (m_lodPixelSize : List GLfloat) (pixrad : GLfloat) : Nat :=
  lodLoop pixrad m_lodPixelSize (m_numLods - 1) (m_numLods - 1)

/-- The walk of the specification: from index `i`, step to `i - 1` while `i >= 1` and the
pixel radius is below threshold `i - 1`; stop at the first threshold it is not below. -/
def lodWalk (pixrad : GLfloat) (thresholds : List GLfloat) : Nat → Nat
  | 0 => 0
  | i + 1 =>
    if GLfloat.lt pixrad (thresholds.getD i GLfloat.zero) then lodWalk pixrad thresholds i
    else i + 1

/-! # Theorems -/

section BufferLemmas
open LmrGeomBuffer

@[simp] theorem PushCurOp_indices (b : LmrGeomBuffer) : (PushCurOp b).m_indices = b.m_indices := rfl
@[simp] theorem PushCurOp_triflags (b : LmrGeomBuffer) : (PushCurOp b).m_triflags = b.m_triflags := rfl
@[simp] theorem flushCurOp_indices (b : LmrGeomBuffer) : (flushCurOp b).m_indices = b.m_indices := by
  unfold flushCurOp; split <;> rfl
@[simp] theorem flushCurOp_triflags (b : LmrGeomBuffer) : (flushCurOp b).m_triflags = b.m_triflags := by
  unfold flushCurOp; split <;> rfl
@[simp] theorem flushCurOp_vertices (b : LmrGeomBuffer) : (flushCurOp b).m_vertices = b.m_vertices := by
  unfold flushCurOp; split <;> rfl
@[simp] theorem flushCurOp_curTriFlag (b : LmrGeomBuffer) : (flushCurOp b).curTriFlag = b.curTriFlag := by
  unfold flushCurOp; split <;> rfl
@[simp] theorem flushCurOp_insideout (b : LmrGeomBuffer) :
    (flushCurOp b).m_putGeomInsideout = b.m_putGeomInsideout := by
  unfold flushCurOp; split <;> rfl
@[simp] theorem flushCurOp_curTexture (b : LmrGeomBuffer) : (flushCurOp b).curTexture = b.curTexture := by
  unfold flushCurOp; split <;> rfl
@[simp] theorem flushCurOp_curGlowmap (b : LmrGeomBuffer) : (flushCurOp b).curGlowmap = b.curGlowmap := by
  unfold flushCurOp; split <;> rfl
@[simp] theorem PushIdx_indices (b : LmrGeomBuffer) (i : Int) :
    (PushIdx b i).m_indices = b.m_indices ++ [toUint16 i] := rfl
@[simp] theorem PushIdx_triflags (b : LmrGeomBuffer) (i : Int) :
    (PushIdx b i).m_triflags = b.m_triflags := rfl
@[simp] theorem PushIdx_curTriFlag (b : LmrGeomBuffer) (i : Int) :
    (PushIdx b i).curTriFlag = b.curTriFlag := rfl
@[simp] theorem PushIdx_vertices (b : LmrGeomBuffer) (i : Int) :
    (PushIdx b i).m_vertices = b.m_vertices := rfl

theorem OpDrawElements_open (b : LmrGeomBuffer) (k : Int) (h : needsNewBatch b = true) :
    OpDrawElements b k =
      { flushCurOp b with curOp :=
          Op.OP_DRAW_ELEMENTS { openedBatch (flushCurOp b) with count := 0 + k } } := by
  simp [OpDrawElements, h, openedBatch]

theorem OpDrawElements_extend (b : LmrGeomBuffer) (k : Int) (e : Elems)
    (hc : b.curOp = Op.OP_DRAW_ELEMENTS e) (h : needsNewBatch b = false) :
    OpDrawElements b k =
      { b with curOp := Op.OP_DRAW_ELEMENTS { e with count := e.count + k } } := by
  simp [OpDrawElements, h, hc]

theorem needsNewBatch_false (b : LmrGeomBuffer) (h : needsNewBatch b = false) :
    ∃ e, b.curOp = Op.OP_DRAW_ELEMENTS e ∧ samePtr e.textureFile b.curTexture = true ∧
      samePtr e.glowmapFile b.curGlowmap = true := by
  unfold needsNewBatch at h
  split at h
  · rename_i e he
    refine ⟨e, he, ?_, ?_⟩ <;> simp_all
  · simp at h

@[simp] theorem OpDrawElements_indices (b : LmrGeomBuffer) (k : Int) :
    (OpDrawElements b k).m_indices = b.m_indices := by
  cases h : needsNewBatch b
  · obtain ⟨e, he, -, -⟩ := needsNewBatch_false b h
    rw [OpDrawElements_extend b k e he h]
  · rw [OpDrawElements_open b k h]; simp
@[simp] theorem OpDrawElements_triflags (b : LmrGeomBuffer) (k : Int) :
    (OpDrawElements b k).m_triflags = b.m_triflags := by
  cases h : needsNewBatch b
  · obtain ⟨e, he, -, -⟩ := needsNewBatch_false b h
    rw [OpDrawElements_extend b k e he h]
  · rw [OpDrawElements_open b k h]; simp
@[simp] theorem OpDrawElements_curTriFlag (b : LmrGeomBuffer) (k : Int) :
    (OpDrawElements b k).curTriFlag = b.curTriFlag := by
  cases h : needsNewBatch b
  · obtain ⟨e, he, -, -⟩ := needsNewBatch_false b h
    rw [OpDrawElements_extend b k e he h]
  · rw [OpDrawElements_open b k h]; simp
@[simp] theorem OpDrawElements_insideout (b : LmrGeomBuffer) (k : Int) :
    (OpDrawElements b k).m_putGeomInsideout = b.m_putGeomInsideout := by
  cases h : needsNewBatch b
  · obtain ⟨e, he, -, -⟩ := needsNewBatch_false b h
    rw [OpDrawElements_extend b k e he h]
  · rw [OpDrawElements_open b k h]; simp
@[simp] theorem OpDrawElements_vertices (b : LmrGeomBuffer) (k : Int) :
    (OpDrawElements b k).m_vertices = b.m_vertices := by
  cases h : needsNewBatch b
  · obtain ⟨e, he, -, -⟩ := needsNewBatch_false b h
    rw [OpDrawElements_extend b k e he h]
  · rw [OpDrawElements_open b k h]; simp

theorem PushTri_indices (b : LmrGeomBuffer) (i1 i2 i3 : Int) :
    (PushTri b i1 i2 i3).m_indices = b.m_indices ++
      (if b.m_putGeomInsideout then [toUint16 i1, toUint16 i3, toUint16 i2]
       else [toUint16 i1, toUint16 i2, toUint16 i3]) := by
  unfold PushTri
  by_cases h : b.m_putGeomInsideout <;> simp [h]

theorem PushTri_triflags (b : LmrGeomBuffer) (i1 i2 i3 : Int) :
    (PushTri b i1 i2 i3).m_triflags = b.m_triflags ++ [b.curTriFlag] := by
  unfold PushTri
  by_cases h : b.m_putGeomInsideout <;> simp [h]

theorem PushTri_vertices (b : LmrGeomBuffer) (i1 i2 i3 : Int) :
    (PushTri b i1 i2 i3).m_vertices = b.m_vertices := by
  unfold PushTri
  by_cases h : b.m_putGeomInsideout <;> simp [h]

theorem PushInvisibleTri_indices (b : LmrGeomBuffer) (i1 i2 i3 : Int) :
    (PushInvisibleTri b i1 i2 i3).m_indices =
      b.m_indices ++ [toUint16 i1, toUint16 i2, toUint16 i3] := by
  simp [PushInvisibleTri]

theorem PushInvisibleTri_triflags (b : LmrGeomBuffer) (i1 i2 i3 : Int) :
    (PushInvisibleTri b i1 i2 i3).m_triflags = b.m_triflags ++ [b.curTriFlag] := by
  simp [PushInvisibleTri]

theorem pushPoints_indices (mulMV : matrix4x4f → vector3f → vector3f) (ps : List vector3f) :
    ∀ b : LmrGeomBuffer, (pushPoints mulMV b ps).m_indices = b.m_indices ∧
      (pushPoints mulMV b ps).m_triflags = b.m_triflags := by
  induction ps with
  | nil => intro b; exact ⟨rfl, rfl⟩
  | cons p ps ih =>
    intro b
    simp only [pushPoints]
    have := ih (PushVertex2 mulMV b p vector3f.zero).1
    simpa [PushVertex2, PushVertex] using this

/-- The quantity the assertion of `GetCollMeshGeometry` compares. -/
theorem apply_counts (mulMV : matrix4x4f → vector3f → vector3f) (s : BuildState) (c : BuildCall)
    (h : s.buf.m_indices.length = 3 * s.buf.m_triflags.length) :
    (c.apply mulMV s).buf.m_indices.length = 3 * (c.apply mulMV s).buf.m_triflags.length := by
  cases c <;> simp only [BuildCall.apply]
  case PushTri i1 i2 i3 =>
    rw [PushTri_indices, PushTri_triflags]
    by_cases hi : s.buf.m_putGeomInsideout <;> simp [hi] <;> omega
  case PushInvisibleTri i1 i2 i3 =>
    rw [PushInvisibleTri_indices, PushInvisibleTri_triflags]
    simp; omega
  case AllocVertices num =>
    cases hh : AllocVertices s.buf num with
    | none => simpa using h
    | some r =>
      simp only [AllocVertices] at hh
      split at hh
      · cases hh; simpa using h
      · cases hh
  case PushUseMaterial name =>
    cases hh : PushUseMaterial s.model s.buf name with
    | none => simpa using h
    | some r =>
      simp only [PushUseMaterial] at hh
      split at hh
      · cases hh; simpa using h
      · cases hh
  case PushBillboards texname size color points =>
    simp only [PushBillboards]
    have := pushPoints_indices mulMV points
    rw [(this _).1, (this _).2]
    simpa using h
  case SetTexture tex =>
    simp only [SetTexture]
    split
    · split
      · split <;> simpa using h
      · simpa using h
    · simpa using h
  case SetGlowMap tex =>
    simp only [SetGlowMap]
    split
    · split
      · split <;> simpa using h
      · simpa using h
    · simpa using h
  all_goals
    first
    | exact h
    | (simp [PushVertex, PushVertex2, SetVertex, SetVertex2, PushCallModel, PushZBias,
        PushSetLocalLighting, PushUseLight, PushThruster, SetTexMatrix, SetGeomFlag,
        SetInsideOut, SetIsFromObjFile, PostBuild]; try split_ifs) <;> simpa using h


theorem runCalls_counts (mulMV : matrix4x4f → vector3f → vector3f) (calls : List BuildCall) :
    ∀ s : BuildState, s.buf.m_indices.length = 3 * s.buf.m_triflags.length →
      (runCalls mulMV s calls).buf.m_indices.length =
        3 * (runCalls mulMV s calls).buf.m_triflags.length := by
  induction calls with
  | nil => intro s h; exact h
  | cons c cs ih => intro s h; exact ih _ (apply_counts mulMV s c h)

/-- C1: after `PreBuild` and any sequence of build calls, the index count is three times
the number of triangle flags, so `m_triflags.size() == m_indices.size()/3` holds. -/
theorem C1_triflag_count (mulMV : matrix4x4f → vector3f → vector3f) (s0 : BuildState)
    (calls : List BuildCall) :
    (runCalls mulMV { s0 with buf := s0.buf.PreBuild } calls).buf.m_indices.length =
        3 * (runCalls mulMV { s0 with buf := s0.buf.PreBuild } calls).buf.m_triflags.length ∧
      (runCalls mulMV { s0 with buf := s0.buf.PreBuild } calls).buf.m_triflags.length =
        (runCalls mulMV { s0 with buf := s0.buf.PreBuild } calls).buf.m_indices.length / 3 := by
  have h := runCalls_counts mulMV calls { s0 with buf := s0.buf.PreBuild } rfl
  exact ⟨h, by omega⟩

theorem toUint16_of_range (i : Int) (h0 : 0 ≤ i) (h1 : i ≤ 65535) :
    ((toUint16 i).val : Int) = i := by
  show (((i % 65536).toNat : Nat) : Int) = i
  rw [Int.emod_eq_of_lt h0 (by omega)]
  exact Int.toNat_of_nonneg h0

/-- C2: for indices in `0..65535`, `PushTri` appends `(i1, i2, i3)` with inside-out mode off
and `(i1, i3, i2)` with it on, and exactly one triangle flag; `PushVertex` stores the normal
as given with the mode off and negated with it on, position and UV as given. -/
theorem C2_winding_and_normal (b : LmrGeomBuffer) (i1 i2 i3 : Int)
    (pos normal : vector3f) (tex_u tex_v : GLfloat)
    (h1 : 0 ≤ i1 ∧ i1 ≤ 65535) (h2 : 0 ≤ i2 ∧ i2 ≤ 65535) (h3 : 0 ≤ i3 ∧ i3 ≤ 65535) :
    (b.m_putGeomInsideout = false →
      (b.PushTri i1 i2 i3).m_indices.map (fun x => (x.val : Int)) = b.m_indices.map (fun x => (x.val : Int)) ++ [i1, i2, i3] ∧
      (b.PushVertex pos normal tex_u tex_v).1.m_vertices =
        b.m_vertices ++ [⟨pos, normal, tex_u, tex_v⟩]) ∧
    (b.m_putGeomInsideout = true →
      (b.PushTri i1 i2 i3).m_indices.map (fun x => (x.val : Int)) = b.m_indices.map (fun x => (x.val : Int)) ++ [i1, i3, i2] ∧
      (b.PushVertex pos normal tex_u tex_v).1.m_vertices =
        b.m_vertices ++ [⟨pos, -normal, tex_u, tex_v⟩]) ∧
    (b.PushTri i1 i2 i3).m_triflags = b.m_triflags ++ [b.curTriFlag] ∧
    (b.PushTri i1 i2 i3).m_vertices = b.m_vertices := by
  have e1 := toUint16_of_range i1 h1.1 h1.2
  have e2 := toUint16_of_range i2 h2.1 h2.2
  have e3 := toUint16_of_range i3 h3.1 h3.2
  refine ⟨?_, ?_, PushTri_triflags b i1 i2 i3, PushTri_vertices b i1 i2 i3⟩
  · intro h
    constructor
    · rw [PushTri_indices]; simp [h, e1, e2, e3]
    · simp [PushVertex, h]
  · intro h
    constructor
    · rw [PushTri_indices]; simp [h, e1, e2, e3]
    · simp [PushVertex, h]

theorem C2_winding_and_normal_witness :
    ((LmrGeomBuffer.new true).SetInsideOut true).m_putGeomInsideout = true ∧
    ((((LmrGeomBuffer.new true).SetInsideOut true).PushTri 0 1 2).m_indices.map (fun x => (x.val : Int)) =
      ((LmrGeomBuffer.new true).SetInsideOut true).m_indices.map (fun x => (x.val : Int)) ++ [0, 2, 1] ∧
     (((LmrGeomBuffer.new true).SetInsideOut true).PushVertex vector3f.zero
        ⟨GLfloat.one, GLfloat.zero, GLfloat.zero⟩ GLfloat.zero GLfloat.zero).1.m_vertices =
      ((LmrGeomBuffer.new true).SetInsideOut true).m_vertices ++
        [⟨vector3f.zero, -⟨GLfloat.one, GLfloat.zero, GLfloat.zero⟩, GLfloat.zero,
          GLfloat.zero⟩]) :=
  ⟨rfl, (C2_winding_and_normal ((LmrGeomBuffer.new true).SetInsideOut true) 0 1 2
    vector3f.zero ⟨GLfloat.one, GLfloat.zero, GLfloat.zero⟩ GLfloat.zero GLfloat.zero
    (by decide) (by decide) (by decide)).2.1 rfl⟩

end BufferLemmas

theorem GLfloat.lt_of_le_of_lt {a b c : GLfloat} (h1 : GLfloat.le a b = true)
    (h2 : GLfloat.lt b c = true) : GLfloat.lt a c = true := by
  simp only [GLfloat.le, GLfloat.lt, Bool.and_eq_true, Bool.not_eq_true', decide_eq_true_eq] at *
  exact ⟨⟨h1.1.1, h2.1.2⟩, by omega⟩

theorem GLfloat.lt_of_lt_of_le {a b c : GLfloat} (h1 : GLfloat.lt a b = true)
    (h2 : GLfloat.le b c = true) : GLfloat.lt a c = true := by
  simp only [GLfloat.le, GLfloat.lt, Bool.and_eq_true, Bool.not_eq_true', decide_eq_true_eq] at *
  exact ⟨⟨h1.1.1, h2.1.2⟩, by omega⟩

theorem GLfloat.le_of_lt {a b : GLfloat} (h : GLfloat.lt a b = true) : GLfloat.le a b = true := by
  simp only [GLfloat.le, GLfloat.lt, Bool.and_eq_true, Bool.not_eq_true', decide_eq_true_eq] at *
  exact ⟨h.1, by omega⟩

theorem lodLoop_mono (p q : GLfloat) (t : List GLfloat) (hpq : GLfloat.le p q = true) :
    ∀ k lod lod', lod ≤ lod' → k ≤ lod' →
      lodLoop p t k lod ≤ lodLoop q t k lod' := by
  intro k
  induction k with
  | zero => intro lod lod' h _; simpa [lodLoop] using h
  | succ i ih =>
    intro lod lod' h hk
    simp only [lodLoop]
    apply ih
    · by_cases hq : GLfloat.lt q (t.getD i GLfloat.zero) = true
      · rw [if_pos hq, if_pos (GLfloat.lt_of_le_of_lt hpq hq)]
      · rw [if_neg hq]
        split <;> omega
    · split <;> omega

theorem lodLoop_none (p : GLfloat) (t : List GLfloat) :
    ∀ k lod, (∀ i, i < k → GLfloat.lt p (t.getD i GLfloat.zero) = false) →
      lodLoop p t k lod = lod := by
  intro k
  induction k with
  | zero => intro lod _; rfl
  | succ i ih =>
    intro lod h
    simp only [lodLoop]
    rw [h i (Nat.lt_succ_self i)]
    simp only [Bool.false_eq_true, if_false]
    exact ih lod (fun j hj => h j (Nat.lt_succ_of_lt hj))

theorem lodLoop_le (p : GLfloat) (t : List GLfloat) :
    ∀ k lod, k ≤ lod → lodLoop p t k lod ≤ lod := by
  intro k
  induction k with
  | zero => intro lod _; exact le_refl _
  | succ i ih =>
    intro lod h
    simp only [lodLoop]
    split
    · exact le_trans (ih i (le_refl i)) (by omega)
    · exact ih lod (by omega)

/-- Thresholds in ascending order up to index `n - 1`. -/
theorem ascending_le (t : List GLfloat) (n : Nat)
    (hasc : ∀ i, i + 1 < n → GLfloat.le (t.getD i GLfloat.zero) (t.getD (i + 1) GLfloat.zero) = true) :
    ∀ d i, i + d + 1 < n →
      GLfloat.le (t.getD i GLfloat.zero) (t.getD (i + d + 1) GLfloat.zero) = true := by
  intro d
  induction d with
  | zero => intro i h; exact hasc i h
  | succ d ih =>
    intro i h
    have h1 := ih i (by omega)
    have h2 := hasc (i + d + 1) (by omega)
    have e : i + (d + 1) + 1 = i + d + 1 + 1 := by omega
    rw [e]
    simp only [GLfloat.le, Bool.and_eq_true, Bool.not_eq_true', decide_eq_true_eq] at *
    exact ⟨⟨h1.1.1, h2.1.2⟩, by omega⟩

theorem lodLoop_eq_walk (p : GLfloat) (t : List GLfloat) (n : Nat)
    (hasc : ∀ i, i + 1 < n → GLfloat.le (t.getD i GLfloat.zero) (t.getD (i + 1) GLfloat.zero) = true) :
    ∀ k, k < n → lodLoop p t k k = lodWalk p t k := by
  intro k
  induction k with
  | zero => intro _; rfl
  | succ i ih =>
    intro hk
    simp only [lodLoop, lodWalk]
    by_cases hp : GLfloat.lt p (t.getD i GLfloat.zero) = true
    · rw [if_pos hp, if_pos hp]; exact ih (by omega)
    · rw [if_neg hp, if_neg hp]
      apply lodLoop_none
      intro j hj
      by_contra hc
      simp only [Bool.not_eq_false] at hc
      obtain ⟨d, rfl⟩ : ∃ d, i = j + d + 1 := ⟨i - j - 1, by omega⟩
      exact hp (GLfloat.lt_of_lt_of_le hc (ascending_le t n hasc d j (by omega)))

/-- C7: for ascending thresholds and pixel radii `p <= p'`, the LOD selected for `p` is at
most the LOD selected for `p'`. -/
theorem C7_lod_monotone (m_numLods : Nat) (m_lodPixelSize : List GLfloat) (p p' : GLfloat)
    (_hasc : ∀ i, i + 1 < m_numLods →
      GLfloat.lt (m_lodPixelSize.getD i GLfloat.zero)
        (m_lodPixelSize.getD (i + 1) GLfloat.zero) = true)
    (hpp : GLfloat.le p p' = true) :
    selectLod m_numLods m_lodPixelSize p ≤ selectLod m_numLods m_lodPixelSize p' :=
  lodLoop_mono p p' m_lodPixelSize hpp _ _ _ (le_refl _) (le_refl _)

/-- C8: for `n >= 1` LODs with ascending thresholds, the selected LOD is the result of the
walk from `n - 1` downwards, and lies in `0..n-1`. -/
theorem C8_lod_is_walk (m_numLods : Nat) (m_lodPixelSize : List GLfloat) (p : GLfloat)
    (hn : 1 ≤ m_numLods)
    (hasc : ∀ i, i + 1 < m_numLods →
      GLfloat.le (m_lodPixelSize.getD i GLfloat.zero)
        (m_lodPixelSize.getD (i + 1) GLfloat.zero) = true) :
    selectLod m_numLods m_lodPixelSize p = lodWalk p m_lodPixelSize (m_numLods - 1) ∧
      selectLod m_numLods m_lodPixelSize p ≤ m_numLods - 1 :=
  ⟨lodLoop_eq_walk p m_lodPixelSize m_numLods hasc _ (by omega),
   lodLoop_le p m_lodPixelSize _ _ (le_refl _)⟩

theorem C7_lod_monotone_witness :
    selectLod 3 [⟨0x41200000⟩, ⟨0x42C80000⟩, ⟨0x43FA0000⟩] ⟨0x40000000⟩ ≤
      selectLod 3 [⟨0x41200000⟩, ⟨0x42C80000⟩, ⟨0x43FA0000⟩] ⟨0x42480000⟩ :=
  C7_lod_monotone 3 [⟨0x41200000⟩, ⟨0x42C80000⟩, ⟨0x43FA0000⟩] ⟨0x40000000⟩ ⟨0x42480000⟩
    (by
      intro i hi
      have h : i = 0 ∨ i = 1 := by omega
      rcases h with rfl | rfl <;> decide)
    (by decide)

theorem C8_lod_is_walk_witness :
    selectLod 3 [⟨0x41200000⟩, ⟨0x42C80000⟩, ⟨0x43FA0000⟩] ⟨0x42480000⟩ =
        lodWalk ⟨0x42480000⟩ [⟨0x41200000⟩, ⟨0x42C80000⟩, ⟨0x43FA0000⟩] (3 - 1) ∧
      selectLod 3 [⟨0x41200000⟩, ⟨0x42C80000⟩, ⟨0x43FA0000⟩] ⟨0x42480000⟩ ≤ 3 - 1 :=
  C8_lod_is_walk 3 [⟨0x41200000⟩, ⟨0x42C80000⟩, ⟨0x43FA0000⟩] ⟨0x42480000⟩ (by decide)
    (by
      intro i hi
      have h : i = 0 ∨ i = 1 := by omega
      rcases h with rfl | rfl <;> decide)

section BatchLemmas
open LmrGeomBuffer

theorem batches_append (a b : List Op) : batches (a ++ b) = batches a ++ batches b := by
  simp [batches, List.filterMap_append]

theorem Op.type_eq_zero {o : Op} (h : o.type = 0) : o = Op.OP_NONE := by
  cases o <;> simp [Op.type] at h ⊢

theorem flushCurOp_curOp (b : LmrGeomBuffer) : (flushCurOp b).curOp = Op.OP_NONE := by
  unfold flushCurOp
  split
  · rfl
  · rename_i h
    exact Op.type_eq_zero (by simpa using h)

theorem flushCurOp_batches (b : LmrGeomBuffer) : batches (flushCurOp b).m_ops = allBatches b := by
  unfold flushCurOp allBatches
  split
  · rfl
  · rename_i h
    have := Op.type_eq_zero (by simpa using h : b.curOp.type = 0)
    rw [this, batches_append]
    simp [batches, Op.batch]

theorem allBatches_eq (b : LmrGeomBuffer) :
    allBatches b = batches b.m_ops ++ (b.curOp.batch).toList := by
  unfold allBatches
  rw [batches_append]
  cases h : b.curOp <;> simp [batches, Op.batch]

theorem ptrBelow_mono {h h' : Nat} {p : Option StrPtr} (hp : ptrBelow h p) (hle : h ≤ h') :
    ptrBelow h' p := fun a ha => lt_of_lt_of_le (hp a ha) hle

/-- A call that keeps the batches, the index count and the texture state, and either keeps
the pending op or leaves one that is no batch, keeps the invariant. -/
theorem BatchInv.of_same {s s' : BuildState} {log : List TriRecord} (h : BatchInv s log)
    (hb : allBatches s'.buf = allBatches s.buf)
    (hn : s'.buf.m_indices.length = s.buf.m_indices.length)
    (hcur : s'.buf.curOp = s.buf.curOp ∨ s'.buf.curOp.batch = none)
    (htex : s'.buf.curTexture = s.buf.curTexture)
    (hglow : s'.buf.curGlowmap = s.buf.curGlowmap)
    (hheap : s.heap ≤ s'.heap) : BatchInv s' log where
  ordered := by rw [hb]; exact h.ordered
  sized := by rw [hb, hn]; exact h.sized
  pending := by
    intro e he
    rcases hcur with hc | hc
    · rw [hc] at he
      obtain ⟨h1, h2, h3, h4, h5⟩ := h.pending e he
      rw [hn, htex, hglow]
      exact ⟨h1, h2, h3, ptrBelow_mono h4 hheap, ptrBelow_mono h5 hheap⟩
    · rw [he] at hc; simp [Op.batch] at hc
  current := by
    rw [htex, hglow]
    exact ⟨ptrBelow_mono h.current.1 hheap, ptrBelow_mono h.current.2 hheap⟩
  logged := by rw [hb, hn]; exact h.logged

theorem allBatches_mark (b b' : LmrGeomBuffer) (hops : b'.m_ops = (flushCurOp b).m_ops)
    (hcur : b'.curOp.batch = none) : allBatches b' = allBatches b := by
  rw [allBatches_eq b', hops, flushCurOp_batches, hcur]; simp

theorem pushPoints_frame (mulMV : matrix4x4f → vector3f → vector3f) (ps : List vector3f) :
    ∀ b : LmrGeomBuffer, (pushPoints mulMV b ps).m_ops = b.m_ops ∧
      (pushPoints mulMV b ps).curOp = b.curOp ∧
      (pushPoints mulMV b ps).curTexture = b.curTexture ∧
      (pushPoints mulMV b ps).curGlowmap = b.curGlowmap := by
  induction ps with
  | nil => intro b; exact ⟨rfl, rfl, rfl, rfl⟩
  | cons p ps ih =>
    intro b
    simp only [pushPoints]
    have := ih (PushVertex2 mulMV b p vector3f.zero).1
    simpa [PushVertex2, PushVertex] using this


theorem PushIdx_pending (b : LmrGeomBuffer) (i : Int) (e : Elems)
    (h : b.curOp = Op.OP_DRAW_ELEMENTS e) :
    ∃ e', (PushIdx b i).curOp = Op.OP_DRAW_ELEMENTS e' ∧ e'.textureFile = e.textureFile ∧
      e'.glowmapFile = e.glowmapFile ∧ e'.start = e.start ∧ e'.count = e.count := by
  exact ⟨{ e with elemMin := min ((toUint16 i).val : Int) e.elemMin,
                   elemMax := max ((toUint16 i).val : Int) e.elemMax },
    by simp [PushIdx, h], rfl, rfl, rfl, rfl⟩

theorem PushIdx3_pending (b : LmrGeomBuffer) (i j k : Int) (e : Elems)
    (h : b.curOp = Op.OP_DRAW_ELEMENTS e) :
    ∃ e', (PushIdx (PushIdx (PushIdx b i) j) k).curOp = Op.OP_DRAW_ELEMENTS e' ∧
      e'.textureFile = e.textureFile ∧
      e'.glowmapFile = e.glowmapFile ∧ e'.start = e.start ∧ e'.count = e.count := by
  obtain ⟨e1, h1, a1, b1, c1, d1⟩ := PushIdx_pending b i e h
  obtain ⟨e2, h2, a2, b2, c2, d2⟩ := PushIdx_pending _ j e1 h1
  obtain ⟨e3, h3, a3, b3, c3, d3⟩ := PushIdx_pending _ k e2 h2
  exact ⟨e3, h3, by rw [a3, a2, a1], by rw [b3, b2, b1], by rw [c3, c2, c1], by rw [d3, d2, d1]⟩

theorem PushTri_pending (b : LmrGeomBuffer) (i1 i2 i3 : Int) (e : Elems)
    (h : (OpDrawElements b 3).curOp = Op.OP_DRAW_ELEMENTS e) :
    ∃ e', (PushTri b i1 i2 i3).curOp = Op.OP_DRAW_ELEMENTS e' ∧
      e'.textureFile = e.textureFile ∧
      e'.glowmapFile = e.glowmapFile ∧ e'.start = e.start ∧ e'.count = e.count := by
  unfold PushTri
  by_cases hi : b.m_putGeomInsideout = true
  · simpa [hi] using PushIdx3_pending _ i1 i3 i2 e h
  · simpa [hi] using PushIdx3_pending _ i1 i2 i3 e h

@[simp] theorem PushIdx_ops (b : LmrGeomBuffer) (i : Int) : (PushIdx b i).m_ops = b.m_ops := rfl
@[simp] theorem PushIdx_curTexture (b : LmrGeomBuffer) (i : Int) :
    (PushIdx b i).curTexture = b.curTexture := rfl
@[simp] theorem PushIdx_curGlowmap (b : LmrGeomBuffer) (i : Int) :
    (PushIdx b i).curGlowmap = b.curGlowmap := rfl
@[simp] theorem PushIdx_insideout (b : LmrGeomBuffer) (i : Int) :
    (PushIdx b i).m_putGeomInsideout = b.m_putGeomInsideout := rfl

theorem PushTri_frame (b : LmrGeomBuffer) (i1 i2 i3 : Int) :
    (PushTri b i1 i2 i3).m_ops = (OpDrawElements b 3).m_ops ∧
    (PushTri b i1 i2 i3).curTexture = (OpDrawElements b 3).curTexture ∧
    (PushTri b i1 i2 i3).curGlowmap = (OpDrawElements b 3).curGlowmap := by
  unfold PushTri
  by_cases hi : b.m_putGeomInsideout = true <;> simp [hi]

/-- What `OpDrawElements(3)` leaves: either a freshly opened batch holding the current
texture state, or the pending batch grown by three. -/
theorem OpDrawElements_cases (b : LmrGeomBuffer) :
    (OpDrawElements b 3).curTexture = b.curTexture ∧
    (OpDrawElements b 3).curGlowmap = b.curGlowmap ∧
    ((∃ e', (OpDrawElements b 3).curOp = Op.OP_DRAW_ELEMENTS e' ∧
        e'.textureFile = b.curTexture ∧ e'.glowmapFile = b.curGlowmap ∧
        e'.start = b.m_indices.length ∧ e'.count = 3 ∧
        batches (OpDrawElements b 3).m_ops = allBatches b) ∨
     (∃ e e', b.curOp = Op.OP_DRAW_ELEMENTS e ∧
        samePtr e.textureFile b.curTexture = true ∧
        samePtr e.glowmapFile b.curGlowmap = true ∧
        (OpDrawElements b 3).curOp = Op.OP_DRAW_ELEMENTS e' ∧
        e'.textureFile = e.textureFile ∧ e'.glowmapFile = e.glowmapFile ∧
        e'.start = e.start ∧ e'.count = e.count + 3 ∧
        (OpDrawElements b 3).m_ops = b.m_ops)) := by
  cases h : needsNewBatch b
  · obtain ⟨e, he, h1, h2⟩ := needsNewBatch_false b h
    rw [OpDrawElements_extend b 3 e he h]
    refine ⟨rfl, rfl, Or.inr ⟨e, _, he, h1, h2, rfl, rfl, rfl, rfl, rfl, rfl⟩⟩
  · rw [OpDrawElements_open b 3 h]
    refine ⟨by simp, by simp, Or.inl ⟨_, rfl, ?_, ?_, ?_, ?_, ?_⟩⟩
    · simp [openedBatch]
    · simp [openedBatch]
    · simp [openedBatch]
    · simp [openedBatch]
    · exact flushCurOp_batches b


/-- Records stay placed when batches only grow at their end or are opened at or after the
end of the index array. -/
theorem TriRecord.PlacedIn.grow {r : TriRecord} {bs bs' : List Elems} {n n' : Int}
    (h : r.PlacedIn bs n) (hn : n ≤ n')
    (hvis : ∀ e ∈ bs, ∃ e' ∈ bs', e'.start = e.start ∧ e.count ≤ e'.count ∧
      e'.textureFile = e.textureFile ∧ e'.glowmapFile = e.glowmapFile)
    (hinv : ∀ e' ∈ bs', e' ∈ bs ∨ n ≤ e'.start ∨
      ∃ e ∈ bs, e'.start = e.start ∧ e.start + e.count = n) :
    r.PlacedIn bs' n' := by
  obtain ⟨h0, h1, h2, h3⟩ := h
  refine ⟨h0, by omega, ?_, ?_⟩
  · intro hv
    obtain ⟨e, he, a, b, c, d⟩ := h2 hv
    obtain ⟨e', he', a', b', c', d'⟩ := hvis e he
    exact ⟨e', he', by omega, by omega, by rw [c', c], by rw [d', d]⟩
  · intro hv e' he'
    rcases hinv e' he' with hm | hm | ⟨e, he, hs, hend⟩
    · exact h3 hv e' hm
    · right; omega
    · rcases h3 hv e he with hx | hx
      · omega
      · right; omega

theorem PushTri_inv (s : BuildState) (log : List TriRecord) (i1 i2 i3 : Int)
    (h : BatchInv s log) :
    BatchInv { s with buf := s.buf.PushTri i1 i2 i3 }
      (log ++ [⟨s.buf.m_indices.length, true, pathOf s.buf.curTexture,
                pathOf s.buf.curGlowmap⟩]) := by
  obtain ⟨ht, hg, hcases⟩ := OpDrawElements_cases s.buf
  obtain ⟨fo, ftex, fglow⟩ := PushTri_frame s.buf i1 i2 i3
  have hlen : ((s.buf.PushTri i1 i2 i3).m_indices.length : Int) = s.buf.m_indices.length + 3 := by
    rw [PushTri_indices]; split <;> simp
  rcases hcases with ⟨e1, hc1, a1, b1, c1, d1, hops⟩ | ⟨e, e1, hcur, sp1, sp2, hc1, a1, b1, c1, d1, hops⟩
  · obtain ⟨e', hc', a', b', c', d'⟩ := PushTri_pending s.buf i1 i2 i3 e1 hc1
    have hall : allBatches (s.buf.PushTri i1 i2 i3) = allBatches s.buf ++ [e'] := by
      rw [allBatches_eq, fo, hops, hc']; rfl
    have hplace : ∀ r : TriRecord, r.PlacedIn (allBatches s.buf) s.buf.m_indices.length →
        r.PlacedIn (allBatches s.buf ++ [e']) (s.buf.m_indices.length + 3) := by
      intro r hr
      refine hr.grow (by omega) ?_ ?_
      · intro x hx
        exact ⟨x, List.mem_append_left _ hx, rfl, le_refl _, rfl, rfl⟩
      · intro x hx
        rcases List.mem_append.1 hx with hx | hx
        · exact Or.inl hx
        · simp only [List.mem_singleton] at hx
          subst hx
          right; left; omega
    constructor
    · show (allBatches (s.buf.PushTri i1 i2 i3)).Pairwise Elems.Before
      rw [hall, List.pairwise_append]
      refine ⟨h.ordered, List.pairwise_singleton _ _, ?_⟩
      intro a ha b hb
      simp only [List.mem_singleton] at hb
      subst hb
      have := (h.sized a ha).2.2
      unfold Elems.Before; omega
    · show ∀ e ∈ allBatches (s.buf.PushTri i1 i2 i3), _
      rw [hall, hlen]
      intro x hx
      rcases List.mem_append.1 hx with hx | hx
      · obtain ⟨p, q, r⟩ := h.sized x hx
        exact ⟨p, q, by omega⟩
      · simp only [List.mem_singleton] at hx
        subst hx
        rw [d', d1, c', c1]
        exact ⟨dvd_refl 3, by omega, by omega⟩
    · show ∀ e, (s.buf.PushTri i1 i2 i3).curOp = Op.OP_DRAW_ELEMENTS e → _
      intro x hx
      rw [hc'] at hx
      cases hx
      rw [hlen, ftex, fglow, ht, hg, a', b', c', d', a1, b1, c1, d1]
      exact ⟨by omega, Or.inl rfl, Or.inl rfl, h.current.1, h.current.2⟩
    · show ptrBelow s.heap (s.buf.PushTri i1 i2 i3).curTexture ∧
        ptrBelow s.heap (s.buf.PushTri i1 i2 i3).curGlowmap
      rw [ftex, fglow, ht, hg]; exact h.current
    · show ∀ r ∈ _, TriRecord.PlacedIn r (allBatches (s.buf.PushTri i1 i2 i3))
        (s.buf.PushTri i1 i2 i3).m_indices.length
      rw [hall, hlen]
      intro r hr
      rcases List.mem_append.1 hr with hr | hr
      · exact hplace r (h.logged r hr)
      · simp only [List.mem_singleton] at hr
        subst hr
        refine ⟨by simp, by simp, ?_, by simp⟩
        intro _
        refine ⟨e', by simp, ?_, ?_, ?_, ?_⟩
        · simp [c', c1]
        · simp [c', c1, d', d1]
        · simp [a', a1]
        · simp [b', b1]
  · obtain ⟨e', hc', a', b', c', d'⟩ := PushTri_pending s.buf i1 i2 i3 e1 hc1
    have hold : allBatches s.buf = batches s.buf.m_ops ++ [e] := by
      rw [allBatches_eq, hcur]; rfl
    have hall : allBatches (s.buf.PushTri i1 i2 i3) = batches s.buf.m_ops ++ [e'] := by
      rw [allBatches_eq, fo, hops, hc']; rfl
    obtain ⟨pe, pt, pg, pbt, pbg⟩ := h.pending e hcur
    have hemem : e ∈ allBatches s.buf := by rw [hold]; simp
    have hpos := (h.sized e hemem).2.1
    have htf : e.textureFile = s.buf.curTexture := by
      rcases pt with pt | pt
      · exact pt
      · rw [sp1] at pt; cases pt
    have hgf : e.glowmapFile = s.buf.curGlowmap := by
      rcases pg with pg | pg
      · exact pg
      · rw [sp2] at pg; cases pg
    have hplace : ∀ r : TriRecord, r.PlacedIn (allBatches s.buf) s.buf.m_indices.length →
        r.PlacedIn (batches s.buf.m_ops ++ [e']) (s.buf.m_indices.length + 3) := by
      intro r hr
      refine hr.grow (by omega) ?_ ?_
      · intro x hx
        rw [hold] at hx
        rcases List.mem_append.1 hx with hx | hx
        · exact ⟨x, List.mem_append_left _ hx, rfl, le_refl _, rfl, rfl⟩
        · simp only [List.mem_singleton] at hx
          subst hx
          exact ⟨e', by simp, by rw [c', c1], by rw [d', d1]; omega, by rw [a', a1],
            by rw [b', b1]⟩
      · intro x hx
        rcases List.mem_append.1 hx with hx | hx
        · left; rw [hold]; exact List.mem_append_left _ hx
        · simp only [List.mem_singleton] at hx
          subst hx
          right; right
          exact ⟨e, hemem, by rw [c', c1], pe⟩
    have hord := h.ordered
    rw [hold, List.pairwise_append] at hord
    constructor
    · show (allBatches (s.buf.PushTri i1 i2 i3)).Pairwise Elems.Before
      rw [hall, List.pairwise_append]
      refine ⟨hord.1, List.pairwise_singleton _ _, ?_⟩
      intro a ha b hb
      simp only [List.mem_singleton] at hb
      subst hb
      have := hord.2.2 a ha e (by simp)
      unfold Elems.Before at *
      rw [c', c1]; exact this
    · show ∀ e ∈ allBatches (s.buf.PushTri i1 i2 i3), _
      rw [hall, hlen]
      intro x hx
      rcases List.mem_append.1 hx with hx | hx
      · obtain ⟨p, q, r⟩ := h.sized x (by rw [hold]; exact List.mem_append_left _ hx)
        exact ⟨p, q, by omega⟩
      · simp only [List.mem_singleton] at hx
        subst hx
        obtain ⟨p, q, r⟩ := h.sized e hemem
        rw [d', d1, c', c1]
        exact ⟨Dvd.dvd.add p (dvd_refl 3), by omega, by omega⟩
    · show ∀ e, (s.buf.PushTri i1 i2 i3).curOp = Op.OP_DRAW_ELEMENTS e → _
      intro x hx
      rw [hc'] at hx
      cases hx
      rw [hlen, ftex, fglow, ht, hg, a', b', c', d', a1, b1, c1, d1]
      exact ⟨by omega, Or.inl htf, Or.inl hgf, pbt, pbg⟩
    · show ptrBelow s.heap (s.buf.PushTri i1 i2 i3).curTexture ∧
        ptrBelow s.heap (s.buf.PushTri i1 i2 i3).curGlowmap
      rw [ftex, fglow, ht, hg]; exact h.current
    · show ∀ r ∈ _, TriRecord.PlacedIn r (allBatches (s.buf.PushTri i1 i2 i3))
        (s.buf.PushTri i1 i2 i3).m_indices.length
      rw [hall, hlen]
      intro r hr
      rcases List.mem_append.1 hr with hr | hr
      · exact hplace r (h.logged r hr)
      · simp only [List.mem_singleton] at hr
        subst hr
        refine ⟨by simp, by simp, ?_, by simp⟩
        intro _
        refine ⟨e', by simp, ?_, ?_, ?_, ?_⟩
        · simp only [c', c1]; omega
        · simp only [c', c1, d', d1]; omega
        · simp [a', a1, htf]
        · simp [b', b1, hgf]


theorem PushIdx_curOp_none (b : LmrGeomBuffer) (i : Int) (h : b.curOp = Op.OP_NONE) :
    (PushIdx b i).curOp = Op.OP_NONE := by
  simp [PushIdx, h]

theorem PushInvisibleTri_frame (b : LmrGeomBuffer) (i1 i2 i3 : Int) :
    (PushInvisibleTri b i1 i2 i3).curOp = Op.OP_NONE ∧
    (PushInvisibleTri b i1 i2 i3).m_ops = (flushCurOp b).m_ops ∧
    (PushInvisibleTri b i1 i2 i3).curTexture = b.curTexture ∧
    (PushInvisibleTri b i1 i2 i3).curGlowmap = b.curGlowmap := by
  refine ⟨?_, ?_, ?_, ?_⟩
  · simp only [PushInvisibleTri]
    exact PushIdx_curOp_none _ _ (PushIdx_curOp_none _ _ (PushIdx_curOp_none _ _ rfl))
  · simp [PushInvisibleTri]
  · simp [PushInvisibleTri]
  · simp [PushInvisibleTri]

theorem PushInvisibleTri_inv (s : BuildState) (log : List TriRecord) (i1 i2 i3 : Int)
    (h : BatchInv s log) :
    BatchInv { s with buf := s.buf.PushInvisibleTri i1 i2 i3 }
      (log ++ [⟨s.buf.m_indices.length, false, pathOf s.buf.curTexture,
                pathOf s.buf.curGlowmap⟩]) := by
  obtain ⟨fc, fo, ft, fg⟩ := PushInvisibleTri_frame s.buf i1 i2 i3
  have hlen : ((s.buf.PushInvisibleTri i1 i2 i3).m_indices.length : Int) =
      s.buf.m_indices.length + 3 := by
    rw [PushInvisibleTri_indices]; simp
  have hall : allBatches (s.buf.PushInvisibleTri i1 i2 i3) = allBatches s.buf :=
    allBatches_mark _ _ fo (by rw [fc]; rfl)
  constructor
  · show (allBatches (s.buf.PushInvisibleTri i1 i2 i3)).Pairwise Elems.Before
    rw [hall]; exact h.ordered
  · show ∀ e ∈ allBatches (s.buf.PushInvisibleTri i1 i2 i3), _
    rw [hall, hlen]
    intro x hx
    obtain ⟨p, q, r⟩ := h.sized x hx
    exact ⟨p, q, by omega⟩
  · show ∀ e, (s.buf.PushInvisibleTri i1 i2 i3).curOp = Op.OP_DRAW_ELEMENTS e → _
    intro x hx
    rw [fc] at hx; cases hx
  · show ptrBelow s.heap (s.buf.PushInvisibleTri i1 i2 i3).curTexture ∧
      ptrBelow s.heap (s.buf.PushInvisibleTri i1 i2 i3).curGlowmap
    rw [ft, fg]; exact h.current
  · show ∀ r ∈ _, TriRecord.PlacedIn r (allBatches (s.buf.PushInvisibleTri i1 i2 i3))
      (s.buf.PushInvisibleTri i1 i2 i3).m_indices.length
    rw [hall, hlen]
    intro r hr
    rcases List.mem_append.1 hr with hr | hr
    · exact (h.logged r hr).grow (by omega)
        (fun x hx => ⟨x, hx, rfl, le_refl _, rfl, rfl⟩) (fun x hx => Or.inl hx)
    · simp only [List.mem_singleton] at hr
      subst hr
      refine ⟨by simp, by simp, by simp, ?_⟩
      intro _ e he
      left
      exact (h.sized e he).2.2

/-- The pointer relation of the pending batch survives a change of the current pointer to
null or to a freshly allocated string. -/
theorem samePtr_update {heap : Nat} {p cur cur' : Option StrPtr}
    (hrel : p = cur ∨ samePtr p cur = false) (hp : ptrBelow heap p)
    (hnew : cur' = cur ∨ cur' = none ∨ ∃ t, cur' = some ⟨heap, t⟩) :
    p = cur' ∨ samePtr p cur' = false := by
  rcases hnew with hn | hn | ⟨t, hn⟩
  · rw [hn]; exact hrel
  · rw [hn]
    cases p with
    | none => exact Or.inl rfl
    | some a => right; rfl
  · rw [hn]
    cases p with
    | none => right; rfl
    | some a =>
      right
      have := hp a rfl
      simp only [samePtr, decide_eq_false_iff_not]
      omega

/-- Changing the current texture state (`SetTexture`, `SetGlowMap`) keeps the invariant. -/
theorem BatchInv.of_retexture {s s' : BuildState} {log : List TriRecord} (h : BatchInv s log)
    (hops : s'.buf.m_ops = s.buf.m_ops) (hcur : s'.buf.curOp = s.buf.curOp)
    (hn : s'.buf.m_indices.length = s.buf.m_indices.length)
    (hheap : s.heap ≤ s'.heap)
    (htex : s'.buf.curTexture = s.buf.curTexture ∨ s'.buf.curTexture = none ∨
      ∃ t, s'.buf.curTexture = some ⟨s.heap, t⟩ ∧ s.heap < s'.heap)
    (hglow : s'.buf.curGlowmap = s.buf.curGlowmap ∨ s'.buf.curGlowmap = none ∨
      ∃ t, s'.buf.curGlowmap = some ⟨s.heap, t⟩ ∧ s.heap < s'.heap) : BatchInv s' log := by
  have hb : allBatches s'.buf = allBatches s.buf := by
    simp only [allBatches, hops, hcur]
  have below : ∀ cur cur' : Option StrPtr, ptrBelow s.heap cur →
      (cur' = cur ∨ cur' = none ∨ ∃ t, cur' = some ⟨s.heap, t⟩ ∧ s.heap < s'.heap) →
      ptrBelow s'.heap cur' := by
    intro cur cur' hc hx
    rcases hx with hx | hx | ⟨t, hx, hlt⟩
    · rw [hx]; exact ptrBelow_mono hc hheap
    · rw [hx]; intro a ha; cases ha
    · rw [hx]; intro a ha; cases ha; exact hlt
  constructor
  · rw [hb]; exact h.ordered
  · rw [hb, hn]; exact h.sized
  · intro e he
    rw [hcur] at he
    obtain ⟨h1, h2, h3, h4, h5⟩ := h.pending e he
    refine ⟨by rw [hn]; exact h1, ?_, ?_, ptrBelow_mono h4 hheap, ptrBelow_mono h5 hheap⟩
    · exact samePtr_update h2 h4 (by
        rcases htex with hx | hx | ⟨t, hx, _⟩
        · exact Or.inl hx
        · exact Or.inr (Or.inl hx)
        · exact Or.inr (Or.inr ⟨t, hx⟩))
    · exact samePtr_update h3 h5 (by
        rcases hglow with hx | hx | ⟨t, hx, _⟩
        · exact Or.inl hx
        · exact Or.inr (Or.inl hx)
        · exact Or.inr (Or.inr ⟨t, hx⟩))
  · exact ⟨below _ _ h.current.1 htex, below _ _ h.current.2 hglow⟩
  · rw [hb, hn]; exact h.logged


@[simp] theorem flushCurOp_ops_mark (b : LmrGeomBuffer) (o : Op) :
    ({ flushCurOp b with curOp := o } : LmrGeomBuffer).m_ops = (flushCurOp b).m_ops := rfl

theorem PushBillboards_frame (mulMV : matrix4x4f → vector3f → vector3f) (heap : Nat)
    (b : LmrGeomBuffer) (texname : List Byte) (size : GLfloat) (color : vector3f)
    (points : List vector3f) :
    (PushBillboards mulMV heap b texname size color points).1 = heap + 1 ∧
    (PushBillboards mulMV heap b texname size color points).2.m_ops = (flushCurOp b).m_ops ∧
    (PushBillboards mulMV heap b texname size color points).2.curOp.batch = none ∧
    (PushBillboards mulMV heap b texname size color points).2.m_indices = b.m_indices ∧
    (PushBillboards mulMV heap b texname size color points).2.curTexture = b.curTexture ∧
    (PushBillboards mulMV heap b texname size color points).2.curGlowmap = b.curGlowmap := by
  simp only [PushBillboards]
  refine ⟨trivial, ?_, ?_, ?_, ?_, ?_⟩
  · rw [(pushPoints_frame mulMV points _).1]
  · rw [(pushPoints_frame mulMV points _).2.1]; rfl
  · rw [(pushPoints_indices mulMV points _).1]; simp
  · rw [(pushPoints_frame mulMV points _).2.2.1]; simp
  · rw [(pushPoints_frame mulMV points _).2.2.2]; simp

theorem BatchInv.of_mark {s : BuildState} {log : List TriRecord} (h : BatchInv s log)
    (o : Op) (ho : o.batch = none) :
    BatchInv { s with buf := { flushCurOp s.buf with curOp := o } } log :=
  h.of_same (allBatches_mark _ _ rfl ho) (by simp) (Or.inr ho) (by simp) (by simp) (le_refl _)

theorem apply_inv (mulMV : matrix4x4f → vector3f → vector3f) (s : BuildState) (c : BuildCall)
    (log : List TriRecord) (h : BatchInv s log) :
    BatchInv (c.apply mulMV s) (log ++ (triRecord s c).toList) := by
  cases c <;> simp only [triRecord, Option.toList, List.append_nil]
  case PushTri i1 i2 i3 => exact PushTri_inv s log i1 i2 i3 h
  case PushInvisibleTri i1 i2 i3 => exact PushInvisibleTri_inv s log i1 i2 i3 h
  case SetTexture tex =>
    simp only [BuildCall.apply]
    cases tex with
    | none =>
      exact h.of_retexture rfl rfl rfl (le_refl _) (Or.inr (Or.inl rfl)) (Or.inr (Or.inl rfl))
    | some t =>
      cases hc : s.buf.curTexture with
      | none =>
        refine h.of_retexture ?_ ?_ ?_ ?_ ?_ ?_ <;> simp [SetTexture, hc]
      | some p =>
        by_cases hp : p.target = some (cstr t)
        · refine h.of_retexture ?_ ?_ ?_ ?_ ?_ ?_ <;> simp [SetTexture, hc, hp]
        · refine h.of_retexture ?_ ?_ ?_ ?_ ?_ ?_ <;> simp [SetTexture, hc, hp]
  case SetGlowMap tex =>
    simp only [BuildCall.apply]
    cases tex with
    | none =>
      exact h.of_retexture rfl rfl rfl (le_refl _) (Or.inl rfl) (Or.inr (Or.inl rfl))
    | some t =>
      cases hc : s.buf.curGlowmap with
      | none =>
        refine h.of_retexture ?_ ?_ ?_ ?_ ?_ ?_ <;> simp [SetGlowMap, hc]
      | some p =>
        by_cases hp : p.target = some (cstr t)
        · refine h.of_retexture ?_ ?_ ?_ ?_ ?_ ?_ <;> simp [SetGlowMap, hc, hp]
        · refine h.of_retexture ?_ ?_ ?_ ?_ ?_ ?_ <;> simp [SetGlowMap, hc, hp]
  case AllocVertices num =>
    simp only [BuildCall.apply]
    cases hh : AllocVertices s.buf num with
    | none => exact h
    | some r =>
      simp only [AllocVertices] at hh
      split at hh
      · cases hh
        exact h.of_same rfl rfl (Or.inl rfl) rfl rfl (le_refl _)
      · cases hh
  case PushUseMaterial name =>
    simp only [BuildCall.apply]
    cases hh : PushUseMaterial s.model s.buf name with
    | none => exact h
    | some r =>
      simp only [PushUseMaterial] at hh
      split at hh
      · cases hh
        exact h.of_mark (Op.OP_SET_MATERIAL _) rfl
      · cases hh
  case PushBillboards texname size color points =>
    simp only [BuildCall.apply]
    obtain ⟨f1, f2, f3, f4, f5, f6⟩ :=
      PushBillboards_frame mulMV s.heap s.buf texname size color points
    exact h.of_same (allBatches_mark _ _ f2 f3) (by rw [show ({ s with
        heap := (s.buf.PushBillboards mulMV s.heap texname size color points).1,
        buf := (s.buf.PushBillboards mulMV s.heap texname size color points).2 } :
          BuildState).buf.m_indices = s.buf.m_indices from f4])
      (Or.inr f3) f5 f6 (by rw [show ({ s with
        heap := (s.buf.PushBillboards mulMV s.heap texname size color points).1,
        buf := (s.buf.PushBillboards mulMV s.heap texname size color points).2 } :
          BuildState).heap = s.heap + 1 from f1]; exact Nat.le_succ _)
  case PostBuild =>
    simp only [BuildCall.apply]
    refine h.of_same ?_ rfl (Or.inr rfl) rfl rfl (le_refl _)
    show batches ((s.buf.m_ops ++ [s.buf.curOp]) ++ [Op.OP_NONE]) = _
    rw [batches_append]; simp [allBatches, batches, Op.batch]
  case PushCallModel m t sc => exact h.of_mark (Op.OP_CALL_MODEL ⟨m, t, sc⟩) rfl
  case PushZBias a pos norm => exact h.of_mark (Op.OP_ZBIAS ⟨a, pos, norm⟩) rfl
  case PushSetLocalLighting e => exact h.of_mark (Op.OP_LIGHTING_TYPE e) rfl
  case PushUseLight num => exact h.of_mark (Op.OP_USE_LIGHT num) rfl
  case SetVertex idx pos normal u v =>
    simp only [BuildCall.apply, SetVertex]
    split
    · exact h.of_same rfl rfl (Or.inl rfl) rfl rfl (le_refl _)
    · exact h
  case SetVertex2 idx pos normal =>
    simp only [BuildCall.apply, SetVertex2, SetVertex]
    split
    · exact h.of_same rfl rfl (Or.inl rfl) rfl rfl (le_refl _)
    · exact h
  all_goals exact h.of_same rfl rfl (Or.inl rfl) rfl rfl (le_refl _)

theorem runCalls_inv (mulMV : matrix4x4f → vector3f → vector3f) (calls : List BuildCall) :
    ∀ (s : BuildState) (log : List TriRecord), BatchInv s log →
      BatchInv (runCalls mulMV s calls) (log ++ triLog mulMV s calls) := by
  induction calls with
  | nil => intro s log h; simpa [runCalls, triLog] using h
  | cons c cs ih =>
    intro s log h
    have := ih _ _ (apply_inv mulMV s c log h)
    simpa [runCalls, triLog, List.append_assoc] using this

theorem BatchInv.start (s0 : BuildState) (h0 : s0.buf.curOp = Op.OP_NONE)
    (ht : ptrBelow s0.heap s0.buf.curTexture) (hg : ptrBelow s0.heap s0.buf.curGlowmap) :
    BatchInv { s0 with buf := s0.buf.PreBuild } [] := by
  have hall : allBatches s0.buf.PreBuild = [] := by
    simp [allBatches, PreBuild, FreeGeometry, h0, batches, Op.batch]
  constructor
  · show (allBatches s0.buf.PreBuild).Pairwise _
    rw [hall]; exact List.Pairwise.nil
  · show ∀ e ∈ allBatches s0.buf.PreBuild, _
    rw [hall]; intro e he; cases he
  · intro e he
    have : s0.buf.PreBuild.curOp = Op.OP_NONE := h0
    rw [show ({ s0 with buf := s0.buf.PreBuild } : BuildState).buf.curOp = Op.OP_NONE from h0] at he
    cases he
  · exact ⟨ht, hg⟩
  · intro r hr; cases hr


theorem PostBuild_batches (b : LmrGeomBuffer) : batches (PostBuild b).m_ops = allBatches b := rfl

theorem Pairwise_mem_eq {l : List Elems} (h : l.Pairwise Elems.Before) {e e' : Elems}
    (he : e ∈ l) (he' : e' ∈ l) (x : Int) (h1 : e.start ≤ x) (h2 : x < e.start + e.count)
    (h1' : e'.start ≤ x) (h2' : x < e'.start + e'.count) : e' = e := by
  by_contra hne
  have hsym : l.Pairwise (fun a b => Elems.Before a b ∨ Elems.Before b a) :=
    h.imp (fun hab => Or.inl hab)
  have := hsym.forall (fun a b hab => hab.symm) he he' (fun hh => hne hh.symm)
  unfold Elems.Before at this
  omega

/-- C3: after `PreBuild`, any sequence of build calls and `PostBuild`, the draw-element
batches of the op-stream lie one after the other in the index array, each with a count that
is a multiple of 3; every triangle pushed by `PushTri` lies in exactly one batch, which
carries the texture and glow-map paths current at the push; a triangle pushed by
`PushInvisibleTri` meets no batch. The pass leaves no pending op behind. -/
theorem C3_batches (mulMV : matrix4x4f → vector3f → vector3f) (s0 : BuildState)
    (calls : List BuildCall) (h0 : s0.buf.curOp = Op.OP_NONE)
    (ht : ptrBelow s0.heap s0.buf.curTexture) (hg : ptrBelow s0.heap s0.buf.curGlowmap) :
    (batches (runCalls mulMV { s0 with buf := s0.buf.PreBuild } calls).buf.PostBuild.m_ops).Pairwise
        (fun e1 e2 => e1.start < e2.start ∧ e1.start + e1.count ≤ e2.start) ∧
    (∀ e ∈ batches (runCalls mulMV { s0 with buf := s0.buf.PreBuild } calls).buf.PostBuild.m_ops,
        3 ∣ e.count) ∧
    (∀ r ∈ triLog mulMV { s0 with buf := s0.buf.PreBuild } calls, r.visible = true →
      ∃ e ∈ batches (runCalls mulMV { s0 with buf := s0.buf.PreBuild } calls).buf.PostBuild.m_ops,
        e.start ≤ r.pos ∧ r.pos + 3 ≤ e.start + e.count ∧
        pathOf e.textureFile = r.texture ∧ pathOf e.glowmapFile = r.glowmap ∧
        ∀ e' ∈ batches
            (runCalls mulMV { s0 with buf := s0.buf.PreBuild } calls).buf.PostBuild.m_ops,
          e'.start ≤ r.pos → r.pos < e'.start + e'.count → e' = e) ∧
    (∀ r ∈ triLog mulMV { s0 with buf := s0.buf.PreBuild } calls, r.visible = false →
      ∀ e ∈ batches (runCalls mulMV { s0 with buf := s0.buf.PreBuild } calls).buf.PostBuild.m_ops,
        e.start + e.count ≤ r.pos ∨ r.pos + 3 ≤ e.start) ∧
    (runCalls mulMV { s0 with buf := s0.buf.PreBuild } calls).buf.PostBuild.curOp = Op.OP_NONE := by
  have inv := runCalls_inv mulMV calls _ [] (BatchInv.start s0 h0 ht hg)
  simp only [List.nil_append] at inv
  simp only [PostBuild_batches]
  refine ⟨?_, ?_, ?_, ?_, rfl⟩
  · have hs := inv.sized
    have ho := inv.ordered
    revert hs ho
    generalize allBatches (runCalls mulMV { s0 with buf := s0.buf.PreBuild } calls).buf = l
    intro hs ho
    induction l with
    | nil => exact List.Pairwise.nil
    | cons a l ih =>
      rw [List.pairwise_cons] at ho ⊢
      refine ⟨?_, ih (fun e he => hs e (List.mem_cons_of_mem _ he)) ho.2⟩
      intro b hb
      have h1 := ho.1 b hb
      have h2 := (hs a (List.mem_cons_self _ _)).2.1
      unfold Elems.Before at h1
      exact ⟨by omega, h1⟩
  · intro e he; exact (inv.sized e he).1
  · intro r hr hv
    obtain ⟨p0, _, hvis, _⟩ := inv.logged r hr
    obtain ⟨e, he, a, b, c, d⟩ := hvis hv
    refine ⟨e, he, a, b, c, d, ?_⟩
    intro e' he' x y
    exact Pairwise_mem_eq inv.ordered he he' r.pos a (by omega) x y
  · intro r hr hv
    exact (inv.logged r hr).2.2.2 hv

theorem C3_batches_witness :
    sampleState.buf.curOp = Op.OP_NONE ∧
    (batches (runCalls sampleMulMV { sampleState with buf := sampleState.buf.PreBuild }
        sampleCalls).buf.PostBuild.m_ops).Pairwise
      (fun e1 e2 => e1.start < e2.start ∧ e1.start + e1.count ≤ e2.start) :=
  ⟨rfl, (C3_batches sampleMulMV sampleState sampleCalls rfl
    (fun a h => by cases h) (fun a h => by cases h)).1⟩

end BatchLemmas

section CodecLemmas

@[simp] theorem leBytes_length (w n : Nat) : (leBytes w n).length = w := by
  induction w generalizing n with
  | zero => rfl
  | succ w ih => simp [leBytes, ih]

theorem leValue_leBytes (w n : Nat) : leValue (leBytes w n) = n % 256 ^ w := by
  induction w generalizing n with
  | zero => simp [leBytes, leValue, Nat.mod_one]
  | succ w ih =>
    simp only [leBytes, leValue, ih]
    rw [pow_succ, mul_comm (256 ^ w) 256, Nat.mod_mul]

theorem toInt32_of_range (n : Int) (h0 : -2147483648 ≤ n) (h1 : n < 2147483648) :
    toInt32 n = n := by
  unfold toInt32
  split <;> omega

theorem toInt32_range (n : Int) : -2147483648 ≤ toInt32 n ∧ toInt32 n < 2147483648 := by
  unfold toInt32
  split <;> omega

@[simp] theorem intRepr_size : intRepr.size = 4 := rfl
@[simp] theorem intRepr_write_length (n : Int) : (intRepr.write n).length = 4 := by
  simp [intRepr]

theorem take_append_of_length {α : Type} (a b : List α) (n : Nat) (h : a.length = n) :
    (a ++ b).take n = a := by
  subst h; simp

theorem drop_append_of_length {α : Type} (a b : List α) (n : Nat) (h : a.length = n) :
    (a ++ b).drop n = b := by
  subst h; simp

theorem intRepr_read_write (n : Int) (rest : List Byte) (h0 : -2147483648 ≤ n)
    (h1 : n < 2147483648) : intRepr.read (intRepr.write n ++ rest) = n := by
  simp only [intRepr]
  rw [take_append_of_length _ _ 4 (by simp), leValue_leBytes]
  have hm : (0 : Int) ≤ n % 4294967296 := Int.emod_nonneg _ (by decide)
  have hlt : n % 4294967296 < 4294967296 := Int.emod_lt_of_pos _ (by decide)
  have e : (((n % 4294967296).toNat % 256 ^ 4 : Nat) : Int) = n % 4294967296 := by
    have : (n % 4294967296).toNat < 256 ^ 4 := by
      have : (256 : Nat) ^ 4 = 4294967296 := by norm_num
      omega
    rw [Nat.mod_eq_of_lt this]
    exact Int.toNat_of_nonneg hm
  rw [e]
  unfold toInt32
  split <;> omega

theorem intRepr_reproduces (n : Int) (h0 : -2147483648 ≤ n) (h1 : n < 2147483648) :
    intRepr.Reproduces n := by
  refine ⟨by simp, ?_⟩
  have := intRepr_read_write n [] h0 h1
  simpa using this

theorem uint16Repr_reproduces (x : Uint16) : uint16Repr.Reproduces x := by
  refine ⟨by simp [uint16Repr], ?_⟩
  simp only [uint16Repr]
  apply Fin.ext
  simp only []
  rw [List.take_of_length_le (by simp), leValue_leBytes]
  have := x.isLt
  omega

theorem boolRepr_reproduces (b : Bool) : boolRepr.Reproduces b := by
  cases b <;> exact ⟨rfl, by decide⟩

end CodecLemmas

section ReaderLemmas

theorem Reader.bind_apply {α β : Type} (p : Reader α) (q : α → Reader β) (f : List Byte) :
    (p >>= q) f = match p f with
      | Outcome.ok r => q r.1 r.2
      | Outcome.fault e => Outcome.fault e := rfl

theorem Reader.bind_ok {α β : Type} {p : Reader α} {q : α → Reader β} {f r : List Byte} {a : α}
    (h : p f = Outcome.ok (a, r)) : (p >>= q) f = q a r := by
  rw [Reader.bind_apply, h]

theorem Reader.bind_fault {α β : Type} {p : Reader α} {q : α → Reader β} {f : List Byte}
    {e : Fault} (h : p f = Outcome.fault e) : (p >>= q) f = Outcome.fault e := by
  rw [Reader.bind_apply, h]

theorem Reader.bind_eq_ok {α β : Type} {p : Reader α} {q : α → Reader β} {f r : List Byte}
    {b : β} (h : (p >>= q) f = Outcome.ok (b, r)) :
    ∃ a r1, p f = Outcome.ok (a, r1) ∧ q a r1 = Outcome.ok (b, r) := by
  rw [Reader.bind_apply] at h
  cases hp : p f with
  | ok x => rw [hp] at h; exact ⟨x.1, x.2, rfl, h⟩
  | fault e => rw [hp] at h; cases h

@[simp] theorem Reader.pure_apply {α : Type} (a : α) (f : List Byte) :
    (pure a : Reader α) f = Outcome.ok (a, f) := rfl

@[simp] theorem Reader.fail_apply {α : Type} (e : Fault) (f : List Byte) :
    (Reader.fail e : Reader α) f = Outcome.fault e := rfl

theorem fread_or_die_append (size n : Nat) (d r : List Byte) (hs : 0 < size)
    (hd : d.length = size * n) : fread_or_die size n (d ++ r) = Outcome.ok (d, r) := by
  unfold fread_or_die
  have h1 : ¬ (if size = 0 then 0 else min n ((d ++ r).length / size)) < n := by
    rw [if_neg (by omega)]
    have : n ≤ (d ++ r).length / size := by
      rw [Nat.le_div_iff_mul_le hs, List.length_append, hd, mul_comm]
      omega
    omega
  simp only [h1, if_false]
  rw [take_append_of_length _ _ _ hd, drop_append_of_length _ _ _ hd]

theorem fread_or_die_short (size n : Nat) (f : List Byte) (h : f.length < size * n) :
    fread_or_die size n f = Outcome.fault Fault.abort := by
  unfold fread_or_die
  have h1 : (if size = 0 then 0 else min n (f.length / size)) < n := by
    by_cases hs : size = 0
    · subst hs; simp at h
    · rw [if_neg hs]
      have : f.length / size < n := by
        rw [Nat.div_lt_iff_lt_mul (by omega)]
        rw [mul_comm]; exact h
      omega
  simp only [h1, if_true]

theorem fread_or_die_ok {size n : Nat} {f d r : List Byte}
    (h : fread_or_die size n f = Outcome.ok (d, r)) :
    f = d ++ r ∧ d.length = size * n ∧ (0 < size ∨ n = 0) := by
  unfold fread_or_die at h
  by_cases h1 : (if size = 0 then 0 else min n (f.length / size)) < n
  · simp only [h1, if_true] at h; cases h
  · simp only [h1, if_false] at h
    cases h
    have hlen : size * n ≤ f.length ∧ (0 < size ∨ n = 0) := by
      by_cases hs : size = 0
      · subst hs; simp at h1; simp [h1]
      · rw [if_neg hs] at h1
        have : n ≤ f.length / size := by omega
        rw [Nat.le_div_iff_mul_le (by omega)] at this
        constructor
        · rw [mul_comm]; exact this
        · left; omega
    refine ⟨(List.take_append_drop _ _).symm, ?_, hlen.2⟩
    rw [List.length_take]; omega

theorem framed_pure {α : Type} (a : α) : Reader.Framed (pure a : Reader α) := by
  intro f x r h
  cases h
  exact ⟨[], rfl, fun _ => rfl, fun k hk => by cases hk⟩

theorem framed_fail {α : Type} (e : Fault) : Reader.Framed (Reader.fail e : Reader α) := by
  intro f x r h; cases h

theorem framed_assert (c : Bool) : Reader.Framed (Reader.assert c) := by
  intro f x r h
  unfold Reader.assert at h ⊢
  cases c
  · cases h
  · cases h
    exact ⟨[], rfl, fun _ => rfl, fun k hk => by cases hk⟩

theorem framed_fread (size n : Nat) : Reader.Framed (fread_or_die size n) := by
  intro f d r h
  obtain ⟨hf, hd, hs⟩ := fread_or_die_ok h
  refine ⟨d, hf, ?_, ?_⟩
  · intro r'
    rcases hs with hs | hs
    · exact fread_or_die_append size n d r' hs hd
    · subst hs
      have : d = [] := List.length_eq_zero.1 (by simpa using hd)
      subst this
      unfold fread_or_die
      simp
  · intro k hk
    apply fread_or_die_short
    rw [List.length_take]; omega

theorem framed_bind {α β : Type} {p : Reader α} {q : α → Reader β} (hp : Reader.Framed p)
    (hq : ∀ a, Reader.Framed (q a)) : Reader.Framed (p >>= q) := by
  intro f b r h
  obtain ⟨a, r1, h1, h2⟩ := Reader.bind_eq_ok h
  obtain ⟨d1, e1, c1, t1⟩ := hp f a r1 h1
  obtain ⟨d2, e2, c2, t2⟩ := hq a r1 b r h2
  refine ⟨d1 ++ d2, by rw [e1, e2, List.append_assoc], ?_, ?_⟩
  · intro r'
    rw [List.append_assoc, Reader.bind_ok (c1 (d2 ++ r'))]
    exact c2 r'
  · intro k hk
    rw [List.take_append_eq_append_take]
    by_cases hk1 : k < d1.length
    · have : k - d1.length = 0 := by omega
      rw [this, List.take_zero, List.append_nil]
      exact Reader.bind_fault (t1 k hk1)
    · rw [List.take_of_length_le (by omega)]
      rw [Reader.bind_ok (c1 _)]
      apply t2
      rw [List.length_append] at hk
      omega

theorem framed_ite {α : Type} {c : Prop} [Decidable c] {p q : Reader α}
    (hp : Reader.Framed p) (hq : Reader.Framed q) : Reader.Framed (if c then p else q) := by
  split
  · exact hp
  · exact hq

theorem framed_readObj {α : Type} (R : ObjRepr α) : Reader.Framed (readObj R) :=
  framed_bind (framed_fread _ _) (fun _ => framed_pure _)

theorem framed_readArray {α : Type} (R : ObjRepr α) (n : Nat) : Reader.Framed (readArray R n) :=
  framed_bind (framed_fread _ _) (fun _ => framed_pure _)

theorem framed_loadArray {α : Type} (R : ObjRepr α) (n : Int) (old : List α) :
    Reader.Framed (loadArray R n old) := by
  unfold loadArray
  exact framed_ite (framed_pure _) (framed_ite (framed_fail _) (framed_readArray _ _))

theorem framed_fread_string : Reader.Framed _fread_string := by
  unfold _fread_string
  refine framed_bind (framed_readObj _) (fun len => ?_)
  refine framed_ite (framed_fail _) ?_
  refine framed_bind (framed_fread _ _) (fun buf => ?_)
  exact framed_ite (framed_fail _) (framed_pure _)

theorem framed_loadOp (abi : Abi) (st : LoadState) : Reader.Framed (loadOp abi st) := by
  unfold loadOp
  refine framed_bind (framed_readObj _) (fun raw => ?_)
  cases raw with
  | OP_CALL_MODEL c => exact framed_bind framed_fread_string (fun _ => framed_pure _)
  | OP_DRAW_ELEMENTS e =>
    refine framed_ite ?_ (framed_pure _)
    refine framed_bind framed_fread_string (fun _ => ?_)
    exact framed_ite (framed_bind framed_fread_string (fun _ => framed_pure _)) (framed_pure _)
  | OP_DRAW_BILLBOARDS bb =>
    exact framed_ite (framed_bind framed_fread_string (fun _ => framed_pure _)) (framed_pure _)
  | _ => exact framed_pure _

theorem framed_loadOps (abi : Abi) (n : Nat) :
    ∀ st, Reader.Framed (loadOps abi n st) := by
  induction n with
  | zero => intro st; exact framed_pure _
  | succ n ih =>
    intro st
    exact framed_bind (framed_loadOp abi st)
      (fun r => framed_bind (ih r.2) (fun _ => framed_pure _))

theorem framed_LoadFromCache (abi : Abi) (st : LoadState) (b : LmrGeomBuffer) :
    Reader.Framed (LoadFromCache abi st b) := by
  unfold LoadFromCache
  refine framed_bind (framed_readObj _) (fun _ => ?_)
  refine framed_bind (framed_readObj _) (fun _ => ?_)
  refine framed_bind (framed_readObj _) (fun _ => ?_)
  refine framed_bind (framed_readObj _) (fun _ => ?_)
  refine framed_bind (framed_readObj _) (fun _ => ?_)
  refine framed_bind (framed_readObj _) (fun _ => ?_)
  refine framed_bind (framed_assert _) (fun _ => ?_)
  refine framed_bind (framed_assert _) (fun _ => ?_)
  refine framed_bind (framed_assert _) (fun _ => ?_)
  refine framed_bind (framed_assert _) (fun _ => ?_)
  refine framed_bind (framed_assert _) (fun _ => ?_)
  refine framed_bind (framed_loadArray _ _ _) (fun _ => ?_)
  refine framed_bind (framed_loadArray _ _ _) (fun _ => ?_)
  refine framed_bind (framed_loadArray _ _ _) (fun _ => ?_)
  refine framed_bind (framed_loadArray _ _ _) (fun _ => ?_)
  refine framed_ite (framed_fail _) ?_
  exact framed_bind (framed_loadOps _ _ _) (fun _ => framed_pure _)

end ReaderLemmas

section RoundTrip

theorem encodeArray_length {α : Type} (R : ObjRepr α) (xs : List α)
    (h : ∀ x ∈ xs, (R.write x).length = R.size) :
    (encodeArray R xs).length = R.size * xs.length := by
  induction xs with
  | nil => simp [encodeArray]
  | cons a as ih =>
    simp only [encodeArray, List.length_append, List.length_cons]
    rw [h a (List.mem_cons_self _ _), ih (fun x hx => h x (List.mem_cons_of_mem _ hx))]
    ring

theorem decodeArray_encodeArray {α : Type} (R : ObjRepr α) (xs : List α) (rest : List Byte)
    (h : ∀ x ∈ xs, (R.write x).length = R.size) :
    decodeArray R xs.length (encodeArray R xs ++ rest) =
      xs.map (fun x => R.read (R.write x)) := by
  induction xs with
  | nil => simp [decodeArray]
  | cons a as ih =>
    have ha := h a (List.mem_cons_self _ _)
    simp only [encodeArray, List.length_cons, decodeArray, List.map_cons, List.append_assoc]
    rw [take_append_of_length _ _ _ ha, drop_append_of_length _ _ _ ha,
      ih (fun x hx => h x (List.mem_cons_of_mem _ hx))]

theorem readObj_append {α : Type} (R : ObjRepr α) (d r : List Byte) (hs : 0 < R.size)
    (hd : d.length = R.size) : readObj R (d ++ r) = Outcome.ok (R.read d, r) := by
  unfold readObj
  rw [Reader.bind_ok (fread_or_die_append R.size 1 d r hs (by omega))]
  rfl

theorem readObj_int (n : Int) (r : List Byte) (h0 : -2147483648 ≤ n) (h1 : n < 2147483648) :
    readObj intRepr (intRepr.write n ++ r) = Outcome.ok (n, r) := by
  rw [readObj_append intRepr _ r (by decide) (by simp), (intRepr_reproduces n h0 h1).2]

theorem readArray_encodeArray {α : Type} (R : ObjRepr α) (xs : List α) (rest : List Byte)
    (hs : 0 < R.size) (h : ∀ x ∈ xs, (R.write x).length = R.size) :
    readArray R xs.length (encodeArray R xs ++ rest) =
      Outcome.ok (xs.map (fun x => R.read (R.write x)), rest) := by
  unfold readArray
  rw [Reader.bind_ok (fread_or_die_append R.size xs.length _ rest hs (encodeArray_length R xs h))]
  show Outcome.ok (decodeArray R xs.length (encodeArray R xs), rest) = _
  have := decodeArray_encodeArray R xs [] h
  rw [List.append_nil] at this
  rw [this]

theorem writeArray_length {α : Type} (R : ObjRepr α) (xs : List α) :
    writeArray R (xs.length : Int) xs = Outcome.ok (encodeArray R xs) := by
  unfold writeArray
  by_cases h : (xs.length : Int) = 0
  · have : xs = [] := List.length_eq_zero.1 (by exact_mod_cast h)
    subst this; rfl
  · rw [if_neg h, if_neg (by omega)]
    simp [pure]

theorem loadArray_encodeArray {α : Type} (R : ObjRepr α) (xs old : List α) (rest : List Byte)
    (hs : 0 < R.size) (h : ∀ x ∈ xs, R.Reproduces x) (hold : old = []) :
    loadArray R (xs.length : Int) old (encodeArray R xs ++ rest) = Outcome.ok (xs, rest) := by
  unfold loadArray
  by_cases h0 : (xs.length : Int) = 0
  · have : xs = [] := List.length_eq_zero.1 (by exact_mod_cast h0)
    subst this; subst hold; rfl
  · rw [if_neg h0, if_neg (by omega), Int.toNat_ofNat,
      readArray_encodeArray R xs rest hs (fun x hx => (h x hx).1)]
    have : xs.map (fun x => R.read (R.write x)) = xs := by
      conv_rhs => rw [← List.map_id xs]
      exact List.map_congr_left (fun x hx => (h x hx).2)
    rw [this]

theorem cstr_append_nul (str : CStr) : cstr (str ++ [0]) = cstr str := by
  induction str with
  | nil => simp [cstr, List.takeWhile]
  | cons c cs ih =>
    unfold cstr at *
    simp only [List.cons_append, List.takeWhile_cons]
    split
    · rw [ih]
    · rfl

theorem cstr_of_nonul (str : CStr) (h : ∀ c ∈ str, c ≠ 0) : cstr str = str := by
  unfold cstr
  rw [List.takeWhile_eq_self_iff]
  intro c hc
  simpa using h c hc

theorem fwrite_string_short (str : CStr) (h : (str.length : Int) + 1 < 2147483648) :
    _fwrite_string str =
      Outcome.ok (intRepr.write ((str.length : Int) + 1) ++ (str ++ [0])) := by
  unfold _fwrite_string
  rw [toInt32_of_range _ (by omega) h]
  simp only []
  rw [if_neg (by omega)]
  congr 2
  apply List.take_of_length_le
  simp

theorem fread_string_written (str : CStr) (rest : List Byte)
    (h : (str.length : Int) + 1 < 2147483648) :
    _fread_string (intRepr.write ((str.length : Int) + 1) ++ (str ++ [0]) ++ rest) =
      Outcome.ok (cstr str, rest) := by
  unfold _fread_string
  rw [List.append_assoc, Reader.bind_ok (readObj_int _ _ (by omega) h)]
  rw [if_neg (by omega)]
  have hl : ((str.length : Int) + 1).toNat = (str ++ [0]).length := by
    simp
  rw [Reader.bind_ok (fread_or_die_append 1 _ (str ++ [0]) rest (by decide) (by omega))]
  have hall : (str ++ [0]).all (fun c => decide (c ≠ 0)) = false := by
    simp
  simp only [hall, Bool.false_eq_true, if_false]
  rw [Reader.pure_apply, cstr_append_nul]


@[simp] theorem Outcome.outcome_bind_ok {α β : Type} (a : α) (f : α → Outcome β) :
    (Outcome.ok a >>= f) = f a := rfl

@[simp] theorem Outcome.pure_eq {α : Type} (a : α) : (pure a : Outcome α) = Outcome.ok a := rfl

theorem loadOp_raw (abi : Abi) (op : Op) (r : List Byte)
    (hs : 0 < abi.op.size) (hl : (abi.op.write op).length = abi.op.size)
    (hr : abi.op.read (abi.op.write op) = op.stale) :
    readObj abi.op (abi.op.write op ++ r) = Outcome.ok (op.stale, r) := by
  rw [readObj_append abi.op _ r hs hl, hr]

/-- One op written by `saveOp` is read back by `loadOp` as `reloadOp` says. -/
theorem saveOp_loadOp (abi : Abi) (st : LoadState) (op : Op) (rest : List Byte)
    (hs : 0 < abi.op.size) (hl : (abi.op.write op).length = abi.op.size)
    (hr : abi.op.read (abi.op.write op) = op.stale) (hv : op.Savable) :
    ∃ bytes, saveOp abi op = Outcome.ok bytes ∧
      loadOp abi st (bytes ++ rest) = Outcome.ok (reloadOp abi st op, rest) := by
  have hraw := fun r => loadOp_raw abi op r hs hl hr
  cases op with
  | OP_CALL_MODEL c =>
    obtain ⟨m, name, hm, hn, hshort⟩ := hv
    refine ⟨abi.op.write (Op.OP_CALL_MODEL c) ++
      (intRepr.write ((name.length : Int) + 1) ++ (name ++ [0])), ?_, ?_⟩
    · simp only [saveOp, hm, hn, fwrite_string_short name hshort, Outcome.outcome_bind_ok,
        Outcome.pure_eq]
    · unfold loadOp
      rw [List.append_assoc, Reader.bind_ok (hraw _)]
      simp only [Op.stale]
      rw [Reader.bind_ok (fread_string_written name rest hshort)]
      simp [reloadOp, hm, hn]
  | OP_DRAW_ELEMENTS e =>
    obtain ⟨ht, hg⟩ := hv
    cases htf : e.textureFile with
    | none =>
      refine ⟨abi.op.write (Op.OP_DRAW_ELEMENTS e), ?_, ?_⟩
      · simp only [saveOp, htf, Outcome.pure_eq]
      · unfold loadOp
        rw [Reader.bind_ok (hraw _)]
        simp [Op.stale, reloadOp, htf]
    | some t =>
      obtain ⟨ts, hts, htshort⟩ := ht t htf
      cases hgf : e.glowmapFile with
      | none =>
        refine ⟨abi.op.write (Op.OP_DRAW_ELEMENTS e) ++
          (intRepr.write ((ts.length : Int) + 1) ++ (ts ++ [0])), ?_, ?_⟩
        · simp only [saveOp, htf, hgf, derefStr, hts, fwrite_string_short ts htshort,
            Outcome.outcome_bind_ok, Outcome.pure_eq]
        · unfold loadOp
          rw [List.append_assoc, Reader.bind_ok (hraw _)]
          simp only [Op.stale, htf, hgf, Option.map_some', Option.map_none', Option.isSome_some,
            if_true, Option.isSome_none, Bool.false_eq_true, if_false]
          rw [Reader.bind_ok (fread_string_written ts rest htshort)]
          simp [reloadOp, htf, hgf, hts]
      | some g =>
        obtain ⟨gs, hgs, hgshort⟩ := hg (by simp [htf]) g hgf
        refine ⟨abi.op.write (Op.OP_DRAW_ELEMENTS e) ++
          (intRepr.write ((ts.length : Int) + 1) ++ (ts ++ [0])) ++
          (intRepr.write ((gs.length : Int) + 1) ++ (gs ++ [0])), ?_, ?_⟩
        · simp only [saveOp, htf, hgf, derefStr, hts, hgs, fwrite_string_short ts htshort,
            fwrite_string_short gs hgshort, Outcome.outcome_bind_ok, Outcome.pure_eq]
        · unfold loadOp
          rw [List.append_assoc, List.append_assoc, Reader.bind_ok (hraw _)]
          simp only [Op.stale, htf, hgf, Option.map_some', Option.isSome_some, if_true]
          rw [Reader.bind_ok (fread_string_written ts _ htshort)]
          rw [Reader.bind_ok (fread_string_written gs rest hgshort)]
          simp [reloadOp, htf, hgf, hts, hgs]
  | OP_DRAW_BILLBOARDS bb =>
    cases htf : bb.textureFile with
    | none =>
      refine ⟨abi.op.write (Op.OP_DRAW_BILLBOARDS bb), ?_, ?_⟩
      · simp only [saveOp, htf, Outcome.pure_eq]
      · unfold loadOp
        rw [Reader.bind_ok (hraw _)]
        simp [Op.stale, reloadOp, htf]
    | some t =>
      obtain ⟨ts, hts, htshort⟩ := hv t htf
      refine ⟨abi.op.write (Op.OP_DRAW_BILLBOARDS bb) ++
          (intRepr.write ((ts.length : Int) + 1) ++ (ts ++ [0])), ?_, ?_⟩
      · simp only [saveOp, htf, derefStr, hts, fwrite_string_short ts htshort,
          Outcome.outcome_bind_ok, Outcome.pure_eq]
      · unfold loadOp
        rw [List.append_assoc, Reader.bind_ok (hraw _)]
        simp only [Op.stale, htf, Option.map_some', Option.isSome_some, if_true]
        rw [Reader.bind_ok (fread_string_written ts rest htshort)]
        simp [reloadOp, htf, hts]
  | OP_NONE =>
    refine ⟨abi.op.write Op.OP_NONE, rfl, ?_⟩
    unfold loadOp
    rw [Reader.bind_ok (hraw _)]
    rfl
  | OP_SET_MATERIAL i =>
    refine ⟨abi.op.write (Op.OP_SET_MATERIAL i), rfl, ?_⟩
    unfold loadOp
    rw [Reader.bind_ok (hraw _)]
    rfl
  | OP_ZBIAS z =>
    refine ⟨abi.op.write (Op.OP_ZBIAS z), rfl, ?_⟩
    unfold loadOp
    rw [Reader.bind_ok (hraw _)]
    rfl
  | OP_LIGHTING_TYPE l =>
    refine ⟨abi.op.write (Op.OP_LIGHTING_TYPE l), rfl, ?_⟩
    unfold loadOp
    rw [Reader.bind_ok (hraw _)]
    rfl
  | OP_USE_LIGHT n =>
    refine ⟨abi.op.write (Op.OP_USE_LIGHT n), rfl, ?_⟩
    unfold loadOp
    rw [Reader.bind_ok (hraw _)]
    rfl


/-- An op-stream written by `saveOps` is read back by `loadOps` as `reloadOps` says. -/
theorem saveOps_loadOps (abi : Abi) (hs : 0 < abi.op.size) (ops : List Op) :
    ∀ (st : LoadState) (rest : List Byte),
      (∀ o ∈ ops, (abi.op.write o).length = abi.op.size ∧
        abi.op.read (abi.op.write o) = o.stale) →
      (∀ o ∈ ops, o.Savable) →
      ∃ bytes, saveOps abi ops = Outcome.ok bytes ∧
        loadOps abi ops.length st (bytes ++ rest) =
          Outcome.ok (reloadOps abi st ops, rest) := by
  induction ops with
  | nil => intro st rest _ _; exact ⟨[], rfl, rfl⟩
  | cons o os ih =>
    intro st rest hrep hsav
    have ho := hrep o (List.mem_cons_self _ _)
    obtain ⟨b2, hb2, hl2⟩ := ih (reloadOp abi st o).2 rest
      (fun x hx => hrep x (List.mem_cons_of_mem _ hx))
      (fun x hx => hsav x (List.mem_cons_of_mem _ hx))
    obtain ⟨b1, hb1, hl1⟩ := saveOp_loadOp abi st o (b2 ++ rest) hs ho.1 ho.2
      (hsav o (List.mem_cons_self _ _))
    refine ⟨b1 ++ b2, ?_, ?_⟩
    · simp only [saveOps, hb1, hb2, Outcome.outcome_bind_ok, Outcome.pure_eq]
    · simp only [List.length_cons, loadOps]
      rw [List.append_assoc, Reader.bind_ok hl1, Reader.bind_ok hl2]
      rfl


theorem assert_true (c : Bool) (h : c = true) (f : List Byte) :
    Reader.assert c f = Outcome.ok ((), f) := by
  subst h; rfl

theorem readObj_bool (x : Bool) (r : List Byte) :
    readObj boolRepr (boolRepr.write x ++ r) = Outcome.ok (x, r) := by
  rw [readObj_append boolRepr _ r (by decide) (boolRepr_reproduces x).1,
    (boolRepr_reproduces x).2]

/-- The bytes `SaveToCache` writes for a buffer within the bounds. -/
theorem SaveToCache_eq (abi : Abi) (b : LmrGeomBuffer) (os : List Byte)
    (hb : b.WithinBounds) (hos : saveOps abi b.m_ops = Outcome.ok os) :
    SaveToCache abi b = Outcome.ok
      (boolRepr.write b.m_isFromObjFile ++ intRepr.write (b.m_vertices.length : Int) ++
        intRepr.write (b.m_indices.length : Int) ++ intRepr.write (b.m_triflags.length : Int) ++
        intRepr.write (b.m_thrusters.length : Int) ++ intRepr.write (b.m_ops.length : Int) ++
        encodeArray abi.vertex b.m_vertices ++ encodeArray uint16Repr b.m_indices ++
        encodeArray uint16Repr b.m_triflags ++ encodeArray abi.thruster b.m_thrusters ++ os) := by
  obtain ⟨h1, h2, h3, h4, h5⟩ := hb
  unfold SaveToCache
  rw [toInt32_of_range (b.m_vertices.length : Int) (by omega) (by omega),
    toInt32_of_range (b.m_indices.length : Int) (by omega) (by omega),
    toInt32_of_range (b.m_triflags.length : Int) (by omega) (by omega),
    toInt32_of_range (b.m_thrusters.length : Int) (by omega) (by omega),
    toInt32_of_range (b.m_ops.length : Int) (by omega) (by omega)]
  simp only []
  rw [if_neg (by omega), writeArray_length, writeArray_length, writeArray_length,
    writeArray_length, Int.toNat_ofNat, List.take_length, hos]
  rfl

/-- Loading what `SaveToCache` wrote, into a buffer whose arrays are empty: the arrays come
back as they were and the ops as `reloadOps` says; the bytes after the record are left. -/
theorem LoadFromCache_SaveToCache (abi : Abi) (b old : LmrGeomBuffer) (st : LoadState)
    (rest : List Byte) (hb : b.WithinBounds) (hrep : abi.Reproduces b)
    (hsav : ∀ o ∈ b.m_ops, o.Savable)
    (hold : old.m_vertices = [] ∧ old.m_indices = [] ∧ old.m_triflags = [] ∧
      old.m_thrusters = []) :
    ∃ bytes, SaveToCache abi b = Outcome.ok bytes ∧
      LoadFromCache abi st old (bytes ++ rest) = Outcome.ok
        (({ old with m_isFromObjFile := b.m_isFromObjFile, m_vertices := b.m_vertices,
                     m_indices := b.m_indices, m_triflags := b.m_triflags,
                     m_thrusters := b.m_thrusters,
                     m_ops := (reloadOps abi st b.m_ops).1 },
          (reloadOps abi st b.m_ops).2), rest) := by
  obtain ⟨hvs, hts, hops, hv, ht, ho⟩ := hrep
  obtain ⟨os, hos, hload⟩ := saveOps_loadOps abi hops b.m_ops st rest ho hsav
  refine ⟨_, SaveToCache_eq abi b os hb hos, ?_⟩
  obtain ⟨h1, h2, h3, h4, h5⟩ := hb
  simp only [List.append_assoc]
  unfold LoadFromCache
  rw [Reader.bind_ok (readObj_bool _ _),
    Reader.bind_ok (readObj_int _ _ (by omega) (by omega)),
    Reader.bind_ok (readObj_int _ _ (by omega) (by omega)),
    Reader.bind_ok (readObj_int _ _ (by omega) (by omega)),
    Reader.bind_ok (readObj_int _ _ (by omega) (by omega)),
    Reader.bind_ok (readObj_int _ _ (by omega) (by omega)),
    Reader.bind_ok (assert_true _ (decide_eq_true (by omega)) _),
    Reader.bind_ok (assert_true _ (decide_eq_true (by omega)) _),
    Reader.bind_ok (assert_true _ (decide_eq_true (by omega)) _),
    Reader.bind_ok (assert_true _ (decide_eq_true (by omega)) _),
    Reader.bind_ok (assert_true _ (decide_eq_true (by omega)) _),
    Reader.bind_ok (loadArray_encodeArray abi.vertex _ _ _ hvs hv hold.1),
    Reader.bind_ok (loadArray_encodeArray uint16Repr _ _ _ (by decide)
      (fun x _ => uint16Repr_reproduces x) hold.2.1),
    Reader.bind_ok (loadArray_encodeArray uint16Repr _ _ _ (by decide)
      (fun x _ => uint16Repr_reproduces x) hold.2.2.1),
    Reader.bind_ok (loadArray_encodeArray abi.thruster _ _ _ hts ht hold.2.2.2),
    if_neg (by omega), Int.toNat_ofNat, Reader.bind_ok hload]
  rfl

end RoundTrip

section CacheClaims

theorem Registry.index_fst (reg : Registry) (name : CStr) :
    (reg.index name).1 = reg.find name := by
  unfold Registry.index Registry.find
  cases reg.lookup name <;> rfl

theorem lookup_append_single (reg : Registry) (k n : CStr) (v : Option ModelPtr) :
    List.lookup n (reg ++ [(k, v)]) =
      match List.lookup n reg with
      | some x => some x
      | none => if n == k then some v else none := by
  induction reg with
  | nil =>
    simp only [List.nil_append, List.lookup]
    cases n == k <;> rfl
  | cons a as ih =>
    obtain ⟨ak, av⟩ := a
    simp only [List.cons_append, List.lookup]
    cases n == ak
    · simpa using ih
    · simp

theorem Registry.index_find (reg : Registry) (name n : CStr) :
    (reg.index name).2.find n = reg.find n := by
  unfold Registry.index Registry.find
  cases h : reg.lookup name with
  | some p => rfl
  | none =>
    simp only [lookup_append_single]
    cases h2 : List.lookup n reg with
    | some x => rfl
    | none =>
      by_cases hn : (n == name) = true
      · simp [hn]
      · simp [hn]

theorem reloadOp_find (abi : Abi) (st : LoadState) (o : Op) (n : CStr) :
    (reloadOp abi st o).2.s_models.find n = st.s_models.find n := by
  cases o with
  | OP_CALL_MODEL c => simp only [reloadOp]; exact Registry.index_find _ _ _
  | OP_DRAW_ELEMENTS e =>
    simp only [reloadOp]
    cases e.textureFile with
    | none => rfl
    | some t => cases e.glowmapFile <;> rfl
  | OP_DRAW_BILLBOARDS bb =>
    simp only [reloadOp]
    cases bb.textureFile <;> rfl
  | _ => rfl

theorem reloadOp_kept (abi : Abi) (st : LoadState) (o : Op) (hc : o.Clean) (hs : o.Savable) :
    Op.KeptAs st.s_models o (reloadOp abi st o).1 := by
  cases o with
  | OP_CALL_MODEL c =>
    obtain ⟨m, name, hm, hn, -⟩ := hs
    refine ⟨rfl, rfl, ?_⟩
    intro nm hnm
    simp only [hm, Option.bind, hn] at hnm
    cases hnm
    show (st.s_models.index (cstr ((c.model.bind ModelPtr.name).getD []))).1 = _
    rw [Registry.index_fst]
    simp only [hm, Option.bind, hn, Option.getD]
    rw [cstr_of_nonul _ (hc m name hm hn)]
  | OP_DRAW_ELEMENTS e =>
    obtain ⟨ht, hg⟩ := hs
    obtain ⟨ct, cg⟩ := hc
    cases htf : e.textureFile with
    | none =>
      simp only [reloadOp, htf, Op.stale, Op.KeptAs, Option.map_none', pathOf, Option.bind,
        true_and]
      intro h
      rcases h with h | h
      · exact absurd rfl h
      · rw [h]; rfl
    | some t =>
      obtain ⟨ts, hts, -⟩ := ht t htf
      have cts := cstr_of_nonul ts (ct t ts htf hts)
      cases hgf : e.glowmapFile with
      | none =>
        simp [reloadOp, htf, hgf, Op.KeptAs, pathOf, hts, cts]
      | some g =>
        obtain ⟨gs, hgs, -⟩ := hg (by simp [htf]) g hgf
        have cgs := cstr_of_nonul gs (cg g gs hgf hgs)
        simp [reloadOp, htf, hgf, Op.KeptAs, pathOf, hts, hgs, cts, cgs]
  | OP_DRAW_BILLBOARDS bb =>
    cases htf : bb.textureFile with
    | none => simp [reloadOp, htf, Op.KeptAs, pathOf]
    | some t =>
      obtain ⟨ts, hts, -⟩ := hs t htf
      have cts := cstr_of_nonul ts (hc t ts htf hts)
      simp [reloadOp, htf, Op.KeptAs, pathOf, hts, cts, clearElemsTexture]
  | OP_NONE => trivial
  | OP_SET_MATERIAL i => exact rfl
  | OP_ZBIAS z => exact rfl
  | OP_LIGHTING_TYPE l => exact rfl
  | OP_USE_LIGHT n => exact rfl

theorem KeptAs_congr_reg {reg reg' : Registry} (h : ∀ n, reg'.find n = reg.find n) (o o' : Op)
    (hk : Op.KeptAs reg' o o') : Op.KeptAs reg o o' := by
  cases o <;> cases o' <;> simp only [Op.KeptAs] at hk ⊢ <;> try exact hk
  case OP_CALL_MODEL.OP_CALL_MODEL c c' =>
    exact ⟨hk.1, hk.2.1, fun name hn => by rw [hk.2.2 name hn, h]⟩

theorem reloadOps_kept (abi : Abi) (ops : List Op) :
    ∀ st : LoadState, (∀ o ∈ ops, o.Clean) → (∀ o ∈ ops, o.Savable) →
      List.Forall₂ (Op.KeptAs st.s_models) ops (reloadOps abi st ops).1 := by
  induction ops with
  | nil => intro st _ _; exact List.Forall₂.nil
  | cons o os ih =>
    intro st hc hs
    refine List.Forall₂.cons
      (reloadOp_kept abi st o (hc o (List.mem_cons_self _ _)) (hs o (List.mem_cons_self _ _))) ?_
    have := ih (reloadOp abi st o).2 (fun x hx => hc x (List.mem_cons_of_mem _ hx))
      (fun x hx => hs x (List.mem_cons_of_mem _ hx))
    exact this.imp (fun a b hab => KeptAs_congr_reg (reloadOp_find abi st o) a b hab)

theorem assert_false (c : Bool) (h : c = false) (f : List Byte) :
    Reader.assert c f = Outcome.fault Fault.abort := by
  subst h; rfl

/-- A header that announces a count beyond the bounds makes `LoadFromCache` abort. -/
theorem LoadFromCache_header_abort (abi : Abi) (st : LoadState) (b : LmrGeomBuffer)
    (isObj : Bool) (nv ni nt nh no : Int) (rest : List Byte)
    (hv : -2147483648 ≤ nv ∧ nv < 2147483648) (hi : -2147483648 ≤ ni ∧ ni < 2147483648)
    (ht : -2147483648 ≤ nt ∧ nt < 2147483648) (hh : -2147483648 ≤ nh ∧ nh < 2147483648)
    (ho : -2147483648 ≤ no ∧ no < 2147483648)
    (hbad : 65536 < nv ∨ 1000000 ≤ ni ∨ 1000000 ≤ nt ∨ 1000 ≤ nh ∨ 1000 ≤ no) :
    LoadFromCache abi st b
      (boolRepr.write isObj ++ (intRepr.write nv ++ (intRepr.write ni ++ (intRepr.write nt ++
        (intRepr.write nh ++ (intRepr.write no ++ rest)))))) = Outcome.fault Fault.abort := by
  unfold LoadFromCache
  rw [Reader.bind_ok (readObj_bool _ _),
    Reader.bind_ok (readObj_int _ _ hv.1 hv.2),
    Reader.bind_ok (readObj_int _ _ hi.1 hi.2),
    Reader.bind_ok (readObj_int _ _ ht.1 ht.2),
    Reader.bind_ok (readObj_int _ _ hh.1 hh.2),
    Reader.bind_ok (readObj_int _ _ ho.1 ho.2)]
  by_cases h1 : nv ≤ 65536
  · rw [Reader.bind_ok (assert_true _ (decide_eq_true h1) _)]
    by_cases h2 : ni < 1000000
    · rw [Reader.bind_ok (assert_true _ (decide_eq_true h2) _)]
      by_cases h3 : nt < 1000000
      · rw [Reader.bind_ok (assert_true _ (decide_eq_true h3) _)]
        by_cases h4 : nh < 1000
        · rw [Reader.bind_ok (assert_true _ (decide_eq_true h4) _)]
          have h5 : ¬ no < 1000 := by omega
          rw [Reader.bind_fault (assert_false _ (decide_eq_false h5) _)]
        · rw [Reader.bind_fault (assert_false _ (decide_eq_false h4) _)]
      · rw [Reader.bind_fault (assert_false _ (decide_eq_false h3) _)]
    · rw [Reader.bind_fault (assert_false _ (decide_eq_false h2) _)]
  · rw [Reader.bind_fault (assert_false _ (decide_eq_false h1) _)]

theorem LoadFromCache_truncated (abi : Abi) (st : LoadState) (b : LmrGeomBuffer)
    (f : List Byte) (res : LmrGeomBuffer × LoadState) (r : List Byte)
    (h : LoadFromCache abi st b f = Outcome.ok (res, r)) (k : Nat)
    (hk : k < f.length - r.length) :
    LoadFromCache abi st b (f.take k) = Outcome.fault Fault.abort := by
  obtain ⟨d, hd, -, htr⟩ := framed_LoadFromCache abi st b f res r h
  subst hd
  have hl : k < d.length := by simpa using hk
  rw [List.take_append_of_le_length (by omega)]
  exact htr k hl

end CacheClaims

section CacheTheorems
set_option maxRecDepth 100000

/-- C4: saving a buffer within the bounds and loading the record into a freshly
constructed buffer returns, and gives back the vertex, index, triangle-flag and thruster
arrays and the is-from-OBJ marker of the saved buffer. -/
theorem C4_arrays_round_trip (abi : Abi) (b : LmrGeomBuffer) (isStatic : Bool)
    (st : LoadState) (rest : List Byte) (hb : b.WithinBounds) (hrep : abi.Reproduces b)
    (hsav : ∀ o ∈ b.m_ops, o.Savable) :
    ∃ bytes loaded st', SaveToCache abi b = Outcome.ok bytes ∧
      LoadFromCache abi st (LmrGeomBuffer.new isStatic) (bytes ++ rest) =
        Outcome.ok ((loaded, st'), rest) ∧
      loaded.m_vertices = b.m_vertices ∧ loaded.m_indices = b.m_indices ∧
      loaded.m_triflags = b.m_triflags ∧ loaded.m_thrusters = b.m_thrusters ∧
      loaded.m_isFromObjFile = b.m_isFromObjFile := by
  obtain ⟨bytes, hs, hl⟩ := LoadFromCache_SaveToCache abi b (LmrGeomBuffer.new isStatic) st rest
    hb hrep hsav ⟨rfl, rfl, rfl, rfl⟩
  exact ⟨bytes, _, _, hs, hl, rfl, rfl, rfl, rfl, rfl⟩

theorem C4_arrays_round_trip_witness :
    sampleBuffer.WithinBounds ∧ sampleAbi.Reproduces sampleBuffer ∧
    (∀ o ∈ sampleBuffer.m_ops, o.Savable) ∧
    ∃ bytes loaded st', SaveToCache sampleAbi sampleBuffer = Outcome.ok bytes ∧
      LoadFromCache sampleAbi ⟨[], 8192⟩ (LmrGeomBuffer.new false) (bytes ++ [7]) =
        Outcome.ok ((loaded, st'), [7]) ∧
      loaded.m_vertices = sampleBuffer.m_vertices ∧ loaded.m_indices = sampleBuffer.m_indices ∧
      loaded.m_triflags = sampleBuffer.m_triflags ∧
      loaded.m_thrusters = sampleBuffer.m_thrusters ∧
      loaded.m_isFromObjFile = sampleBuffer.m_isFromObjFile :=
  ⟨by decide, by decide, by decide,
    C4_arrays_round_trip sampleAbi sampleBuffer false ⟨[], 8192⟩ [7] (by decide) (by decide)
      (by decide)⟩

/-- C5 at two failing inputs. A pass that pushes a vertex and then a billboard batch of two
points leaves a batch with `start` 1 and `count` 2; saved and loaded again the batch has
`start` 0 and `count` 0, because the billboard branch of `LoadFromCache` stores
`m_ops[i].elems.texture = 0` through the wrong union member, whose bytes are those of
`billboards.start` and `billboards.count`. A batch pushed with a glow map and no texture is
saved without its glow-map path, and the loaded op has a glow-map pointer with no string
behind it. -/
theorem C5_payload_lost :
    (billboardBuffer.m_ops =
      [Op.OP_DRAW_BILLBOARDS ⟨some ⟨4096, some (LmrGeomBuffer.texturesDir ++ [98])⟩, 0, 1, 2, GLfloat.one,
        [GLfloat.zero, GLfloat.zero, GLfloat.zero, GLfloat.one]⟩] ∧
     reloadedOps sampleAbi billboardBuffer =
      Outcome.ok [Op.OP_DRAW_BILLBOARDS ⟨some ⟨8192, some (LmrGeomBuffer.texturesDir ++ [98])⟩, 0, 0, 0,
        GLfloat.one, [GLfloat.zero, GLfloat.zero, GLfloat.zero, GLfloat.one]⟩]) ∧
    (glowOnlyBuffer.m_ops =
      [Op.OP_DRAW_ELEMENTS ⟨none, some ⟨4096, some [103]⟩, 0, 0, 0, 3, 0, 2⟩] ∧
     reloadedOps sampleAbi glowOnlyBuffer =
      Outcome.ok [Op.OP_DRAW_ELEMENTS ⟨none, some ⟨4096, none⟩, 0, 0, 0, 3, 0, 2⟩] ∧
     pathOf (some (⟨4096, none⟩ : StrPtr)) ≠ pathOf (some (⟨4096, some [103]⟩ : StrPtr))) := by
  refine ⟨⟨by decide, ?_⟩, by decide⟩
  decide!

/-- The part of C5 that the code keeps: for a buffer within the bounds whose ops refer to
live NUL-free strings, saving and loading into a freshly constructed buffer returns an
op-stream of the same length in which every op has the kind of the saved one and this
payload: a draw-element batch its index range and texture path, and its glow-map path when
it has a texture or no glow map; a billboard batch its size, colour and texture path; a
call op its transform and scale and the model that the registry holds under the name of
the saved model; the other ops their values. -/
theorem C5_ops_round_trip (abi : Abi) (b : LmrGeomBuffer) (isStatic : Bool)
    (st : LoadState) (rest : List Byte) (hb : b.WithinBounds) (hrep : abi.Reproduces b)
    (hsav : ∀ o ∈ b.m_ops, o.Savable) (hclean : ∀ o ∈ b.m_ops, o.Clean) :
    ∃ bytes loaded st', SaveToCache abi b = Outcome.ok bytes ∧
      LoadFromCache abi st (LmrGeomBuffer.new isStatic) (bytes ++ rest) =
        Outcome.ok ((loaded, st'), rest) ∧
      List.Forall₂ (Op.KeptAs st.s_models) b.m_ops loaded.m_ops := by
  obtain ⟨bytes, hs, hl⟩ := LoadFromCache_SaveToCache abi b (LmrGeomBuffer.new isStatic) st rest
    hb hrep hsav ⟨rfl, rfl, rfl, rfl⟩
  exact ⟨bytes, _, _, hs, hl, reloadOps_kept abi b.m_ops st hclean hsav⟩

theorem C5_ops_round_trip_witness :
    (∀ o ∈ sampleBuffer.m_ops, o.Clean) ∧
    ∃ bytes loaded st', SaveToCache sampleAbi sampleBuffer = Outcome.ok bytes ∧
      LoadFromCache sampleAbi ⟨[], 8192⟩ (LmrGeomBuffer.new true) (bytes ++ []) =
        Outcome.ok ((loaded, st'), []) ∧
      List.Forall₂ (Op.KeptAs []) sampleBuffer.m_ops loaded.m_ops :=
  ⟨by decide, C5_ops_round_trip sampleAbi sampleBuffer true ⟨[], 8192⟩ [] (by decide) (by decide)
    (by decide) (by decide)⟩

/-- C6: `LoadFromCache` aborts on every stream cut short of the record that a returning
load consumes, and on every header that announces more than 65536 vertices, 1000000 or more
indices or triangle flags, or 1000 or more thrusters or ops; on the record that
`SaveToCache` wrote for a buffer within the bounds it returns. -/
theorem C6_load_aborts_or_returns (abi : Abi) (st : LoadState) (isStatic : Bool) :
    (∀ (f : List Byte) (res : LmrGeomBuffer × LoadState) (r : List Byte),
      LoadFromCache abi st (LmrGeomBuffer.new isStatic) f = Outcome.ok (res, r) →
      ∀ k, k < f.length - r.length →
        LoadFromCache abi st (LmrGeomBuffer.new isStatic) (f.take k) =
          Outcome.fault Fault.abort) ∧
    (∀ (isObj : Bool) (nv ni nt nh no : Int) (rest : List Byte),
      (-2147483648 ≤ nv ∧ nv < 2147483648) → (-2147483648 ≤ ni ∧ ni < 2147483648) →
      (-2147483648 ≤ nt ∧ nt < 2147483648) → (-2147483648 ≤ nh ∧ nh < 2147483648) →
      (-2147483648 ≤ no ∧ no < 2147483648) →
      (65536 < nv ∨ 1000000 ≤ ni ∨ 1000000 ≤ nt ∨ 1000 ≤ nh ∨ 1000 ≤ no) →
      LoadFromCache abi st (LmrGeomBuffer.new isStatic)
        (boolRepr.write isObj ++ (intRepr.write nv ++ (intRepr.write ni ++
          (intRepr.write nt ++ (intRepr.write nh ++ (intRepr.write no ++ rest)))))) =
        Outcome.fault Fault.abort) ∧
    (∀ (b : LmrGeomBuffer) (rest : List Byte), b.WithinBounds → abi.Reproduces b →
      (∀ o ∈ b.m_ops, o.Savable) →
      ∃ bytes res, SaveToCache abi b = Outcome.ok bytes ∧
        LoadFromCache abi st (LmrGeomBuffer.new isStatic) (bytes ++ rest) =
          Outcome.ok (res, rest)) := by
  refine ⟨?_, ?_, ?_⟩
  · intro f res r h k hk
    exact LoadFromCache_truncated abi st _ f res r h k hk
  · intro isObj nv ni nt nh no rest hv hi ht hh ho hbad
    exact LoadFromCache_header_abort abi st _ isObj nv ni nt nh no rest hv hi ht hh ho hbad
  · intro b rest hb hrep hsav
    obtain ⟨bytes, hs, hl⟩ := LoadFromCache_SaveToCache abi b (LmrGeomBuffer.new isStatic) st
      rest hb hrep hsav ⟨rfl, rfl, rfl, rfl⟩
    exact ⟨bytes, _, hs, hl⟩

theorem C6_load_aborts_or_returns_witness :
    LoadFromCache sampleAbi ⟨[], 8192⟩ (LmrGeomBuffer.new true) (savedBytes sampleAbi glowOnlyBuffer) =
      Outcome.ok (({ LmrGeomBuffer.new true with
          m_indices := [0, 1, 2], m_triflags := [0],
          m_ops := [Op.OP_DRAW_ELEMENTS ⟨none, some ⟨4096, none⟩, 0, 0, 0, 3, 0, 2⟩] },
        ⟨[], 8192⟩), []) ∧
    (savedBytes sampleAbi glowOnlyBuffer).length = 117 ∧
    LoadFromCache sampleAbi ⟨[], 8192⟩ (LmrGeomBuffer.new true)
      ((savedBytes sampleAbi glowOnlyBuffer).take 116) = Outcome.fault Fault.abort ∧
    LoadFromCache sampleAbi ⟨[], 8192⟩ (LmrGeomBuffer.new true)
      (boolRepr.write false ++ (intRepr.write 65537 ++ (intRepr.write 0 ++
        (intRepr.write 0 ++ (intRepr.write 0 ++ (intRepr.write 0 ++ [])))))) =
      Outcome.fault Fault.abort :=
  ⟨by decide, by decide,
   (C6_load_aborts_or_returns sampleAbi ⟨[], 8192⟩ true).1 (savedBytes sampleAbi glowOnlyBuffer)
      (({ LmrGeomBuffer.new true with
          m_indices := [0, 1, 2], m_triflags := [0],
          m_ops := [Op.OP_DRAW_ELEMENTS ⟨none, some ⟨4096, none⟩, 0, 0, 0, 3, 0, 2⟩] },
        ⟨[], 8192⟩)) [] (by decide) 116 (by decide),
   (C6_load_aborts_or_returns sampleAbi ⟨[], 8192⟩ true).2.1 false 65537 0 0 0 0 []
      (by decide) (by decide) (by decide) (by decide) (by decide) (by decide)⟩

theorem readObj_uint32 (f : List Byte) (h : 4 ≤ f.length) :
    readObj uint32Repr f = Outcome.ok (leValue (f.take 4), f.drop 4) := by
  have := readObj_append uint32Repr (f.take 4) (f.drop 4) (by decide)
    (by rw [List.length_take]; exact Nat.min_eq_left h)
  rw [List.take_append_drop] at this
  rw [this]
  show Outcome.ok (leValue ((f.take 4).take 4), f.drop 4) = _
  rw [List.take_take]
  rfl

theorem readObj_uint32_short (f : List Byte) (h : f.length < 4) :
    readObj uint32Repr f = Outcome.fault Fault.abort := by
  unfold readObj
  exact Reader.bind_fault (fread_or_die_short 4 1 f (by omega))

theorem readCacheSum_eq (crc : Nat) (flag : Bool) (f : List Byte)
    (h : 8 ≤ f.length ∨ (4 ≤ f.length ∧ leValue (f.take 4) ≠ s_cacheVersion)) :
    ∃ r, readCacheSum crc flag f = Outcome.ok
      (if leValue (f.take 4) = s_cacheVersion ∧ leValue ((f.drop 4).take 4) = crc then false
       else flag, r) := by
  have h4 : 4 ≤ f.length := by omega
  unfold readCacheSum
  rw [Reader.bind_ok (readObj_uint32 f h4)]
  by_cases hv : leValue (f.take 4) = s_cacheVersion
  · have h8 : 8 ≤ f.length := by
      rcases h with h | h
      · exact h
      · exact absurd hv h.2
    rw [if_pos hv, Reader.bind_ok (readObj_uint32 (f.drop 4) (by rw [List.length_drop]; omega))]
    by_cases hc : leValue ((f.drop 4).take 4) = crc
    · rw [if_pos hc, if_pos ⟨hv, hc⟩]; exact ⟨_, rfl⟩
    · rw [if_neg hc, if_neg (fun x => hc x.2)]; exact ⟨_, rfl⟩
  · rw [if_neg hv, if_neg (fun x => hv x.1)]; exact ⟨_, rfl⟩

/-- C9, as the claim states it, fails: a summary file that exists but is empty (or holds
the current version and fewer than 8 bytes) makes `fread_or_die` abort, so the models are
neither reused nor rebuilt. -/
theorem C9_short_summary_aborts :
    _detect_model_changes 5 (some []) = Outcome.fault Fault.abort ∧
    _detect_model_changes 5 (some [3, 0, 0, 0, 5, 0, 0]) = Outcome.fault Fault.abort := by
  decide

/-- C9, amended: with a summary file that is absent or holds the bytes the reads ask for
(8 bytes, or 4 bytes that are not the current version), `_detect_model_changes` returns,
and it turns recompile-all off exactly when the file exists and holds the current version
and the checksum of the model files. When recompile-all stays on and the summary opens for
writing, `_write_model_crc_file` writes the version and checksum, which the next start
with the same checksum reuses; when recompile-all is off it leaves the file as it is. -/
theorem C9_cache_summary (crc : Nat) (hcrc : crc < 4294967296) (file : Option (List Byte))
    (hfile : ∀ f, file = some f →
      8 ≤ f.length ∨ (4 ≤ f.length ∧ leValue (f.take 4) ≠ s_cacheVersion)) :
    ∃ recompile, _detect_model_changes crc file = Outcome.ok recompile ∧
      (recompile = false ↔ ∃ f, file = some f ∧ leValue (f.take 4) = s_cacheVersion ∧
        leValue ((f.drop 4).take 4) = crc) ∧
      (recompile = true →
        _write_model_crc_file recompile crc true file =
          some (leBytes 4 s_cacheVersion ++ leBytes 4 crc) ∧
        _detect_model_changes crc (_write_model_crc_file recompile crc true file) =
          Outcome.ok false) ∧
      (recompile = false → ∀ writable,
        _write_model_crc_file recompile crc writable file = file) := by
  have hw : _detect_model_changes crc (some (leBytes 4 s_cacheVersion ++ leBytes 4 crc)) =
      Outcome.ok false := by
    obtain ⟨r, hr⟩ := readCacheSum_eq crc true (leBytes 4 s_cacheVersion ++ leBytes 4 crc)
      (Or.inl (by simp [leBytes]))
    have e1 : (leBytes 4 s_cacheVersion ++ leBytes 4 crc).take 4 = leBytes 4 s_cacheVersion :=
      take_append_of_length _ _ _ (by simp [leBytes])
    have e2 : ((leBytes 4 s_cacheVersion ++ leBytes 4 crc).drop 4).take 4 = leBytes 4 crc := by
      rw [drop_append_of_length _ _ _ (by simp [leBytes])]
      exact List.take_of_length_le (by simp [leBytes])
    rw [e1, e2, leValue_leBytes, leValue_leBytes] at hr
    have e3 : s_cacheVersion % 256 ^ 4 = s_cacheVersion := by decide
    have e4 : crc % 256 ^ 4 = crc := Nat.mod_eq_of_lt (by norm_num; exact hcrc)
    rw [e3, e4, if_pos ⟨rfl, rfl⟩] at hr
    simp only [_detect_model_changes, hr]
  cases file with
  | none =>
    refine ⟨true, rfl, ?_, ?_, ?_⟩
    · constructor
      · intro h; cases h
      · rintro ⟨f, hf, -⟩; cases hf
    · intro _
      exact ⟨rfl, hw⟩
    · intro h; cases h
  | some f =>
    obtain ⟨r, hr⟩ := readCacheSum_eq crc true f (hfile f rfl)
    by_cases hm : leValue (f.take 4) = s_cacheVersion ∧ leValue ((f.drop 4).take 4) = crc
    · rw [if_pos hm] at hr
      refine ⟨false, by simp only [_detect_model_changes, hr], ?_, ?_, ?_⟩
      · exact ⟨fun _ => ⟨f, rfl, hm⟩, fun _ => rfl⟩
      · intro h; cases h
      · intro _ w; rfl
    · rw [if_neg hm] at hr
      refine ⟨true, by simp only [_detect_model_changes, hr], ?_, ?_, ?_⟩
      · constructor
        · intro h; cases h
        · rintro ⟨g, hg, h1⟩
          cases hg
          exact absurd h1 hm
      · intro _
        exact ⟨rfl, hw⟩
      · intro h; cases h

theorem C9_cache_summary_witness :
    ∃ recompile, _detect_model_changes 5 (some [3, 0, 0, 0, 6, 0, 0, 0]) =
        Outcome.ok recompile ∧
      (recompile = false ↔ ∃ f, some [3, 0, 0, 0, 6, 0, 0, 0] = some f ∧
        leValue (f.take 4) = s_cacheVersion ∧ leValue ((f.drop 4).take 4) = 5) ∧
      (recompile = true →
        _write_model_crc_file recompile 5 true (some [3, 0, 0, 0, 6, 0, 0, 0]) =
          some (leBytes 4 s_cacheVersion ++ leBytes 4 5) ∧
        _detect_model_changes 5
            (_write_model_crc_file recompile 5 true (some [3, 0, 0, 0, 6, 0, 0, 0])) =
          Outcome.ok false) ∧
      (recompile = false → ∀ writable,
        _write_model_crc_file recompile 5 writable (some [3, 0, 0, 0, 6, 0, 0, 0]) =
          some [3, 0, 0, 0, 6, 0, 0, 0]) :=
  C9_cache_summary 5 (by decide) (some [3, 0, 0, 0, 6, 0, 0, 0])
    (fun f h => by cases h; exact Or.inl (by decide))

/-- C10 at a failing input: a model whose static script sets local light 0. Its cache
file is written by a first construction; a second construction with recompile-all off and
that file runs the static script again, while the same model without the light loads. -/
theorem C10_lit_model_rebuilt :
    (firstCache litCalls).isSome = true ∧
    secondRanStatic litCalls = Outcome.ok true ∧
    secondRanStatic unlitCalls = Outcome.ok false := by
  decide!

end CacheTheorems
section MaterialLemmas
set_option maxRecDepth 100000
open LmrGeomBuffer

theorem lookup_filter_ne {β : Type} (m : List (CStr × β)) (k k' : CStr) (h : k' ≠ k) :
    (m.filter (fun e => e.1 ≠ k)).lookup k' = m.lookup k' := by
  induction m with
  | nil => rfl
  | cons a as ih =>
    obtain ⟨ak, av⟩ := a
    simp only [ne_eq, decide_not] at ih ⊢
    by_cases hk : ak = k
    · subst hk
      have h1 : (k' == ak) = false := by simpa using h
      simp [List.filter, List.lookup, h1, ih]
    · by_cases hk' : k' = ak
      · subst hk'
        simp [List.filter, hk, List.lookup]
      · have h1 : (k' == ak) = false := by simpa using hk'
        simp [List.filter, hk, List.lookup, h1, ih]

theorem lookup_mapAssign {β : Type} (m : List (CStr × β)) (k k' : CStr) (v : β) :
    (mapAssign m k v).lookup k' = if k' = k then some v else m.lookup k' := by
  unfold mapAssign
  by_cases h : k' = k
  · subst h; simp [List.lookup]
  · have h1 : (k' == k) = false := by simpa using h
    simp only [List.lookup, h1, if_neg h]
    exact lookup_filter_ne m k k' h

theorem declareMaterials_append (pre post : List (List Byte)) :
    ∀ m : ModelTables,
      declareMaterials m (pre ++ post) = declareMaterials (declareMaterials m pre) post := by
  induction pre with
  | nil => intro m; rfl
  | cons a as ih => intro m; simp only [List.cons_append, declareMaterials]; exact ih _

theorem declareMaterials_length (names : List (List Byte)) :
    ∀ m : ModelTables,
      (declareMaterials m names).m_materials.length = m.m_materials.length + names.length := by
  induction names with
  | nil => intro m; rfl
  | cons a as ih =>
    intro m
    simp only [declareMaterials, ih, List.length_append, List.length_cons, List.length_nil]
    omega

theorem declareMaterials_absent (names : List (List Byte)) (k : CStr) :
    ∀ m : ModelTables, (∀ x ∈ names, cstr x ≠ k) →
      (declareMaterials m names).m_materialLookup.lookup k = m.m_materialLookup.lookup k := by
  induction names with
  | nil => intro m _; rfl
  | cons a as ih =>
    intro m h
    simp only [declareMaterials]
    rw [ih _ (fun x hx => h x (List.mem_cons_of_mem _ hx))]
    simp only [lookup_mapAssign]
    rw [if_neg (fun e => h a (List.mem_cons_self _ _) e.symm)]

theorem declareMaterials_last (pre post : List (List Byte)) (n : List Byte) (m : ModelTables)
    (hpost : ∀ x ∈ post, cstr x ≠ cstr n) :
    (declareMaterials m (pre ++ n :: post)).m_materialLookup.lookup (cstr n) =
      some ((m.m_materials.length + pre.length : Nat) : Int) := by
  rw [declareMaterials_append]
  simp only [declareMaterials]
  rw [declareMaterials_absent post (cstr n) _ hpost]
  simp only [lookup_mapAssign, if_true, declareMaterials_length]

end MaterialLemmas

section PassTheorems
set_option maxRecDepth 100000
open LmrGeomBuffer

/-- C12 at failing inputs: `PushTri` with the indices 65535, 65536, 65537 returns without
an error and stores 65535, 0, 1; `AllocVertices(num)` returns the old size and grows the
array by `num` whatever the size becomes, and `PushVertex` returns the old size as index,
also beyond 65535. -/
theorem C12_indices_wrap :
    ((LmrGeomBuffer.new true).PushTri 65535 65536 65537).m_indices = [65535, 0, 1] ∧
    (∀ (b : LmrGeomBuffer) (num : Nat), ∃ r, b.AllocVertices num = some r ∧
      r.1.m_vertices.length = b.m_vertices.length + num ∧ r.2 = b.m_vertices.length) ∧
    (∀ (b : LmrGeomBuffer) (pos normal : vector3f) (u v : GLfloat),
      (b.PushVertex pos normal u v).2 = b.m_vertices.length ∧
      (b.PushVertex pos normal u v).1.m_vertices.length = b.m_vertices.length + 1) := by
  refine ⟨by decide, ?_, ?_⟩
  · intro b num
    have h : (0 : Int) ≤ (b.m_vertices.length : Int) + (num : Int) := by omega
    have e : ((b.m_vertices.length : Int) + (num : Int)).toNat = b.m_vertices.length + num := by
      omega
    refine ⟨({ b with m_vertices := b.m_vertices.take (b.m_vertices.length + num) ++
        List.replicate (b.m_vertices.length + num - b.m_vertices.length) Vertex.default },
      (b.m_vertices.length : Int)), ?_, ?_, rfl⟩
    · simp only [AllocVertices, if_pos h, e]
    · simp only [List.length_append, List.length_take, List.length_replicate]
      omega
  · intro b pos normal u v
    simp [PushVertex]

theorem samePtr_self (p : Option StrPtr) : samePtr p p = true := by
  cases p <;> simp [samePtr]

/-- After `PushTri` the pending op is a batch that holds the current texture pointers
and counts at least three indices. -/
theorem PushTri_settled (b : LmrGeomBuffer) (i1 i2 i3 : Int) :
    ∃ e, (PushTri b i1 i2 i3).curOp = Op.OP_DRAW_ELEMENTS e ∧
      needsNewBatch (PushTri b i1 i2 i3) = false := by
  obtain ⟨ht, hg, hc⟩ := OpDrawElements_cases b
  obtain ⟨f1, f2, f3⟩ := PushTri_frame b i1 i2 i3
  rcases hc with ⟨e', he', t1, t2, -, -, -⟩ | ⟨e, e', -, s1, s2, he', t1, t2, -, -, -⟩
  · obtain ⟨e2, h2, a1, a2, -, -⟩ := PushTri_pending b i1 i2 i3 e' he'
    refine ⟨e2, h2, ?_⟩
    simp only [needsNewBatch, h2, f2, f3, ht, hg, a1, a2, t1, t2, samePtr_self]
    rfl
  · obtain ⟨e2, h2, a1, a2, -, -⟩ := PushTri_pending b i1 i2 i3 e' he'
    refine ⟨e2, h2, ?_⟩
    simp only [needsNewBatch, h2, f2, f3, ht, hg, a1, a2, t1, t2, s1, s2]
    rfl

theorem samePtr_trans (p q r : Option StrPtr) (h1 : samePtr p q = true)
    (h2 : samePtr q r = true) : samePtr p r = true := by
  cases p <;> cases q <;> cases r <;> simp_all [samePtr]

theorem pushesNoOp_apply (mulMV : matrix4x4f → vector3f → vector3f) (s : BuildState)
    (c : BuildCall) (h : pushesNoOp c = true) :
    (c.apply mulMV s).buf.curOp = s.buf.curOp ∧ (c.apply mulMV s).buf.m_ops = s.buf.m_ops ∧
    (c.apply mulMV s).buf.m_indices = s.buf.m_indices := by
  cases c <;> simp only [pushesNoOp, Bool.false_eq_true] at h
  case PushVertex pos normal u v => simp [BuildCall.apply, PushVertex]
  case PushVertex2 pos normal => simp [BuildCall.apply, PushVertex2, PushVertex]
  case SetVertex idx pos normal u v =>
    simp only [BuildCall.apply, SetVertex]
    split <;> simp
  case SetVertex2 idx pos normal =>
    simp only [BuildCall.apply, SetVertex2, SetVertex]
    split <;> simp
  case AllocVertices num =>
    simp only [BuildCall.apply, AllocVertices]
    by_cases h0 : 0 ≤ (s.buf.m_vertices.length : Int) + num
    · simp [h0]
    · simp [h0]
  case PushThruster pos dir power lin => simp [BuildCall.apply, PushThruster]
  case SetTexture tex =>
    simp only [BuildCall.apply, SetTexture]
    cases tex with
    | none => simp
    | some t =>
      cases s.buf.curTexture with
      | none => simp
      | some p => simp only []; split <;> simp
  case SetGlowMap tex =>
    simp only [BuildCall.apply, SetGlowMap]
    cases tex with
    | none => simp
    | some t =>
      cases s.buf.curGlowmap with
      | none => simp
      | some p => simp only []; split <;> simp
  case SetTexMatrix m => simp [BuildCall.apply, SetTexMatrix]
  case SetGeomFlag flag => simp [BuildCall.apply, SetGeomFlag]
  case SetInsideOut a => simp [BuildCall.apply, SetInsideOut]
  case SetLight num qa pos col => simp [BuildCall.apply]
  case SetIsFromObjFile a => simp [BuildCall.apply, SetIsFromObjFile]

theorem pushesNoOp_run (mulMV : matrix4x4f → vector3f → vector3f) (mid : List BuildCall) :
    ∀ s : BuildState, (∀ c ∈ mid, pushesNoOp c = true) →
      (runCalls mulMV s mid).buf.curOp = s.buf.curOp ∧
      (runCalls mulMV s mid).buf.m_ops = s.buf.m_ops ∧
      (runCalls mulMV s mid).buf.m_indices = s.buf.m_indices := by
  induction mid with
  | nil => intro s _; exact ⟨rfl, rfl, rfl⟩
  | cons c cs ih =>
    intro s h
    obtain ⟨a1, a2, a3⟩ := pushesNoOp_apply mulMV s c (h c (List.mem_cons_self _ _))
    obtain ⟨b1, b2, b3⟩ := ih (c.apply mulMV s) (fun x hx => h x (List.mem_cons_of_mem _ hx))
    simp only [runCalls]
    exact ⟨b1.trans a1, b2.trans a2, b3.trans a3⟩

theorem runCalls_append (mulMV : matrix4x4f → vector3f → vector3f) (xs ys : List BuildCall) :
    ∀ s : BuildState, runCalls mulMV s (xs ++ ys) = runCalls mulMV (runCalls mulMV s xs) ys := by
  induction xs with
  | nil => intro s; rfl
  | cons c cs ih => intro s; simp only [List.cons_append, runCalls]; exact ih _

/-- C13, as the claim states it, fails: with texture `a` set, a triangle pushed, the texture
switched to `b` and back to `a` and a second triangle pushed, both triangles have the
texture path `a`, and the pass leaves two batches. -/
theorem C13_there_and_back_splits :
    triLog sampleMulMV { sampleState with buf := sampleState.buf.PreBuild } thereAndBackCalls =
      [⟨0, true, some [97], none⟩, ⟨3, true, some [97], none⟩] ∧
    (runPass sampleState thereAndBackCalls).buf.m_ops =
      [Op.OP_DRAW_ELEMENTS ⟨some ⟨4096, some [97]⟩, none, 0, 0, 0, 3, 0, 2⟩,
       Op.OP_DRAW_ELEMENTS ⟨some ⟨4098, some [97]⟩, none, 0, 0, 3, 3, 3, 5⟩] := by
  decide

/-- C13, amended: when no call between two `PushTri` calls pushes an op, and the texture
and glow-map string objects current at the second call are those current at the first
(the pointers compare equal), the second triangle goes to the batch of the first: no op
is pushed, the pending batch keeps its start and its texture and glow-map pointers, and
its count grows by the three indices appended. Calls such as `PushVertex`, `SetGeomFlag`,
`SetTexMatrix` and `SetTexture` with the path that is current may stand between the
two. -/
theorem C13_same_batch (mulMV : matrix4x4f → vector3f → vector3f) (s : BuildState)
    (i1 i2 i3 j1 j2 j3 : Int) (mid : List BuildCall)
    (hmid : ∀ c ∈ mid, pushesNoOp c = true)
    (htex : samePtr (s.buf.PushTri i1 i2 i3).curTexture
      (runCalls mulMV s (BuildCall.PushTri i1 i2 i3 :: mid)).buf.curTexture = true)
    (hglow : samePtr (s.buf.PushTri i1 i2 i3).curGlowmap
      (runCalls mulMV s (BuildCall.PushTri i1 i2 i3 :: mid)).buf.curGlowmap = true) :
    ∃ e e', (s.buf.PushTri i1 i2 i3).curOp = Op.OP_DRAW_ELEMENTS e ∧
      (runCalls mulMV s
        (BuildCall.PushTri i1 i2 i3 :: (mid ++ [BuildCall.PushTri j1 j2 j3]))).buf.curOp =
        Op.OP_DRAW_ELEMENTS e' ∧
      e'.start = e.start ∧ e'.count = e.count + 3 ∧ e'.textureFile = e.textureFile ∧
      e'.glowmapFile = e.glowmapFile ∧
      (runCalls mulMV s
        (BuildCall.PushTri i1 i2 i3 :: (mid ++ [BuildCall.PushTri j1 j2 j3]))).buf.m_ops =
        (s.buf.PushTri i1 i2 i3).m_ops ∧
      (runCalls mulMV s
        (BuildCall.PushTri i1 i2 i3 :: (mid ++ [BuildCall.PushTri j1 j2 j3]))).buf.m_indices.length =
        (s.buf.PushTri i1 i2 i3).m_indices.length + 3 := by
  obtain ⟨e, he, hn⟩ := PushTri_settled s.buf i1 i2 i3
  obtain ⟨e0, he0, t1, t2⟩ := needsNewBatch_false _ hn
  rw [he] at he0
  cases he0
  have hstep : runCalls mulMV s (BuildCall.PushTri i1 i2 i3 :: mid) =
      runCalls mulMV { s with buf := s.buf.PushTri i1 i2 i3 } mid := rfl
  rw [hstep] at htex hglow
  obtain ⟨m1, m2, m3⟩ := pushesNoOp_run mulMV mid { s with buf := s.buf.PushTri i1 i2 i3 } hmid
  have hrun : runCalls mulMV s
      (BuildCall.PushTri i1 i2 i3 :: (mid ++ [BuildCall.PushTri j1 j2 j3])) =
      { runCalls mulMV { s with buf := s.buf.PushTri i1 i2 i3 } mid with
        buf := (runCalls mulMV { s with buf := s.buf.PushTri i1 i2 i3 } mid).buf.PushTri
          j1 j2 j3 } := by
    simp only [runCalls, BuildCall.apply]
    rw [runCalls_append]
    rfl
  rw [hrun]
  generalize runCalls mulMV { s with buf := s.buf.PushTri i1 i2 i3 } mid = s1
    at htex hglow m1 m2 m3
  simp only at m1 m2 m3
  have he1 : s1.buf.curOp = Op.OP_DRAW_ELEMENTS e := by rw [m1, he]
  have hn1 : needsNewBatch s1.buf = false := by
    simp only [needsNewBatch, he1, samePtr_trans _ _ _ t1 htex, samePtr_trans _ _ _ t2 hglow]
    rfl
  have hext := OpDrawElements_extend s1.buf 3 e he1 hn1
  have hcur : (OpDrawElements s1.buf 3).curOp =
      Op.OP_DRAW_ELEMENTS { e with count := e.count + 3 } := by rw [hext]
  obtain ⟨e2, h2, a1, a2, a3, a4⟩ := PushTri_pending s1.buf j1 j2 j3 _ hcur
  obtain ⟨f1, -, -⟩ := PushTri_frame s1.buf j1 j2 j3
  refine ⟨e, e2, he, h2, a3, a4, a1, a2, ?_, ?_⟩
  · show (s1.buf.PushTri j1 j2 j3).m_ops = _
    rw [f1, hext]
    exact m2
  · show (s1.buf.PushTri j1 j2 j3).m_indices.length = _
    rw [PushTri_indices, m3]
    split <;> simp

theorem C13_same_batch_witness :
    (∀ c ∈ quietCalls, pushesNoOp c = true) ∧
    ∃ e e', (texturedState.buf.PushTri 0 1 2).curOp = Op.OP_DRAW_ELEMENTS e ∧
      (runCalls sampleMulMV texturedState
        (BuildCall.PushTri 0 1 2 :: (quietCalls ++ [BuildCall.PushTri 3 4 5]))).buf.curOp =
        Op.OP_DRAW_ELEMENTS e' ∧
      e'.start = e.start ∧ e'.count = e.count + 3 ∧ e'.textureFile = e.textureFile ∧
      e'.glowmapFile = e.glowmapFile ∧
      (runCalls sampleMulMV texturedState
        (BuildCall.PushTri 0 1 2 :: (quietCalls ++ [BuildCall.PushTri 3 4 5]))).buf.m_ops =
        (texturedState.buf.PushTri 0 1 2).m_ops ∧
      (runCalls sampleMulMV texturedState
        (BuildCall.PushTri 0 1 2 :: (quietCalls ++ [BuildCall.PushTri 3 4 5]))).buf.m_indices.length =
        (texturedState.buf.PushTri 0 1 2).m_indices.length + 3 :=
  ⟨by decide, C13_same_batch sampleMulMV texturedState 0 1 2 3 4 5 quietCalls (by decide) (by decide)
    (by decide)⟩

/-- C14 at a failing input: a pass that pushes a triangle and then sets texture `a`. Run
on a fresh buffer it leaves one batch without texture; `PreBuild` keeps the current
texture, so the same pass run again leaves a batch with texture `a`. -/
theorem C14_texture_survives_PreBuild :
    (runPass sampleState textureLastCalls).buf.m_ops =
      [Op.OP_DRAW_ELEMENTS ⟨none, none, 0, 0, 0, 3, 0, 2⟩] ∧
    (runPass sampleState textureLastCalls).buf.PreBuild.curTexture =
      some ⟨4096, some [97]⟩ ∧
    (runPass sampleState textureLastCalls).buf.PreBuild ≠ LmrGeomBuffer.new true ∧
    (runPass (runPass sampleState textureLastCalls) textureLastCalls).buf.m_ops =
      [Op.OP_DRAW_ELEMENTS ⟨some ⟨4096, some [97]⟩, none, 0, 0, 0, 3, 0, 2⟩] := by
  decide

/-- The flags a call appends: the current flag once for a call that pushes a triangle. -/
theorem apply_triflags (mulMV : matrix4x4f → vector3f → vector3f) (s : BuildState)
    (c : BuildCall) :
    (c.apply mulMV s).buf.m_triflags =
      s.buf.m_triflags ++ (triRecord s c).toList.map (fun _ => s.buf.curTriFlag) := by
  cases c <;> simp only [BuildCall.apply, triRecord, Option.toList, List.map_nil,
    List.map_cons, List.append_nil]
  case PushTri i1 i2 i3 => rw [PushTri_triflags]
  case PushInvisibleTri i1 i2 i3 => rw [PushInvisibleTri_triflags]
  case AllocVertices num =>
    cases hh : AllocVertices s.buf num with
    | none => rfl
    | some r =>
      simp only [AllocVertices] at hh
      split at hh
      · cases hh; rfl
      · cases hh
  case PushUseMaterial name =>
    cases hh : PushUseMaterial s.model s.buf name with
    | none => rfl
    | some r =>
      simp only [PushUseMaterial] at hh
      split at hh
      · cases hh; simp
      · cases hh
  case PushBillboards texname size color points =>
    simp only [PushBillboards]
    rw [(pushPoints_indices mulMV points _).2]
    simp
  case SetTexture tex =>
    simp only [SetTexture]
    split
    · split
      · split <;> rfl
      · rfl
    · rfl
  case SetGlowMap tex =>
    simp only [SetGlowMap]
    split
    · split
      · split <;> rfl
      · rfl
    · rfl
  all_goals
    first
    | rfl
    | (simp [PushVertex, PushVertex2, SetVertex, SetVertex2, PushCallModel, PushZBias,
        PushSetLocalLighting, PushUseLight, PushThruster, SetTexMatrix, SetGeomFlag,
        SetInsideOut, SetIsFromObjFile, PostBuild]; try split_ifs) <;> simp

theorem runCalls_triflags_length (mulMV : matrix4x4f → vector3f → vector3f)
    (calls : List BuildCall) :
    ∀ s : BuildState, (runCalls mulMV s calls).buf.m_triflags.length =
      s.buf.m_triflags.length + (triLog mulMV s calls).length := by
  induction calls with
  | nil => intro s; rfl
  | cons c cs ih =>
    intro s
    simp only [runCalls, triLog, ih, apply_triflags, List.length_append, List.length_map]
    omega

theorem filter_length_split {α : Type} (p : α → Bool) (l : List α) :
    (l.filter p).length + (l.filter (fun x => !p x)).length = l.length := by
  induction l with
  | nil => rfl
  | cons a as ih =>
    cases h : p a <;> simp [List.filter, h] <;> omega

/-- C15, as the claim states it, fails: after `PreBuild` and one `PushInvisibleTri` there
is one triangle flag and there are three indices, none of them appended by `PushTri`. -/
theorem C15_invisible_triangle_counts :
    (runCalls sampleMulMV { sampleState with buf := sampleState.buf.PreBuild }
      [BuildCall.PushInvisibleTri 0 1 2]).buf.m_triflags.length = 1 ∧
    (runCalls sampleMulMV { sampleState with buf := sampleState.buf.PreBuild }
      [BuildCall.PushInvisibleTri 0 1 2]).buf.m_indices = [0, 1, 2] ∧
    visibleIndexCount sampleMulMV { sampleState with buf := sampleState.buf.PreBuild }
      [BuildCall.PushInvisibleTri 0 1 2] = 0 := by
  decide

/-- C15, amended: after `PreBuild` and any sequence of build calls there is one triangle
flag for each triangle pushed, by `PushTri` or by `PushInvisibleTri`, and three times the
number of flags is the number of indices: those appended by `PushTri` calls and the three
of each `PushInvisibleTri` call. -/
theorem C15_flags_and_indices (mulMV : matrix4x4f → vector3f → vector3f) (s0 : BuildState)
    (calls : List BuildCall) :
    (runCalls mulMV { s0 with buf := s0.buf.PreBuild } calls).buf.m_triflags.length =
      (triLog mulMV { s0 with buf := s0.buf.PreBuild } calls).length ∧
    3 * (runCalls mulMV { s0 with buf := s0.buf.PreBuild } calls).buf.m_triflags.length =
      (runCalls mulMV { s0 with buf := s0.buf.PreBuild } calls).buf.m_indices.length ∧
    (runCalls mulMV { s0 with buf := s0.buf.PreBuild } calls).buf.m_indices.length =
      visibleIndexCount mulMV { s0 with buf := s0.buf.PreBuild } calls +
      3 * ((triLog mulMV { s0 with buf := s0.buf.PreBuild } calls).filter
            (fun r => !r.visible)).length := by
  have h1 := runCalls_triflags_length mulMV calls { s0 with buf := s0.buf.PreBuild }
  have h2 := runCalls_counts mulMV calls { s0 with buf := s0.buf.PreBuild } rfl
  have h3 := filter_length_split (fun r : TriRecord => r.visible)
    (triLog mulMV { s0 with buf := s0.buf.PreBuild } calls)
  have h0 : ({ s0 with buf := s0.buf.PreBuild } : BuildState).buf.m_triflags.length = 0 := rfl
  rw [h0] at h1
  unfold visibleIndexCount
  refine ⟨by omega, by omega, by omega⟩

end PassTheorems

section CollLemmas
set_option maxRecDepth 100000

theorem store_at_end {α : Type} (pre fill : List α) (f x : α) :
    store (pre ++ f :: fill) (pre.length : Int) x = Outcome.ok (pre ++ x :: fill) := by
  unfold store
  have h : 0 ≤ (pre.length : Int) ∧ (pre.length : Int).toNat < (pre ++ f :: fill).length := by
    constructor
    · omega
    · simp
  rw [if_pos h]
  congr 1
  simp [List.set_append]

theorem storeAll_fill {α : Type} (xs : List α) :
    ∀ (pre fill : List α), fill.length = xs.length →
      storeAll (pre ++ fill) (pre.length : Int) xs = Outcome.ok (pre ++ xs) := by
  induction xs with
  | nil =>
    intro pre fill h
    have : fill = [] := List.length_eq_zero.mp h
    subst this
    rfl
  | cons x xs ih =>
    intro pre fill h
    cases fill with
    | nil => cases h
    | cons f fill =>
      simp only [storeAll, store_at_end]
      have := ih (pre ++ [x]) fill (by simpa using h)
      simp only [List.append_assoc, List.singleton_append, List.length_append,
        List.length_singleton, Nat.cast_add, Nat.cast_one] at this
      exact this

theorem realloc_grow {α : Type} (a : List α) (n : Int) (d : α) (h : a.length ≤ n.toNat) :
    realloc a n d = a ++ List.replicate (n.toNat - a.length) d := by
  unfold realloc
  rw [List.take_of_length_le h]

theorem storeAll_realloc {α : Type} (a xs : List α) (n base : Int) (d : α)
    (hb : base = (a.length : Int)) (hn : n = (a.length : Int) + (xs.length : Int)) :
    storeAll (realloc a n d) base xs = Outcome.ok (a ++ xs) := by
  subst hb hn
  rw [realloc_grow a _ d (by omega)]
  exact storeAll_fill xs a _ (by simp; omega)

theorem flatMap_coords_length (vs : List vector3f) :
    (vs.flatMap coords).length = 3 * vs.length := by
  induction vs with
  | nil => rfl
  | cons v vs ih => simp [List.flatMap_cons, coords, ih]; omega

theorem collectCalls_nocall (mulMM : matrix4x4f → matrix4x4f → matrix4x4f)
    (callee : Option ModelPtr → LmrCollMesh → matrix4x4f → Option (Outcome LmrCollMesh))
    (transform : matrix4x4f) (c : LmrCollMesh) (ops : List Op)
    (h : ∀ op ∈ ops, op.type ≠ 5) :
    collectCalls mulMM callee transform ops c = some (Outcome.ok c) := by
  induction ops with
  | nil => rfl
  | cons o os ih =>
    have hos := ih (fun op hm => h op (List.mem_cons_of_mem _ hm))
    cases o with
    | OP_CALL_MODEL cm => exact absurd rfl (h _ (List.mem_cons_self _ _))
    | _ => simpa [collectCalls] using hos

theorem collectCalls_skip (mulMM : matrix4x4f → matrix4x4f → matrix4x4f)
    (callee : Option ModelPtr → LmrCollMesh → matrix4x4f → Option (Outcome LmrCollMesh))
    (transform : matrix4x4f) (c : LmrCollMesh) (pre rest : List Op)
    (h : ∀ op ∈ pre, op.type ≠ 5) :
    collectCalls mulMM callee transform (pre ++ rest) c =
      collectCalls mulMM callee transform rest c := by
  induction pre with
  | nil => rfl
  | cons o os ih =>
    have hos := ih (fun op hm => h op (List.mem_cons_of_mem _ hm))
    cases o with
    | OP_CALL_MODEL cm => exact absurd rfl (h _ (List.mem_cons_self _ _))
    | _ => simpa [collectCalls] using hos

theorem collectOwnGeometry_eq (mulMV : matrix4x4f → vector3f → vector3f) (b : LmrGeomBuffer)
    (c : LmrCollMesh) (transform : matrix4x4f)
    (hflags : b.m_triflags.length = b.m_indices.length / 3) (hc : c.Holds) (hfit : c.Fits b) :
    collectOwnGeometry mulMV b c transform = Outcome.ok (c.withBuffer mulMV b transform) := by
  unfold LmrCollMesh.withBuffer
  obtain ⟨h1, h2, h3, h4, h5, h6⟩ := hc
  obtain ⟨f1, f2, f3, f4, f5, f6⟩ := hfit
  have hF : (b.m_indices.length / 3 : Nat) ≤ b.m_indices.length := Nat.div_le_self _ _
  unfold collectOwnGeometry
  simp only []
  rw [if_neg (by rw [hflags]; exact fun h => h rfl)]
  rw [toInt32_of_range (c.nv + b.m_vertices.length) (by omega) (by omega),
    toInt32_of_range (c.ni + b.m_indices.length) (by omega) (by omega),
    toInt32_of_range (c.nf + (b.m_indices.length / 3 : Nat)) (by omega) (by omega),
    toInt32_of_range (c.m_numTris + b.m_triflags.length) (by omega) (by omega)]
  have hidx : b.m_indices.map (fun x => toInt32 (c.nv + (x.val : Int))) =
      b.m_indices.map (fun x => c.nv + (x.val : Int)) := by
    apply List.map_congr_left
    intro x _
    have := x.isLt
    exact toInt32_of_range _ (by omega) (by omega)
  rw [hidx]
  have hverts : (if b.m_vertices.length ≠ 0 then
        storeAll (realloc c.pVertex (3 * (c.nv + (b.m_vertices.length : Int))) GLfloat.zero)
          (3 * c.nv) ((b.m_vertices.map (fun vtx => mulMV transform vtx.v)).flatMap coords)
      else Outcome.ok c.pVertex) =
      Outcome.ok (c.pVertex ++
        (b.m_vertices.map (fun vtx => mulMV transform vtx.v)).flatMap coords) := by
    by_cases hv : b.m_vertices.length = 0
    · have : b.m_vertices = [] := List.length_eq_zero.mp hv
      simp [this]
    · rw [if_pos hv]
      exact storeAll_realloc _ _ _ _ _ (by rw [h4]; omega)
        (by rw [h4, flatMap_coords_length, List.length_map]; omega)
  rw [hverts]
  simp only []
  have haabb : (if b.m_vertices.length ≠ 0 then
        c.m_aabb ++ b.m_vertices.map (fun vtx => mulMV transform vtx.v) else c.m_aabb) =
      c.m_aabb ++ b.m_vertices.map (fun vtx => mulMV transform vtx.v) := by
    by_cases hv : b.m_vertices.length = 0
    · have : b.m_vertices = [] := List.length_eq_zero.mp hv
      simp [this]
    · rw [if_pos hv]
  rw [haabb]
  by_cases hi : b.m_indices.length = 0
  · have e1 : b.m_indices = [] := List.length_eq_zero.mp hi
    have e2 : b.m_triflags = [] := List.length_eq_zero.mp (by rw [hflags, hi])
    simp [e1, e2]
  · rw [if_pos hi]
    rw [storeAll_realloc c.pIndex _ _ _ _ (by rw [h5]; omega)
      (by rw [h5, List.length_map]; omega)]
    simp only []
    rw [storeAll_realloc c.pFlag _ _ _ _ (by rw [h6]; omega)
      (by rw [h6, List.length_map, hflags]; omega)]
    simp only [hflags]

theorem withBuffer_holds (mulMV : matrix4x4f → vector3f → vector3f) (c : LmrCollMesh)
    (b : LmrGeomBuffer) (transform : matrix4x4f) (hc : c.Holds) :
    (c.withBuffer mulMV b transform).Holds := by
  obtain ⟨h1, h2, h3, h4, h5, h6⟩ := hc
  unfold LmrCollMesh.withBuffer LmrCollMesh.Holds
  simp only [List.length_append, flatMap_coords_length, List.length_map, h4, h5, h6]
  refine ⟨by omega, by omega, by omega, by omega, by omega, by omega⟩

/-- A model without dynamic script whose static LOD-0 buffer calls no submodel adds that
buffer under `transform * ScaleMatrix(m_scale)`. -/
theorem GetCollMeshGeometry_leaf (M : MatrixOps) (heap : Nat) (world : List (Nat × LmrModel))
    (m : LmrModel) (buf : LmrGeomBuffer) (c : LmrCollMesh) (t : matrix4x4f) (depth : Nat)
    (hd : m.m_hasDynamicFunc = false) (hs : m.m_staticGeometry.head? = some buf)
    (hops : ∀ op ∈ buf.m_ops, op.type ≠ 5)
    (hf : buf.m_triflags.length = buf.m_indices.length / 3) (hc : c.Holds) (hfit : c.Fits buf) :
    m.GetCollMeshGeometry M heap world (depth + 1) c t =
      some (Outcome.ok (c.withBuffer M.mulMV buf (M.mulMM t (M.ScaleMatrix m.m_scale)))) := by
  simp only [LmrModel.GetCollMeshGeometry, hs, hd, LmrGeomBuffer.GetCollMeshGeometry]
  rw [collectOwnGeometry_eq M.mulMV buf c _ hf hc hfit]
  simp only []
  rw [collectCalls_nocall M.mulMM _ _ _ buf.m_ops hops]
  rfl

/-- C17: a model `A` without dynamic script whose static LOD-0 buffer holds one
call-submodel op, to model `B` with transform `T`, `B` having no dynamic script and no
call of its own: with enough depth for one nested call, the extraction started under `R`
with an empty accumulator returns the triangles of `A` followed by those of `B`, the
vertices of `B` under `((R * S_A) * T) * S_B`, its indices raised by the number of
vertices of `A`, its flags as they are; the triangle count is the sum. -/
theorem C17_submodel_composition (M : MatrixOps) (heap : Nat) (world : List (Nat × LmrModel))
    (A B : LmrModel) (bufA bufB : LmrGeomBuffer) (pB : ModelPtr) (T R : matrix4x4f)
    (sc : GLfloat) (pre post : List Op) (depth : Nat)
    (hA : A.m_hasDynamicFunc = false) (hAs : A.m_staticGeometry.head? = some bufA)
    (hops : bufA.m_ops = pre ++ Op.OP_CALL_MODEL ⟨some pB, T, sc⟩ :: post)
    (hpre : ∀ op ∈ pre, op.type ≠ 5) (hpost : ∀ op ∈ post, op.type ≠ 5)
    (hw : world.lookup pB.addr = some B)
    (hB : B.m_hasDynamicFunc = false) (hBs : B.m_staticGeometry.head? = some bufB)
    (hBops : ∀ op ∈ bufB.m_ops, op.type ≠ 5)
    (hfA : bufA.m_triflags.length = bufA.m_indices.length / 3)
    (hfB : bufB.m_triflags.length = bufB.m_indices.length / 3)
    (hsmall : bufA.m_vertices.length + bufB.m_vertices.length + 65535 < 2147483648 ∧
      bufA.m_indices.length + bufB.m_indices.length < 2147483648) :
    ∃ c, A.GetCollMeshGeometry M heap world (depth + 2) LmrCollMesh.empty R =
        some (Outcome.ok c) ∧
      c.pVertex =
        (bufA.m_vertices.map
          (fun vtx => M.mulMV (M.mulMM R (M.ScaleMatrix A.m_scale)) vtx.v)).flatMap coords ++
        (bufB.m_vertices.map
          (fun vtx => M.mulMV (M.mulMM (M.mulMM (M.mulMM R (M.ScaleMatrix A.m_scale)) T)
            (M.ScaleMatrix B.m_scale)) vtx.v)).flatMap coords ∧
      c.pIndex = bufA.m_indices.map (fun x => (x.val : Int)) ++
        bufB.m_indices.map (fun x => (bufA.m_vertices.length : Int) + (x.val : Int)) ∧
      c.pFlag = bufA.m_triflags.map (fun x => x.val) ++ bufB.m_triflags.map (fun x => x.val) ∧
      c.m_numTris = (bufA.m_triflags.length : Int) + (bufB.m_triflags.length : Int) ∧
      c.nv = (bufA.m_vertices.length : Int) + (bufB.m_vertices.length : Int) := by
  have hFA : bufA.m_indices.length / 3 ≤ bufA.m_indices.length := Nat.div_le_self _ _
  have he : LmrCollMesh.empty.Holds := by unfold LmrCollMesh.Holds LmrCollMesh.empty; simp
  have hfitA : LmrCollMesh.empty.Fits bufA := by
    unfold LmrCollMesh.Fits LmrCollMesh.empty
    simp only []
    omega
  have hcA := withBuffer_holds M.mulMV LmrCollMesh.empty bufA
    (M.mulMM R (M.ScaleMatrix A.m_scale)) he
  have hfitB : (LmrCollMesh.empty.withBuffer M.mulMV bufA
      (M.mulMM R (M.ScaleMatrix A.m_scale))).Fits bufB := by
    unfold LmrCollMesh.Fits LmrCollMesh.withBuffer LmrCollMesh.empty
    simp only []
    omega
  refine ⟨(LmrCollMesh.empty.withBuffer M.mulMV bufA
      (M.mulMM R (M.ScaleMatrix A.m_scale))).withBuffer M.mulMV bufB
        (M.mulMM (M.mulMM (M.mulMM R (M.ScaleMatrix A.m_scale)) T) (M.ScaleMatrix B.m_scale)),
    ?_, ?_, ?_, ?_, ?_, ?_⟩
  · have hleaf := GetCollMeshGeometry_leaf M heap world B bufB _
      (M.mulMM (M.mulMM R (M.ScaleMatrix A.m_scale)) T) depth hB hBs hBops hfB hcA hfitB
    rw [LmrModel.GetCollMeshGeometry]
    simp only [hAs, hA, LmrGeomBuffer.GetCollMeshGeometry]
    rw [collectOwnGeometry_eq M.mulMV bufA _ _ hfA he hfitA]
    simp only []
    rw [hops, collectCalls_skip M.mulMM _ _ _ pre _ hpre]
    simp only [collectCalls, hw, hleaf]
    rw [collectCalls_nocall M.mulMM _ _ _ post hpost]
    rfl
  · simp [LmrCollMesh.withBuffer, LmrCollMesh.empty]
  · simp [LmrCollMesh.withBuffer, LmrCollMesh.empty]
  · simp [LmrCollMesh.withBuffer, LmrCollMesh.empty]
  · simp [LmrCollMesh.withBuffer, LmrCollMesh.empty]
  · simp [LmrCollMesh.withBuffer, LmrCollMesh.empty]

theorem C17_submodel_composition_witness :
    ∃ c, carModel.GetCollMeshGeometry sampleOps 4096 [(512, wheelModel)] (0 + 2)
        LmrCollMesh.empty matrix4x4f.Identity = some (Outcome.ok c) ∧
      c.pVertex =
        (carBuffer.m_vertices.map
          (fun vtx => sampleOps.mulMV (sampleOps.mulMM matrix4x4f.Identity
            (sampleOps.ScaleMatrix carModel.m_scale)) vtx.v)).flatMap coords ++
        (sampleBuffer.m_vertices.map
          (fun vtx => sampleOps.mulMV (sampleOps.mulMM (sampleOps.mulMM
            (sampleOps.mulMM matrix4x4f.Identity (sampleOps.ScaleMatrix carModel.m_scale))
              matrix4x4f.Identity)
            (sampleOps.ScaleMatrix wheelModel.m_scale)) vtx.v)).flatMap coords ∧
      c.pIndex = carBuffer.m_indices.map (fun x => (x.val : Int)) ++
        sampleBuffer.m_indices.map
          (fun x => (carBuffer.m_vertices.length : Int) + (x.val : Int)) ∧
      c.pFlag = carBuffer.m_triflags.map (fun x => x.val) ++
        sampleBuffer.m_triflags.map (fun x => x.val) ∧
      c.m_numTris = (carBuffer.m_triflags.length : Int) + (sampleBuffer.m_triflags.length : Int) ∧
      c.nv = (carBuffer.m_vertices.length : Int) + (sampleBuffer.m_vertices.length : Int) :=
  C17_submodel_composition sampleOps 4096 [(512, wheelModel)] carModel wheelModel carBuffer
    sampleBuffer wheelPtr matrix4x4f.Identity matrix4x4f.Identity GLfloat.one
    [Op.OP_DRAW_ELEMENTS ⟨none, none, 0, 0, 0, 3, 0, 0⟩] [] 0 rfl rfl (by decide) (by decide)
    (by decide) rfl rfl rfl (by decide) (by decide) (by decide) (by decide)

/-- C16: for a buffer without call-submodel op whose flags number a third of its indices,
`GetCollMeshGeometry` returns; it leaves what the accumulator held, appends the buffer's
vertex positions under `transform` (three floats each), its indices raised by the `nv` of
before, and its flags, and raises `nv`, `ni`, `nf` and the triangle count by the numbers of
vertices, indices, flags and flags. -/
theorem C16_coll_geometry_appends (mulMV : matrix4x4f → vector3f → vector3f)
    (mulMM : matrix4x4f → matrix4x4f → matrix4x4f)
    (callee : Option ModelPtr → LmrCollMesh → matrix4x4f → Option (Outcome LmrCollMesh))
    (b : LmrGeomBuffer) (c : LmrCollMesh) (transform : matrix4x4f)
    (hnocall : ∀ op ∈ b.m_ops, op.type ≠ 5)
    (hflags : b.m_triflags.length = b.m_indices.length / 3) (hc : c.Holds) (hfit : c.Fits b) :
    ∃ c', b.GetCollMeshGeometry mulMV mulMM callee c transform = some (Outcome.ok c') ∧
      c'.nv = c.nv + b.m_vertices.length ∧ c'.ni = c.ni + b.m_indices.length ∧
      c'.nf = c.nf + b.m_triflags.length ∧
      c'.m_numTris = c.m_numTris + b.m_triflags.length ∧
      c'.pVertex = c.pVertex ++
        (b.m_vertices.map (fun vtx => mulMV transform vtx.v)).flatMap coords ∧
      c'.pIndex = c.pIndex ++ b.m_indices.map (fun x => c.nv + (x.val : Int)) ∧
      c'.pFlag = c.pFlag ++ b.m_triflags.map (fun x => x.val) := by
  refine ⟨c.withBuffer mulMV b transform, ?_, rfl, rfl, rfl, rfl, rfl, rfl, rfl⟩
  unfold LmrGeomBuffer.GetCollMeshGeometry
  rw [collectOwnGeometry_eq mulMV b c transform hflags hc hfit]
  exact collectCalls_nocall mulMM callee transform _ b.m_ops hnocall

theorem C16_coll_geometry_appends_witness :
    ∃ c', sampleBuffer.GetCollMeshGeometry sampleMulMV (fun m _ => m) (fun _ _ _ => none)
        ⟨1, 3, 1, [GLfloat.one, GLfloat.one, GLfloat.one], [0, 0, 0], 1, [7], []⟩
        matrix4x4f.Identity = some (Outcome.ok c') ∧
      c'.nv = 1 + sampleBuffer.m_vertices.length ∧ c'.ni = 3 + sampleBuffer.m_indices.length ∧
      c'.nf = 1 + sampleBuffer.m_triflags.length ∧
      c'.m_numTris = 1 + sampleBuffer.m_triflags.length ∧
      c'.pVertex = [GLfloat.one, GLfloat.one, GLfloat.one] ++
        (sampleBuffer.m_vertices.map
          (fun vtx => sampleMulMV matrix4x4f.Identity vtx.v)).flatMap coords ∧
      c'.pIndex = [0, 0, 0] ++ sampleBuffer.m_indices.map (fun x => 1 + (x.val : Int)) ∧
      c'.pFlag = [7] ++ sampleBuffer.m_triflags.map (fun x => x.val) :=
  C16_coll_geometry_appends sampleMulMV (fun m _ => m) (fun _ _ _ => none) sampleBuffer
    ⟨1, 3, 1, [GLfloat.one, GLfloat.one, GLfloat.one], [0, 0, 0], 1, [7], []⟩
    matrix4x4f.Identity (by decide) (by decide)
    (by unfold LmrCollMesh.Holds; decide) (by unfold LmrCollMesh.Fits; decide)

theorem load_ok {α : Type} (a : List α) (i : Int) (d : α) (h0 : 0 ≤ i)
    (h : i.toNat < a.length) : load a i = Outcome.ok (a.getD i.toNat d) := by
  unfold load
  rw [if_pos h0, List.get?_eq_get h]
  simp [List.getD_eq_getElem?_getD, List.getElem?_eq_getElem h]

theorem vertexAt_ok (pVertex : List GLfloat) (k : Int) (h0 : 0 ≤ k)
    (h : 3 * k.toNat + 2 < pVertex.length) :
    vertexAt pVertex k = Outcome.ok
      ⟨pVertex.getD (3 * k.toNat) GLfloat.zero, pVertex.getD (3 * k.toNat + 1) GLfloat.zero,
       pVertex.getD (3 * k.toNat + 2) GLfloat.zero⟩ := by
  unfold vertexAt
  rw [load_ok pVertex (3 * k) GLfloat.zero (by omega) (by omega),
    load_ok pVertex (3 * k + 1) GLfloat.zero (by omega) (by omega),
    load_ok pVertex (3 * k + 2) GLfloat.zero (by omega) (by omega)]
  have e1 : (3 * k).toNat = 3 * k.toNat := by omega
  have e2 : (3 * k + 1).toNat = 3 * k.toNat + 1 := by omega
  have e3 : (3 * k + 2).toNat = 3 * k.toNat + 2 := by omega
  simp only [e1, e2, e3]

theorem triangleAt_ok (c : LmrCollMesh) (hc : c.Consistent) (i : Int) (h0 : 0 ≤ i)
    (h : i.toNat < c.m_numTris.toNat) :
    triangleAt c i = Outcome.ok (trianglePositions c i.toNat) := by
  obtain ⟨hn, hf, hi, hv⟩ := hc
  unfold triangleAt
  rw [load_ok c.pIndex (3 * i) 0 (by omega) (by omega),
    load_ok c.pIndex (3 * i + 1) 0 (by omega) (by omega),
    load_ok c.pIndex (3 * i + 2) 0 (by omega) (by omega)]
  have e1 : (3 * i).toNat = 3 * i.toNat + 0 := by omega
  have e2 : (3 * i + 1).toNat = 3 * i.toNat + 1 := by omega
  have e3 : (3 * i + 2).toNat = 3 * i.toNat + 2 := by omega
  simp only [e1, e2, e3]
  have v0 := hv (3 * i.toNat + 0) (by omega)
  have v1 := hv (3 * i.toNat + 1) (by omega)
  have v2 := hv (3 * i.toNat + 2) (by omega)
  rw [vertexAt_ok _ _ v0.1 v0.2, vertexAt_ok _ _ v1.1 v1.2, vertexAt_ok _ _ v2.1 v2.2]
  simp [trianglePositions]

/-- The loop of `GetTrisWithGeomflag` from triangle `i` on. -/
theorem trisLoop_eq (c : LmrCollMesh) (hc : c.Consistent) (flags : Nat) (num : Int) :
    ∀ (left : Nat) (i found : Int) (out : List vector3f), 0 ≤ i →
      i.toNat + left = c.m_numTris.toNat → found ≤ num →
      trisLoop c flags num left i found out = Outcome.ok
        (found + min (num - found)
            (((List.range' i.toNat left).filter (fun j => c.pFlag.getD j 0 = flags)).length : Int),
         out ++ ((((List.range' i.toNat left).filter
            (fun j => c.pFlag.getD j 0 = flags)).take (num - found).toNat).flatMap
              (trianglePositions c))) := by
  intro left
  induction left with
  | zero =>
    intro i found out _ _ hf
    simp only [trisLoop, List.range'_zero, List.filter_nil, List.length_nil, List.take_nil,
      List.flatMap_nil, List.append_nil, Nat.cast_zero]
    have : min (num - found) 0 = 0 := by omega
    rw [this, add_zero]
  | succ left ih =>
    intro i found out h0 hi hf
    have hlt : i < c.m_numTris := by have := hc.1; omega
    simp only [trisLoop]
    by_cases hfound : found < num
    · rw [if_pos ⟨hlt, hfound⟩]
      rw [load_ok c.pFlag i 0 h0 (by have := hc.2.1; omega)]
      simp only []
      have hr : List.range' i.toNat (left + 1) = i.toNat :: List.range' (i.toNat + 1) left := by
        simp [List.range'_succ]
      have hnext : (i + 1).toNat = i.toNat + 1 := by omega
      by_cases hflag : c.pFlag.getD i.toNat 0 = flags
      · rw [if_pos hflag, triangleAt_ok c hc i h0 (by omega)]
        simp only []
        rw [ih (i + 1) (found + 1) _ (by omega) (by omega) (by omega), hnext, hr]
        have hfil : (i.toNat :: List.range' (i.toNat + 1) left).filter
            (fun j => c.pFlag.getD j 0 = flags) =
            i.toNat :: (List.range' (i.toNat + 1) left).filter
              (fun j => c.pFlag.getD j 0 = flags) :=
          List.filter_cons_of_pos (decide_eq_true hflag)
        rw [hfil]
        have htake : (num - found).toNat = (num - (found + 1)).toNat + 1 := by omega
        rw [htake, List.take_succ_cons, List.flatMap_cons, List.length_cons]
        refine congrArg Outcome.ok (Prod.ext ?_ ?_)
        · show found + 1 + min (num - (found + 1)) _ = found + min (num - found) _
          push_cast
          omega
        · show out ++ trianglePositions c i.toNat ++ _ = out ++ (trianglePositions c i.toNat ++ _)
          rw [List.append_assoc]
      · rw [if_neg hflag]
        rw [ih (i + 1) found _ (by omega) (by omega) hf, hnext, hr]
        have hfil : (i.toNat :: List.range' (i.toNat + 1) left).filter
            (fun j => c.pFlag.getD j 0 = flags) =
            (List.range' (i.toNat + 1) left).filter (fun j => c.pFlag.getD j 0 = flags) :=
          List.filter_cons_of_neg (by simpa using hflag)
        rw [hfil]
    · have hcond : ¬ (i < c.m_numTris ∧ found < num) := fun h => hfound h.2
      rw [if_neg hcond]
      have e : num - found = 0 := by omega
      simp [e]

/-- C20: on a consistent mesh, for `num >= 0`, `GetTrisWithGeomflag` returns the smaller
of `num` and the number of triangles whose flag is `flags`, and writes the three vertex
positions of the first that many of those triangles, in triangle order, and nothing
else. -/
theorem C20_tris_with_geomflag (c : LmrCollMesh) (flags : Nat) (num : Int)
    (hc : c.Consistent) (hnum : 0 ≤ num) :
    GetTrisWithGeomflag c flags num = Outcome.ok
      (min num ((trisWithFlag c flags).length : Int),
       ((trisWithFlag c flags).take num.toNat).flatMap (trianglePositions c)) := by
  unfold GetTrisWithGeomflag trisWithFlag
  rw [trisLoop_eq c hc flags num c.m_numTris.toNat 0 0 [] (by omega) (by simp) hnum]
  simp [List.range_eq_range']

theorem C20_tris_with_geomflag_witness :
    GetTrisWithGeomflag sampleMesh 7 5 = Outcome.ok
      (min 5 ((trisWithFlag sampleMesh 7).length : Int),
       ((trisWithFlag sampleMesh 7).take (5 : Int).toNat).flatMap
         (trianglePositions sampleMesh)) ∧
    trisWithFlag sampleMesh 7 = [1] ∧
    trianglePositions sampleMesh 1 =
      [⟨GLfloat.zero, GLfloat.zero, GLfloat.zero⟩, ⟨GLfloat.zero, GLfloat.one, GLfloat.zero⟩,
       ⟨GLfloat.one, GLfloat.zero, GLfloat.zero⟩] :=
  ⟨C20_tris_with_geomflag sampleMesh 7 5 (by unfold LmrCollMesh.Consistent; decide)
    (by decide), by decide, by decide⟩

end CollLemmas

section BindingTheorems
set_option maxRecDepth 100000
open LmrGeomBuffer

/-- C18: `call_model` with a non-empty name the registry holds a model for returns, leaves
the registry as it is and pushes one call-submodel op with that model and the scale given
(pending, and in the op-stream after `PostBuild`); with a non-empty name it holds no model
for it raises and leaves the buffer as it is; with an empty name it returns and changes
nothing. -/
theorem C18_call_model (V : VectorOps) (st : ScriptState) (obj_name : List Byte)
    (pos xaxis yaxis : vector3f) (scale : GLfloat) :
    (∀ m, obj_name.headD 0 ≠ 0 → st.s_models.find (cstr obj_name) = some m →
      call_model V st obj_name pos xaxis yaxis scale = LuaResult.returned
        ⟨st.s_models, st.s_curBuf.PushCallModel (some m)
          (callTransform V pos xaxis yaxis scale) scale⟩ ∧
      (st.s_curBuf.PushCallModel (some m) (callTransform V pos xaxis yaxis scale) scale).curOp =
        Op.OP_CALL_MODEL ⟨some m, callTransform V pos xaxis yaxis scale, scale⟩ ∧
      (st.s_curBuf.PushCallModel (some m)
          (callTransform V pos xaxis yaxis scale) scale).PostBuild.m_ops =
        (flushCurOp st.s_curBuf).m_ops ++
          [Op.OP_CALL_MODEL ⟨some m, callTransform V pos xaxis yaxis scale, scale⟩]) ∧
    (obj_name.headD 0 ≠ 0 → st.s_models.find (cstr obj_name) = none →
      ∃ reg, call_model V st obj_name pos xaxis yaxis scale =
        LuaResult.raised ⟨reg, st.s_curBuf⟩) ∧
    (obj_name.headD 0 = 0 →
      call_model V st obj_name pos xaxis yaxis scale = LuaResult.returned st) := by
  refine ⟨?_, ?_, ?_⟩
  · intro m hne hf
    refine ⟨?_, rfl, rfl⟩
    have hl : st.s_models.lookup (cstr obj_name) = some (some m) := by
      unfold Registry.find at hf
      cases h : List.lookup (cstr obj_name) st.s_models with
      | none => rw [h] at hf; cases hf
      | some p => rw [h] at hf; simp only [Option.getD] at hf; rw [hf]
    simp only [call_model, if_neg hne, Registry.index, hl, callTransform]
  · intro hne hf
    have hi := Registry.index_fst st.s_models (cstr obj_name)
    rw [hf] at hi
    exact ⟨(st.s_models.index (cstr obj_name)).2, by simp only [call_model, if_neg hne, hi]⟩
  · intro h
    simp only [call_model, if_pos h]

theorem C18_call_model_witness :
    call_model ⟨fun a _ => a, fun a => a, fun _ a => a, fun _ _ _ => matrix4x4f.Identity⟩
        ⟨[([119], some wheelPtr)], LmrGeomBuffer.new true⟩ [119, 0]
        vector3f.zero vector3f.zero vector3f.zero GLfloat.one =
      LuaResult.returned ⟨[([119], some wheelPtr)],
        (LmrGeomBuffer.new true).PushCallModel (some wheelPtr)
          (callTransform ⟨fun a _ => a, fun a => a, fun _ a => a,
            fun _ _ _ => matrix4x4f.Identity⟩ vector3f.zero vector3f.zero vector3f.zero
            GLfloat.one) GLfloat.one⟩ ∧
    (∃ reg, call_model ⟨fun a _ => a, fun a => a, fun _ a => a,
          fun _ _ _ => matrix4x4f.Identity⟩
        ⟨[([119], some wheelPtr)], LmrGeomBuffer.new true⟩ [120, 0]
        vector3f.zero vector3f.zero vector3f.zero GLfloat.one =
      LuaResult.raised ⟨reg, LmrGeomBuffer.new true⟩) :=
  ⟨((C18_call_model _ ⟨[([119], some wheelPtr)], LmrGeomBuffer.new true⟩ [119, 0]
      vector3f.zero vector3f.zero vector3f.zero GLfloat.one).1 wheelPtr (by decide)
      (by decide)).1,
   (C18_call_model _ ⟨[([119], some wheelPtr)], LmrGeomBuffer.new true⟩ [120, 0]
      vector3f.zero vector3f.zero vector3f.zero GLfloat.one).2.1 (by decide) (by decide)⟩

/-- C19: `define_model` on a name the registry has an entry for returns with the globals
and the registry as they were, whatever the constructor would do; on a name without entry
and a table, when the constructor returns a model, it returns, and the registry afterwards
holds that model under the name and, under every other name, what the constructor left
there. -/
theorem C19_define_model {V : Type}
    (construct : LuaWorld V → List Byte → LuaWorld V × Option ModelPtr) (w : LuaWorld V)
    (model_name : List Byte) (t : ModelDef V) :
    ((w.s_models.lookup (cstr model_name)).isSome = true →
      define_model construct w [LuaArg.string model_name, LuaArg.table t] =
        LuaResult.returned w) ∧
    (w.s_models.lookup (cstr model_name) = none →
      ∀ w2 p, construct (setModelGlobals w model_name t) model_name = (w2, some p) →
        define_model construct w [LuaArg.string model_name, LuaArg.table t] =
          LuaResult.returned
            { w2 with s_models := mapAssign w2.s_models (cstr model_name) (some p) } ∧
        Registry.find (mapAssign w2.s_models (cstr model_name) (some p)) (cstr model_name) =
          some p ∧
        ∀ k, k ≠ cstr model_name →
          List.lookup k (mapAssign w2.s_models (cstr model_name) (some p)) =
            w2.s_models.lookup k) := by
  constructor
  · intro h
    simp only [define_model, h, if_true]
  · intro h w2 p hc
    refine ⟨?_, ?_, ?_⟩
    · simp only [define_model, h, Option.isSome_none, Bool.false_eq_true, if_false, hc]
    · simp [Registry.find, lookup_mapAssign]
    · intro k hk
      simp only [lookup_mapAssign, if_neg hk]

theorem C19_define_model_witness :
    define_model sampleConstruct ⟨[], [([119], some wheelPtr)]⟩
        [LuaArg.string [119, 0], LuaArg.table ⟨1, 2, 3⟩] =
      LuaResult.returned ⟨[], [([119], some wheelPtr)]⟩ ∧
    Registry.find (mapAssign [([119], some wheelPtr)] (cstr [99, 0]) (some ⟨768, some [99]⟩))
      (cstr [99, 0]) = some ⟨768, some [99]⟩ :=
  ⟨(C19_define_model sampleConstruct ⟨[], [([119], some wheelPtr)]⟩ [119, 0] ⟨1, 2, 3⟩).1
      (by decide),
   ((C19_define_model sampleConstruct ⟨[], [([119], some wheelPtr)]⟩ [99, 0] ⟨1, 2, 3⟩).2
      (by decide) (setModelGlobals ⟨[], [([119], some wheelPtr)]⟩ [99, 0] ⟨1, 2, 3⟩)
      ⟨768, some [99]⟩ rfl).2.1⟩

end BindingTheorems

section EmitLemmas
set_option maxRecDepth 100000
open LmrGeomBuffer

theorem forRange_length (lo hi : Int) : (forRange lo hi).length = (hi - lo).toNat := by
  simp [forRange]

theorem mem_forRange (lo hi i : Int) : i ∈ forRange lo hi ↔ lo ≤ i ∧ i < hi := by
  simp only [forRange, List.mem_map, List.mem_range]
  constructor
  · rintro ⟨k, hk, rfl⟩; omega
  · intro h; exact ⟨(i - lo).toNat, by omega, by omega⟩

theorem angleSteps_length {K V : Type} (A : Arith K V) (inc : K) (n : Nat) :
    ∀ (i : Int) (ang : K), (angleSteps A inc n i ang).length = n := by
  induction n with
  | zero => intro i ang; rfl
  | succ n ih => intro i ang; simp [angleSteps, ih]

theorem angleSteps_fst {K V : Type} (A : Arith K V) (inc : K) (n : Nat) :
    ∀ (i : Int) (ang : K), (angleSteps A inc n i ang).map Prod.fst =
      (List.range n).map (fun (k : Nat) => i + (k : Int)) := by
  induction n with
  | zero => intro i ang; rfl
  | succ n ih =>
    intro i ang
    simp only [angleSteps, List.map_cons, ih, List.range_succ_eq_map, List.map_map]
    simp only [Nat.cast_zero, add_zero, List.cons.injEq, true_and]
    apply List.map_congr_left
    intro k _
    simp only [Function.comp, Nat.cast_succ]
    omega

theorem trisOf_append {V : Type} (xs ys : List (Emit V)) :
    trisOf (xs ++ ys) = trisOf xs ++ trisOf ys := by
  induction xs with
  | nil => rfl
  | cons e es ih => cases e <;> simp [trisOf, ih]

theorem writesOf_append {V : Type} (xs ys : List (Emit V)) :
    writesOf (xs ++ ys) = writesOf xs ++ writesOf ys := by
  induction xs with
  | nil => rfl
  | cons e es ih => cases e <;> simp [writesOf, ih]

theorem trisOf_flatMap {V α : Type} (l : List α) (f : α → List (Emit V)) :
    trisOf (l.flatMap f) = l.flatMap (fun a => trisOf (f a)) := by
  induction l with
  | nil => rfl
  | cons a as ih => simp [List.flatMap_cons, trisOf_append, ih]

theorem writesOf_flatMap {V α : Type} (l : List α) (f : α → List (Emit V)) :
    writesOf (l.flatMap f) = l.flatMap (fun a => writesOf (f a)) := by
  induction l with
  | nil => rfl
  | cons a as ih => simp [List.flatMap_cons, writesOf_append, ih]

theorem trisOf_map {V α : Type} (l : List α) (f : α → Emit V) :
    trisOf (l.map f) = l.flatMap (fun a => trisOf [f a]) := by
  induction l with
  | nil => rfl
  | cons a as ih =>
    rw [List.map_cons, List.flatMap_cons, ← ih]
    cases h : f a <;> simp [trisOf]

theorem writesOf_map {V α : Type} (l : List α) (f : α → Emit V) :
    writesOf (l.map f) = l.flatMap (fun a => writesOf [f a]) := by
  induction l with
  | nil => rfl
  | cons a as ih =>
    rw [List.map_cons, List.flatMap_cons, ← ih]
    cases h : f a <;> simp [writesOf]

theorem flatMap_nil_fun {α β : Type} (l : List α) : l.flatMap (fun _ => ([] : List β)) = [] := by
  induction l with
  | nil => rfl
  | cons a as ih => simp [List.flatMap_cons, ih]

theorem flatMap_singleton_fun {α β : Type} (l : List α) (g : α → β) :
    l.flatMap (fun a => [g a]) = l.map g := by
  induction l with
  | nil => rfl
  | cons a as ih => simp [List.flatMap_cons, ih]

theorem AllocVertices_ok (b : LmrGeomBuffer) (num : Int) (h : 0 ≤ num) :
    ∃ b1, b.AllocVertices num = some (b1, (b.m_vertices.length : Int)) ∧
      b1.m_vertices.length = b.m_vertices.length + num.toNat ∧
      b1.m_triflags = b.m_triflags ∧ b1.m_indices = b.m_indices ∧
      b1.m_putGeomInsideout = b.m_putGeomInsideout ∧ b1.curTriFlag = b.curTriFlag := by
  have h0 : (0 : Int) ≤ (b.m_vertices.length : Int) + num := by omega
  have e : ((b.m_vertices.length : Int) + num).toNat = b.m_vertices.length + num.toNat := by
    omega
  simp only [AllocVertices, if_pos h0, e]
  refine ⟨_, rfl, ?_, rfl, rfl, rfl, rfl⟩
  simp only [List.length_append, List.length_take, List.length_replicate]
  omega

/-- What a run of emissions does to the buffer: the vertex array keeps its length, one
flag (the current one) and three indices are appended per triangle. -/
theorem runCalls_emits (mulMV : matrix4x4f → vector3f → vector3f) (es : List (Emit vector3f)) :
    ∀ s : BuildState,
      (runCalls mulMV s (es.map Emit.toCall)).buf.m_vertices.length = s.buf.m_vertices.length ∧
      (runCalls mulMV s (es.map Emit.toCall)).buf.m_triflags =
        s.buf.m_triflags ++ List.replicate (trisOf es).length s.buf.curTriFlag ∧
      (runCalls mulMV s (es.map Emit.toCall)).buf.m_indices =
        s.buf.m_indices ++ (trisOf es).flatMap (storedTri s.buf.m_putGeomInsideout) ∧
      (runCalls mulMV s (es.map Emit.toCall)).buf.m_putGeomInsideout = s.buf.m_putGeomInsideout ∧
      (runCalls mulMV s (es.map Emit.toCall)).buf.curTriFlag = s.buf.curTriFlag := by
  induction es with
  | nil => intro s; simp [runCalls, trisOf]
  | cons e es ih =>
    intro s
    cases e with
    | vertex idx pos normal =>
      have h := ih (BuildCall.apply mulMV s (BuildCall.SetVertex2 idx pos normal))
      have hv : (BuildCall.apply mulMV s (BuildCall.SetVertex2 idx pos normal)).buf =
          SetVertex2 mulMV s.buf idx pos normal := rfl
      have h1 : (SetVertex2 mulMV s.buf idx pos normal).m_vertices.length =
          s.buf.m_vertices.length := by
        simp only [SetVertex2, SetVertex]; split <;> simp
      have h2 : (SetVertex2 mulMV s.buf idx pos normal).m_triflags = s.buf.m_triflags := by
        simp only [SetVertex2, SetVertex]; split <;> rfl
      have h3 : (SetVertex2 mulMV s.buf idx pos normal).m_indices = s.buf.m_indices := by
        simp only [SetVertex2, SetVertex]; split <;> rfl
      have h4 : (SetVertex2 mulMV s.buf idx pos normal).m_putGeomInsideout =
          s.buf.m_putGeomInsideout := by
        simp only [SetVertex2, SetVertex]; split <;> rfl
      have h5 : (SetVertex2 mulMV s.buf idx pos normal).curTriFlag = s.buf.curTriFlag := by
        simp only [SetVertex2, SetVertex]; split <;> rfl
      simp only [List.map_cons, Emit.toCall, runCalls, trisOf]
      rw [hv, h1, h2, h3, h4, h5] at h
      exact h
    | tri i1 i2 i3 =>
      have h := ih (BuildCall.apply mulMV s (BuildCall.PushTri i1 i2 i3))
      have hv : (BuildCall.apply mulMV s (BuildCall.PushTri i1 i2 i3)).buf =
          PushTri s.buf i1 i2 i3 := rfl
      have h4 : (PushTri s.buf i1 i2 i3).m_putGeomInsideout = s.buf.m_putGeomInsideout := by
        unfold PushTri
        by_cases hi : s.buf.m_putGeomInsideout <;> simp [hi]
      have h5 : (PushTri s.buf i1 i2 i3).curTriFlag = s.buf.curTriFlag := by
        unfold PushTri
        by_cases hi : s.buf.m_putGeomInsideout <;> simp [hi]
      simp only [List.map_cons, Emit.toCall, runCalls, trisOf]
      rw [hv, PushTri_vertices, PushTri_triflags, PushTri_indices, h4, h5] at h
      obtain ⟨a1, a2, a3, a4, a5⟩ := h
      refine ⟨a1, ?_, ?_, a4, a5⟩
      · rw [a2]; simp [List.replicate_succ]
      · rw [a3]
        simp only [List.flatMap_cons, storedTri, List.append_assoc]

/-- A tessellator that allocates `num >= 0` vertices returns; the buffer has `num` more
vertices, one more flag and three more indices per triangle emitted. -/
theorem tessellate_effect (mulMV : matrix4x4f → vector3f → vector3f) (s : BuildState)
    (num : Int) (emits : Int → List (Emit vector3f)) (hnum : 0 ≤ num) :
    ∃ s', tessellate mulMV s num emits = some s' ∧
      s'.buf.m_vertices.length = s.buf.m_vertices.length + num.toNat ∧
      s'.buf.m_triflags = s.buf.m_triflags ++
        List.replicate (trisOf (emits s.buf.m_vertices.length)).length s.buf.curTriFlag ∧
      s'.buf.m_indices = s.buf.m_indices ++
        (trisOf (emits s.buf.m_vertices.length)).flatMap (storedTri s.buf.m_putGeomInsideout) := by
  obtain ⟨b1, ha, v1, v2, v3, v4, v5⟩ := AllocVertices_ok s.buf num hnum
  obtain ⟨r1, r2, r3, -, -⟩ := runCalls_emits mulMV (emits s.buf.m_vertices.length)
    { s with buf := b1 }
  refine ⟨runCalls mulMV { s with buf := b1 }
    ((emits s.buf.m_vertices.length).map Emit.toCall), by simp only [tessellate, ha], ?_, ?_, ?_⟩
  · rw [r1]; exact v1
  · rw [r2]; simp only [v2, v5]
  · rw [r3]; simp only [v3, v4]

theorem circleEmits_tris {K V : Type} (A : Arith K V) (vtxStart steps : Int)
    (center normal updir : V) (radius : K) :
    trisOf (circleEmits A vtxStart steps center normal updir radius) =
      (List.range (steps - 2).toNat).map
        (fun (k : Nat) => (vtxStart, vtxStart + (k : Int) + 1, vtxStart + (k : Int) + 2)) := by
  unfold circleEmits
  simp only []
  simp only [trisOf_append, trisOf_map, trisOf, flatMap_nil_fun, flatMap_singleton_fun,
    List.nil_append, forRange, List.map_map]
  apply List.map_congr_left
  intro k _
  simp only [Function.comp, Prod.mk.injEq, true_and]
  constructor <;> omega

theorem circleEmits_writes {K V : Type} (A : Arith K V) (vtxStart steps : Int)
    (center normal updir : V) (radius : K) :
    (writesOf (circleEmits A vtxStart steps center normal updir radius)).map Prod.fst =
      (List.range steps.toNat).map (fun (k : Nat) => vtxStart + (k : Int)) := by
  unfold circleEmits
  simp only []
  simp only [writesOf_append, writesOf_map, writesOf, flatMap_nil_fun, flatMap_singleton_fun,
    List.append_nil, List.map_map]
  have h := angleSteps_fst A
    (A.div (A.mul (A.lit 2) A.pi) (A.ofInt steps)) steps.toNat 0
    (A.mul (A.lit (1 / 2)) (A.div (A.mul (A.lit 2) A.pi) (A.ofInt steps)))
  have h2 := congrArg (List.map (fun i => vtxStart + i)) h
  simp only [List.map_map] at h2
  convert h2 using 2
  funext k
  simp

/-- C21: for `steps >= 3`, `_circle` returns; the buffer has `steps` more vertices, each of
them written once, in order; the triangles passed to `PushTri` are `(base, base+k+1,
base+k+2)` for `k = 0 .. steps-3`, `base` being the first allocated vertex; one flag and
three indices are appended for each, in the winding the inside-out mode gives. -/
theorem C21_circle (A : Arith GLfloat vector3f) (mulMV : matrix4x4f → vector3f → vector3f)
    (s : BuildState) (steps : Int) (center normal updir : vector3f) (radius : GLfloat)
    (h : 3 ≤ steps) :
    ∃ s', _circle A mulMV s steps center normal updir radius = some s' ∧
      s'.buf.m_vertices.length = s.buf.m_vertices.length + steps.toNat ∧
      (writesOf (circleEmits A s.buf.m_vertices.length steps center normal updir radius)).map
          Prod.fst =
        (List.range steps.toNat).map (fun (k : Nat) => (s.buf.m_vertices.length : Int) + (k : Int)) ∧
      trisOf (circleEmits A s.buf.m_vertices.length steps center normal updir radius) =
        (List.range (steps - 2).toNat).map (fun (k : Nat) =>
          ((s.buf.m_vertices.length : Int), (s.buf.m_vertices.length : Int) + (k : Int) + 1,
           (s.buf.m_vertices.length : Int) + (k : Int) + 2)) ∧
      s'.buf.m_triflags.length = s.buf.m_triflags.length + (steps - 2).toNat ∧
      s'.buf.m_indices = s.buf.m_indices ++
        ((List.range (steps - 2).toNat).map (fun (k : Nat) =>
          ((s.buf.m_vertices.length : Int), (s.buf.m_vertices.length : Int) + (k : Int) + 1,
           (s.buf.m_vertices.length : Int) + (k : Int) + 2))).flatMap
          (storedTri s.buf.m_putGeomInsideout) := by
  obtain ⟨s', h1, h2, h3, h4⟩ := tessellate_effect mulMV s steps
    (fun vtxStart => circleEmits A vtxStart steps center normal updir radius) (by omega)
  refine ⟨s', h1, h2, circleEmits_writes A _ steps center normal updir radius,
    circleEmits_tris A _ steps center normal updir radius, ?_, ?_⟩
  · rw [h3, circleEmits_tris]
    simp
  · rw [h4, circleEmits_tris]

theorem C21_circle_witness :
    ∃ s', _circle sampleArith sampleMulMV sampleState 8 vector3f.zero vector3f.zero
        vector3f.zero GLfloat.one = some s' ∧
      s'.buf.m_vertices.length = 8 ∧ s'.buf.m_triflags.length = 6 ∧
      s'.buf.m_indices = [0, 1, 2, 0, 2, 3, 0, 3, 4, 0, 4, 5, 0, 5, 6, 0, 6, 7] := by
  obtain ⟨s', h1, h2, -, -, h5, h6⟩ := C21_circle sampleArith sampleMulMV sampleState 8
    vector3f.zero vector3f.zero vector3f.zero GLfloat.one (by decide)
  exact ⟨s', h1, h2, h5, by rw [h6]; decide⟩

end EmitLemmas

section FlatTheorems
set_option maxRecDepth 100000
open LmrGeomBuffer

theorem PushVertex2_eq (mulMV : matrix4x4f → vector3f → vector3f) (b : LmrGeomBuffer)
    (pos normal : vector3f) (h : b.m_putGeomInsideout = false) :
    b.PushVertex2 mulMV pos normal =
      ({ b with m_vertices := b.m_vertices ++ [plainVertex mulMV b pos normal] },
       (b.m_vertices.length : Int)) := by
  simp [PushVertex2, PushVertex, h, plainVertex]

theorem PushTri_insideout (b : LmrGeomBuffer) (i1 i2 i3 : Int) :
    (PushTri b i1 i2 i3).m_putGeomInsideout = b.m_putGeomInsideout := by
  unfold PushTri
  by_cases hi : b.m_putGeomInsideout <;> simp [hi]

theorem OpDrawElements_curTexMatrix (b : LmrGeomBuffer) (k : Int) :
    (OpDrawElements b k).curTexMatrix = b.curTexMatrix := by
  cases h : needsNewBatch b
  · obtain ⟨e, he, -, -⟩ := needsNewBatch_false b h
    rw [OpDrawElements_extend b k e he h]
  · rw [OpDrawElements_open b k h]
    unfold flushCurOp
    split <;> rfl

theorem PushTri_curTexMatrix (b : LmrGeomBuffer) (i1 i2 i3 : Int) :
    (PushTri b i1 i2 i3).curTexMatrix = b.curTexMatrix := by
  unfold PushTri
  by_cases hi : b.m_putGeomInsideout <;>
    simp [hi, PushIdx, OpDrawElements_curTexMatrix]

/-- What `PushTri` does to the arrays with the inside-out mode off. -/
theorem PushTri_plain (b : LmrGeomBuffer) (i1 i2 i3 : Int) (h : b.m_putGeomInsideout = false) :
    (PushTri b i1 i2 i3).m_vertices = b.m_vertices ∧
    (PushTri b i1 i2 i3).m_indices = b.m_indices ++ [toUint16 i1, toUint16 i2, toUint16 i3] ∧
    (PushTri b i1 i2 i3).m_putGeomInsideout = false ∧
    (PushTri b i1 i2 i3).curTexMatrix = b.curTexMatrix := by
  refine ⟨PushTri_vertices b i1 i2 i3, ?_, ?_, PushTri_curTexMatrix b i1 i2 i3⟩
  · rw [PushTri_indices, h]; rfl
  · rw [PushTri_insideout, h]

/-- C26: in a model whose material names were declared by the list `names`,
`SetMaterial` on a declared name returns and gives the material of that name the diffuse
`(m0,m1,m2,m3)`, the specular `(m4,m5,m6,1)`, the emissive `(m8,m9,m10,1)` and the
shininess `m7`, or 100 when `m7 > 100`, or 1 when `m7 < 1`; the other materials, the lookup
table and the lights stay; on an undeclared name it fails. -/
theorem C26_set_material (names : List (List Byte)) (m : ModelTables) (mat_name : List Byte)
    (m0 m1 m2 m3 m4 m5 m6 m7 m8 m9 m10 : GLfloat)
    (hl : m.m_materialLookup = (declareMaterials ⟨[], [], []⟩ names).m_materialLookup)
    (hn : m.m_materials.length = names.length) :
    (∀ pre n post, names = pre ++ n :: post → cstr n = cstr mat_name →
      (∀ x ∈ post, cstr x ≠ cstr mat_name) →
      ∃ t, SetMaterial m mat_name [m0, m1, m2, m3, m4, m5, m6, m7, m8, m9, m10] = some t ∧
        t.m_materials.get? pre.length = some
          ⟨[m0, m1, m2, m3], [m4, m5, m6, GLfloat.one], [m8, m9, m10, GLfloat.one],
           if GLfloat.gt m7 GLfloat.hundred then GLfloat.hundred
           else if GLfloat.lt m7 GLfloat.one then GLfloat.one else m7⟩ ∧
        (∀ j, j ≠ pre.length → t.m_materials.get? j = m.m_materials.get? j) ∧
        t.m_materials.length = m.m_materials.length ∧
        t.m_materialLookup = m.m_materialLookup ∧ t.m_lights = m.m_lights) ∧
    ((∀ x ∈ names, cstr x ≠ cstr mat_name) →
      SetMaterial m mat_name [m0, m1, m2, m3, m4, m5, m6, m7, m8, m9, m10] = none) := by
  constructor
  · intro pre n post hnames hc hpost
    subst hnames
    have hlk := declareMaterials_last pre post n ⟨[], [], []⟩ (by rw [hc]; exact hpost)
    rw [hc] at hlk
    have hlen : pre.length < m.m_materials.length := by
      rw [hn]; simp
    simp only [SetMaterial, hl, hlk, List.length_nil, zero_add]
    have h0 : (0 : Int) ≤ (pre.length : Int) := by omega
    rw [if_pos h0]
    refine ⟨_, rfl, ?_, ?_, ?_, rfl, rfl⟩
    · simp [List.getElem?_set, hlen, LmrGeomBuffer.Clamp]
    · intro j hj
      simp [List.getElem?_set, hj.symm]
    · simp
  · intro h
    have hlk := declareMaterials_absent names (cstr mat_name) ⟨[], [], []⟩ h
    simp only [SetMaterial, hl, hlk]
    rfl

theorem C26_set_material_witness :
    ∃ t, SetMaterial (declareMaterials ⟨[], [], []⟩ [[97, 0], [98, 0]]) [98]
        [GLfloat.zero, GLfloat.zero, GLfloat.zero, GLfloat.zero, GLfloat.zero, GLfloat.zero,
         GLfloat.zero, GLfloat.zero, GLfloat.zero, GLfloat.zero, GLfloat.zero] = some t ∧
      t.m_materials.get? 1 = some
        ⟨[GLfloat.zero, GLfloat.zero, GLfloat.zero, GLfloat.zero],
         [GLfloat.zero, GLfloat.zero, GLfloat.zero, GLfloat.one],
         [GLfloat.zero, GLfloat.zero, GLfloat.zero, GLfloat.one], GLfloat.one⟩ := by
  obtain ⟨t, h1, h2, -⟩ := (C26_set_material [[97, 0], [98, 0]]
    (declareMaterials ⟨[], [], []⟩ [[97, 0], [98, 0]]) [98]
    GLfloat.zero GLfloat.zero GLfloat.zero GLfloat.zero GLfloat.zero GLfloat.zero GLfloat.zero
    GLfloat.zero GLfloat.zero GLfloat.zero GLfloat.zero rfl (by decide)).1
    [[97, 0]] [98, 0] [] rfl (by decide) (by decide)
  exact ⟨t, h1, h2.trans (by decide)⟩

theorem apply_curTriFlag (mulMV : matrix4x4f → vector3f → vector3f) (s : BuildState)
    (c : BuildCall) :
    (c.apply mulMV s).buf.curTriFlag =
      (lastGeomFlag [c]).getD s.buf.curTriFlag := by
  cases c <;> simp only [BuildCall.apply, lastGeomFlag, Option.getD]
  case PushTri i1 i2 i3 =>
    unfold PushTri
    by_cases hi : s.buf.m_putGeomInsideout <;> simp [hi]
  case PushInvisibleTri i1 i2 i3 => simp [PushInvisibleTri]
  case AllocVertices num =>
    cases hh : AllocVertices s.buf num with
    | none => rfl
    | some r =>
      simp only [AllocVertices] at hh
      split at hh
      · cases hh; rfl
      · cases hh
  case PushUseMaterial name =>
    cases hh : PushUseMaterial s.model s.buf name with
    | none => rfl
    | some r =>
      simp only [PushUseMaterial] at hh
      split at hh
      · cases hh; simp
      · cases hh
  case PushBillboards texname size color points =>
    simp only [PushBillboards]
    have : ∀ (ps : List vector3f) (b : LmrGeomBuffer),
        (pushPoints mulMV b ps).curTriFlag = b.curTriFlag := by
      intro ps
      induction ps with
      | nil => intro b; rfl
      | cons p ps ih => intro b; simp only [pushPoints]; rw [ih]; simp [PushVertex2, PushVertex]
    rw [this]
    simp
  case SetTexture tex =>
    simp only [SetTexture]
    split
    · split
      · split <;> rfl
      · rfl
    · rfl
  case SetGlowMap tex =>
    simp only [SetGlowMap]
    split
    · split
      · split <;> rfl
      · rfl
    · rfl
  all_goals
    first
    | rfl
    | (simp [PushVertex, PushVertex2, SetVertex, SetVertex2, PushCallModel, PushZBias,
        PushSetLocalLighting, PushUseLight, PushThruster, SetTexMatrix, SetGeomFlag,
        SetInsideOut, SetIsFromObjFile, PostBuild, PushCurOp]; try split_ifs) <;> simp

theorem runCalls_curTriFlag (mulMV : matrix4x4f → vector3f → vector3f)
    (calls : List BuildCall) :
    ∀ s : BuildState, (runCalls mulMV s calls).buf.curTriFlag =
      (lastGeomFlag calls).getD s.buf.curTriFlag := by
  induction calls with
  | nil => intro s; rfl
  | cons c cs ih =>
    intro s
    simp only [runCalls, ih, lastGeomFlag]
    cases h : lastGeomFlag cs with
    | some f => rfl
    | none =>
      simp only [Option.getD]
      rw [apply_curTriFlag]
      cases c <;> rfl

theorem runCalls_triflags_grow (mulMV : matrix4x4f → vector3f → vector3f)
    (calls : List BuildCall) :
    ∀ s : BuildState, ∃ rest, (runCalls mulMV s calls).buf.m_triflags = s.buf.m_triflags ++ rest := by
  induction calls with
  | nil => intro s; exact ⟨[], by simp [runCalls]⟩
  | cons c cs ih =>
    intro s
    obtain ⟨rest, hr⟩ := ih (c.apply mulMV s)
    refine ⟨(triRecord s c).toList.map (fun _ => s.buf.curTriFlag) ++ rest, ?_⟩
    simp only [runCalls]
    rw [hr, apply_triflags, List.append_assoc]

/-- C27: after `PreBuild` and any calls, `GetGeomFlag` returns the value of the last
`SetGeomFlag` call, 0 when there was none; a call of `PushTri` or `PushInvisibleTri`
appends as flag the value `GetGeomFlag` has at that moment, and the calls after it leave
it, and the flags before it, where they are. -/
theorem C27_geom_flag (mulMV : matrix4x4f → vector3f → vector3f) (s0 : BuildState)
    (calls : List BuildCall) :
    (runCalls mulMV { s0 with buf := s0.buf.PreBuild } calls).buf.GetGeomFlag =
      (lastGeomFlag calls).getD 0 ∧
    ∀ pre c post, calls = pre ++ c :: post →
      (triRecord (runCalls mulMV { s0 with buf := s0.buf.PreBuild } pre) c).isSome = true →
      ∃ rest, (runCalls mulMV { s0 with buf := s0.buf.PreBuild } calls).buf.m_triflags =
        (runCalls mulMV { s0 with buf := s0.buf.PreBuild } pre).buf.m_triflags ++
          [(runCalls mulMV { s0 with buf := s0.buf.PreBuild } pre).buf.GetGeomFlag] ++ rest := by
  constructor
  · exact runCalls_curTriFlag mulMV calls _
  · intro pre c post hc ht
    subst hc
    rw [runCalls_append]
    simp only [runCalls]
    obtain ⟨rest, hr⟩ := runCalls_triflags_grow mulMV post
      (c.apply mulMV (runCalls mulMV { s0 with buf := s0.buf.PreBuild } pre))
    refine ⟨rest, ?_⟩
    rw [hr, apply_triflags]
    cases h : triRecord (runCalls mulMV { s0 with buf := s0.buf.PreBuild } pre) c with
    | none => rw [h] at ht; cases ht
    | some r => simp [Option.toList, GetGeomFlag]

theorem C27_geom_flag_witness :
    ∃ rest, (runCalls sampleMulMV { sampleState with buf := sampleState.buf.PreBuild }
        ([BuildCall.SetGeomFlag 5] ++ BuildCall.PushTri 0 1 2 ::
          [BuildCall.SetGeomFlag 9])).buf.m_triflags =
      (runCalls sampleMulMV { sampleState with buf := sampleState.buf.PreBuild }
        [BuildCall.SetGeomFlag 5]).buf.m_triflags ++
      [(runCalls sampleMulMV { sampleState with buf := sampleState.buf.PreBuild }
        [BuildCall.SetGeomFlag 5]).buf.GetGeomFlag] ++ rest :=
  (C27_geom_flag sampleMulMV sampleState
    ([BuildCall.SetGeomFlag 5] ++ BuildCall.PushTri 0 1 2 :: [BuildCall.SetGeomFlag 9])).2
    [BuildCall.SetGeomFlag 5] (BuildCall.PushTri 0 1 2) [BuildCall.SetGeomFlag 9] rfl rfl

end FlatTheorems

section RevolutionTheorems
set_option maxRecDepth 100000

theorem length_flatMap_const {α β : Type} (l : List α) (f : α → List β) (c : Nat)
    (h : ∀ a, (f a).length = c) : (l.flatMap f).length = l.length * c := by
  induction l with
  | nil => simp
  | cons a as ih =>
    simp only [List.flatMap_cons, List.length_append, h, ih, List.length_cons]
    ring

theorem length_flatMap_pair {α β : Type} (l : List α) (f g : α → β) :
    (l.flatMap (fun a => [f a, g a])).length = l.length * 2 :=
  length_flatMap_const l _ 2 (fun _ => rfl)

theorem length_flatMap_four {α β : Type} (l : List α) (f g h k : α → β) :
    (l.flatMap (fun a => [f a, g a, h a, k a])).length = l.length * 4 :=
  length_flatMap_const l _ 4 (fun _ => rfl)

theorem map_flatMap_fun {α β γ : Type} (l : List α) (f : α → List β) (g : β → γ) :
    (l.flatMap f).map g = l.flatMap (fun a => (f a).map g) := by
  induction l with
  | nil => rfl
  | cons a as ih => simp [List.flatMap_cons, ih]

theorem writesOf_wallTris {V : Type} (base steps : Int) :
    writesOf (wallTris base steps : List (Emit V)) = [] := by
  simp only [wallTris, writesOf_append, writesOf_flatMap, writesOf, flatMap_nil_fun,
    List.append_nil]

theorem find?_unique {α : Type} (p : α → Bool) (l : List α) (w : α) (hw : w ∈ l)
    (hp : p w = true) (hu : ∀ x ∈ l, p x = true → x = w) : l.find? p = some w := by
  induction l with
  | nil => simp at hw
  | cons a as ih =>
    by_cases ha : p a = true
    · have e : a = w := hu a (List.mem_cons_self _ _) ha
      subst e
      simp only [List.find?_cons, ha]
    · have hne : a ≠ w := fun e => ha (e ▸ hp)
      have hw2 : w ∈ as := by
        rcases List.mem_cons.mp hw with h | h
        · exact absurd h.symm hne
        · exact h
      have ha2 : p a = false := by simpa using ha
      simp only [List.find?_cons, ha2]
      exact ih hw2 (fun x hx => hu x (List.mem_cons_of_mem _ hx))

theorem getVertex_append_far {K V : Type} (A : Arith K V) (es extra : List (Emit V)) (k : Int)
    (h : ∀ w ∈ writesOf extra, w.1 ≠ k) : getVertex A (es ++ extra) k = getVertex A es k := by
  have hnone : (writesOf extra).reverse.find? (fun w => decide (w.1 = k)) = none := by
    rw [List.find?_eq_none]
    intro x hx
    have := h x (List.mem_reverse.mp hx)
    simpa using this
  simp only [getVertex, writesOf_append, List.reverse_append, List.find?_append, hnone,
    Option.none_or]

theorem getVertex_unique {K V : Type} (A : Arith K V) (es : List (Emit V)) (k : Int) (pos n : V)
    (hw : (k, pos, n) ∈ writesOf es) (hu : ∀ x ∈ writesOf es, x.1 = k → x = (k, pos, n)) :
    getVertex A es k = pos := by
  have h := find?_unique (fun (w : Int × V × V) => decide (w.1 = k)) (writesOf es).reverse
    (k, pos, n) (List.mem_reverse.mpr hw) (by simp)
    (fun x hx hp => hu x (List.mem_reverse.mp hx) (by simpa using hp))
  simp only [getVertex, h]

theorem writesOf_extrusionCaps {V : Type} (vtxStart steps : Int) :
    writesOf (extrusionCaps vtxStart steps : List (Emit V)) = [] := by
  simp only [extrusionCaps, writesOf_flatMap, writesOf, flatMap_nil_fun]

theorem trisOf_extrusionCaps {V : Type} (vtxStart steps : Int) :
    trisOf (extrusionCaps vtxStart steps : List (Emit V)) =
      (forRange 0 (steps - 1)).flatMap (fun i =>
        [(vtxStart, vtxStart + i + 1, vtxStart + i),
         (vtxStart + steps, vtxStart + steps + i, vtxStart + steps + i + 1)]) := by
  simp only [extrusionCaps, trisOf_flatMap, trisOf]

theorem writesOf_extrusionEnds {K V : Type} (A : Arith K V) (vtxStart : Int)
    (start end_ updir : V) (radius : K) (evtx : List V) :
    writesOf (extrusionEnds A vtxStart start end_ updir radius evtx) =
      (forRange 0 (evtx.length : Int)).flatMap (fun i =>
        [(vtxStart + i, A.vadd start (extrusionOffset A start end_ updir radius evtx i),
            A.vneg (A.Normalized (A.vsub end_ start))),
         (vtxStart + i + (evtx.length : Int),
            A.vadd end_ (extrusionOffset A start end_ updir radius evtx i),
            A.Normalized (A.vsub end_ start))]) := by
  simp only [extrusionEnds, writesOf_flatMap, writesOf]

theorem trisOf_extrusionEnds {K V : Type} (A : Arith K V) (vtxStart : Int)
    (start end_ updir : V) (radius : K) (evtx : List V) :
    trisOf (extrusionEnds A vtxStart start end_ updir radius evtx) = [] := by
  simp only [extrusionEnds, trisOf_flatMap, trisOf, flatMap_nil_fun]

/-- After the first two loops of `extrusion`, `GetVertex` on the first `2*steps` slots of
the block returns the start and end position of the outline point of the slot. -/
theorem getVertex_ends {K V : Type} (A : Arith K V) (vtxStart : Int)
    (start end_ updir : V) (radius : K) (evtx : List V) (j : Int) (h0 : 0 ≤ j)
    (h1 : j < (evtx.length : Int)) :
    getVertex A (extrusionEnds A vtxStart start end_ updir radius evtx ++
        extrusionCaps vtxStart (evtx.length : Int)) (vtxStart + j) =
      A.vadd start (extrusionOffset A start end_ updir radius evtx j) ∧
    getVertex A (extrusionEnds A vtxStart start end_ updir radius evtx ++
        extrusionCaps vtxStart (evtx.length : Int)) (vtxStart + j + (evtx.length : Int)) =
      A.vadd end_ (extrusionOffset A start end_ updir radius evtx j) := by
  constructor
  · apply getVertex_unique A _ _ _ (A.vneg (A.Normalized (A.vsub end_ start)))
    · rw [writesOf_append, writesOf_extrusionCaps, List.append_nil, writesOf_extrusionEnds,
        List.mem_flatMap]
      exact ⟨j, (mem_forRange _ _ _).mpr ⟨h0, h1⟩, List.mem_cons_self _ _⟩
    · intro x hx hk
      rw [writesOf_append, writesOf_extrusionCaps, List.append_nil, writesOf_extrusionEnds,
        List.mem_flatMap] at hx
      obtain ⟨i, hi, hx⟩ := hx
      rw [mem_forRange] at hi
      simp only [List.mem_cons, List.mem_singleton, List.not_mem_nil, or_false] at hx
      rcases hx with rfl | rfl
      · have e : i = j := by simp only at hk; omega
        rw [e]
      · simp only at hk; omega
  · apply getVertex_unique A _ _ _ (A.Normalized (A.vsub end_ start))
    · rw [writesOf_append, writesOf_extrusionCaps, List.append_nil, writesOf_extrusionEnds,
        List.mem_flatMap]
      exact ⟨j, (mem_forRange _ _ _).mpr ⟨h0, h1⟩, by simp⟩
    · intro x hx hk
      rw [writesOf_append, writesOf_extrusionCaps, List.append_nil, writesOf_extrusionEnds,
        List.mem_flatMap] at hx
      obtain ⟨i, hi, hx⟩ := hx
      rw [mem_forRange] at hi
      simp only [List.mem_cons, List.mem_singleton, List.not_mem_nil, or_false] at hx
      rcases hx with rfl | rfl
      · simp only at hk; omega
      · have e : i = j := by simp only at hk; omega
        rw [e]

theorem writesOf_sideQuad {K V : Type} (A : Arith K V) (vtxStart : Int)
    (start end_ updir : V) (radius : K) (evtx : List V) (i : Int) :
    (writesOf (sideQuad A vtxStart start end_ updir radius evtx i)).map Prod.fst =
      [vtxStart + 2 * (evtx.length : Int) + i * 4, vtxStart + 2 * (evtx.length : Int) + i * 4 + 1,
       vtxStart + 2 * (evtx.length : Int) + i * 4 + 2,
       vtxStart + 2 * (evtx.length : Int) + i * 4 + 3] := by
  simp only [sideQuad, writesOf, List.map_cons, List.map_nil]

theorem trisOf_sideQuad {K V : Type} (A : Arith K V) (vtxStart : Int)
    (start end_ updir : V) (radius : K) (evtx : List V) (i : Int) :
    trisOf (sideQuad A vtxStart start end_ updir radius evtx i) =
      [(vtxStart + 2 * (evtx.length : Int) + i * 4, vtxStart + 2 * (evtx.length : Int) + i * 4 + 1,
        vtxStart + 2 * (evtx.length : Int) + i * 4 + 3),
       (vtxStart + 2 * (evtx.length : Int) + i * 4, vtxStart + 2 * (evtx.length : Int) + i * 4 + 3,
        vtxStart + 2 * (evtx.length : Int) + i * 4 + 2)] := by
  simp only [sideQuad, trisOf]

/-- The side loop reads back what the first loop wrote: it emits the quads written out
in `sideQuad`. -/
theorem extrusionSides_closed {K V : Type} (A : Arith K V) (vtxStart : Int)
    (start end_ updir : V) (radius : K) (evtx : List V) (is : List Int)
    (his : ∀ i ∈ is, 0 ≤ i ∧ i < (evtx.length : Int)) :
    ∀ es : List (Emit V),
      (∀ j : Int, 0 ≤ j → j < (evtx.length : Int) →
        getVertex A es (vtxStart + j) =
          A.vadd start (extrusionOffset A start end_ updir radius evtx j) ∧
        getVertex A es (vtxStart + j + (evtx.length : Int)) =
          A.vadd end_ (extrusionOffset A start end_ updir radius evtx j)) →
      extrusionSides A vtxStart (evtx.length : Int) is es =
        es ++ is.flatMap (sideQuad A vtxStart start end_ updir radius evtx) := by
  induction is with
  | nil => intro es _; simp [extrusionSides]
  | cons i is ih =>
    intro es hes
    obtain ⟨hi0, hi1⟩ := his i (List.mem_cons_self _ _)
    have hm0 : 0 ≤ (i + 1) % (evtx.length : Int) := Int.emod_nonneg _ (by omega)
    have hm1 : (i + 1) % (evtx.length : Int) < (evtx.length : Int) :=
      Int.emod_lt_of_pos _ (by omega)
    have hq : extrusionSide A vtxStart (evtx.length : Int) es i =
        sideQuad A vtxStart start end_ updir radius evtx i := by
      simp only [extrusionSide, sideQuad, (hes i hi0 hi1).1, (hes i hi0 hi1).2,
        (hes _ hm0 hm1).1, (hes _ hm0 hm1).2]
    have hfar : ∀ k : Int, k < vtxStart + 2 * (evtx.length : Int) →
        ∀ w ∈ writesOf (sideQuad A vtxStart start end_ updir radius evtx i), w.1 ≠ k := by
      intro k hk w hw
      have hw2 : w.1 ∈ (writesOf (sideQuad A vtxStart start end_ updir radius evtx i)).map
          Prod.fst := List.mem_map_of_mem _ hw
      rw [writesOf_sideQuad] at hw2
      simp only [List.mem_cons, List.mem_singleton, List.not_mem_nil, or_false] at hw2
      omega
    simp only [extrusionSides, hq, List.flatMap_cons]
    rw [ih (fun i hi => his i (List.mem_cons_of_mem _ hi)), List.append_assoc]
    intro j hj0 hj1
    rw [getVertex_append_far A _ _ _ (hfar _ (by omega)),
      getVertex_append_far A _ _ _ (hfar _ (by omega))]
    exact hes j hj0 hj1

theorem extrusionEmits_closed {K V : Type} (A : Arith K V) (vtxStart : Int)
    (start end_ updir : V) (radius : K) (evtx : List V) :
    extrusionEmits A vtxStart start end_ updir radius evtx =
      extrusionEnds A vtxStart start end_ updir radius evtx ++
      extrusionCaps vtxStart (evtx.length : Int) ++
      (forRange 0 (evtx.length : Int)).flatMap
        (sideQuad A vtxStart start end_ updir radius evtx) := by
  unfold extrusionEmits
  exact extrusionSides_closed A vtxStart start end_ updir radius evtx _
    (fun i hi => (mem_forRange _ _ _).mp hi) _
    (fun j h0 h1 => getVertex_ends A vtxStart start end_ updir radius evtx j h0 h1)

theorem extrusion_tris {K V : Type} (A : Arith K V) (vtxStart : Int)
    (start end_ updir : V) (radius : K) (evtx : List V) :
    trisOf (extrusionEmits A vtxStart start end_ updir radius evtx) =
      (forRange 0 ((evtx.length : Int) - 1)).flatMap (fun i =>
        [(vtxStart, vtxStart + i + 1, vtxStart + i),
         (vtxStart + (evtx.length : Int), vtxStart + (evtx.length : Int) + i,
          vtxStart + (evtx.length : Int) + i + 1)]) ++
      (forRange 0 (evtx.length : Int)).flatMap (fun i =>
        [(vtxStart + 2 * (evtx.length : Int) + i * 4,
          vtxStart + 2 * (evtx.length : Int) + i * 4 + 1,
          vtxStart + 2 * (evtx.length : Int) + i * 4 + 3),
         (vtxStart + 2 * (evtx.length : Int) + i * 4,
          vtxStart + 2 * (evtx.length : Int) + i * 4 + 3,
          vtxStart + 2 * (evtx.length : Int) + i * 4 + 2)]) := by
  rw [extrusionEmits_closed]
  simp only [trisOf_append, trisOf_extrusionEnds, trisOf_extrusionCaps, trisOf_flatMap,
    trisOf_sideQuad, List.nil_append]

theorem extrusion_writes {K V : Type} (A : Arith K V) (vtxStart : Int)
    (start end_ updir : V) (radius : K) (evtx : List V) :
    (writesOf (extrusionEmits A vtxStart start end_ updir radius evtx)).map Prod.fst =
      (forRange 0 (evtx.length : Int)).flatMap (fun i =>
        [vtxStart + i, vtxStart + i + (evtx.length : Int)]) ++
      (forRange 0 (evtx.length : Int)).flatMap (fun i =>
        [vtxStart + 2 * (evtx.length : Int) + i * 4,
         vtxStart + 2 * (evtx.length : Int) + i * 4 + 1,
         vtxStart + 2 * (evtx.length : Int) + i * 4 + 2,
         vtxStart + 2 * (evtx.length : Int) + i * 4 + 3]) := by
  rw [extrusionEmits_closed]
  simp only [writesOf_append, writesOf_extrusionEnds, writesOf_extrusionCaps, writesOf_flatMap,
    List.append_nil, List.map_append, map_flatMap_fun, writesOf_sideQuad, List.map_cons,
    List.map_nil]

/-- C29: for an outline of `n` points, `1 <= n <= 32`, `extrusion` returns; the buffer has
`6n` more vertices and `4n-2` more triangle flags; the emissions are the `2n` end vertices,
the cap triangles `(base, base+i+1, base+i)` and `(base+n, base+n+i, base+n+i+1)` for
`i < n-1`, and for each outline edge `i` the quad of `sideQuad`: four vertices of their
own at `base+2n+4i ..`, holding the start and end positions of points `i` and
`(i+1) mod n` with one normal, and two triangles over them; every index passed to
`PushTri` lies in the allocated block; an outline of more than 32 points raises an
error. -/
theorem C29_extrusion (A : Arith GLfloat vector3f) (mulMV : matrix4x4f → vector3f → vector3f)
    (s : BuildState) (start end_ updir : vector3f) (radius : GLfloat) (points : List vector3f)
    (h1 : 1 ≤ points.length) (h32 : points.length ≤ 32) :
    (∃ s', extrusion A mulMV s start end_ updir radius points = LuaResult.returned s' ∧
      s'.buf.m_vertices.length = s.buf.m_vertices.length + 6 * points.length ∧
      s'.buf.m_triflags.length = s.buf.m_triflags.length + (4 * points.length - 2) ∧
      s'.buf.m_indices = s.buf.m_indices ++
        (trisOf (extrusionEmits A s.buf.m_vertices.length start end_ updir radius
          points)).flatMap (storedTri s.buf.m_putGeomInsideout)) ∧
    extrusionEmits A s.buf.m_vertices.length start end_ updir radius points =
      extrusionEnds A s.buf.m_vertices.length start end_ updir radius points ++
      extrusionCaps s.buf.m_vertices.length (points.length : Int) ++
      (forRange 0 (points.length : Int)).flatMap
        (sideQuad A s.buf.m_vertices.length start end_ updir radius points) ∧
    (writesOf (extrusionEmits A s.buf.m_vertices.length start end_ updir radius points)).length =
      6 * points.length ∧
    (trisOf (extrusionCaps s.buf.m_vertices.length (points.length : Int) :
      List (Emit vector3f))).length = 2 * (points.length - 1) ∧
    (trisOf (extrusionEmits A s.buf.m_vertices.length start end_ updir radius points)).length =
      4 * points.length - 2 ∧
    (∀ t ∈ trisOf (extrusionEmits A s.buf.m_vertices.length start end_ updir radius points),
      triWithin (s.buf.m_vertices.length : Int)
        ((s.buf.m_vertices.length : Int) + 6 * (points.length : Int)) t) ∧
    (∀ many : List vector3f, 32 < many.length →
      extrusion A mulMV s start end_ updir radius many = LuaResult.raised s) := by
  have htris := extrusion_tris A s.buf.m_vertices.length start end_ updir radius points
  have hcount : (trisOf (extrusionEmits A s.buf.m_vertices.length start end_ updir radius
      points)).length = 4 * points.length - 2 := by
    rw [htris, List.length_append, length_flatMap_pair, length_flatMap_pair, forRange_length,
      forRange_length]
    omega
  refine ⟨?_, extrusionEmits_closed _ _ _ _ _ _ _, ?_, ?_, hcount, ?_, ?_⟩
  · obtain ⟨s', e1, e2, e3, e4⟩ := tessellate_effect mulMV s (6 * (points.length : Int))
      (fun vtxStart => extrusionEmits A vtxStart start end_ updir radius points) (by omega)
    have hn : ¬ ((points.length : Int) > 32) := by omega
    refine ⟨s', ?_, ?_, ?_, e4⟩
    · simp only [extrusion, if_neg hn, e1]
    · rw [e2]; omega
    · rw [e3, List.length_append, List.length_replicate, hcount]
  · have h := congrArg List.length
      (extrusion_writes A s.buf.m_vertices.length start end_ updir radius points)
    rw [List.length_map] at h
    rw [h, List.length_append, length_flatMap_pair, length_flatMap_four, forRange_length]
    omega
  · rw [trisOf_extrusionCaps, length_flatMap_pair, forRange_length]
    omega
  · intro t ht
    rw [htris] at ht
    simp only [List.mem_append, List.mem_flatMap, mem_forRange, List.mem_cons,
      List.mem_singleton, List.not_mem_nil, or_false] at ht
    rcases ht with ⟨i, hi, rfl | rfl⟩ | ⟨i, hi, rfl | rfl⟩ <;>
      simp only [triWithin] <;> omega
  · intro many hmany
    have hn : ((many.length : Int) > 32) := by omega
    simp only [extrusion, if_pos hn]

theorem C29_extrusion_witness :
    (∃ s', extrusion sampleArith sampleMulMV sampleState vector3f.zero vector3f.zero
        vector3f.zero GLfloat.one [vector3f.zero, vector3f.zero, vector3f.zero] =
          LuaResult.returned s' ∧
      s'.buf.m_vertices.length = 18 ∧ s'.buf.m_triflags.length = 10 ∧
      s'.buf.m_indices = [0, 1, 0, 3, 3, 4, 0, 2, 1, 3, 4, 5, 6, 7, 9, 6, 9, 8, 10, 11, 13,
        10, 13, 12, 14, 15, 17, 14, 17, 16]) ∧
    extrusion sampleArith sampleMulMV sampleState vector3f.zero vector3f.zero
        vector3f.zero GLfloat.one (List.replicate 33 vector3f.zero) =
      LuaResult.raised sampleState := by
  obtain ⟨⟨s', h1, h2, h3, h4⟩, -, -, -, -, -, h5⟩ := C29_extrusion sampleArith sampleMulMV
    sampleState vector3f.zero vector3f.zero vector3f.zero GLfloat.one
    [vector3f.zero, vector3f.zero, vector3f.zero] (by decide) (by decide)
  exact ⟨⟨s', h1, h2, h3, by rw [h4]; decide⟩, h5 _ (by decide)⟩

section StoredVertexTheorems
set_option maxRecDepth 100000
open LmrGeomBuffer

theorem SetVertex2_frame (mulMV : matrix4x4f → vector3f → vector3f) (b : LmrGeomBuffer)
    (idx : Int) (pos normal : vector3f) :
    (SetVertex2 mulMV b idx pos normal).curTexMatrix = b.curTexMatrix ∧
    (SetVertex2 mulMV b idx pos normal).m_putGeomInsideout = b.m_putGeomInsideout ∧
    (SetVertex2 mulMV b idx pos normal).m_vertices.length = b.m_vertices.length := by
  simp only [SetVertex2, SetVertex]
  split <;> simp

theorem runCalls_emits_texMatrix (mulMV : matrix4x4f → vector3f → vector3f)
    (es : List (Emit vector3f)) :
    ∀ s : BuildState,
      (runCalls mulMV s (es.map Emit.toCall)).buf.curTexMatrix = s.buf.curTexMatrix := by
  induction es with
  | nil => intro s; rfl
  | cons e es ih =>
    intro s
    cases e with
    | vertex idx pos normal =>
      simp only [List.map_cons, Emit.toCall, runCalls]
      rw [ih]
      exact (SetVertex2_frame mulMV s.buf idx pos normal).1
    | tri i1 i2 i3 =>
      simp only [List.map_cons, Emit.toCall, runCalls]
      rw [ih]
      exact PushTri_curTexMatrix s.buf i1 i2 i3

end StoredVertexTheorems

end RevolutionTheorems

section SphereTheorems
set_option maxRecDepth 100000

theorem PushVertex2_effect (mulMV : matrix4x4f → vector3f → vector3f) (b : LmrGeomBuffer)
    (pos normal : vector3f) :
    (b.PushVertex2 mulMV pos normal).2 = (b.m_vertices.length : Int) ∧
    (b.PushVertex2 mulMV pos normal).1.m_vertices.length = b.m_vertices.length + 1 ∧
    (b.PushVertex2 mulMV pos normal).1.m_indices = b.m_indices ∧
    (b.PushVertex2 mulMV pos normal).1.m_triflags = b.m_triflags ∧
    (b.PushVertex2 mulMV pos normal).1.m_putGeomInsideout = b.m_putGeomInsideout ∧
    (b.PushVertex2 mulMV pos normal).1.curTriFlag = b.curTriFlag := by
  simp only [LmrGeomBuffer.PushVertex2, LmrGeomBuffer.PushVertex, List.length_append,
    List.length_singleton, and_self, and_true]
  push_cast
  omega

/-- What a call of `_sphere_subdivide` at depth `d` with enough fuel does: it returns,
having pushed `4^d - 1` vertices and `4^d` triangles whose corners are the three it was
given or vertices it pushed. -/
theorem sphere_subdivide_effect (A : Arith GLfloat vector3f)
    (mulMV : matrix4x4f → vector3f → vector3f) (rotate : matrix4x4f → vector3f → vector3f)
    (trans : matrix4x4f) (lo : Int) (d : Nat) :
    ∀ (fuel : Nat) (b : LmrGeomBuffer) (v1 v2 v3 : vector3f) (i1 i2 i3 : Int), d < fuel →
      (lo ≤ i1 ∧ i1 < b.m_vertices.length) → (lo ≤ i2 ∧ i2 < b.m_vertices.length) →
      (lo ≤ i3 ∧ i3 < b.m_vertices.length) →
      ∃ (b1 : LmrGeomBuffer) (tris : List (Int × Int × Int)), _sphere_subdivide A mulMV rotate trans fuel b v1 v2 v3 i1 i2 i3 (d : Int) =
          some b1 ∧
        b1.m_vertices.length = b.m_vertices.length + (4 ^ d - 1) ∧
        tris.length = 4 ^ d ∧
        (∀ t ∈ tris, triWithin lo (b1.m_vertices.length : Int) t) ∧
        b1.m_indices = b.m_indices ++ tris.flatMap (storedTri b.m_putGeomInsideout) ∧
        b1.m_triflags = b.m_triflags ++ List.replicate (4 ^ d) b.curTriFlag ∧
        b1.m_putGeomInsideout = b.m_putGeomInsideout ∧ b1.curTriFlag = b.curTriFlag := by
  induction d with
  | zero =>
    intro fuel b v1 v2 v3 i1 i2 i3 hf h1 h2 h3
    obtain ⟨fuel, rfl⟩ : ∃ k, fuel = k + 1 := ⟨fuel - 1, by omega⟩
    refine ⟨b.PushTri i1 i3 i2, [(i1, i3, i2)], ?_, ?_, rfl, ?_, ?_, ?_, ?_, ?_⟩
    · simp [_sphere_subdivide]
    · rw [PushTri_vertices]; rfl
    · intro t ht
      rw [List.mem_singleton] at ht
      subst ht
      rw [PushTri_vertices]
      exact ⟨h1, h3, h2⟩
    · rw [PushTri_indices]
      simp only [List.flatMap_cons, List.flatMap_nil, List.append_nil, storedTri]
    · rw [PushTri_triflags]; rfl
    · exact PushTri_insideout _ _ _ _
    · unfold LmrGeomBuffer.PushTri
      by_cases hi : b.m_putGeomInsideout <;> simp [hi]
  | succ d ih =>
    intro fuel b v1 v2 v3 i1 i2 i3 hf h1 h2 h3
    obtain ⟨fuel, rfl⟩ : ∃ k, fuel = k + 1 := ⟨fuel - 1, by omega⟩
    have hd : ¬ (((d + 1 : Nat) : Int) = 0) := by omega
    have hd1 : ((d + 1 : Nat) : Int) - 1 = (d : Int) := by omega
    have hpow : 1 ≤ 4 ^ d := Nat.one_le_pow _ _ (by decide)
    have hpow2 : 4 ^ (d + 1) = 4 * 4 ^ d := by ring
    -- the three pushes
    obtain ⟨a1, a2, a3, a4, a5, a6⟩ := PushVertex2_effect mulMV b
      (mulMV trans (A.Normalized (A.vadd v1 v2))) (rotate trans (A.Normalized (A.vadd v1 v2)))
    generalize hr12 : b.PushVertex2 mulMV (mulMV trans (A.Normalized (A.vadd v1 v2)))
      (rotate trans (A.Normalized (A.vadd v1 v2))) = r12 at a1 a2 a3 a4 a5 a6
    obtain ⟨c1, c2, c3, c4, c5, c6⟩ := PushVertex2_effect mulMV r12.1
      (mulMV trans (A.Normalized (A.vadd v2 v3))) (rotate trans (A.Normalized (A.vadd v2 v3)))
    generalize hr23 : r12.1.PushVertex2 mulMV (mulMV trans (A.Normalized (A.vadd v2 v3)))
      (rotate trans (A.Normalized (A.vadd v2 v3))) = r23 at c1 c2 c3 c4 c5 c6
    obtain ⟨e1, e2, e3, e4, e5, e6⟩ := PushVertex2_effect mulMV r23.1
      (mulMV trans (A.Normalized (A.vadd v3 v1))) (rotate trans (A.Normalized (A.vadd v3 v1)))
    generalize hr31 : r23.1.PushVertex2 mulMV (mulMV trans (A.Normalized (A.vadd v3 v1)))
      (rotate trans (A.Normalized (A.vadd v3 v1))) = r31 at e1 e2 e3 e4 e5 e6
    -- the four nested calls
    obtain ⟨b1, t1, f1, g1, k1, w1, x1, y1, z1, u1⟩ := ih fuel r31.1 v1
      (A.Normalized (A.vadd v1 v2)) (A.Normalized (A.vadd v3 v1)) i1 r12.2 r31.2 (by omega)
      (by omega) (by omega) (by omega)
    obtain ⟨b2, t2, f2, g2, k2, w2, x2, y2, z2, u2⟩ := ih fuel b1 v2
      (A.Normalized (A.vadd v2 v3)) (A.Normalized (A.vadd v1 v2)) i2 r23.2 r12.2 (by omega)
      (by omega) (by omega) (by omega)
    obtain ⟨b3, t3, f3, g3, k3, w3, x3, y3, z3, u3⟩ := ih fuel b2 v3
      (A.Normalized (A.vadd v3 v1)) (A.Normalized (A.vadd v2 v3)) i3 r31.2 r23.2 (by omega)
      (by omega) (by omega) (by omega)
    obtain ⟨b4, t4, f4, g4, k4, w4, x4, y4, z4, u4⟩ := ih fuel b3
      (A.Normalized (A.vadd v1 v2)) (A.Normalized (A.vadd v2 v3)) (A.Normalized (A.vadd v3 v1))
      r12.2 r23.2 r31.2 (by omega) (by omega) (by omega) (by omega)
    refine ⟨b4, t1 ++ t2 ++ t3 ++ t4, ?_, ?_, ?_, ?_, ?_, ?_, ?_, ?_⟩
    · simp only [_sphere_subdivide, if_neg hd, hd1, hr12, hr23, hr31, f1, f2, f3, f4]
    · omega
    · simp only [List.length_append, k1, k2, k3, k4]; omega
    · intro t ht
      simp only [List.mem_append] at ht
      rcases ht with ((ht | ht) | ht) | ht
      · have h := w1 t ht
        simp only [triWithin] at h ⊢
        omega
      · have h := w2 t ht
        simp only [triWithin] at h ⊢
        omega
      · have h := w3 t ht
        simp only [triWithin] at h ⊢
        omega
      · exact w4 t ht
    · rw [x4, x3, x2, x1, z3, z2, z1, e3, c3, a3, e5, c5, a5]
      simp only [List.flatMap_append, List.append_assoc]
    · have h4 : 4 * 4 ^ d = 4 ^ d + 4 ^ d + 4 ^ d + 4 ^ d := by omega
      rw [y4, y3, y2, y1, u3, u2, u1, e4, c4, a4, e6, c6, a6, hpow2, h4]
      simp only [List.replicate_add, List.append_assoc]
    · rw [z4, z3, z2, z1, e5, c5, a5]
    · rw [u4, u3, u2, u1, e6, c6, a6]

theorem pushIcosahedron_effect (mulMV : matrix4x4f → vector3f → vector3f)
    (rotate : matrix4x4f → vector3f → vector3f) (trans : matrix4x4f) (vs : List vector3f) :
    ∀ b : LmrGeomBuffer,
      (pushIcosahedron mulMV rotate trans b vs).1.m_vertices.length =
        b.m_vertices.length + vs.length ∧
      (pushIcosahedron mulMV rotate trans b vs).2 =
        (List.range vs.length).map (fun (k : Nat) => (b.m_vertices.length : Int) + (k : Int)) ∧
      (pushIcosahedron mulMV rotate trans b vs).1.m_indices = b.m_indices ∧
      (pushIcosahedron mulMV rotate trans b vs).1.m_triflags = b.m_triflags ∧
      (pushIcosahedron mulMV rotate trans b vs).1.m_putGeomInsideout = b.m_putGeomInsideout ∧
      (pushIcosahedron mulMV rotate trans b vs).1.curTriFlag = b.curTriFlag := by
  induction vs with
  | nil => intro b; simp [pushIcosahedron]
  | cons v vs ih =>
    intro b
    obtain ⟨a1, a2, a3, a4, a5, a6⟩ := PushVertex2_effect mulMV b (mulMV trans v)
      (rotate trans v)
    obtain ⟨c1, c2, c3, c4, c5, c6⟩ := ih (b.PushVertex2 mulMV (mulMV trans v)
      (rotate trans v)).1
    simp only [pushIcosahedron, List.length_cons]
    refine ⟨by rw [c1, a2]; omega, ?_, by rw [c3, a3], by rw [c4, a4], by rw [c5, a5],
      by rw [c6, a6]⟩
    rw [c2, a1, a2, List.range_succ_eq_map, List.map_cons, List.map_map]
    simp only [Nat.cast_zero, add_zero, List.cons.injEq, true_and]
    apply List.map_congr_left
    intro k _
    simp only [Function.comp, Nat.cast_succ, Nat.cast_add, Nat.cast_one]
    omega

theorem sphereFaces_effect (A : Arith GLfloat vector3f)
    (mulMV : matrix4x4f → vector3f → vector3f) (rotate : matrix4x4f → vector3f → vector3f)
    (trans : matrix4x4f) (fuel d : Nat) (hf : d < fuel) (vi : List Int) (lo hi : Int)
    (faces : List (Nat × Nat × Nat))
    (hvi : ∀ f ∈ faces, (lo ≤ vi.getD f.1 0 ∧ vi.getD f.1 0 < hi) ∧
      (lo ≤ vi.getD f.2.1 0 ∧ vi.getD f.2.1 0 < hi) ∧
      (lo ≤ vi.getD f.2.2 0 ∧ vi.getD f.2.2 0 < hi)) :
    ∀ b : LmrGeomBuffer, hi ≤ (b.m_vertices.length : Int) →
      ∃ (b1 : LmrGeomBuffer) (tris : List (Int × Int × Int)),
        sphereFaces A mulMV rotate trans fuel vi (d : Int) b faces = some b1 ∧
        b1.m_vertices.length = b.m_vertices.length + faces.length * (4 ^ d - 1) ∧
        tris.length = faces.length * 4 ^ d ∧
        (∀ t ∈ tris, triWithin lo (b1.m_vertices.length : Int) t) ∧
        b1.m_indices = b.m_indices ++ tris.flatMap (storedTri b.m_putGeomInsideout) ∧
        b1.m_triflags = b.m_triflags ++ List.replicate (faces.length * 4 ^ d) b.curTriFlag ∧
        b1.m_putGeomInsideout = b.m_putGeomInsideout ∧ b1.curTriFlag = b.curTriFlag := by
  induction faces with
  | nil =>
    intro b _
    exact ⟨b, [], rfl, by simp, by simp, by simp, by simp, by simp, rfl, rfl⟩
  | cons f fs ih =>
    intro b hb
    obtain ⟨h1, h2, h3⟩ := hvi f (List.mem_cons_self _ _)
    obtain ⟨b1, t1, f1, g1, k1, w1, x1, y1, z1, u1⟩ := sphere_subdivide_effect A mulMV rotate
      trans lo d fuel b (icosahedron_vertices.getD f.1 vector3f.zero)
      (icosahedron_vertices.getD f.2.1 vector3f.zero)
      (icosahedron_vertices.getD f.2.2 vector3f.zero)
      (vi.getD f.1 0) (vi.getD f.2.1 0) (vi.getD f.2.2 0) hf
      ⟨h1.1, by omega⟩ ⟨h2.1, by omega⟩ ⟨h3.1, by omega⟩
    obtain ⟨b2, t2, f2, g2, k2, w2, x2, y2, z2, u2⟩ := ih
      (fun f hf => hvi f (List.mem_cons_of_mem _ hf)) b1 (by omega)
    refine ⟨b2, t1 ++ t2, ?_, ?_, ?_, ?_, ?_, ?_, ?_, ?_⟩
    · simp only [sphereFaces, f1, f2]
    · rw [g2, g1, List.length_cons]; ring
    · rw [List.length_append, k1, k2, List.length_cons]; ring
    · intro t ht
      rcases List.mem_append.mp ht with ht | ht
      · have h := w1 t ht
        simp only [triWithin] at h ⊢
        omega
      · exact w2 t ht
    · rw [x2, x1, z1]
      simp only [List.flatMap_append, List.append_assoc]
    · have e : (f :: fs).length * 4 ^ d = 4 ^ d + fs.length * 4 ^ d := by
        rw [List.length_cons]; ring
      rw [y2, y1, u1, e, List.replicate_add, List.append_assoc]
    · rw [z2, z1]
    · rw [u2, u1]

theorem icosahedron_faces_small :
    ∀ f ∈ icosahedron_faces, f.1 < 12 ∧ f.2.1 < 12 ∧ f.2.2 < 12 := by
  decide

theorem getD_offsets (base : Int) (n j : Nat) (h : j < n) :
    ((List.range n).map (fun (k : Nat) => base + (k : Int))).getD j 0 = base + (j : Int) := by
  rw [List.getD_eq_getElem _ _ (by simpa using h)]
  simp

/-- C25: for a subdivision depth `d` in `0..4` and fuel for `d+1` nested calls, `sphere`
returns; it has pushed `12 + 20*(4^d - 1)` vertices and `20 * 4^d` triangles, every index
passed to `PushTri` being the index of a vertex pushed by this call; one flag and three
indices are stored per triangle. For `subdivs` below 0 or above 4 it raises an error. -/
theorem C25_sphere (A : Arith GLfloat vector3f) (mulMV : matrix4x4f → vector3f → vector3f)
    (rotate : matrix4x4f → vector3f → vector3f) (b : LmrGeomBuffer)
    (transform : Option matrix4x4f) (d fuel : Nat) (hd : d ≤ 4) (hfuel : d < fuel) :
    (∃ (b1 : LmrGeomBuffer) (tris : List (Int × Int × Int)),
      sphere A mulMV rotate fuel b (d : Int) transform = some (LuaResult.returned b1) ∧
      b1.m_vertices.length = b.m_vertices.length + (12 + 20 * (4 ^ d - 1)) ∧
      tris.length = 20 * 4 ^ d ∧
      (∀ t ∈ tris, triWithin (b.m_vertices.length : Int) (b1.m_vertices.length : Int) t) ∧
      b1.m_indices = b.m_indices ++ tris.flatMap (storedTri b.m_putGeomInsideout) ∧
      b1.m_triflags = b.m_triflags ++ List.replicate (20 * 4 ^ d) b.curTriFlag) ∧
    (∀ subdivs : Int, subdivs < 0 ∨ 4 < subdivs →
      sphere A mulMV rotate fuel b subdivs transform = some (LuaResult.raised b)) := by
  constructor
  · obtain ⟨p1, p2, p3, p4, p5, p6⟩ := pushIcosahedron_effect mulMV rotate
      (_get_orientation transform) icosahedron_vertices b
    have hlen : icosahedron_vertices.length = 12 := rfl
    rw [hlen] at p1 p2
    have hvi : ∀ f ∈ icosahedron_faces,
        ((b.m_vertices.length : Int) ≤
            (pushIcosahedron mulMV rotate (_get_orientation transform) b
              icosahedron_vertices).2.getD f.1 0 ∧
          (pushIcosahedron mulMV rotate (_get_orientation transform) b
              icosahedron_vertices).2.getD f.1 0 < (b.m_vertices.length : Int) + 12) ∧
        ((b.m_vertices.length : Int) ≤
            (pushIcosahedron mulMV rotate (_get_orientation transform) b
              icosahedron_vertices).2.getD f.2.1 0 ∧
          (pushIcosahedron mulMV rotate (_get_orientation transform) b
              icosahedron_vertices).2.getD f.2.1 0 < (b.m_vertices.length : Int) + 12) ∧
        ((b.m_vertices.length : Int) ≤
            (pushIcosahedron mulMV rotate (_get_orientation transform) b
              icosahedron_vertices).2.getD f.2.2 0 ∧
          (pushIcosahedron mulMV rotate (_get_orientation transform) b
              icosahedron_vertices).2.getD f.2.2 0 < (b.m_vertices.length : Int) + 12) := by
      intro f hf
      obtain ⟨s1, s2, s3⟩ := icosahedron_faces_small f hf
      rw [p2, getD_offsets _ _ _ s1, getD_offsets _ _ _ s2, getD_offsets _ _ _ s3]
      omega
    obtain ⟨b1, tris, f1, g1, k1, w1, x1, y1, -, -⟩ := sphereFaces_effect A mulMV rotate
      (_get_orientation transform) fuel d hfuel _ _ _ icosahedron_faces hvi
      (pushIcosahedron mulMV rotate (_get_orientation transform) b icosahedron_vertices).1
      (by rw [p1]; push_cast; omega)
    have hfl : icosahedron_faces.length = 20 := rfl
    rw [hfl] at g1 k1 y1
    have hn : ¬ (((d : Nat) : Int) < 0 ∨ ((d : Nat) : Int) > 4) := by omega
    refine ⟨b1, tris, ?_, ?_, k1, w1, ?_, ?_⟩
    · simp only [sphere, if_neg hn, f1]
    · rw [g1, p1]; omega
    · rw [x1, p3, p5]
    · rw [y1, p4, p6]
  · intro subdivs hs
    have hp : subdivs < 0 ∨ subdivs > 4 := by omega
    simp only [sphere, if_pos hp]

theorem C25_sphere_witness :
    (∃ b1 : LmrGeomBuffer, sphere sampleArith sampleMulMV sampleMulMV 3 sampleState.buf 2 none =
        some (LuaResult.returned b1) ∧
      b1.m_vertices.length = 312 ∧ b1.m_triflags.length = 320) ∧
    sphere sampleArith sampleMulMV sampleMulMV 3 sampleState.buf 5 none =
      some (LuaResult.raised sampleState.buf) := by
  obtain ⟨⟨b1, tris, h1, h2, -, -, -, h6⟩, h7⟩ := C25_sphere sampleArith sampleMulMV sampleMulMV
    sampleState.buf none 2 3 (by decide) (by decide)
  refine ⟨⟨b1, h1, ?_, ?_⟩, h7 5 (Or.inr (by decide))⟩
  · rw [h2]; rfl
  · rw [h6, List.length_append, List.length_replicate]; rfl

end SphereTheorems

section ExactTheorems
set_option maxRecDepth 100000

theorem exists_exact : ∃ A : Arith ℝ (Vec3 ℝ), A.Exact := by
  classical
  exact ⟨{ add := fun a b => a + b, sub := fun a b => a - b, mul := fun a b => a * b,
           div := fun a b => a / b, neg := fun a => -a, sin := Real.sin, cos := Real.cos,
           cosf := Real.cos, ofInt := fun i => (i : ℝ), lit := fun q => (q : ℝ),
           pi := Real.pi, gt := fun a b => decide (a > b),
           is_equal_absolute := fun a b t => decide (|a - b| ≤ t),
           vec := fun a b c => ⟨a, b, c⟩, x := fun v => v.x, y := fun v => v.y,
           z := fun v => v.z,
           vadd := fun a b => ⟨a.x + b.x, a.y + b.y, a.z + b.z⟩,
           vsub := fun a b => a.minus b,
           smul := fun k v => ⟨k * v.x, k * v.y, k * v.z⟩,
           vneg := fun v => ⟨-v.x, -v.y, -v.z⟩,
           Cross := fun a b => a.cross b,
           Normalized := fun v => ⟨v.x * (1 / Real.sqrt v.normSq),
             v.y * (1 / Real.sqrt v.normSq), v.z * (1 / Real.sqrt v.normSq)⟩ },
    ⟨fun _ _ => rfl, fun _ _ => rfl, fun _ _ => rfl, fun _ _ => rfl, fun _ => rfl,
     fun _ => rfl, fun _ => rfl, fun _ => rfl, fun _ => rfl, fun _ => rfl, rfl,
     fun _ _ _ => rfl, fun _ => rfl, fun _ => rfl, fun _ => rfl, fun _ _ => rfl,
     fun _ _ => rfl, fun _ _ => rfl, fun _ => rfl, fun _ _ => rfl, fun _ => rfl⟩⟩

theorem normSq_nonneg (v : Vec3 ℝ) : 0 ≤ v.normSq := by
  unfold Vec3.normSq
  nlinarith [mul_self_nonneg v.x, mul_self_nonneg v.y, mul_self_nonneg v.z]

theorem normSq_eq_zero (v : Vec3 ℝ) (h : v.normSq = 0) : v = Vec3.zero := by
  unfold Vec3.normSq at h
  have hx : v.x = 0 := by nlinarith [mul_self_nonneg v.x, mul_self_nonneg v.y, mul_self_nonneg v.z]
  have hy : v.y = 0 := by nlinarith [mul_self_nonneg v.x, mul_self_nonneg v.y, mul_self_nonneg v.z]
  have hz : v.z = 0 := by nlinarith [mul_self_nonneg v.x, mul_self_nonneg v.y, mul_self_nonneg v.z]
  cases v
  simp only at hx hy hz
  simp only [hx, hy, hz, Vec3.zero]

theorem normSq_pos (v : Vec3 ℝ) (h : v ≠ Vec3.zero) : 0 < v.normSq :=
  lt_of_le_of_ne (normSq_nonneg v) (fun e => h (normSq_eq_zero v e.symm))

/-- A normalised non-zero vector has length one. -/
theorem normSq_Normalized (A : Arith ℝ (Vec3 ℝ)) (hA : A.Exact) (v : Vec3 ℝ)
    (h : v ≠ Vec3.zero) : (A.Normalized v).normSq = 1 := by
  have hp := normSq_pos v h
  have hs : Real.sqrt v.normSq * Real.sqrt v.normSq = v.normSq :=
    Real.mul_self_sqrt (le_of_lt hp)
  have hs0 : Real.sqrt v.normSq ≠ 0 := (Real.sqrt_pos.mpr hp).ne'
  rw [hA.Normalized_eq]
  have e : (⟨v.x * (1 / Real.sqrt v.normSq), v.y * (1 / Real.sqrt v.normSq),
      v.z * (1 / Real.sqrt v.normSq)⟩ : Vec3 ℝ).normSq =
      v.normSq * (1 / (Real.sqrt v.normSq * Real.sqrt v.normSq)) := by
    simp only [Vec3.normSq]
    field_simp
  rw [e, hs]
  exact mul_one_div_cancel hp.ne'

/-- The vector `updir.Normalized()` is orthogonal to `updir.Cross(w).Normalized()`. -/
theorem axes_orthogonal (A : Arith ℝ (Vec3 ℝ)) (hA : A.Exact) (u w : Vec3 ℝ) :
    (A.Normalized u).x * (A.Normalized (A.Cross u w)).x +
      (A.Normalized u).y * (A.Normalized (A.Cross u w)).y +
      (A.Normalized u).z * (A.Normalized (A.Cross u w)).z = 0 := by
  rw [hA.Normalized_eq, hA.Normalized_eq, hA.Cross_eq]
  simp only [Vec3.cross]
  ring

theorem cross_zero_left (w : Vec3 ℝ) : (Vec3.zero : Vec3 ℝ).cross w = Vec3.zero := by
  simp [Vec3.cross, Vec3.zero]

theorem cross_zero_right (u : Vec3 ℝ) : u.cross (Vec3.zero : Vec3 ℝ) = Vec3.zero := by
  simp [Vec3.cross, Vec3.zero]

/-- The squared length of `radius * (sin(ang)*axis1 + cos(ang)*axis2)` for orthogonal unit
axes. -/
theorem ringPoint_normSq (A : Arith ℝ (Vec3 ℝ)) (hA : A.Exact) (R ang : ℝ) (a1 a2 : Vec3 ℝ)
    (h1 : a1.normSq = 1) (h2 : a2.normSq = 1)
    (h3 : a1.x * a2.x + a1.y * a2.y + a1.z * a2.z = 0) :
    (ringPoint A R ang a1 a2).normSq = R * R := by
  have h4 := Real.sin_sq_add_cos_sq ang
  simp only [ringPoint, hA.smul_eq, hA.vadd_eq, hA.sin_eq, hA.cos_eq, Vec3.normSq] at h1 h2 ⊢
  linear_combination R ^ 2 * (Real.sin ang ^ 2 * h1 + Real.cos ang ^ 2 * h2 +
    2 * Real.sin ang * Real.cos ang * h3 + h4)

/-- A vertex at `c + radius * (sin(ang)*axis1 + cos(ang)*axis2)` lies at distance
`|radius|` from `c`, when `updir` and `w` are not parallel. -/
theorem ring_distance (A : Arith ℝ (Vec3 ℝ)) (hA : A.Exact) (c u w : Vec3 ℝ) (R ang : ℝ)
    (h : u.cross w ≠ Vec3.zero) :
    atDistance (A.vadd c (ringPoint A R ang (A.Normalized u) (A.Normalized (A.Cross u w)))) c
      |R| := by
  have hu : u ≠ Vec3.zero := fun e => h (by rw [e]; exact cross_zero_left w)
  have hc : A.Cross u w ≠ Vec3.zero := by rw [hA.Cross_eq]; exact h
  have hn := ringPoint_normSq A hA R ang _ _ (normSq_Normalized A hA u hu)
    (normSq_Normalized A hA _ hc) (axes_orthogonal A hA u w)
  unfold atDistance
  have e : ((A.vadd c (ringPoint A R ang (A.Normalized u)
      (A.Normalized (A.Cross u w)))).minus c).normSq =
      (ringPoint A R ang (A.Normalized u) (A.Normalized (A.Cross u w))).normSq := by
    rw [hA.vadd_eq]
    simp only [Vec3.minus, Vec3.normSq, add_sub_cancel_left]
  rw [e, hn]
  exact Real.sqrt_mul_self_eq_abs R

theorem halfInc_eq (A : Arith ℝ (Vec3 ℝ)) (hA : A.Exact) (steps : Int) :
    A.mul (A.lit (1 / 2)) (angleInc A steps) = Real.pi / (steps : ℝ) := by
  simp only [angleInc, hA.mul_eq, hA.div_eq, hA.lit_eq, hA.pi_eq, hA.ofInt_eq]
  push_cast
  ring

theorem cos_half_pos (steps : Int) (h : 3 ≤ steps) : 0 < Real.cos (Real.pi / (steps : ℝ)) := by
  have h3 : (3 : ℝ) ≤ (steps : ℝ) := by exact_mod_cast h
  have hpi := Real.pi_pos
  apply Real.cos_pos_of_mem_Ioo
  constructor
  · have : 0 < Real.pi / (steps : ℝ) := div_pos hpi (by linarith)
    linarith
  · exact div_lt_div_of_pos_left hpi (by norm_num) (by linarith)

/-- The radius after `radius /= cosf(ang)`. -/
theorem radius_div (A : Arith ℝ (Vec3 ℝ)) (hA : A.Exact) (r : ℝ) (steps : Int)
    (h : 3 ≤ steps) :
    |A.div r (A.cosf (A.mul (A.lit (1 / 2)) (angleInc A steps)))| =
      |r| / Real.cos (Real.pi / (steps : ℝ)) := by
  rw [halfInc_eq A hA, hA.cosf_eq, hA.div_eq, abs_div, abs_of_pos (cos_half_pos steps h)]

/-- The radius after `radius *= radmod`, `radmod` being `1.0f/cosf(ang)`. -/
theorem radius_mul (A : Arith ℝ (Vec3 ℝ)) (hA : A.Exact) (r : ℝ) (steps : Int)
    (h : 3 ≤ steps) :
    |A.mul r (A.div (A.lit 1) (A.cosf (A.mul (A.lit (1 / 2)) (angleInc A steps))))| =
      |r| / Real.cos (Real.pi / (steps : ℝ)) := by
  rw [halfInc_eq A hA, hA.cosf_eq, hA.div_eq, hA.mul_eq, hA.lit_eq, abs_mul, abs_div,
    abs_of_pos (cos_half_pos steps h)]
  push_cast
  rw [abs_one, mul_one_div]

theorem angleSteps_bounds {K V : Type} (A : Arith K V) (inc : K) (n : Nat) (i : Int) (ang : K)
    (ia : Int × K) (h : ia ∈ angleSteps A inc n i ang) : i ≤ ia.1 ∧ ia.1 < i + (n : Int) := by
  have h1 : ia.1 ∈ (angleSteps A inc n i ang).map Prod.fst := List.mem_map_of_mem _ h
  rw [angleSteps_fst, List.mem_map] at h1
  obtain ⟨k, hk, e⟩ := h1
  rw [List.mem_range] at hk
  omega

/-- With `updir` not parallel to `end - start`, it is not parallel to the normalised
`dir` either. -/
theorem cross_dir_ne (A : Arith ℝ (Vec3 ℝ)) (hA : A.Exact) (u v : Vec3 ℝ)
    (h : u.cross v ≠ Vec3.zero) : u.cross (A.Normalized v) ≠ Vec3.zero := by
  have hv : v ≠ Vec3.zero := fun e => h (by rw [e]; exact cross_zero_right u)
  have hp := normSq_pos v hv
  have hl : (1 / Real.sqrt v.normSq) ≠ 0 := one_div_ne_zero (Real.sqrt_pos.mpr hp).ne'
  intro e
  apply h
  rw [hA.Normalized_eq] at e
  simp only [Vec3.cross, Vec3.zero, Vec3.mk.injEq] at e ⊢
  obtain ⟨e1, e2, e3⟩ := e
  have f1 : (u.y * v.z - u.z * v.y) * (1 / Real.sqrt v.normSq) = 0 := by linear_combination e1
  have f2 : (u.z * v.x - u.x * v.z) * (1 / Real.sqrt v.normSq) = 0 := by linear_combination e2
  have f3 : (u.x * v.y - u.y * v.x) * (1 / Real.sqrt v.normSq) = 0 := by linear_combination e3
  exact ⟨(mul_eq_zero.mp f1).resolve_right hl, (mul_eq_zero.mp f2).resolve_right hl,
    (mul_eq_zero.mp f3).resolve_right hl⟩

theorem circle_ringAt (A : Arith ℝ (Vec3 ℝ)) (hA : A.Exact) (vs steps : Int)
    (center normal updir : Vec3 ℝ) (r : ℝ) (hsteps : 3 ≤ steps)
    (hn : updir.cross normal ≠ Vec3.zero) :
    ringAt (writesOf (circleEmits A vs steps center normal updir r)) vs steps center
      (|r| / Real.cos (Real.pi / (steps : ℝ))) := by
  intro w hw _ _
  unfold circleEmits at hw
  simp only [writesOf_append, writesOf_map, writesOf, flatMap_nil_fun, flatMap_singleton_fun,
    List.append_nil, List.mem_map] at hw
  obtain ⟨ia, -, rfl⟩ := hw
  rw [← radius_div A hA r steps hsteps]
  exact ring_distance A hA center updir normal _ ia.2 hn

theorem ring_ringAt (A : Arith ℝ (Vec3 ℝ)) (hA : A.Exact) (vs steps : Int)
    (start end_ updir : Vec3 ℝ) (r : ℝ) (hsteps : 3 ≤ steps)
    (hd : updir.cross (end_.minus start) ≠ Vec3.zero) :
    ringAt (writesOf (ringEmits A vs steps start end_ updir r)) vs steps start
      (|r| / Real.cos (Real.pi / (steps : ℝ))) ∧
    ringAt (writesOf (ringEmits A vs steps start end_ updir r)) (vs + steps) steps end_
      (|r| / Real.cos (Real.pi / (steps : ℝ))) := by
  have hdir : updir.cross (A.Normalized (A.vsub end_ start)) ≠ Vec3.zero := by
    rw [hA.vsub_eq]; exact cross_dir_ne A hA _ _ hd
  constructor <;>
  · intro w hw hlo hhi
    unfold ringEmits at hw
    simp only [writesOf_append, writesOf_flatMap, writesOf, writesOf_wallTris, List.append_nil,
      List.mem_flatMap, List.mem_cons, List.mem_singleton, List.not_mem_nil, or_false] at hw
    obtain ⟨ia, hia, hw⟩ := hw
    have hb := angleSteps_bounds A _ _ _ _ ia hia
    rcases hw with rfl | rfl
    all_goals first
      | (exfalso; dsimp only at hlo hhi; omega)
      | (rw [← radius_div A hA r steps hsteps]
         exact ring_distance A hA _ updir _ _ ia.2 hdir)

theorem cylinder_ringAt (A : Arith ℝ (Vec3 ℝ)) (hA : A.Exact) (vs steps : Int)
    (start end_ updir : Vec3 ℝ) (r : ℝ) (hsteps : 3 ≤ steps)
    (hd : updir.cross (end_.minus start) ≠ Vec3.zero) :
    ringAt (writesOf (cylinderEmits A vs steps start end_ updir r)) vs steps start
      (|r| / Real.cos (Real.pi / (steps : ℝ))) ∧
    ringAt (writesOf (cylinderEmits A vs steps start end_ updir r)) (vs + steps) steps end_
      (|r| / Real.cos (Real.pi / (steps : ℝ))) ∧
    ringAt (writesOf (cylinderEmits A vs steps start end_ updir r)) (vs + 2 * steps) steps start
      (|r| / Real.cos (Real.pi / (steps : ℝ))) ∧
    ringAt (writesOf (cylinderEmits A vs steps start end_ updir r)) (vs + 3 * steps) steps end_
      (|r| / Real.cos (Real.pi / (steps : ℝ))) := by
  have hdir : updir.cross (A.Normalized (A.vsub end_ start)) ≠ Vec3.zero := by
    rw [hA.vsub_eq]; exact cross_dir_ne A hA _ _ hd
  have hcap : writesOf (capTris vs steps : List (Emit (Vec3 ℝ))) = [] := by
    simp only [capTris, writesOf_flatMap, writesOf, flatMap_nil_fun]
  refine ⟨?_, ?_, ?_, ?_⟩ <;>
  · intro w hw hlo hhi
    unfold cylinderEmits at hw
    simp only [writesOf_append, writesOf_flatMap, writesOf, writesOf_wallTris, hcap,
      List.append_nil, List.mem_flatMap, List.mem_cons, List.mem_singleton, List.not_mem_nil,
      or_false] at hw
    obtain ⟨ia, hia, hw⟩ := hw
    have hb := angleSteps_bounds A _ _ _ _ ia hia
    rcases hw with rfl | rfl | rfl | rfl
    all_goals first
      | (exfalso; dsimp only at hlo hhi; omega)
      | (rw [← radius_div A hA r steps hsteps]
         exact ring_distance A hA _ updir _ _ ia.2 hdir)

theorem tapered_ringAt (A : Arith ℝ (Vec3 ℝ)) (hA : A.Exact) (vs steps : Int)
    (start end_ updir : Vec3 ℝ) (r1 r2 : ℝ) (hsteps : 3 ≤ steps)
    (hd : updir.cross (end_.minus start) ≠ Vec3.zero) :
    ringAt (writesOf (taperedCylinderEmits A vs steps start end_ updir r1 r2)) vs steps start
      (|r1| / Real.cos (Real.pi / (steps : ℝ))) ∧
    ringAt (writesOf (taperedCylinderEmits A vs steps start end_ updir r1 r2)) (vs + steps)
      steps end_ (|r2| / Real.cos (Real.pi / (steps : ℝ))) ∧
    ringAt (writesOf (taperedCylinderEmits A vs steps start end_ updir r1 r2)) (vs + 2 * steps)
      steps start (|r1| / Real.cos (Real.pi / (steps : ℝ))) ∧
    ringAt (writesOf (taperedCylinderEmits A vs steps start end_ updir r1 r2)) (vs + 3 * steps)
      steps end_ (|r2| / Real.cos (Real.pi / (steps : ℝ))) := by
  have hdir : updir.cross (A.Normalized (A.vsub end_ start)) ≠ Vec3.zero := by
    rw [hA.vsub_eq]; exact cross_dir_ne A hA _ _ hd
  have hcap : writesOf (capTris vs steps : List (Emit (Vec3 ℝ))) = [] := by
    simp only [capTris, writesOf_flatMap, writesOf, flatMap_nil_fun]
  refine ⟨?_, ?_, ?_, ?_⟩ <;>
  · intro w hw hlo hhi
    unfold taperedCylinderEmits at hw
    simp only [writesOf_append, writesOf_flatMap, writesOf, writesOf_wallTris, hcap,
      List.append_nil, List.mem_flatMap, List.mem_cons, List.mem_singleton, List.not_mem_nil,
      or_false] at hw
    obtain ⟨ia, hia, hw⟩ := hw
    have hb := angleSteps_bounds A _ _ _ _ ia hia
    rcases hw with rfl | rfl | rfl | rfl
    all_goals first
      | (exfalso; dsimp only at hlo hhi; omega)
      | (rw [← radius_div A hA r1 steps hsteps]
         exact ring_distance A hA _ updir _ _ ia.2 hdir)
      | (rw [← radius_div A hA r2 steps hsteps]
         exact ring_distance A hA _ updir _ _ ia.2 hdir)

theorem tube_ringAt (A : Arith ℝ (Vec3 ℝ)) (hA : A.Exact) (vs steps : Int)
    (start end_ updir : Vec3 ℝ) (r1 r2 : ℝ) (hsteps : 3 ≤ steps)
    (hd : updir.cross (end_.minus start) ≠ Vec3.zero) :
    (ringAt (writesOf (tubeEmits A vs steps start end_ updir r1 r2)) vs steps start
      (|r2| / Real.cos (Real.pi / (steps : ℝ))) ∧
    ringAt (writesOf (tubeEmits A vs steps start end_ updir r1 r2)) (vs + steps) steps end_
      (|r2| / Real.cos (Real.pi / (steps : ℝ))) ∧
    ringAt (writesOf (tubeEmits A vs steps start end_ updir r1 r2)) (vs + 2 * steps) steps start
      (|r1| / Real.cos (Real.pi / (steps : ℝ))) ∧
    ringAt (writesOf (tubeEmits A vs steps start end_ updir r1 r2)) (vs + 3 * steps) steps end_
      (|r1| / Real.cos (Real.pi / (steps : ℝ)))) ∧
    (ringAt (writesOf (tubeEmits A vs steps start end_ updir r1 r2)) (vs + 4 * steps) steps start
      (|r2| / Real.cos (Real.pi / (steps : ℝ))) ∧
    ringAt (writesOf (tubeEmits A vs steps start end_ updir r1 r2)) (vs + 5 * steps) steps end_
      (|r2| / Real.cos (Real.pi / (steps : ℝ))) ∧
    ringAt (writesOf (tubeEmits A vs steps start end_ updir r1 r2)) (vs + 6 * steps) steps start
      (|r1| / Real.cos (Real.pi / (steps : ℝ))) ∧
    ringAt (writesOf (tubeEmits A vs steps start end_ updir r1 r2)) (vs + 7 * steps) steps end_
      (|r1| / Real.cos (Real.pi / (steps : ℝ)))) := by
  have hdir : updir.cross (A.Normalized (A.vsub end_ start)) ≠ Vec3.zero := by
    rw [hA.vsub_eq]; exact cross_dir_ne A hA _ _ hd
  have hmem : ∀ w ∈ writesOf (tubeEmits A vs steps start end_ updir r1 r2),
      ∃ ia : Int × ℝ, (0 ≤ ia.1 ∧ ia.1 < steps) ∧
        ((w.1 = vs + ia.1 ∨ w.1 = vs + ia.1 + 4 * steps) ∧ atDistance w.2.1 start
            (|r2| / Real.cos (Real.pi / (steps : ℝ))) ∨
         (w.1 = vs + ia.1 + steps ∨ w.1 = vs + ia.1 + 5 * steps) ∧ atDistance w.2.1 end_
            (|r2| / Real.cos (Real.pi / (steps : ℝ))) ∨
         (w.1 = vs + ia.1 + 2 * steps ∨ w.1 = vs + ia.1 + 6 * steps) ∧ atDistance w.2.1 start
            (|r1| / Real.cos (Real.pi / (steps : ℝ))) ∨
         (w.1 = vs + ia.1 + 3 * steps ∨ w.1 = vs + ia.1 + 7 * steps) ∧ atDistance w.2.1 end_
            (|r1| / Real.cos (Real.pi / (steps : ℝ)))) := by
    intro w hw
    unfold tubeEmits at hw
    simp only [writesOf_append, writesOf_flatMap, writesOf, flatMap_nil_fun,
      List.append_nil, List.mem_flatMap, List.mem_cons, List.mem_singleton, List.not_mem_nil,
      or_false] at hw
    obtain ⟨ia, hia, hw⟩ := hw
    have hb := angleSteps_bounds A _ _ _ _ ia hia
    have houter : ∀ c : Vec3 ℝ, atDistance (A.vadd c (A.smul
        (A.mul r2 (A.div (A.lit 1) (A.cosf (A.mul (A.lit (1 / 2)) (angleInc A steps)))))
        (A.vadd (A.smul (A.sin ia.2) (A.Normalized updir))
          (A.smul (A.cos ia.2) (A.Normalized (A.Cross updir
            (A.Normalized (A.vsub end_ start)))))))) c
        (|r2| / Real.cos (Real.pi / (steps : ℝ))) := by
      intro c
      rw [← radius_mul A hA r2 steps hsteps]
      exact ring_distance A hA c updir _ _ ia.2 hdir
    have hinner : ∀ c : Vec3 ℝ, atDistance (A.vadd c (A.smul
        (A.mul r1 (A.div (A.lit 1) (A.cosf (A.mul (A.lit (1 / 2)) (angleInc A steps)))))
        (A.vadd (A.smul (A.sin ia.2) (A.Normalized updir))
          (A.smul (A.cos ia.2) (A.Normalized (A.Cross updir
            (A.Normalized (A.vsub end_ start)))))))) c
        (|r1| / Real.cos (Real.pi / (steps : ℝ))) := by
      intro c
      rw [← radius_mul A hA r1 steps hsteps]
      exact ring_distance A hA c updir _ _ ia.2 hdir
    refine ⟨ia, ⟨by omega, by omega⟩, ?_⟩
    rcases hw with rfl | rfl | rfl | rfl | rfl | rfl | rfl | rfl
    · exact Or.inl ⟨Or.inl rfl, houter start⟩
    · exact Or.inr (Or.inl ⟨Or.inl rfl, houter end_⟩)
    · exact Or.inr (Or.inr (Or.inl ⟨Or.inl rfl, hinner start⟩))
    · exact Or.inr (Or.inr (Or.inr ⟨Or.inl rfl, hinner end_⟩))
    · exact Or.inl ⟨Or.inr rfl, houter start⟩
    · exact Or.inr (Or.inl ⟨Or.inr rfl, houter end_⟩)
    · exact Or.inr (Or.inr (Or.inl ⟨Or.inr rfl, hinner start⟩))
    · exact Or.inr (Or.inr (Or.inr ⟨Or.inr rfl, hinner end_⟩))
  refine ⟨⟨?_, ?_, ?_, ?_⟩, ⟨?_, ?_, ?_, ?_⟩⟩ <;>
  · intro w hw hlo hhi
    obtain ⟨ia, hb, h⟩ := hmem w hw
    rcases h with ⟨h1 | h1, h2⟩ | ⟨h1 | h1, h2⟩ | ⟨h1 | h1, h2⟩ | ⟨h1 | h1, h2⟩
    all_goals first
      | (exfalso; omega)
      | exact h2

theorem lathe_ringAt (A : Arith ℝ (Vec3 ℝ)) (hA : A.Exact) (vs steps : Int)
    (start end_ updir : Vec3 ℝ) (jizz : List ℝ) (i : Int) (hsteps : 3 ≤ steps)
    (hd : updir.cross (end_.minus start) ≠ Vec3.zero) :
    ringAt (writesOf (latheSegment A vs steps start end_ updir jizz i)) (vs + steps * i) steps
      (A.vadd start (A.smul (jizz.getD i.toNat (A.lit 0)) (A.vsub end_ start)))
      (|jizz.getD (i + 1).toNat (A.lit 0)| / Real.cos (Real.pi / (steps : ℝ))) ∧
    ringAt (writesOf (latheSegment A vs steps start end_ updir jizz i)) (vs + steps * i + steps)
      steps (A.vadd start (A.smul (jizz.getD (i + 2).toNat (A.lit 0)) (A.vsub end_ start)))
      (|jizz.getD (i + 3).toNat (A.lit 0)| / Real.cos (Real.pi / (steps : ℝ))) := by
  have hdir : updir.cross (A.Normalized (A.vsub end_ start)) ≠ Vec3.zero := by
    rw [hA.vsub_eq]; exact cross_dir_ne A hA _ _ hd
  constructor <;>
  · intro w hw hlo hhi
    unfold latheSegment at hw
    simp only [writesOf_append, writesOf_flatMap, writesOf, writesOf_wallTris, List.append_nil,
      List.mem_flatMap, List.mem_cons, List.mem_singleton, List.not_mem_nil, or_false] at hw
    obtain ⟨ia, hia, hw⟩ := hw
    have hb := angleSteps_bounds A _ _ _ _ ia hia
    rcases hw with rfl | rfl
    all_goals first
      | (exfalso; dsimp only at hlo hhi; omega)
      | (rw [← radius_mul A hA _ steps hsteps]
         exact ring_distance A hA _ updir _ _ ia.2 hdir)

/-- C22 (amended): in exact real arithmetic, for `steps >= 3` and an up vector not parallel
to the axis, every vertex written to a ring of `circle`, `ring`, `cylinder`,
`tapered_cylinder`, `tube` and of a `lathe` segment lies at distance `|r| / cos(pi/steps)`
from the centre of its ring: `center` for `circle`; `start` and `end` for the rings and
cap rings of the others (tapered: radius 1 at `start`, radius 2 at `end`; tube: outer and
inner radius); the interpolated axis points of the segment for `lathe`. -/
theorem C22_ring_distance (A : Arith ℝ (Vec3 ℝ)) (hA : A.Exact) (vs steps : Int)
    (center normal start end_ updir : Vec3 ℝ) (r r1 r2 : ℝ) (jizz : List ℝ) (i : Int)
    (hsteps : 3 ≤ steps) (hn : updir.cross normal ≠ Vec3.zero)
    (hd : updir.cross (end_.minus start) ≠ Vec3.zero) :
    ringAt (writesOf (circleEmits A vs steps center normal updir r)) vs steps center
      (|r| / Real.cos (Real.pi / (steps : ℝ))) ∧
    (ringAt (writesOf (ringEmits A vs steps start end_ updir r)) vs steps start
      (|r| / Real.cos (Real.pi / (steps : ℝ))) ∧
    ringAt (writesOf (ringEmits A vs steps start end_ updir r)) (vs + steps) steps end_
      (|r| / Real.cos (Real.pi / (steps : ℝ)))) ∧
    (ringAt (writesOf (cylinderEmits A vs steps start end_ updir r)) vs steps start
      (|r| / Real.cos (Real.pi / (steps : ℝ))) ∧
    ringAt (writesOf (cylinderEmits A vs steps start end_ updir r)) (vs + steps) steps end_
      (|r| / Real.cos (Real.pi / (steps : ℝ))) ∧
    ringAt (writesOf (cylinderEmits A vs steps start end_ updir r)) (vs + 2 * steps) steps start
      (|r| / Real.cos (Real.pi / (steps : ℝ))) ∧
    ringAt (writesOf (cylinderEmits A vs steps start end_ updir r)) (vs + 3 * steps) steps end_
      (|r| / Real.cos (Real.pi / (steps : ℝ)))) ∧
    (ringAt (writesOf (taperedCylinderEmits A vs steps start end_ updir r1 r2)) vs steps start
      (|r1| / Real.cos (Real.pi / (steps : ℝ))) ∧
    ringAt (writesOf (taperedCylinderEmits A vs steps start end_ updir r1 r2)) (vs + steps)
      steps end_ (|r2| / Real.cos (Real.pi / (steps : ℝ))) ∧
    ringAt (writesOf (taperedCylinderEmits A vs steps start end_ updir r1 r2)) (vs + 2 * steps)
      steps start (|r1| / Real.cos (Real.pi / (steps : ℝ))) ∧
    ringAt (writesOf (taperedCylinderEmits A vs steps start end_ updir r1 r2)) (vs + 3 * steps)
      steps end_ (|r2| / Real.cos (Real.pi / (steps : ℝ)))) ∧
    ((ringAt (writesOf (tubeEmits A vs steps start end_ updir r1 r2)) vs steps start
      (|r2| / Real.cos (Real.pi / (steps : ℝ))) ∧
    ringAt (writesOf (tubeEmits A vs steps start end_ updir r1 r2)) (vs + steps) steps end_
      (|r2| / Real.cos (Real.pi / (steps : ℝ))) ∧
    ringAt (writesOf (tubeEmits A vs steps start end_ updir r1 r2)) (vs + 2 * steps) steps start
      (|r1| / Real.cos (Real.pi / (steps : ℝ))) ∧
    ringAt (writesOf (tubeEmits A vs steps start end_ updir r1 r2)) (vs + 3 * steps) steps end_
      (|r1| / Real.cos (Real.pi / (steps : ℝ)))) ∧
    (ringAt (writesOf (tubeEmits A vs steps start end_ updir r1 r2)) (vs + 4 * steps) steps start
      (|r2| / Real.cos (Real.pi / (steps : ℝ))) ∧
    ringAt (writesOf (tubeEmits A vs steps start end_ updir r1 r2)) (vs + 5 * steps) steps end_
      (|r2| / Real.cos (Real.pi / (steps : ℝ))) ∧
    ringAt (writesOf (tubeEmits A vs steps start end_ updir r1 r2)) (vs + 6 * steps) steps start
      (|r1| / Real.cos (Real.pi / (steps : ℝ))) ∧
    ringAt (writesOf (tubeEmits A vs steps start end_ updir r1 r2)) (vs + 7 * steps) steps end_
      (|r1| / Real.cos (Real.pi / (steps : ℝ))))) ∧
    (ringAt (writesOf (latheSegment A vs steps start end_ updir jizz i)) (vs + steps * i) steps
      (A.vadd start (A.smul (jizz.getD i.toNat (A.lit 0)) (A.vsub end_ start)))
      (|jizz.getD (i + 1).toNat (A.lit 0)| / Real.cos (Real.pi / (steps : ℝ))) ∧
    ringAt (writesOf (latheSegment A vs steps start end_ updir jizz i)) (vs + steps * i + steps)
      steps (A.vadd start (A.smul (jizz.getD (i + 2).toNat (A.lit 0)) (A.vsub end_ start)))
      (|jizz.getD (i + 3).toNat (A.lit 0)| / Real.cos (Real.pi / (steps : ℝ)))) :=
  ⟨circle_ringAt A hA vs steps center normal updir r hsteps hn,
   ring_ringAt A hA vs steps start end_ updir r hsteps hd,
   cylinder_ringAt A hA vs steps start end_ updir r hsteps hd,
   tapered_ringAt A hA vs steps start end_ updir r1 r2 hsteps hd,
   tube_ringAt A hA vs steps start end_ updir r1 r2 hsteps hd,
   lathe_ringAt A hA vs steps start end_ updir jizz i hsteps hd⟩

theorem circle3_angles :
    Real.cos (((1 / 2 : Rat) : ℝ) * (((2 : Rat) : ℝ) * Real.pi / ((3 : Int) : ℝ))) = 1 / 2 ∧
    Real.cos (((1 / 2 : Rat) : ℝ) * (((2 : Rat) : ℝ) * Real.pi / ((3 : Int) : ℝ)) +
      ((2 : Rat) : ℝ) * Real.pi / ((3 : Int) : ℝ)) = -1 ∧
    Real.cos (((1 / 2 : Rat) : ℝ) * (((2 : Rat) : ℝ) * Real.pi / ((3 : Int) : ℝ)) +
      ((2 : Rat) : ℝ) * Real.pi / ((3 : Int) : ℝ) + ((2 : Rat) : ℝ) * Real.pi / ((3 : Int) : ℝ)) =
      1 / 2 := by
  have a0 : ((1 / 2 : Rat) : ℝ) * (((2 : Rat) : ℝ) * Real.pi / ((3 : Int) : ℝ)) =
      Real.pi / 3 := by push_cast; ring
  have a1 : ((1 / 2 : Rat) : ℝ) * (((2 : Rat) : ℝ) * Real.pi / ((3 : Int) : ℝ)) +
      ((2 : Rat) : ℝ) * Real.pi / ((3 : Int) : ℝ) = Real.pi := by push_cast; ring
  have a2 : ((1 / 2 : Rat) : ℝ) * (((2 : Rat) : ℝ) * Real.pi / ((3 : Int) : ℝ)) +
      ((2 : Rat) : ℝ) * Real.pi / ((3 : Int) : ℝ) + ((2 : Rat) : ℝ) * Real.pi / ((3 : Int) : ℝ) =
      2 * Real.pi - Real.pi / 3 := by push_cast; ring
  rw [a2, a1, a0, Real.cos_two_pi_sub, Real.cos_pi_div_three, Real.cos_pi]
  exact ⟨rfl, rfl, rfl⟩

theorem circle3_xs (A : Arith ℝ (Vec3 ℝ)) (hA : A.Exact) (vs : Int) :
    ∀ w ∈ writesOf (circleEmits A vs 3 ⟨0, 0, 0⟩ ⟨0, 0, 1⟩ ⟨0, 1, 0⟩ 1),
      w.2.1.x = 1 ∨ w.2.1.x = -2 := by
  obtain ⟨c0, c1, c2⟩ := circle3_angles
  have e3 : (3 : Int).toNat = 3 := rfl
  intro w hw
  unfold circleEmits at hw
  simp only [writesOf_append, writesOf_map, writesOf, flatMap_nil_fun, flatMap_singleton_fun,
    List.append_nil, e3, angleSteps, List.map_cons, List.map_nil, ringPoint, List.mem_cons,
    List.mem_singleton, List.not_mem_nil, or_false] at hw
  simp only [hA.add_eq, hA.mul_eq, hA.div_eq, hA.sin_eq, hA.cos_eq, hA.cosf_eq, hA.ofInt_eq,
    hA.lit_eq, hA.pi_eq, hA.vadd_eq, hA.smul_eq, hA.Cross_eq, hA.Normalized_eq, Vec3.cross,
    Vec3.normSq, c0, c1, c2] at hw
  rcases hw with rfl | rfl | rfl <;> norm_num [Real.sqrt_one]

theorem circle3_first (A : Arith ℝ (Vec3 ℝ)) (hA : A.Exact) (vs : Int) :
    ∃ w ∈ writesOf (circleEmits A vs 3 ⟨0, 0, 0⟩ ⟨0, 0, 1⟩ ⟨0, 1, 0⟩ 1), w.2.1.x = 1 := by
  obtain ⟨c0, c1, c2⟩ := circle3_angles
  have e3 : (3 : Int).toNat = 3 := rfl
  unfold circleEmits
  simp only [writesOf_append, writesOf_map, writesOf, flatMap_nil_fun, flatMap_singleton_fun,
    List.append_nil, e3, angleSteps, List.map_cons, List.map_nil, ringPoint]
  simp only [hA.add_eq, hA.mul_eq, hA.div_eq, hA.sin_eq, hA.cos_eq, hA.cosf_eq, hA.ofInt_eq,
    hA.lit_eq, hA.pi_eq, hA.vadd_eq, hA.smul_eq, hA.Cross_eq, hA.Normalized_eq, Vec3.cross,
    Vec3.normSq, c0, c1, c2]
  refine ⟨_, List.mem_cons_self _ _, ?_⟩
  norm_num [Real.sqrt_one]

theorem mirror_fixed (A : Arith ℝ (Vec3 ℝ)) (hA : A.Exact) (y z : ℝ) :
    A.mirror ⟨0, y, z⟩ = ⟨0, y, z⟩ := by
  simp only [Arith.mirror, hA.vec_eq, hA.neg_eq, hA.x_eq, hA.y_eq, hA.z_eq, neg_zero]

/-- C24, the defect: in exact real arithmetic, `xref_circle(3, v(0,0,0), v(0,0,1),
v(0,1,0), 1)` writes in its first pass a vertex whose mirror image (x negated in position
and normal) is not among the vertices the second pass writes. -/
theorem C24_odd_steps_not_mirrored :
    ∃ A : Arith ℝ (Vec3 ℝ), A.Exact ∧
      ∃ w ∈ writesOf (xrefCircleEmits A 0 3 ⟨0, 0, 0⟩ ⟨0, 0, 1⟩ ⟨0, 1, 0⟩ 1).1,
        (A.mirror w.2.1, A.mirror w.2.2) ∉
          (writesOf (xrefCircleEmits A 0 3 ⟨0, 0, 0⟩ ⟨0, 0, 1⟩ ⟨0, 1, 0⟩ 1).2).map
            (fun v => (v.2.1, v.2.2)) := by
  obtain ⟨A, hA⟩ := exists_exact
  refine ⟨A, hA, ?_⟩
  obtain ⟨w, hw, hx⟩ := circle3_first A hA 0
  refine ⟨w, hw, ?_⟩
  intro hmem
  obtain ⟨v, hv, hvw⟩ := List.mem_map.mp hmem
  simp only [xrefCircleEmits, mirror_fixed A hA] at hv
  have h1 := circle3_xs A hA _ v hv
  have h2 : v.2.1.x = -1 := by
    have e := congrArg (fun p : Vec3 ℝ × Vec3 ℝ => p.1.x) hvw
    simp only [Arith.mirror, hA.vec_eq, hA.neg_eq, hA.x_eq, hx] at e
    exact e
  rcases h1 with h1 | h1 <;> rw [h2] at h1 <;> norm_num at h1

theorem cross_up_ne : (⟨0, 1, 0⟩ : Vec3 ℝ).cross ⟨0, 0, 1⟩ ≠ Vec3.zero := by
  intro e
  have h := congrArg Vec3.x e
  simp [Vec3.cross, Vec3.zero] at h

theorem cross_up_axis_ne :
    (⟨0, 1, 0⟩ : Vec3 ℝ).cross ((⟨0, 0, 1⟩ : Vec3 ℝ).minus ⟨0, 0, 0⟩) ≠ Vec3.zero := by
  intro e
  have h := congrArg Vec3.x e
  simp [Vec3.cross, Vec3.zero, Vec3.minus] at h

theorem C22_ring_distance_witness :
    ∃ A : Arith ℝ (Vec3 ℝ), A.Exact ∧
      ringAt (writesOf (circleEmits A 0 4 ⟨0, 0, 0⟩ ⟨0, 0, 1⟩ ⟨0, 1, 0⟩ (-1))) 0 4 ⟨0, 0, 0⟩
        (|(-1 : ℝ)| / Real.cos (Real.pi / ((4 : Int) : ℝ))) ∧
      ringAt (writesOf (cylinderEmits A 0 4 ⟨0, 0, 0⟩ ⟨0, 0, 1⟩ ⟨0, 1, 0⟩ (-1))) (0 + 3 * 4) 4
        ⟨0, 0, 1⟩ (|(-1 : ℝ)| / Real.cos (Real.pi / ((4 : Int) : ℝ))) := by
  obtain ⟨A, hA⟩ := exists_exact
  have h := C22_ring_distance A hA 0 4 ⟨0, 0, 0⟩ ⟨0, 0, 1⟩ ⟨0, 0, 0⟩ ⟨0, 0, 1⟩ ⟨0, 1, 0⟩ (-1)
    1 2 [] 0 (by decide) cross_up_ne cross_up_axis_ne
  exact ⟨A, hA, h.1, h.2.2.1.2.2.2⟩

/-- C22, the claim as it stands fails for a negative radius: in exact real arithmetic the
vertices of `circle(3, v(0,0,0), v(0,0,1), v(0,1,0), -1)` do not lie at distance
`-1 / cos(pi/3)` from the centre. -/
theorem C22_negative_radius :
    ∃ A : Arith ℝ (Vec3 ℝ), A.Exact ∧
      ¬ ringAt (writesOf (circleEmits A 0 3 ⟨0, 0, 0⟩ ⟨0, 0, 1⟩ ⟨0, 1, 0⟩ (-1))) 0 3 ⟨0, 0, 0⟩
        ((-1 : ℝ) / Real.cos (Real.pi / ((3 : Int) : ℝ))) := by
  obtain ⟨A, hA⟩ := exists_exact
  refine ⟨A, hA, ?_⟩
  intro h
  have hidx : (0 : Int) ∈ (writesOf (circleEmits A 0 3 (⟨0, 0, 0⟩ : Vec3 ℝ) ⟨0, 0, 1⟩ ⟨0, 1, 0⟩
      (-1))).map Prod.fst := by
    rw [circleEmits_writes]
    exact List.mem_map.mpr ⟨0, by decide, by simp⟩
  obtain ⟨w, hw, hw0⟩ := List.mem_map.mp hidx
  have d1 := h w hw (by omega) (by omega)
  have d2 := circle_ringAt A hA 0 3 ⟨0, 0, 0⟩ ⟨0, 0, 1⟩ ⟨0, 1, 0⟩ (-1) (by decide) cross_up_ne
    w hw (by omega) (by omega)
  unfold atDistance at d1 d2
  rw [d1] at d2
  have hc := cos_half_pos 3 (by decide)
  rw [abs_neg, abs_one] at d2
  have hlt : (-1 : ℝ) / Real.cos (Real.pi / ((3 : Int) : ℝ)) < 0 :=
    div_neg_of_neg_of_pos (by norm_num) hc
  have hgt : (0 : ℝ) < 1 / Real.cos (Real.pi / ((3 : Int) : ℝ)) := div_pos one_pos hc
  linarith

end ExactTheorems

section TubeTheorems
set_option maxRecDepth 100000

end TubeTheorems

section BindingDefects
set_option maxRecDepth 100000
open LmrGeomBuffer

/-- C31, as the claim states it, fails: a pass of `PreBuild` immediately followed by
`PostBuild` leaves one op in the op-stream, the empty op `OP_NONE`. -/
theorem C31_empty_pass_has_op :
    (PostBuild (PreBuild (LmrGeomBuffer.new true))).m_ops = [Op.OP_NONE] ∧
    (PostBuild (PreBuild (LmrGeomBuffer.new true))).m_ops ≠ [] := by
  decide

/-- C31, amended: `PostBuild` appends the pending op to the op-stream whatever it is, the
empty op `OP_NONE` when nothing is pending, and leaves no op pending; a pass of `PreBuild`
immediately followed by `PostBuild` leaves the op-stream holding exactly the op that was
pending before, which is `OP_NONE` for a buffer fresh from the constructor or from an
earlier `PostBuild`. -/
theorem C31_PostBuild (b : LmrGeomBuffer) (isStatic : Bool) :
    (PostBuild b).m_ops = b.m_ops ++ [b.curOp] ∧
    (PostBuild b).curOp = Op.OP_NONE ∧
    (PostBuild (PreBuild b)).m_ops = [b.curOp] ∧
    (PostBuild (PreBuild (LmrGeomBuffer.new isStatic))).m_ops = [Op.OP_NONE] ∧
    (PostBuild (PreBuild (PostBuild b))).m_ops = [Op.OP_NONE] :=
  ⟨rfl, rfl, rfl, rfl, rfl⟩

/-- C32, the defect: after `SetGlowMap` with a path and no `SetTexture`, the glow map is
current while no texture is; the batch `PushTri` opens carries the glow map and no
texture, and with shaders enabled `Render` ends in the failed assertion of
`CreateShader` for it. -/
theorem C32_glow_without_texture :
    (runCalls sampleMulMV { sampleState with buf := sampleState.buf.PreBuild }
      glowOnlyCalls).buf.curGlowmap = some ⟨4096, some [103]⟩ ∧
    (runCalls sampleMulMV { sampleState with buf := sampleState.buf.PreBuild }
      glowOnlyCalls).buf.curTexture = none ∧
    glowOnlyBuffer.m_ops =
      [Op.OP_DRAW_ELEMENTS ⟨none, some ⟨4096, some [103]⟩, 0, 0, 0, 3, 0, 2⟩] ∧
    drawElementsShader true [] ⟨false, false, false, 1⟩
      ⟨none, some ⟨4096, some [103]⟩, 0, 0, 0, 3, 0, 2⟩ = Outcome.fault Fault.abort := by
  decide

/-- C38, the defect: `use_light` records the slot `number - 1` whatever the number is and
never raises, while `set_light` raises outside 1..4; replaying the op for `use_light(5)`
grows the light table to five entries, and the op for `use_light(0)` makes `Render` index
the table at -1. -/
theorem C38_use_light_unchecked (s : BuildState) (n : Int) :
    (use_light s n = LuaResult.returned { s with buf := s.buf.PushUseLight (n - 1) } ∧
      (s.buf.PushUseLight (n - 1)).curOp = Op.OP_USE_LIGHT (n - 1) ∧
      (s.buf.PushUseLight (n - 1)).PostBuild.m_ops =
        (flushCurOp s.buf).m_ops ++ [Op.OP_USE_LIGHT (n - 1)]) ∧
    set_light s 5 GLfloat.zero vector3f.zero vector3f.zero = LuaResult.raised s ∧
    set_light s 0 GLfloat.zero vector3f.zero vector3f.zero = LuaResult.raised s ∧
    renderUseLight freshTables 4 =
      Outcome.ok { freshTables with m_lights := List.replicate 5 LmrLight.default } ∧
    renderUseLight freshTables (-1) = Outcome.fault Fault.undefined :=
  ⟨⟨rfl, rfl, rfl⟩, rfl, rfl, by decide, by decide⟩

theorem lookup_append_new {β : Type} (l : List (CStr × β)) (k : CStr) (v : β)
    (h : l.lookup k = none) : (l ++ [(k, v)]).lookup k = some v := by
  induction l with
  | nil => simp [List.lookup]
  | cons a as ih =>
    obtain ⟨k1, v1⟩ := a
    rw [List.cons_append]
    by_cases hk : (k == k1) = true
    · simp [List.lookup, hk] at h
    · have hk2 : (k == k1) = false := by simpa using hk
      simp only [List.lookup, hk2] at h ⊢
      exact ih h

/-- C40, the defect: `call_model` with a name the registry does not hold raises, but
`s_models[obj_name]` has entered the name with a null pointer; so has the submodel
look-up of `LoadFromCache`. Afterwards `LmrLookupModelByName` returns the null pointer
instead of throwing, and `define_model` of that name takes the model for defined
already and registers nothing. -/
theorem C40_null_entry {W : Type} (V : VectorOps) (st : ScriptState) (obj_name : List Byte)
    (pos xaxis yaxis : vector3f) (scale : GLfloat)
    (construct : LuaWorld W → List Byte → LuaWorld W × Option ModelPtr) (globals : List (CStr × W))
    (t : ModelDef W)
    (hne : obj_name.headD 0 ≠ 0) (hnew : st.s_models.lookup (cstr obj_name) = none) :
    LmrLookupModelByName st.s_models obj_name = Outcome.fault Fault.exception ∧
    call_model V st obj_name pos xaxis yaxis scale =
      LuaResult.raised ⟨st.s_models ++ [(cstr obj_name, none)], st.s_curBuf⟩ ∧
    (st.s_models.index (cstr obj_name)).2 = st.s_models ++ [(cstr obj_name, none)] ∧
    LmrLookupModelByName (st.s_models ++ [(cstr obj_name, none)]) obj_name = Outcome.ok none ∧
    define_model construct ⟨globals, st.s_models ++ [(cstr obj_name, none)]⟩
        [LuaArg.string obj_name, LuaArg.table t] =
      LuaResult.returned ⟨globals, st.s_models ++ [(cstr obj_name, none)]⟩ := by
  have hl := lookup_append_new st.s_models (cstr obj_name) (none : Option ModelPtr) hnew
  refine ⟨?_, ?_, ?_, ?_, ?_⟩
  · simp only [LmrLookupModelByName, hnew]
  · simp only [call_model, if_neg hne, Registry.index, hnew]
  · simp only [Registry.index, hnew]
  · simp only [LmrLookupModelByName, hl]
  · simp only [define_model, hl, Option.isSome_some, if_true]

theorem C40_null_entry_witness :
    call_model ⟨fun a _ => a, fun a => a, fun _ a => a, fun _ _ _ => matrix4x4f.Identity⟩
        ⟨[], LmrGeomBuffer.new true⟩ [119, 0] vector3f.zero vector3f.zero vector3f.zero
        GLfloat.one =
      LuaResult.raised ⟨[([119], none)], LmrGeomBuffer.new true⟩ ∧
    LmrLookupModelByName [([119], none)] [119, 0] = Outcome.ok none ∧
    define_model sampleConstruct ⟨[], [([119], none)]⟩
        [LuaArg.string [119, 0], LuaArg.table ⟨1, 2, 3⟩] =
      LuaResult.returned ⟨[], [([119], none)]⟩ := by
  obtain ⟨-, h2, -, h4, h5⟩ := C40_null_entry
    ⟨fun a _ => a, fun a => a, fun _ a => a, fun _ _ _ => matrix4x4f.Identity⟩
    ⟨[], LmrGeomBuffer.new true⟩ [119, 0] vector3f.zero vector3f.zero vector3f.zero GLfloat.one
    sampleConstruct [] ⟨1, 2, 3⟩ (by decide) rfl
  exact ⟨h2, h4, h5⟩

/-- C37, the defect: `get_arg_material(n)` with `n` equal to the number of presets passes
the range check `n > COUNTOF(pMat)` and reads `pMat[n]`, one past the end of the array;
for `n` below that number it returns the table of preset `n`, for `n` negative or above
it raises the error. -/
theorem C37_reads_past_end (pMat : List LmrMaterial) :
    get_arg_material (some pMat) (pMat.length : Int) = Outcome.fault Fault.undefined ∧
    get_arg_material (some pMat) (pMat.length : Int) ≠ Outcome.ok none ∧
    (∀ (n : Nat) (mat : LmrMaterial), pMat.get? n = some mat →
      get_arg_material (some pMat) (n : Int) = Outcome.ok (some
        [mat.diffuse.getD 0 GLfloat.zero, mat.diffuse.getD 1 GLfloat.zero,
         mat.diffuse.getD 2 GLfloat.zero, mat.diffuse.getD 3 GLfloat.zero,
         mat.specular.getD 0 GLfloat.zero, mat.specular.getD 1 GLfloat.zero,
         mat.specular.getD 2 GLfloat.zero, mat.shininess,
         mat.emissive.getD 0 GLfloat.zero, mat.emissive.getD 1 GLfloat.zero,
         mat.emissive.getD 2 GLfloat.zero])) ∧
    (∀ n : Int, n < 0 ∨ (pMat.length : Int) < n →
      get_arg_material (some pMat) n = Outcome.ok none) := by
  have hpast : get_arg_material (some pMat) (pMat.length : Int) =
      Outcome.fault Fault.undefined := by
    have hn : ¬ (((pMat.length : Nat) : Int) < 0 ∨ ((pMat.length : Nat) : Int) >
        (pMat.length : Int)) := by omega
    have hg : pMat.get? pMat.length = none := List.get?_eq_none.mpr (le_refl _)
    simp only [get_arg_material, if_neg hn, Int.toNat_natCast, hg]
  refine ⟨hpast, ?_, ?_, ?_⟩
  · rw [hpast]; intro h; cases h
  · intro n mat hm
    have hlt : n < pMat.length := by
      by_contra hc
      rw [List.get?_eq_none.mpr (by omega)] at hm
      cases hm
    have hn : ¬ (((n : Nat) : Int) < 0 ∨ ((n : Nat) : Int) > (pMat.length : Int)) := by omega
    simp only [get_arg_material, if_neg hn, Int.toNat_natCast, hm]
    rfl
  · intro n hn
    have hp : n < 0 ∨ n > (pMat.length : Int) := by omega
    simp only [get_arg_material, if_pos hp]

theorem lodPixelsLoop_overflow (maxLod : Nat) (x : GLfloat) (rest : List (Option GLfloat))
    (xs : List GLfloat) :
    ∀ (i : Int) (t : LodTable), 1 ≤ i → i - 1 + (xs.length : Int) = (maxLod : Int) →
      lodPixelsLoop maxLod (xs.map some ++ some x :: rest) i t = Outcome.fault Fault.undefined := by
  induction xs with
  | nil =>
    intro i t h1 h
    have hn : ¬ (0 ≤ i - 1 ∧ i - 1 < (maxLod : Int)) := by
      simp only [List.length_nil, Nat.cast_zero, add_zero] at h
      omega
    simp only [List.map_nil, List.nil_append, lodPixelsLoop, if_neg hn]
  | cons y ys ih =>
    intro i t h1 h
    simp only [List.length_cons, Nat.cast_add, Nat.cast_one] at h
    have hp : 0 ≤ i - 1 ∧ i - 1 < (maxLod : Int) := by omega
    have hn : ¬ (i > (maxLod : Int)) := by omega
    simp only [List.map_cons, List.cons_append, lodPixelsLoop, if_pos hp, if_neg hn]
    exact ih (i + 1) _ (by omega) (by omega)

theorem take_set_self {α : Type} (l : List α) (y : α) :
    ∀ n : Nat, (l.set n y).take n = l.take n := by
  induction l with
  | nil => intro n; simp
  | cons a as ih =>
    intro n
    cases n with
    | zero => simp
    | succ n => simp [ih]

theorem lodPixelsLoop_accepts (maxLod : Nat) (tail : List (Option GLfloat))
    (htail : tail = [] ∨ ∃ r, tail = none :: r) (xs : List GLfloat) :
    ∀ (i : Int) (t : LodTable), 1 ≤ i → i - 1 + (xs.length : Int) ≤ (maxLod : Int) →
      (i - 1).toNat + xs.length ≤ t.m_lodPixelSize.length →
      ∃ arr, lodPixelsLoop maxLod (xs.map some ++ tail) i t =
          Outcome.ok (LuaResult.returned ⟨t.m_numLods + (xs.length : Int), arr⟩) ∧
        arr.length = t.m_lodPixelSize.length ∧
        (arr.drop (i - 1).toNat).take xs.length = xs ∧
        arr.take (i - 1).toNat = t.m_lodPixelSize.take (i - 1).toNat := by
  induction xs with
  | nil =>
    intro i t _ _ _
    refine ⟨t.m_lodPixelSize, ?_, rfl, by simp, rfl⟩
    rcases htail with rfl | ⟨r, rfl⟩ <;>
      simp [lodPixelsLoop]
  | cons y ys ih =>
    intro i t h1 h hlen
    simp only [List.length_cons, Nat.cast_add, Nat.cast_one] at h
    simp only [List.length_cons] at hlen
    have hp : 0 ≤ i - 1 ∧ i - 1 < (maxLod : Int) := by omega
    have hn : ¬ (i > (maxLod : Int)) := by omega
    obtain ⟨arr, e1, e2, e3, e4⟩ := ih (i + 1)
      ⟨t.m_numLods + 1, t.m_lodPixelSize.set (i - 1).toNat y⟩ (by omega) (by omega)
      (by simp only [List.length_set]; omega)
    have hk : (i + 1 - 1).toNat = (i - 1).toNat + 1 := by omega
    rw [hk] at e3 e4
    simp only [List.length_set] at e2
    refine ⟨arr, ?_, e2, ?_, ?_⟩
    · have hnum : t.m_numLods + (((y :: ys).length : Nat) : Int) =
          t.m_numLods + 1 + (ys.length : Int) := by
        simp only [List.length_cons, Nat.cast_add, Nat.cast_one]; ring
      rw [hnum]
      simp only [List.map_cons, List.cons_append, lodPixelsLoop, if_pos hp, if_neg hn]
      exact e1
    · have hlt : (i - 1).toNat < arr.length := by omega
      have hget : arr[(i - 1).toNat] = y := by
        have h5 := congrArg (fun l => l[(i - 1).toNat]?) e4
        simp only [List.getElem?_take, Nat.lt_succ_self, if_true] at h5
        rw [List.getElem?_set_self (by omega)] at h5
        rw [List.getElem?_eq_getElem hlt] at h5
        exact Option.some.inj h5
      rw [List.drop_eq_getElem_cons hlt, List.length_cons, List.take_succ_cons, hget, e3]
    · have h6 := congrArg (List.take (i - 1).toNat) e4
      simp only [List.take_take, Nat.min_eq_left (Nat.le_succ _)] at h6
      rw [h6, take_set_self]

/-- C36, the defect: with a `lod_pixels` table of more than `LMR_MAX_LOD` numbers the
constructor stores the number at position `LMR_MAX_LOD + 1` in
`m_lodPixelSize[LMR_MAX_LOD]`, past the end of the array, before it gets to the check that
raises "Too many LODs". A table of between 1 and `LMR_MAX_LOD` numbers gives that many LODs
with those thresholds in order, an empty table raises, and without a table there is one
LOD with threshold 0. -/
theorem C36_lod_pixels (maxLod : Nat) (old xs : List GLfloat) (x : GLfloat)
    (rest tail : List (Option GLfloat)) (hold : old.length = maxLod) (hmax : 1 ≤ maxLod)
    (htail : tail = [] ∨ ∃ r, tail = none :: r) :
    (xs.length = maxLod →
      parseLodPixels maxLod (some (xs.map some ++ some x :: rest)) old =
        Outcome.fault Fault.undefined) ∧
    (1 ≤ xs.length → xs.length ≤ maxLod →
      ∃ arr, parseLodPixels maxLod (some (xs.map some ++ tail)) old =
          Outcome.ok (LuaResult.returned ⟨(xs.length : Int), arr⟩) ∧
        arr.length = maxLod ∧ arr.take xs.length = xs) ∧
    parseLodPixels maxLod (some tail) old = Outcome.ok (LuaResult.raised ⟨0, old⟩) ∧
    parseLodPixels maxLod none old =
      Outcome.ok (LuaResult.returned ⟨1, old.set 0 GLfloat.zero⟩) := by
  refine ⟨?_, ?_, ?_, ?_⟩
  · intro hx
    have h := lodPixelsLoop_overflow maxLod x rest xs 1 ⟨0, old⟩ (le_refl _) (by omega)
    simp only [parseLodPixels, h]
  · intro h1 h2
    obtain ⟨arr, e1, e2, e3, -⟩ := lodPixelsLoop_accepts maxLod tail htail xs 1 ⟨0, old⟩
      (le_refl _) (by omega) (by simp only [sub_self, Int.toNat_zero, zero_add]; omega)
    simp only [zero_add] at e1
    simp only [sub_self, Int.toNat_zero, List.drop_zero] at e3
    have hn : ¬ ((xs.length : Int) < 1) := by omega
    refine ⟨arr, ?_, by rw [e2, hold], e3⟩
    simp only [parseLodPixels, e1, if_neg hn]
  · rcases htail with rfl | ⟨r, rfl⟩ <;>
      simp [parseLodPixels, lodPixelsLoop]
  · have h0 : 0 < maxLod := by omega
    simp only [parseLodPixels, if_pos h0]

theorem C36_lod_pixels_witness :
    parseLodPixels 4 (some [some GLfloat.one, some GLfloat.one, some GLfloat.one,
        some GLfloat.one, some GLfloat.hundred]) (List.replicate 4 GLfloat.zero) =
      Outcome.fault Fault.undefined ∧
    (∃ arr, parseLodPixels 4 (some [some GLfloat.one, some GLfloat.hundred])
        (List.replicate 4 GLfloat.zero) =
          Outcome.ok (LuaResult.returned ⟨2, arr⟩) ∧
        arr.length = 4 ∧ arr.take 2 = [GLfloat.one, GLfloat.hundred]) := by
  obtain ⟨h1, -, -, -⟩ := C36_lod_pixels 4 (List.replicate 4 GLfloat.zero)
    [GLfloat.one, GLfloat.one, GLfloat.one, GLfloat.one] GLfloat.hundred [] []
    rfl (by decide) (Or.inl rfl)
  obtain ⟨-, h2, -, -⟩ := C36_lod_pixels 4 (List.replicate 4 GLfloat.zero)
    [GLfloat.one, GLfloat.hundred] GLfloat.hundred [] []
    rfl (by decide) (Or.inl rfl)
  exact ⟨h1 rfl, h2 (by decide) (by decide)⟩

end BindingDefects

section BezierTheorems
set_option maxRecDepth 100000

theorem quadricBu_exact (A : Arith ℝ (Vec3 ℝ)) (hA : A.Exact) (u : ℝ) :
    quadricBu A u = [(1 - u) * (1 - u), 2 * u * (1 - u), u * u] := by
  simp only [quadricBu, hA.mul_eq, hA.sub_eq, hA.lit_eq]
  push_cast
  rfl

theorem cubicBu_exact (A : Arith ℝ (Vec3 ℝ)) (hA : A.Exact) (u : ℝ) :
    cubicBu A u = [(1 - u) * (1 - u) * (1 - u), 3 * (1 - u) * (1 - u) * u,
      3 * (1 - u) * u * u, u * u * u] := by
  simp only [cubicBu, hA.mul_eq, hA.sub_eq, hA.lit_eq]
  push_cast
  rfl

theorem quadricTriangleCoef_exact (A : Arith ℝ (Vec3 ℝ)) (hA : A.Exact) (s t u : ℝ) :
    quadricTriangleCoef A s t u = [s * s, 2 * s * t, t * t, 2 * s * u, 2 * t * u, u * u] := by
  simp only [quadricTriangleCoef, hA.mul_eq, hA.lit_eq]
  push_cast
  rfl

theorem cubicTriangleCoef_exact (A : Arith ℝ (Vec3 ℝ)) (hA : A.Exact) (s t u : ℝ) :
    cubicTriangleCoef A s t u = [s * s * s, 3 * s * s * t, 3 * s * t * t, t * t * t,
      3 * s * s * u, 6 * s * t * u, 3 * t * t * u, 3 * s * u * u, 3 * t * u * u, u * u * u] := by
  simp only [cubicTriangleCoef, hA.mul_eq, hA.lit_eq]
  push_cast
  rfl

theorem eval_quadric_bezier_triangle_coef {K V : Type} (A : Arith K V) (p : List V)
    (s t u : K) :
    eval_quadric_bezier_triangle A p s t u =
      weightedSum A (p.take 6) (quadricTriangleCoef A s t u) := rfl

theorem eval_cubic_bezier_triangle_coef {K V : Type} (A : Arith K V) (p : List V)
    (s t u : K) :
    eval_cubic_bezier_triangle A p s t u =
      weightedSum A (p.take 10) (cubicTriangleCoef A s t u) := rfl

theorem foldl_weighted (A : Arith ℝ (Vec3 ℝ)) (hA : A.Exact) (l : List (Vec3 ℝ × ℝ)) :
    ∀ acc : Vec3 ℝ, l.foldl (fun out pc => A.vadd out (A.smul pc.2 pc.1)) acc =
      ⟨acc.x + (l.map (fun pc => pc.2 * pc.1.x)).sum,
       acc.y + (l.map (fun pc => pc.2 * pc.1.y)).sum,
       acc.z + (l.map (fun pc => pc.2 * pc.1.z)).sum⟩ := by
  induction l with
  | nil => intro acc; simp
  | cons a as ih =>
    intro acc
    rw [List.foldl_cons, ih]
    simp only [hA.vadd_eq, hA.smul_eq, List.map_cons, List.sum_cons, Vec3.mk.injEq]
    refine ⟨?_, ?_, ?_⟩ <;> ring

/-- In exact arithmetic `weightedSum` is the sum of the control points, each times its
weight. -/
theorem weightedSum_exact (A : Arith ℝ (Vec3 ℝ)) (hA : A.Exact) (p : List (Vec3 ℝ))
    (c : List ℝ) :
    weightedSum A p c =
      ⟨((p.zip c).map (fun pc => pc.2 * pc.1.x)).sum,
       ((p.zip c).map (fun pc => pc.2 * pc.1.y)).sum,
       ((p.zip c).map (fun pc => pc.2 * pc.1.z)).sum⟩ := by
  unfold weightedSum
  rw [foldl_weighted A hA, hA.vec_eq, hA.lit_eq]
  simp

theorem curve_const (A : Arith ℝ (Vec3 ℝ)) (hA : A.Exact) (P : Vec3 ℝ) (u : ℝ) :
    eval_quadric_bezier_u A (List.replicate 3 P) u = P ∧
    eval_cubic_bezier_u A (List.replicate 4 P) u = P := by
  obtain ⟨a, b, c⟩ := P
  constructor
  · rw [eval_quadric_bezier_u, weightedSum_exact A hA, quadricBu_exact A hA]
    simp only [List.replicate, List.take, List.zip_cons_cons, List.zip_nil_right, List.map_cons,
      List.map_nil, List.sum_cons, List.sum_nil, Vec3.mk.injEq]
    refine ⟨?_, ?_, ?_⟩ <;> ring
  · rw [eval_cubic_bezier_u, weightedSum_exact A hA, cubicBu_exact A hA]
    simp only [List.replicate, List.take, List.zip_cons_cons, List.zip_nil_right, List.map_cons,
      List.map_nil, List.sum_cons, List.sum_nil, Vec3.mk.injEq]
    refine ⟨?_, ?_, ?_⟩ <;> ring

theorem curve_ends (A : Arith ℝ (Vec3 ℝ)) (hA : A.Exact) (p0 p1 p2 p3 : Vec3 ℝ) :
    (eval_quadric_bezier_u A [p0, p1, p2] 0 = p0 ∧
      eval_quadric_bezier_u A [p0, p1, p2] 1 = p2) ∧
    (eval_cubic_bezier_u A [p0, p1, p2, p3] 0 = p0 ∧
      eval_cubic_bezier_u A [p0, p1, p2, p3] 1 = p3) := by
  obtain ⟨a0, b0, c0⟩ := p0
  obtain ⟨a1, b1, c1⟩ := p1
  obtain ⟨a2, b2, c2⟩ := p2
  obtain ⟨a3, b3, c3⟩ := p3
  refine ⟨⟨?_, ?_⟩, ⟨?_, ?_⟩⟩
  · rw [eval_quadric_bezier_u, weightedSum_exact A hA, quadricBu_exact A hA]
    simp only [List.take, List.zip_cons_cons, List.zip_nil_right, List.map_cons,
      List.map_nil, List.sum_cons, List.sum_nil, Vec3.mk.injEq]
    refine ⟨?_, ?_, ?_⟩ <;> ring
  · rw [eval_quadric_bezier_u, weightedSum_exact A hA, quadricBu_exact A hA]
    simp only [List.take, List.zip_cons_cons, List.zip_nil_right, List.map_cons,
      List.map_nil, List.sum_cons, List.sum_nil, Vec3.mk.injEq]
    refine ⟨?_, ?_, ?_⟩ <;> ring
  · rw [eval_cubic_bezier_u, weightedSum_exact A hA, cubicBu_exact A hA]
    simp only [List.take, List.zip_cons_cons, List.zip_nil_right, List.map_cons,
      List.map_nil, List.sum_cons, List.sum_nil, Vec3.mk.injEq]
    refine ⟨?_, ?_, ?_⟩ <;> ring
  · rw [eval_cubic_bezier_u, weightedSum_exact A hA, cubicBu_exact A hA]
    simp only [List.take, List.zip_cons_cons, List.zip_nil_right, List.map_cons,
      List.map_nil, List.sum_cons, List.sum_nil, Vec3.mk.injEq]
    refine ⟨?_, ?_, ?_⟩ <;> ring

theorem triangle_const (A : Arith ℝ (Vec3 ℝ)) (hA : A.Exact) (P : Vec3 ℝ) (s t u : ℝ)
    (h : s + t + u = 1) :
    eval_quadric_bezier_triangle A (List.replicate 6 P) s t u = P ∧
    eval_cubic_bezier_triangle A (List.replicate 10 P) s t u = P := by
  obtain ⟨a, b, c⟩ := P
  constructor
  · rw [eval_quadric_bezier_triangle_coef, weightedSum_exact A hA,
      quadricTriangleCoef_exact A hA]
    simp only [List.replicate, List.take, List.zip_cons_cons, List.zip_nil_right, List.map_cons,
      List.map_nil, List.sum_cons, List.sum_nil, Vec3.mk.injEq]
    refine ⟨?_, ?_, ?_⟩
    · linear_combination (a * (s + t + u + 1)) * h
    · linear_combination (b * (s + t + u + 1)) * h
    · linear_combination (c * (s + t + u + 1)) * h
  · rw [eval_cubic_bezier_triangle_coef, weightedSum_exact A hA, cubicTriangleCoef_exact A hA]
    simp only [List.replicate, List.take, List.zip_cons_cons, List.zip_nil_right, List.map_cons,
      List.map_nil, List.sum_cons, List.sum_nil, Vec3.mk.injEq]
    refine ⟨?_, ?_, ?_⟩
    · linear_combination (a * ((s + t + u) ^ 2 + (s + t + u) + 1)) * h
    · linear_combination (b * ((s + t + u) ^ 2 + (s + t + u) + 1)) * h
    · linear_combination (c * ((s + t + u) ^ 2 + (s + t + u) + 1)) * h

theorem patch_const (A : Arith ℝ (Vec3 ℝ)) (hA : A.Exact) (P : Vec3 ℝ) (u v : ℝ) :
    eval_quadric_bezier_u_v A (List.replicate 9 P) u v = P ∧
    eval_cubic_bezier_u_v A (List.replicate 16 P) u v = P := by
  obtain ⟨a, b, c⟩ := P
  have r3 : List.range 3 = [0, 1, 2] := rfl
  have r4 : List.range 4 = [0, 1, 2, 3] := rfl
  constructor
  · rw [eval_quadric_bezier_u_v, patchSum, quadricBu_exact A hA, quadricBu_exact A hA, r3]
    simp only [List.foldl_cons, List.foldl_nil, List.getD_cons_zero, List.getD_cons_succ,
      List.replicate, hA.vadd_eq, hA.smul_eq, hA.vec_eq, hA.lit_eq, Vec3.mk.injEq]
    norm_num
    refine ⟨?_, ?_, ?_⟩ <;> ring
  · rw [eval_cubic_bezier_u_v, patchSum, cubicBu_exact A hA, cubicBu_exact A hA, r4]
    simp only [List.foldl_cons, List.foldl_nil, List.getD_cons_zero, List.getD_cons_succ,
      List.replicate, hA.vadd_eq, hA.smul_eq, hA.vec_eq, hA.lit_eq, Vec3.mk.injEq]
    norm_num
    refine ⟨?_, ?_, ?_⟩ <;> ring

theorem weights_sum (A : Arith ℝ (Vec3 ℝ)) (hA : A.Exact) (u v : ℝ) :
    (quadricBu A u).sum = 1 ∧ (cubicBu A u).sum = 1 ∧
    (patchWeights (quadricBu A u) (quadricBu A v)).sum = 1 ∧
    (patchWeights (cubicBu A u) (cubicBu A v)).sum = 1 := by
  rw [quadricBu_exact A hA, quadricBu_exact A hA, cubicBu_exact A hA, cubicBu_exact A hA]
  simp only [patchWeights, List.flatMap_cons, List.flatMap_nil, List.map_cons, List.map_nil,
    List.sum_cons, List.sum_nil, List.sum_append, List.append_nil]
  refine ⟨?_, ?_, ?_, ?_⟩ <;> ring

theorem triangle_weights_sum (A : Arith ℝ (Vec3 ℝ)) (hA : A.Exact) (s t u : ℝ)
    (h : s + t + u = 1) :
    (quadricTriangleCoef A s t u).sum = 1 ∧ (cubicTriangleCoef A s t u).sum = 1 := by
  rw [quadricTriangleCoef_exact A hA, cubicTriangleCoef_exact A hA]
  simp only [List.sum_cons, List.sum_nil]
  constructor
  · linear_combination (s + t + u + 1) * h
  · linear_combination ((s + t + u) ^ 2 + (s + t + u) + 1) * h

/-- C34: in exact arithmetic the weights of `eval_quadric_bezier_u`, `eval_cubic_bezier_u`,
`eval_quadric_bezier_u_v` and `eval_cubic_bezier_u_v` sum to 1 for all `u`, `v`, and those
of `eval_quadric_bezier_triangle` and `eval_cubic_bezier_triangle` sum to 1 when
`s + t + u = 1`; the curve and triangle evaluators return the sum of the control points
times their weights; each of the six evaluators returns `P` when all control points are
`P`; the curve evaluators return the first control point at `u = 0` and the last at
`u = 1`. -/
theorem C34_bezier_affine (A : Arith ℝ (Vec3 ℝ)) (hA : A.Exact) (P p0 p1 p2 p3 : Vec3 ℝ)
    (pts : List (Vec3 ℝ)) (s t u v : ℝ) (h : s + t + u = 1) :
    ((quadricBu A u).sum = 1 ∧ (cubicBu A u).sum = 1 ∧
      (patchWeights (quadricBu A u) (quadricBu A v)).sum = 1 ∧
      (patchWeights (cubicBu A u) (cubicBu A v)).sum = 1) ∧
    ((quadricTriangleCoef A s t u).sum = 1 ∧ (cubicTriangleCoef A s t u).sum = 1) ∧
    (eval_quadric_bezier_u A pts u =
        ⟨(((pts.take 3).zip (quadricBu A u)).map (fun pc => pc.2 * pc.1.x)).sum,
         (((pts.take 3).zip (quadricBu A u)).map (fun pc => pc.2 * pc.1.y)).sum,
         (((pts.take 3).zip (quadricBu A u)).map (fun pc => pc.2 * pc.1.z)).sum⟩ ∧
      eval_cubic_bezier_u A pts u =
        ⟨(((pts.take 4).zip (cubicBu A u)).map (fun pc => pc.2 * pc.1.x)).sum,
         (((pts.take 4).zip (cubicBu A u)).map (fun pc => pc.2 * pc.1.y)).sum,
         (((pts.take 4).zip (cubicBu A u)).map (fun pc => pc.2 * pc.1.z)).sum⟩ ∧
      eval_quadric_bezier_triangle A pts s t u =
        ⟨(((pts.take 6).zip (quadricTriangleCoef A s t u)).map (fun pc => pc.2 * pc.1.x)).sum,
         (((pts.take 6).zip (quadricTriangleCoef A s t u)).map (fun pc => pc.2 * pc.1.y)).sum,
         (((pts.take 6).zip (quadricTriangleCoef A s t u)).map (fun pc => pc.2 * pc.1.z)).sum⟩ ∧
      eval_cubic_bezier_triangle A pts s t u =
        ⟨(((pts.take 10).zip (cubicTriangleCoef A s t u)).map (fun pc => pc.2 * pc.1.x)).sum,
         (((pts.take 10).zip (cubicTriangleCoef A s t u)).map (fun pc => pc.2 * pc.1.y)).sum,
         (((pts.take 10).zip (cubicTriangleCoef A s t u)).map (fun pc => pc.2 * pc.1.z)).sum⟩) ∧
    (eval_quadric_bezier_u A (List.replicate 3 P) u = P ∧
      eval_cubic_bezier_u A (List.replicate 4 P) u = P ∧
      eval_quadric_bezier_u_v A (List.replicate 9 P) u v = P ∧
      eval_cubic_bezier_u_v A (List.replicate 16 P) u v = P ∧
      eval_quadric_bezier_triangle A (List.replicate 6 P) s t u = P ∧
      eval_cubic_bezier_triangle A (List.replicate 10 P) s t u = P) ∧
    ((eval_quadric_bezier_u A [p0, p1, p2] 0 = p0 ∧
      eval_quadric_bezier_u A [p0, p1, p2] 1 = p2) ∧
     (eval_cubic_bezier_u A [p0, p1, p2, p3] 0 = p0 ∧
      eval_cubic_bezier_u A [p0, p1, p2, p3] 1 = p3)) :=
  ⟨weights_sum A hA u v, triangle_weights_sum A hA s t u h,
   ⟨weightedSum_exact A hA _ _, weightedSum_exact A hA _ _, weightedSum_exact A hA _ _,
    weightedSum_exact A hA _ _⟩,
   ⟨(curve_const A hA P u).1, (curve_const A hA P u).2, (patch_const A hA P u v).1,
    (patch_const A hA P u v).2, (triangle_const A hA P s t u h).1,
    (triangle_const A hA P s t u h).2⟩,
   curve_ends A hA p0 p1 p2 p3⟩

theorem C34_bezier_affine_witness :
    ∃ A : Arith ℝ (Vec3 ℝ), A.Exact ∧
      (cubicTriangleCoef A (1 / 2) (1 / 4) (1 / 4)).sum = 1 ∧
      eval_cubic_bezier_triangle A (List.replicate 10 ⟨1, 2, 3⟩) (1 / 2) (1 / 4) (1 / 4) =
        ⟨1, 2, 3⟩ ∧
      eval_cubic_bezier_u_v A (List.replicate 16 ⟨1, 2, 3⟩) (1 / 4) (3 / 4) = ⟨1, 2, 3⟩ ∧
      eval_cubic_bezier_u A [⟨1, 2, 3⟩, ⟨0, 0, 0⟩, ⟨0, 0, 0⟩, ⟨4, 5, 6⟩] 1 = ⟨4, 5, 6⟩ := by
  obtain ⟨A, hA⟩ := exists_exact
  have h := C34_bezier_affine A hA ⟨1, 2, 3⟩ ⟨1, 2, 3⟩ ⟨0, 0, 0⟩ ⟨0, 0, 0⟩ ⟨4, 5, 6⟩ []
    (1 / 2) (1 / 4) (1 / 4) (3 / 4) (by norm_num)
  exact ⟨A, hA, h.2.1.2, h.2.2.2.1.2.2.2.2.2, h.2.2.2.1.2.2.2.1, h.2.2.2.2.2.2⟩

end BezierTheorems

section FlatPolygonTheorems
set_option maxRecDepth 100000

theorem flatReadSegs_valid {V : Type} (divs : Int) (tail : List (Option (List V)))
    (xs : List (List V)) :
    ∀ (seg : Nat) (numPoints : Int) (segvtx : List (List V)),
      (∀ t ∈ xs, t ≠ []) → seg + xs.length ≤ 32 →
      flatReadSegs divs (xs.map some ++ tail) seg numPoints segvtx =
        flatReadSegs divs tail (seg + xs.length) (numPoints + flatPoints divs xs)
          (segvtx ++ xs.map (fun t => t.take 3)) := by
  induction xs with
  | nil => intro seg numPoints segvtx _ _; simp [flatPoints]
  | cons t ts ih =>
    intro seg numPoints segvtx hne hlen
    simp only [List.length_cons] at hlen
    have hseg : ¬ (32 ≤ seg) := by omega
    have ht : t ≠ [] := hne t (List.mem_cons_self _ _)
    have h0 : ¬ ((t.take 3).length = 0) := by
      cases t with
      | nil => exact absurd rfl ht
      | cons a as => simp
    have hrest := fun (np : Int) (sv : List (List V)) =>
      ih (seg + 1) np sv (fun x hx => hne x (List.mem_cons_of_mem _ hx)) (by omega)
    have e1 : seg + (t :: ts).length = seg + 1 + ts.length := by
      simp only [List.length_cons]; omega
    have e3 : segvtx ++ (t :: ts).map (fun t => t.take 3) =
        (segvtx ++ [t.take 3]) ++ ts.map (fun t => t.take 3) := by
      simp only [List.map_cons, List.append_assoc, List.singleton_append]
    by_cases h1 : (t.take 3).length = 1
    · have e2 : numPoints + flatPoints divs (t :: ts) = numPoints + 1 + flatPoints divs ts := by
        simp only [flatPoints, if_pos h1]; ring
      rw [e1, e2, e3, ← hrest]
      simp only [List.map_cons, List.cons_append, flatReadSegs, if_neg hseg, if_neg h0,
        if_pos h1]
      rfl
    · have e2 : numPoints + flatPoints divs (t :: ts) =
          numPoints + divs + flatPoints divs ts := by
        simp only [flatPoints, if_neg h1]; ring
      rw [e1, e2, e3, ← hrest]
      simp only [List.map_cons, List.cons_append, flatReadSegs, if_neg hseg, if_neg h0,
        if_neg h1]
      rfl

theorem flatCurveEmits_tris {K V : Type} (A : Arith K V) (eval : K → V) (numPoints : Int)
    (normal : V) (xref : Bool) (us : List K) :
    ∀ vtxPos : Int, trisOf (flatCurveEmits A eval numPoints normal xref us vtxPos) = [] := by
  induction us with
  | nil => intro vtxPos; rfl
  | cons u us ih =>
    intro vtxPos
    cases xref <;> simp [flatCurveEmits, trisOf_append, trisOf, ih]

theorem flatSegEmits_tris {K V : Type} (A : Arith K V) (divs numPoints : Int) (normal : V)
    (xref : Bool) (segs : List (List V)) :
    ∀ (vtxPos : Int) (prev : V),
      trisOf (flatSegEmits A divs numPoints normal xref segs vtxPos prev) = [] := by
  induction segs with
  | nil => intro vtxPos prev; rfl
  | cons seg rest ih =>
    intro vtxPos prev
    unfold flatSegEmits
    simp only []
    split_ifs <;> cases xref <;>
      simp [trisOf_append, trisOf, ih, flatCurveEmits_tris]

theorem flatTris_plain {V : Type} (vs N : Int) :
    trisOf (flatTris vs N false : List (Emit V)) =
      (forRange 1 (N - 1)).map (fun i => (vs, vs + i, vs + i + 1)) := by
  simp only [flatTris, trisOf_flatMap, trisOf, Bool.false_eq_true, if_false]
  exact flatMap_singleton_fun _ _

theorem flatTris_xref {V : Type} (vs N : Int) :
    trisOf (flatTris vs N true : List (Emit V)) =
      (forRange 1 (N - 1)).flatMap (fun i =>
        [(vs, vs + i, vs + i + 1), (vs + N, vs + N + 1 + i, vs + N + i)]) := by
  simp [flatTris, trisOf_flatMap, trisOf]

theorem flatPoints_nonneg {V : Type} (divs : Int) (h : 0 ≤ divs) (xs : List (List V)) :
    0 ≤ flatPoints divs xs := by
  induction xs with
  | nil => simp [flatPoints]
  | cons t ts ih =>
    simp only [flatPoints]
    split_ifs <;> omega

theorem flatEmits_tris {K V : Type} (A : Arith K V) (vs divs : Int) (normal : V) (xref : Bool)
    (segvtx : List (List V)) (N : Int) :
    trisOf (flatEmits A vs divs normal xref segvtx N) =
      trisOf (flatTris vs N xref : List (Emit V)) := by
  simp only [flatEmits, trisOf_append, flatSegEmits_tris, List.nil_append]

/-- C35: a call of `_flat` whose first 32 segment arguments are tables with a point and
whose 33rd is a table too does not raise a Lua error: it stores to `segvtx[32]`, past the
end of the 32-entry array. A call with between 1 and 32 segment tables, each with a point,
and `divs >= 0` returns; with `numPoints` outline points (1 per segment of one point,
`divs` per longer segment) the buffer has `numPoints` more vertices (`2*numPoints` with
`xref`) and, when `numPoints >= 2`, `numPoints - 2` more triangles (twice as many with
`xref`), the first half's indices lying in the first `numPoints` slots of the block and
the second half's in the other `numPoints`. -/
theorem C35_flat (A : Arith GLfloat vector3f) (mulMV : matrix4x4f → vector3f → vector3f)
    (s : BuildState) (divs : Int) (normal : vector3f) (xs : List (List vector3f))
    (t : List vector3f) (rest : List (Option (List vector3f))) (xref : Bool)
    (hne : ∀ x ∈ xs, x ≠ []) (hpos : 1 ≤ xs.length) (hdivs : 0 ≤ divs) :
    (xs.length = 32 →
      _flat A mulMV s divs normal (xs.map some ++ some t :: rest) xref =
        Outcome.fault Fault.undefined) ∧
    (xs.length ≤ 32 →
      ∃ s', _flat A mulMV s divs normal (xs.map some) xref = Outcome.ok (LuaResult.returned s') ∧
        s'.buf.m_vertices.length = s.buf.m_vertices.length +
          (flatPoints divs xs).toNat * (if xref then 2 else 1) ∧
        s'.buf.m_triflags.length = s.buf.m_triflags.length +
          (flatPoints divs xs - 2).toNat * (if xref then 2 else 1) ∧
        s'.buf.m_indices = s.buf.m_indices ++
          (trisOf (flatTris s.buf.m_vertices.length (flatPoints divs xs) xref :
            List (Emit vector3f))).flatMap (storedTri s.buf.m_putGeomInsideout)) ∧
    (trisOf (flatTris s.buf.m_vertices.length (flatPoints divs xs) false :
        List (Emit vector3f))).length = (flatPoints divs xs - 2).toNat ∧
    (∀ tr ∈ trisOf (flatTris s.buf.m_vertices.length (flatPoints divs xs) false :
        List (Emit vector3f)),
      triWithin s.buf.m_vertices.length
        ((s.buf.m_vertices.length : Int) + flatPoints divs xs) tr) ∧
    (trisOf (flatTris s.buf.m_vertices.length (flatPoints divs xs) true :
        List (Emit vector3f))).length = 2 * (flatPoints divs xs - 2).toNat ∧
    (∀ tr ∈ trisOf (flatTris s.buf.m_vertices.length (flatPoints divs xs) true :
        List (Emit vector3f)),
      triWithin s.buf.m_vertices.length
          ((s.buf.m_vertices.length : Int) + flatPoints divs xs) tr ∨
      triWithin ((s.buf.m_vertices.length : Int) + flatPoints divs xs)
          ((s.buf.m_vertices.length : Int) + 2 * flatPoints divs xs) tr) := by
  have hN := flatPoints_nonneg divs hdivs xs
  obtain ⟨x0, xr, hx⟩ : ∃ x0 xr, xs = x0 :: xr := by
    cases xs with
    | nil => simp at hpos
    | cons a as => exact ⟨a, as, rfl⟩
  have hplain : (trisOf (flatTris s.buf.m_vertices.length (flatPoints divs xs) false :
      List (Emit vector3f))).length = (flatPoints divs xs - 2).toNat := by
    rw [flatTris_plain, List.length_map, forRange_length]
    omega
  have hdouble : (trisOf (flatTris s.buf.m_vertices.length (flatPoints divs xs) true :
      List (Emit vector3f))).length = 2 * (flatPoints divs xs - 2).toNat := by
    rw [flatTris_xref, length_flatMap_pair, forRange_length]
    omega
  refine ⟨?_, ?_, hplain, ?_, hdouble, ?_⟩
  · intro h32
    have h := flatReadSegs_valid divs (some t :: rest) xs 0 0 [] hne (by omega)
    have hseg : (32 : Nat) ≤ 0 + xs.length := by omega
    simp only [flatReadSegs, if_pos hseg] at h
    subst hx
    simp only [List.map_cons, List.cons_append] at h ⊢
    simp only [_flat, h]
  · intro h32
    have h := flatReadSegs_valid divs [] xs 0 0 [] hne (by omega)
    simp only [List.append_nil, flatReadSegs, zero_add, List.nil_append] at h
    have hnum : (0 : Int) ≤ (if xref then 2 * flatPoints divs xs else flatPoints divs xs) := by
      cases xref <;> simp <;> omega
    obtain ⟨s', e1, e2, e3, e4⟩ := tessellate_effect mulMV s
      (if xref then 2 * flatPoints divs xs else flatPoints divs xs)
      (fun vtxStart => flatEmits A vtxStart divs normal xref (xs.map (fun t => t.take 3))
        (flatPoints divs xs)) hnum
    refine ⟨s', ?_, ?_, ?_, ?_⟩
    · subst hx
      simp only [List.map_cons] at h e1 ⊢
      simp only [_flat, h, e1]
    · rw [e2]
      cases xref
      · simp
      · simp only [if_true]; omega
    · rw [e3, List.length_append, List.length_replicate, flatEmits_tris]
      cases xref
      · simp only [hplain, Bool.false_eq_true, if_false, mul_one]
      · simp only [hdouble, if_true]; ring
    · rw [e4, flatEmits_tris]
  · intro tr htr
    rw [flatTris_plain] at htr
    obtain ⟨i, hi, rfl⟩ := List.mem_map.mp htr
    rw [mem_forRange] at hi
    simp only [triWithin]
    omega
  · intro tr htr
    rw [flatTris_xref] at htr
    simp only [List.mem_flatMap, mem_forRange, List.mem_cons, List.mem_singleton,
      List.not_mem_nil, or_false] at htr
    obtain ⟨i, hi, rfl | rfl⟩ := htr
    · left; simp only [triWithin]; omega
    · right; simp only [triWithin]; omega

theorem C35_flat_witness :
    _flat sampleArith sampleMulMV sampleState 4 vector3f.zero
        (List.replicate 33 (some [vector3f.zero])) true = Outcome.fault Fault.undefined ∧
    (∃ s', _flat sampleArith sampleMulMV sampleState 4 vector3f.zero
        (List.replicate 32 (some [vector3f.zero])) true = Outcome.ok (LuaResult.returned s') ∧
      s'.buf.m_vertices.length = 64 ∧ s'.buf.m_triflags.length = 60) := by
  obtain ⟨h1, h2, -⟩ := C35_flat sampleArith sampleMulMV sampleState 4 vector3f.zero
    (List.replicate 32 [vector3f.zero]) [vector3f.zero] [] true
    (by intro x hx; rw [List.eq_of_mem_replicate hx]; simp) (by decide) (by decide)
  obtain ⟨s', e1, e2, e3, -⟩ := h2 (by decide)
  exact ⟨h1 (by decide), s', e1, by rw [e2]; decide, by rw [e3]; decide⟩

end FlatPolygonTheorems

section SphereSliceTheorems
set_option maxRecDepth 100000
open LmrGeomBuffer

theorem grewBy_refl (b : LmrGeomBuffer) : grewBy b b 0 [] := by
  simp [grewBy]

theorem grewBy_trans {b b1 b2 : LmrGeomBuffer} {n1 n2 : Nat}
    {t1 t2 : List (Int × Int × Int)} (h1 : grewBy b b1 n1 t1) (h2 : grewBy b1 b2 n2 t2) :
    grewBy b b2 (n1 + n2) (t1 ++ t2) := by
  obtain ⟨a1, a2, a3, a4, a5⟩ := h1
  obtain ⟨c1, c2, c3, c4, c5⟩ := h2
  refine ⟨by omega, ?_, ?_, by rw [c4, a4], by rw [c5, a5]⟩
  · rw [c2, a2, a4, List.flatMap_append, List.append_assoc]
  · rw [c3, a3, a5, List.length_append, List.replicate_add, List.append_assoc]

theorem grewBy_vertex (mulMV : matrix4x4f → vector3f → vector3f) (b : LmrGeomBuffer)
    (pos normal : vector3f) : grewBy b (b.PushVertex2 mulMV pos normal).1 1 [] := by
  obtain ⟨-, a2, a3, a4, a5, a6⟩ := PushVertex2_effect mulMV b pos normal
  exact ⟨a2, by simp [a3], by simp [a4], a5, a6⟩

theorem grewBy_tri (b : LmrGeomBuffer) (i1 i2 i3 : Int) :
    grewBy b (b.PushTri i1 i2 i3) 0 [(i1, i2, i3)] := by
  refine ⟨by rw [PushTri_vertices]; rfl, ?_, ?_, PushTri_insideout _ _ _ _, ?_⟩
  · rw [PushTri_indices]
    simp only [List.flatMap_cons, List.flatMap_nil, List.append_nil, storedTri]
  · rw [PushTri_triflags]; rfl
  · unfold LmrGeomBuffer.PushTri
    by_cases hi : b.m_putGeomInsideout <;> simp [hi]

theorem pushTris_effect (tris : List (Int × Int × Int)) :
    ∀ b : LmrGeomBuffer, grewBy b (pushTris b tris) 0 tris := by
  induction tris with
  | nil => intro b; exact grewBy_refl b
  | cons t ts ih =>
    intro b
    exact grewBy_trans (grewBy_tri b t.1 t.2.1 t.2.2) (ih (b.PushTri t.1 t.2.1 t.2.2))

theorem range_succ_offsets (base : Int) (n : Nat) :
    (List.range (n + 1)).map (fun (k : Nat) => base + (k : Int)) =
      base :: (List.range n).map (fun (k : Nat) => base + 1 + (k : Int)) := by
  rw [List.range_succ_eq_map, List.map_cons, List.map_map]
  simp only [Nat.cast_zero, add_zero, List.cons.injEq, true_and]
  apply List.map_congr_left
  intro k _
  simp only [Function.comp, Nat.cast_succ]
  ring

theorem sliceRing_effect (mulMV : matrix4x4f → vector3f → vector3f) (trans : matrix4x4f)
    (normal : vector3f → vector3f) (vs : List vector3f) :
    ∀ b : LmrGeomBuffer,
      grewBy b (sliceRing mulMV trans normal b vs).1 vs.length [] ∧
      (sliceRing mulMV trans normal b vs).2 =
        (List.range vs.length).map (fun (k : Nat) => (b.m_vertices.length : Int) + (k : Int)) := by
  induction vs with
  | nil => intro b; exact ⟨grewBy_refl b, rfl⟩
  | cons v vs ih =>
    intro b
    obtain ⟨e1, e2, -⟩ := PushVertex2_effect mulMV b (mulMV trans v) (normal v)
    obtain ⟨g, hidx⟩ := ih (b.PushVertex2 mulMV (mulMV trans v) (normal v)).1
    have g1 := grewBy_trans (grewBy_vertex mulMV b (mulMV trans v) (normal v)) g
    refine ⟨?_, ?_⟩
    · simp only [sliceRing, List.length_cons]
      rw [Nat.add_comm]
      exact g1
    · simp only [sliceRing, List.length_cons]
      rw [range_succ_offsets, hidx, e1, e2]
      push_cast
      rfl

theorem range_succ_offsets_two (base : Int) (n : Nat) :
    (List.range (n + 1)).map (fun (k : Nat) => base + 2 * (k : Int)) =
      base :: (List.range n).map (fun (k : Nat) => base + 2 + 2 * (k : Int)) := by
  rw [List.range_succ_eq_map, List.map_cons, List.map_map]
  simp only [Nat.cast_zero, mul_zero, add_zero, List.cons.injEq, true_and]
  apply List.map_congr_left
  intro k _
  simp only [Function.comp, Nat.cast_succ]
  ring

theorem sliceTopRing_effect (mulMV : matrix4x4f → vector3f → vector3f)
    (rotate : matrix4x4f → vector3f → vector3f) (trans : matrix4x4f) (cap_norm : vector3f)
    (vs : List vector3f) :
    ∀ b : LmrGeomBuffer,
      grewBy b (sliceTopRing mulMV rotate trans cap_norm b vs).1 (2 * vs.length) [] ∧
      (sliceTopRing mulMV rotate trans cap_norm b vs).2.1 =
        (List.range vs.length).map
          (fun (k : Nat) => (b.m_vertices.length : Int) + 2 * (k : Int)) ∧
      (sliceTopRing mulMV rotate trans cap_norm b vs).2.2 =
        (List.range vs.length).map
          (fun (k : Nat) => (b.m_vertices.length : Int) + 1 + 2 * (k : Int)) := by
  induction vs with
  | nil => intro b; exact ⟨grewBy_refl b, rfl, rfl⟩
  | cons v vs ih =>
    intro b
    obtain ⟨e1, e2, -⟩ := PushVertex2_effect mulMV b (mulMV trans v) cap_norm
    obtain ⟨f1, f2, -⟩ := PushVertex2_effect mulMV
      (b.PushVertex2 mulMV (mulMV trans v) cap_norm).1 (mulMV trans v) (rotate trans v)
    obtain ⟨g, hidx, hidx2⟩ := ih ((b.PushVertex2 mulMV (mulMV trans v) cap_norm).1.PushVertex2
      mulMV (mulMV trans v) (rotate trans v)).1
    have g1 := grewBy_trans (grewBy_trans (grewBy_vertex mulMV b (mulMV trans v) cap_norm)
      (grewBy_vertex mulMV _ (mulMV trans v) (rotate trans v))) g
    refine ⟨?_, ?_, ?_⟩
    · simp only [sliceTopRing, List.length_cons]
      have e : 2 * (vs.length + 1) = 1 + 1 + 2 * vs.length := by ring
      rw [e]
      exact g1
    · simp only [sliceTopRing, List.length_cons]
      rw [range_succ_offsets_two, hidx, e1, f2, e2]
      push_cast
      rfl
    · simp only [sliceTopRing, List.length_cons]
      rw [range_succ_offsets_two, hidx2, f1, f2, e2]
      push_cast
      congr 1

theorem getD_within (l : List Int) (lo hi : Int) (h : ∀ x ∈ l, lo ≤ x ∧ x < hi) (k : Nat)
    (hk : k < l.length) : lo ≤ l.getD k 0 ∧ l.getD k 0 < hi := by
  rw [List.getD_eq_getElem _ _ hk]
  exact h _ (List.getElem_mem _)

theorem triWithin_mono {lo hi hi2 : Int} {t : Int × Int × Int} (h : triWithin lo hi t)
    (hh : hi ≤ hi2) : triWithin lo hi2 t := by
  unfold triWithin at *
  omega

theorem sliceBandTris_effect (idx idx2 : List Int) (n : Nat) (lo hi : Int)
    (h1 : idx.length = n + 1) (h2 : idx2.length = n + 1)
    (w1 : ∀ x ∈ idx, lo ≤ x ∧ x < hi) (w2 : ∀ x ∈ idx2, lo ≤ x ∧ x < hi) :
    (sliceBandTris idx idx2 (n : Int)).length = 2 * n ∧
    ∀ t ∈ sliceBandTris idx idx2 (n : Int), triWithin lo hi t := by
  constructor
  · rw [sliceBandTris, length_flatMap_pair, forRange_length]
    omega
  · intro t ht
    simp only [sliceBandTris, List.mem_flatMap, mem_forRange, List.mem_cons,
      List.mem_singleton, List.not_mem_nil, or_false] at ht
    obtain ⟨i, hi, rfl | rfl⟩ := ht
    · exact ⟨getD_within idx lo _ w1 _ (by omega), getD_within idx2 lo _ w2 _ (by omega),
        getD_within idx2 lo _ w2 _ (by omega)⟩
    · exact ⟨getD_within idx lo _ w1 _ (by omega), getD_within idx lo _ w1 _ (by omega),
        getD_within idx2 lo _ w2 _ (by omega)⟩

theorem sliceCapTris_effect (idx : List Int) (n : Nat) (lo hi : Int)
    (h1 : idx.length = n + 1) (w1 : ∀ x ∈ idx, lo ≤ x ∧ x < hi) :
    (sliceTopTris idx (n : Int)).length = n - 1 ∧
    (∀ t ∈ sliceTopTris idx (n : Int), triWithin lo hi t) ∧
    (sliceBottomTris idx (n : Int)).length = n - 1 ∧
    ∀ t ∈ sliceBottomTris idx (n : Int), triWithin lo hi t := by
  refine ⟨?_, ?_, ?_, ?_⟩
  · rw [sliceTopTris, List.length_map, forRange_length]
    omega
  · intro t ht
    simp only [sliceTopTris, List.mem_map, mem_forRange] at ht
    obtain ⟨i, hi, rfl⟩ := ht
    exact ⟨getD_within idx lo _ w1 _ (by omega), getD_within idx lo _ w1 _ (by omega),
      getD_within idx lo _ w1 _ (by omega)⟩
  · rw [sliceBottomTris, List.length_map, forRange_length]
    omega
  · intro t ht
    simp only [sliceBottomTris, List.mem_map, mem_forRange] at ht
    obtain ⟨i, hi, rfl⟩ := ht
    exact ⟨getD_within idx lo _ w1 _ (by omega), getD_within idx lo _ w1 _ (by omega),
      getD_within idx lo _ w1 _ (by omega)⟩

theorem sliceBands_effect (A : Arith GLfloat vector3f)
    (mulMV : matrix4x4f → vector3f → vector3f) (rotate : matrix4x4f → vector3f → vector3f)
    (trans : matrix4x4f) (table : List (GLfloat × GLfloat)) (a1 latDiff : GLfloat) (n : Nat)
    (lo : Int) (htab : table.length = n + 1) (js : List Int) :
    ∀ (b : LmrGeomBuffer) (idx2 : List Int) (c s : GLfloat),
      idx2.length = n + 1 → (∀ x ∈ idx2, lo ≤ x ∧ x < (b.m_vertices.length : Int)) →
      lo ≤ (b.m_vertices.length : Int) →
      ∃ tris : List (Int × Int × Int),
        grewBy b (sliceBands A mulMV rotate trans table a1 latDiff n js b idx2 c s).1
          (js.length * (n + 1)) tris ∧
        tris.length = js.length * (2 * n) ∧
        (∀ t ∈ tris, triWithin lo
          ((sliceBands A mulMV rotate trans table a1 latDiff n js b idx2 c s).1.m_vertices.length
            : Int) t) ∧
        (sliceBands A mulMV rotate trans table a1 latDiff n js b idx2 c s).2.1.length = n + 1 ∧
        (∀ x ∈ (sliceBands A mulMV rotate trans table a1 latDiff n js b idx2 c s).2.1,
          lo ≤ x ∧ x < ((sliceBands A mulMV rotate trans table a1 latDiff n js b idx2
            c s).1.m_vertices.length : Int)) := by
  induction js with
  | nil =>
    intro b idx2 c s hlen hw hlo
    refine ⟨[], ?_, by simp, ?_, hlen, hw⟩
    · simp only [sliceBands, List.length_nil, Nat.zero_mul]
      exact grewBy_refl b
    · intro t ht; cases ht
  | cons j js ih =>
    intro b idx2 c s hlen hw hlo
    simp only [sliceBands, List.length_cons]
    generalize A.cos (A.add a1 (A.mul latDiff (A.ofInt j))) = c1
    generalize A.sin (A.add a1 (A.mul latDiff (A.ofInt j))) = s1
    have hvs : (table.map (sliceVertex A s1 c1 : GLfloat × GLfloat → vector3f)).length =
        n + 1 := by
      rw [List.length_map, htab]
    obtain ⟨g, hidx⟩ := sliceRing_effect mulMV trans (rotate trans)
      (table.map (sliceVertex A s1 c1)) b
    rw [hvs] at g hidx
    generalize sliceRing mulMV trans (rotate trans) b (table.map (sliceVertex A s1 c1)) = r
      at g hidx ⊢
    obtain ⟨rb, ridx⟩ := r
    simp only at g hidx ⊢
    have gt := pushTris_effect (sliceBandTris idx2 ridx n) rb
    generalize pushTris rb (sliceBandTris idx2 ridx n) = b1 at gt ⊢
    have hb1 : (b1.m_vertices.length : Int) = b.m_vertices.length + (n + 1) := by
      have e1 := g.1
      have e2 := gt.1
      omega
    have hnew : ∀ x ∈ ridx, lo ≤ x ∧ x < (b1.m_vertices.length : Int) := by
      intro x hx
      rw [hidx] at hx
      simp only [List.mem_map, List.mem_range] at hx
      obtain ⟨k, hk, rfl⟩ := hx
      omega
    have hold : ∀ x ∈ idx2, lo ≤ x ∧ x < (b1.m_vertices.length : Int) := by
      intro x hx
      have := hw x hx
      omega
    have hrlen : ridx.length = n + 1 := by rw [hidx]; simp
    obtain ⟨hbl, hbw⟩ := sliceBandTris_effect idx2 ridx n lo _ hlen hrlen hold hnew
    obtain ⟨tris1, g1, hl1, hw1, hlen1, hw2⟩ := ih b1 ridx c1 s1 hrlen hnew (by omega)
    refine ⟨sliceBandTris idx2 ridx n ++ tris1, ?_, ?_, ?_, hlen1, hw2⟩
    · have h := grewBy_trans (grewBy_trans g gt) g1
      simp only [List.nil_append, Nat.add_zero] at h
      have e : (js.length + 1) * (n + 1) = n + 1 + js.length * (n + 1) := by ring
      rw [e]
      exact h
    · rw [List.length_append, hbl, hl1]
      ring
    · intro t ht
      rcases List.mem_append.mp ht with h | h
      · refine triWithin_mono (hbw t h) ?_
        have e1 := g1.1
        omega
      · exact hw1 t h

/-- C33: `sphere_slice` reads the longitudinal count from its first argument and the
latitudinal count from its second, while its doc comment and the claim name them
`sphere_slice(lat_segs, long_segs, ...)`. For a first argument `arg1 >= 1` and a second
argument `arg2 >= 0` the call returns, having pushed `(arg2 + 3) * (arg1 + 1)` vertices,
`arg1 - 1` triangles for the top cap, `2 * arg1 * arg2` band triangles and `arg1 - 1`
triangles for the bottom cap, every index being that of a vertex pushed by the call: the
counts of the claim with the two arguments exchanged. -/
theorem C33_sphere_slice (A : Arith GLfloat vector3f)
    (mulMV : matrix4x4f → vector3f → vector3f) (rotate : matrix4x4f → vector3f → vector3f)
    (b : LmrGeomBuffer) (arg1 arg2 : Int) (arg3 arg4 : GLfloat)
    (transform : Option matrix4x4f) (h1 : 1 ≤ arg1) (h2 : 0 ≤ arg2) :
    ∃ (b1 : LmrGeomBuffer) (top band bottom : List (Int × Int × Int)),
      sphere_slice A mulMV rotate b arg1 arg2 arg3 arg4 transform = Outcome.ok b1 ∧
      b1.m_vertices.length = b.m_vertices.length + ((arg2 + 3) * (arg1 + 1)).toNat ∧
      top.length = (arg1 - 1).toNat ∧ band.length = (2 * arg1 * arg2).toNat ∧
      bottom.length = (arg1 - 1).toNat ∧
      (∀ t ∈ top ++ band ++ bottom,
        triWithin b.m_vertices.length (b1.m_vertices.length : Int) t) ∧
      b1.m_indices = b.m_indices ++
        (top ++ band ++ bottom).flatMap (storedTri b.m_putGeomInsideout) ∧
      b1.m_triflags = b.m_triflags ++
        List.replicate (top ++ band ++ bottom).length b.curTriFlag := by
  obtain ⟨n, rfl⟩ : ∃ n : Nat, arg1 = (n : Int) := ⟨arg1.toNat, by omega⟩
  obtain ⟨m, rfl⟩ : ∃ m : Nat, arg2 = (m : Int) := ⟨arg2.toNat, by omega⟩
  have hn : 1 ≤ n := by omega
  have hneg : ¬ ((n : Int) + 1 < 0) := by omega
  have htab : (sliceTables A (n : Int) : List (GLfloat × GLfloat)).length = n + 1 := by
    simp only [sliceTables, List.length_map, angleSteps_length]
    omega
  have hjs : (forRange 1 ((m : Int) + 1)).length = m := by
    rw [forRange_length]; omega
  simp only [sphere_slice, if_neg hneg]
  generalize sliceTables A (n : Int) = table at htab ⊢
  generalize _get_orientation transform = trans
  generalize A.Normalized (A.vec (trans.cell.getD 4 GLfloat.zero)
    (trans.cell.getD 5 GLfloat.zero) (trans.cell.getD 6 GLfloat.zero)) = cap_norm
  generalize A.div (A.sub arg4 arg3) (A.ofInt (m : Int)) = latDiff
  generalize forRange 1 ((m : Int) + 1) = js at hjs ⊢
  -- the top cap
  have hvs : ∀ s c : GLfloat,
      (table.map (sliceVertex A s c : GLfloat × GLfloat → vector3f)).length = n + 1 := by
    intro s c
    rw [List.length_map, htab]
  obtain ⟨gT, hidxT, hidx2T⟩ := sliceTopRing_effect mulMV rotate trans cap_norm
    (table.map (sliceVertex A (A.sin arg3) (A.cos arg3))) b
  rw [hvs] at gT hidxT hidx2T
  generalize sliceTopRing mulMV rotate trans cap_norm b
    (table.map (sliceVertex A (A.sin arg3) (A.cos arg3))) = top at gT hidxT hidx2T ⊢
  obtain ⟨tb, tidx, tidx2⟩ := top
  simp only at gT hidxT hidx2T ⊢
  have gTt := pushTris_effect (sliceTopTris tidx n) tb
  generalize pushTris tb (sliceTopTris tidx n) = b1 at gTt ⊢
  have hb1 : (b1.m_vertices.length : Int) = b.m_vertices.length + 2 * (n + 1) := by
    have e1 := gT.1
    have e2 := gTt.1
    omega
  have hwT : ∀ x ∈ tidx, (b.m_vertices.length : Int) ≤ x ∧ x < (b1.m_vertices.length : Int) := by
    intro x hx
    rw [hidxT] at hx
    simp only [List.mem_map, List.mem_range] at hx
    obtain ⟨k, hk, rfl⟩ := hx
    omega
  have hwT2 : ∀ x ∈ tidx2,
      (b.m_vertices.length : Int) ≤ x ∧ x < (b1.m_vertices.length : Int) := by
    intro x hx
    rw [hidx2T] at hx
    simp only [List.mem_map, List.mem_range] at hx
    obtain ⟨k, hk, rfl⟩ := hx
    omega
  have hlT : tidx.length = n + 1 := by rw [hidxT]; simp
  have hlT2 : tidx2.length = n + 1 := by rw [hidx2T]; simp
  obtain ⟨hTl, hTw, -, -⟩ := sliceCapTris_effect tidx n _ _ hlT hwT
  -- the bands
  obtain ⟨band, gB, hBl, hBw, -, -⟩ := sliceBands_effect A mulMV rotate trans table arg3 latDiff
    n b.m_vertices.length htab js b1 tidx2 (A.cos arg3) (A.sin arg3) hlT2 hwT2 (by omega)
  generalize sliceBands A mulMV rotate trans table arg3 latDiff n js b1 tidx2 (A.cos arg3)
    (A.sin arg3) = bands at gB hBw ⊢
  obtain ⟨bb, bidx2, bc, bs⟩ := bands
  simp only at gB hBw ⊢
  have hbb : (bb.m_vertices.length : Int) =
      b.m_vertices.length + 2 * (n + 1) + js.length * (n + 1) := by
    have e1 : (bb.m_vertices.length : Int) = b1.m_vertices.length + js.length * (n + 1) := by
      have e0 := gB.1
      exact_mod_cast e0
    omega
  -- the bottom cap
  obtain ⟨gR, hidxR⟩ := sliceRing_effect mulMV trans (fun _ => A.vneg cap_norm)
    (table.map (sliceVertex A bs bc)) bb
  rw [hvs] at gR hidxR
  generalize sliceRing mulMV trans (fun _ => A.vneg cap_norm) bb
    (table.map (sliceVertex A bs bc)) = bottom at gR hidxR ⊢
  obtain ⟨rb, ridx⟩ := bottom
  simp only at gR hidxR ⊢
  have gRt := pushTris_effect (sliceBottomTris ridx n) rb
  generalize hfin : pushTris rb (sliceBottomTris ridx n) = fin at gRt ⊢
  have hfinlen : (fin.m_vertices.length : Int) = bb.m_vertices.length + (n + 1) := by
    have e1 := gR.1
    have e2 := gRt.1
    omega
  have hwR : ∀ x ∈ ridx,
      (b.m_vertices.length : Int) ≤ x ∧ x < (fin.m_vertices.length : Int) := by
    intro x hx
    rw [hidxR] at hx
    simp only [List.mem_map, List.mem_range] at hx
    obtain ⟨k, hk, rfl⟩ := hx
    have : 0 ≤ (js.length : Int) * ((n : Int) + 1) := by positivity
    omega
  have hlR : ridx.length = n + 1 := by rw [hidxR]; simp
  obtain ⟨-, -, hRl, hRw⟩ := sliceCapTris_effect ridx n _ _ hlR hwR
  have gAll := grewBy_trans (grewBy_trans (grewBy_trans (grewBy_trans gT gTt) gB) gR) gRt
  simp only [List.nil_append, List.append_nil, Nat.add_zero] at gAll
  obtain ⟨a1, a2, a3, -, -⟩ := gAll
  have hmono1 : (b1.m_vertices.length : Int) ≤ fin.m_vertices.length := by
    have : 0 ≤ (js.length : Int) * ((n : Int) + 1) := by positivity
    omega
  have hmono2 : (bb.m_vertices.length : Int) ≤ fin.m_vertices.length := by omega
  refine ⟨fin, sliceTopTris tidx n, band, sliceBottomTris ridx n, rfl, ?_, ?_, ?_, ?_, ?_,
    a2, a3⟩
  · rw [a1, hjs]
    have e : (((m : Int) + 3) * ((n : Int) + 1)).toNat = (m + 3) * (n + 1) := by
      have : ((m : Int) + 3) * ((n : Int) + 1) = (((m + 3) * (n + 1) : Nat) : Int) := by
        push_cast; ring
      rw [this, Int.toNat_natCast]
    rw [e]
    ring
  · rw [hTl]; omega
  · rw [hBl, hjs]
    have : 2 * (n : Int) * (m : Int) = ((m * (2 * n) : Nat) : Int) := by push_cast; ring
    rw [this, Int.toNat_natCast]
  · rw [hRl]; omega
  · intro t ht
    rcases List.mem_append.mp ht with h | h
    · rcases List.mem_append.mp h with h | h
      · exact triWithin_mono (hTw t h) hmono1
      · exact triWithin_mono (hBw t h) hmono2
    · exact hRw t h

theorem C33_sphere_slice_witness :
    ∃ b1 : LmrGeomBuffer,
      sphere_slice sampleArith sampleMulMV sampleMulMV sampleState.buf 2 3 GLfloat.zero
        GLfloat.one none = Outcome.ok b1 ∧
      b1.m_vertices.length = 18 ∧ b1.m_triflags.length = 14 ∧
      b1.m_vertices.length ≠ (2 + 3) * (3 + 1) ∧
      b1.m_triflags.length ≠ 2 * 2 * 3 + 2 * (3 - 1) := by
  obtain ⟨b1, top, band, bottom, e, hv, ht, hb, hbt, -, -, hf⟩ := C33_sphere_slice sampleArith
    sampleMulMV sampleMulMV sampleState.buf 2 3 GLfloat.zero GLfloat.one none (by decide)
    (by decide)
  have e1 : b1.m_vertices.length = 18 := by rw [hv]; rfl
  have e2 : b1.m_triflags.length = 14 := by
    rw [hf, List.length_append, List.length_replicate, List.length_append, List.length_append,
      ht, hb, hbt]
    rfl
  exact ⟨b1, e, e1, e2, by rw [e1]; decide, by rw [e2]; decide⟩

end SphereSliceTheorems

end Lmr
